import Mathlib

/-!
# CSOPESY scheduler / demand-paging simulator: memory manager, executor, scheduler,
configuration and program intake

Shallow embedding of `MO1-Recent.cpp`.

* The global variables of the program are the fields of `State`, together with
  the `ProcessManager` instance of `main`.  A `Process*` is an index into
  `State.heap` (the objects owned by `ProcessManager::processes`, which are never
  freed); `nullptr` is `none`.
* A function that would index a vector out of bounds, follow a dangling
  pointer or divide by zero returns `none` (or `Outcome.undefined`); a C++
  exception is `Outcome.throws`.
* `std::unordered_map` is an association list with unique keys; its iteration
  order, unspecified in C++, is the list order.
* `int` values (process ids, page numbers, frame indices) are mathematical
  integers: `nextProcessID++` is taken not to overflow.  The 64-bit counters
  `pageInCount` and `pageOutCount` wrap modulo `2 ^ 64`.
* A step of the model is a whole call: `loadPageIfNotInMemory` runs under
  `memMutex`, and interleavings inside the other functions are not modelled.
* Environment inputs (timestamps, random draws) are parameters.
* The ready queues, the stop flags, the tick counters and the local variables of
  the threads are the fields of `Machine`, which holds the `State`.  A thread
  of `cpuWorker` moves in three kinds of steps (dequeue, one iteration of the
  dispatch loop, exit of the loop); steps of different threads interleave and
  the stop flag may change between any two steps.  The dequeue is the test of
  the outer loop followed by the iteration from the wait on; `cpuWorkerWake` is
  that iteration alone, which a thread that passed the test takes whatever the
  stop flag has become.  `cpuWorkerVisit` runs the steps of one visit in a row.
* Values of the variable store are natural numbers; that a stored value fits
  `uint16_t` is a hypothesis where it matters.
* The file `config.txt` is the list of its keys, each with the token after it;
  `loadSystemConfig` takes the value of `GLOBAL_CONFIG` at the call and gives
  the value at its end.  The command `initialize` given again is `initCommand`:
  its statements are steps of `main` (`initLoad`, `initAssign`, the assignment
  of the stop flags, `initRestart`), and the steps that the worker threads and
  the auto-generator take during the command come between them.
* An execution of the program (`Execution`) starts after the first
  `initialize` and takes transitions: the steps of `step`, the iterations of
  worker threads from the wait on, and the statements of further `initialize`
  commands.  The 64-bit counters are compared as numbers along executions of
  fewer than `2 ^ 64` transitions, in which none of them wraps.
-/

namespace Csopesy

/-! ## Data model -/

/-- Record `SystemConfig` of the source, with its default (unset) values. -/
structure SystemConfig where
  numCPU : Int := -1
  scheduler : String := ""
  quantumCycles : Nat := 0
  batchProcessFreq : Nat := 0
  minInstructions : Nat := 0
  maxInstructions : Nat := 0
  delayPerExec : Nat := 0
  maxOverallMem : Nat := 0
  memPerFrame : Nat := 0
  minMemPerProc : Nat := 0
  maxMemPerProc : Nat := 0
  deriving DecidableEq, Repr

/-- Record `Frame` of the source: `processId = -1` means unused. -/
structure Frame where
  processId : Int := -1
  pageNumber : Int := -1
  data : String := ""
  deriving DecidableEq, Repr

/-- Record `PageTableEntry` of the source: `frameIndex = -1` means not loaded. -/
structure PageTableEntry where
  inMemory : Bool := false
  frameIndex : Int := -1
  deriving DecidableEq, Repr

/-- Record `Process` of the source.  `memory` is the `unordered_map<string, uint16_t>`. -/
structure Process where
  id : Int
  name : String
  currentLine : Nat := 0
  totalLine : Nat := 100
  timestamp : String := ""
  coreAssigned : Int := -1
  isFinished : Bool := false
  finishedTime : String := ""
  instructions : List String := []
  memory : List (String × Nat) := []
  memorySize : Nat
  pageTable : List PageTableEntry := []
  customInstrList : List String := []
  isShutdown : Bool := false
  shutdownReason : String := ""
  shutdownTime : String := ""
  deriving DecidableEq, Repr

/-- The global variables of the program together with the `ProcessManager`
instance of `main` (`processes`, `nextProcessID`) and the Process objects it owns
(`heap`).  `varNames` holds the `thread_local` vector `varNames` of each worker
thread, keyed by its core id.  `backingFile` is the content of `csopesy-backing-store.txt` as the list
of records last written by `syncBackingStoreToFile`; `none` while this run has
not written it. -/
structure State where
  GLOBAL_CONFIG : SystemConfig := {}
  physicalMemory : List Frame := []
  backingStore : List ((Int × Int) × String) := []
  backingFile : Option (List (Int × Int × String)) := none
  pageLoadOrder : List (Int × Int) := []
  processLookup : List (Int × Nat) := []
  pageInCount : Nat := 0
  pageOutCount : Nat := 0
  heap : List Process := []
  processes : List (String × Nat) := []
  nextProcessID : Int := 1
  varNames : List (Int × List String) := []
  deriving DecidableEq, Repr

/-! ## `std::unordered_map` operations -/

/-- Lookup `m.find(k)`: the mapped value, or `none` for `end()`. -/
def mapFind {κ ν : Type} [DecidableEq κ] (k : κ) : List (κ × ν) → Option ν
  | [] => none
  | e :: m => if e.1 = k then some e.2 else mapFind k m

/-- Removal `m.erase(k)`. -/
def mapErase {κ ν : Type} [DecidableEq κ] (k : κ) (m : List (κ × ν)) : List (κ × ν) :=
  m.filter (fun e => decide (e.1 ≠ k))

/-- Assignment `m[k] = v` (insert or overwrite). -/
def mapAssign {κ ν : Type} [DecidableEq κ] (k : κ) (v : ν) (m : List (κ × ν)) : List (κ × ν) :=
  (k, v) :: mapErase k m

/-! ## Memory manager -/

/-- Body of `syncBackingStoreToFile`: truncate the file and write one record
`pid page_number data` per entry of `backingStore`. -/
def syncBackingStoreToFile (s : State) : State :=
  { s with backingFile := some (s.backingStore.map (fun e => (e.1.1, e.1.2, e.2))) }

/-- The scan `for (i = 0; i < physicalMemory.size(); ++i) if (physicalMemory[i].processId == -1)`:
index of the first free frame. -/
def firstFreeFrame : List Frame → Option Nat
  | [] => none
  | f :: fs => if f.processId = -1 then some 0 else (firstFreeFrame fs).map (· + 1)

/-- The loop that drains `pageLoadOrder` into `tempQueue`, remembering whether
`key` was met: returns `(alreadyQueued, tempQueue)`. -/
def drainQueue (key : Int × Int) : List (Int × Int) → Bool → List (Int × Int) →
    Bool × List (Int × Int)
  | [], alreadyQueued, tempQueue => (alreadyQueued, tempQueue)
  | front :: rest, alreadyQueued, tempQueue =>
      drainQueue key rest (if front = key then true else alreadyQueued) (tempQueue ++ [front])

/-- The block "Avoid duplicate entries in pageLoadOrder": drain, swap back, and
append `key` unless it was already queued. -/
def requeue (pageLoadOrder : List (Int × Int)) (key : Int × Int) : List (Int × Int) :=
  let r := drainQueue key pageLoadOrder false []
  if r.1 then r.2 else r.2 ++ [key]

/-- Assignment through the reference `proc->pageTable[pn]` for the process at
heap index `p`. -/
def setEntry (heap : List Process) (p pn : Nat) (e : PageTableEntry) : List Process :=
  match heap[p]? with
  | none => heap
  | some pr => heap.set p { pr with pageTable := pr.pageTable.set pn e }

/-- Entry `pageTable[pn]` of the process object at heap index `p`. -/
def entryOf (heap : List Process) (p pn : Nat) : Option PageTableEntry :=
  match heap[p]? with
  | none => none
  | some pr => pr.pageTable[pn]?

/-- The block "Try to find a free frame" once the scan has stopped at the free
frame `i` (source lines 233-265): claim the frame for page `pageNumber` of the
process `pr` at heap index `p`, count the page-in, restore the data from the
backing store if an entry exists (erasing it), and queue the page.  The three
assignments to the fields of the frame are written as one record. -/
def claimFreeFrame (s : State) (p : Nat) (pr : Process) (pageNumber : Int) (i : Nat) : State :=
  let s1 := { s with
    heap := setEntry s.heap p pageNumber.toNat { inMemory := true, frameIndex := (i : Int) }
    pageInCount := (s.pageInCount + 1) % 2 ^ 64 }
  let s2 :=
    match mapFind (pr.id, pageNumber) s1.backingStore with
    | some d => { s1 with
        physicalMemory := s1.physicalMemory.set i
          { processId := pr.id, pageNumber := pageNumber, data := d }
        backingStore := mapErase (pr.id, pageNumber) s1.backingStore }
    | none => { s1 with
        physicalMemory := s1.physicalMemory.set i
          { processId := pr.id, pageNumber := pageNumber, data := "" } }
  { s2 with pageLoadOrder := requeue s2.pageLoadOrder (pr.id, pageNumber) }

/-- The block "No free frame: apply FIFO eviction" after the victim has been
popped and found (source lines 282-326): `s1` is the state with the queue
already popped, `ep` the heap index of the victim process, `victimFrameIdx` its
frame and `victimFrame` the content of that frame. -/
def replaceVictim (s1 : State) (p : Nat) (pr : Process) (pageNumber : Int)
    (evictedPID evictedPageNum : Int) (ep : Nat) (victimFrameIdx : Int) (victimFrame : Frame) :
    State :=
  let s2 := syncBackingStoreToFile { s1 with
    backingStore := mapAssign (evictedPID, evictedPageNum) victimFrame.data s1.backingStore
    pageOutCount := (s1.pageOutCount + 1) % 2 ^ 64 }
  let s3 := { s2 with
    heap := setEntry s2.heap ep evictedPageNum.toNat { inMemory := false, frameIndex := -1 } }
  let s4 := { s3 with
    heap := setEntry s3.heap p pageNumber.toNat { inMemory := true, frameIndex := victimFrameIdx }
    pageInCount := (s3.pageInCount + 1) % 2 ^ 64 }
  let s5 :=
    match mapFind (pr.id, pageNumber) s4.backingStore with
    | some d => syncBackingStoreToFile { s4 with
        physicalMemory := s4.physicalMemory.set victimFrameIdx.toNat
          { processId := pr.id, pageNumber := pageNumber, data := d }
        backingStore := mapErase (pr.id, pageNumber) s4.backingStore }
    | none => { s4 with
        physicalMemory := s4.physicalMemory.set victimFrameIdx.toNat
          { processId := pr.id, pageNumber := pageNumber, data := "" } }
  { s5 with pageLoadOrder := requeue s5.pageLoadOrder (pr.id, pageNumber) }

/-- The block "No free frame: apply FIFO eviction" (source lines 272-331): pop
the head of `pageLoadOrder`, look its process up in `processLookup`, and replace
it.  The result is `none` where the C++ code indexes `pageTable` or
`physicalMemory` out of bounds. -/
def evictAndLoad (s : State) (p : Nat) (pr : Process) (pageNumber : Int) :
    Option (Bool × State) :=
  match s.pageLoadOrder with
  | [] => some (false, s)
  | (evictedPID, evictedPageNum) :: rest =>
    let s1 := { s with pageLoadOrder := rest }
    match mapFind evictedPID s1.processLookup with
    | none => some (false, s1)
    | some ep =>
      match s1.heap[ep]? with
      | none => none
      | some evictedProc =>
        if evictedPageNum < 0 then none
        else
          match evictedProc.pageTable[evictedPageNum.toNat]? with
          | none => none
          | some evictedEntry =>
            if evictedEntry.frameIndex < 0 then none
            else
              match s1.physicalMemory[evictedEntry.frameIndex.toNat]? with
              | none => none
              | some victimFrame =>
                some (true, replaceVictim s1 p pr pageNumber evictedPID evictedPageNum ep
                  evictedEntry.frameIndex victimFrame)

/-- Function `loadPageIfNotInMemory(proc, pageNumber)`.  The result is `none`
when the C++ code would index a vector out of bounds or follow a dangling
pointer; otherwise the returned flag and the new global state. -/
def loadPageIfNotInMemory (s : State) (proc : Option Nat) (pageNumber : Int) :
    Option (Bool × State) :=
  match proc with
  | none => some (false, s)
  | some p =>
    match s.heap[p]? with
    | none => none
    | some pr =>
      if pageNumber < 0 ∨ pageNumber ≥ (pr.pageTable.length : Int) then some (false, s)
      else
        match pr.pageTable[pageNumber.toNat]? with
        | none => none
        | some entry =>
          if entry.inMemory then some (true, s)
          else
            match firstFreeFrame s.physicalMemory with
            | some i => some (true, claimFreeFrame s p pr pageNumber i)
            | none => evictAndLoad s p pr pageNumber

/-- The statement `physicalMemory[f].data += str` of the instruction executor
(DECLARE and WRITE append a token to the frame data). -/
def appendFrameData (s : State) (f : Nat) (str : String) : State :=
  match s.physicalMemory[f]? with
  | none => s
  | some fr => { s with physicalMemory := s.physicalMemory.set f { fr with data := fr.data ++ str } }

/-- Method `ProcessManager::createProcess(name)`.  The three environment
inputs are parameters: `cpuBurst` is the draw of `cpuBurstGenerator()`, `memSize`
the draw of `generateRandomMemSize()`, `ts` the value of `generateTimestamp()`. -/
def createProcess (s : State) (name : String) (cpuBurst memSize : Nat) (ts : String) : State :=
  if (mapFind name s.processes).isSome then s
  else
    let pageCount := memSize / s.GLOBAL_CONFIG.memPerFrame
    let proc : Process :=
      { id := s.nextProcessID, name := name, currentLine := 0, totalLine := cpuBurst,
        timestamp := ts, coreAssigned := -1, isFinished := false, finishedTime := "",
        instructions := [], memory := [], memorySize := memSize,
        pageTable := List.replicate pageCount {} }
    { s with
      heap := s.heap ++ [proc]
      processes := mapAssign name s.heap.length s.processes
      nextProcessID := s.nextProcessID + 1
      processLookup := mapAssign proc.id s.heap.length s.processLookup }

/-- State right after the first `initialize` of `main`: the frame table holds
`maxOverallMem / memPerFrame` default frames and every other global has its
initial value. -/
def initState (cfg : SystemConfig) : State :=
  { GLOBAL_CONFIG := cfg
    physicalMemory := List.replicate (cfg.maxOverallMem / cfg.memPerFrame) {} }

/-! ## Instruction executor -/

/-- Result of a call that may throw or have undefined behaviour: `throws` is a
C++ exception leaving the function (`std::out_of_range` of `stoi`/`stoull`),
`undefined` an out-of-bounds access or a division by zero. -/
inductive Outcome where
  | ok (s : State)
  | throws (what : String)
  | undefined
  deriving DecidableEq, Repr

/-- Function `clampUint16(int value)`. -/
def clampUint16 (value : Int) : Nat := (max 0 (min value 65535)).toNat

/-- Class `\s` of `std::regex` in the C locale: space, `\t`, `\n`, `\v`, `\f`, `\r`. -/
def isSpaceChar (c : Char) : Bool := c.toNat = 32 || (9 ≤ c.toNat && c.toNat ≤ 13)

/-- Class `\d`. -/
def isDigitChar (c : Char) : Bool := 48 ≤ c.toNat && c.toNat ≤ 57

/-- Class `[A-Za-z_]`. -/
def isIdentStart (c : Char) : Bool :=
  (65 ≤ c.toNat && c.toNat ≤ 90) || (97 ≤ c.toNat && c.toNat ≤ 122) || c.toNat = 95

/-- Class `\w`. -/
def isWordChar (c : Char) : Bool := isIdentStart c || isDigitChar c

/-- Class `[0-9A-Fa-f]`. -/
def isHexChar (c : Char) : Bool :=
  isDigitChar c || (65 ≤ c.toNat && c.toNat ≤ 70) || (97 ≤ c.toNat && c.toNat ≤ 102)

/-- Match a literal at the head of the input; the rest of the input. -/
def eatLit : List Char → List Char → Option (List Char)
  | [], cs => some cs
  | _ :: _, [] => none
  | l :: ls, c :: cs => if l = c then eatLit ls cs else none

/-- Match `\s+` (greedy; what follows in every pattern is not a space). -/
def eatSpaces1 : List Char → Option (List Char)
  | [] => none
  | c :: cs => if isSpaceChar c then some (cs.dropWhile isSpaceChar) else none

/-- Match `\s*`. -/
def eatSpaces0 (cs : List Char) : List Char := cs.dropWhile isSpaceChar

/-- Match `[A-Za-z_]\w*` (greedy; what follows in every pattern is not a word
character): the identifier and the rest. -/
def eatIdent : List Char → Option (List Char × List Char)
  | [] => none
  | c :: cs =>
      if isIdentStart c then some (c :: cs.takeWhile isWordChar, cs.dropWhile isWordChar)
      else none

/-- Match `\d+`: the digits and the rest. -/
def eatDigits1 : List Char → Option (List Char × List Char)
  | [] => none
  | c :: cs =>
      if isDigitChar c then some (c :: cs.takeWhile isDigitChar, cs.dropWhile isDigitChar)
      else none

/-- Match `0x[0-9A-Fa-f]+`: the literal, `0x` included, and the rest. -/
def eatHexAddr (cs : List Char) : Option (List Char × List Char) :=
  match eatLit "0x".toList cs with
  | none => none
  | some r =>
    match r with
    | [] => none
    | c :: r1 =>
        if isHexChar c then
          some ("0x".toList ++ c :: r1.takeWhile isHexChar, r1.dropWhile isHexChar)
        else none

/-- Whole-string match of `DECLARE\s+([A-Za-z_]\w*)\s+(\d+)`: the groups `(var, val)`. -/
def matchDeclare (instr : String) : Option (String × String) := do
  let cs ← eatLit "DECLARE".toList instr.toList
  let cs ← eatSpaces1 cs
  let (var, cs) ← eatIdent cs
  let cs ← eatSpaces1 cs
  let (val, cs) ← eatDigits1 cs
  if cs = [] then some (String.mk var, String.mk val) else none

/-- Whole-string match of `OP\s+(id)\s+(id)\s+(id)` for `OP` = `ADD` or
`SUBTRACT`: the groups `(dst, a, b)`. -/
def matchThree (op : String) (instr : String) : Option (String × String × String) := do
  let cs ← eatLit op.toList instr.toList
  let cs ← eatSpaces1 cs
  let (dst, cs) ← eatIdent cs
  let cs ← eatSpaces1 cs
  let (a, cs) ← eatIdent cs
  let cs ← eatSpaces1 cs
  let (b, cs) ← eatIdent cs
  if cs = [] then some (String.mk dst, String.mk a, String.mk b) else none

/-- Whole-string match of `WRITE\s+(0x[0-9A-Fa-f]+)\s+(\d+|[A-Za-z_]\w*)`: the
groups `(addrHex, tok)`. -/
def matchWrite (instr : String) : Option (String × String) := do
  let cs ← eatLit "WRITE".toList instr.toList
  let cs ← eatSpaces1 cs
  let (addrHex, cs) ← eatHexAddr cs
  let cs ← eatSpaces1 cs
  match eatDigits1 cs with
  | some (tok, []) => some (String.mk addrHex, String.mk tok)
  | _ =>
    match eatIdent cs with
    | some (tok, []) => some (String.mk addrHex, String.mk tok)
    | _ => none

/-- Whole-string match of `READ\s+([A-Za-z_]\w*)\s+(0x[0-9A-Fa-f]+)`: the groups
`(var, addrHex)`. -/
def matchRead (instr : String) : Option (String × String) := do
  let cs ← eatLit "READ".toList instr.toList
  let cs ← eatSpaces1 cs
  let (var, cs) ← eatIdent cs
  let cs ← eatSpaces1 cs
  let (addrHex, cs) ← eatHexAddr cs
  if cs = [] then some (String.mk var, String.mk addrHex) else none

/-- Whole-string match of `PRINT\(\s*"Result: "\s*\+\s*([A-Za-z_]\w*)\s*\)`: the
group `var`. -/
def matchPrint (instr : String) : Option String := do
  let cs ← eatLit "PRINT(".toList instr.toList
  let cs ← eatLit "\"Result: \"".toList (eatSpaces0 cs)
  let cs ← eatLit "+".toList (eatSpaces0 cs)
  let (var, cs) ← eatIdent (eatSpaces0 cs)
  let cs ← eatLit ")".toList (eatSpaces0 cs)
  if cs = [] then some (String.mk var) else none

/-- Value of a string of decimal digits. -/
def decValue (cs : List Char) : Nat := cs.foldl (fun n c => 10 * n + (c.toNat - 48)) 0

/-- Value of one hexadecimal digit. -/
def hexDigit (c : Char) : Nat :=
  if isDigitChar c then c.toNat - 48
  else if 97 ≤ c.toNat then c.toNat - 87 else c.toNat - 55

/-- Value of a string of hexadecimal digits. -/
def hexValue (cs : List Char) : Nat := cs.foldl (fun n c => 16 * n + hexDigit c) 0

/-- Call `stoi(tok)` on a string of decimal digits: `none` is the
`std::out_of_range` exception, thrown when the value exceeds `INT_MAX`. -/
def stoi (tok : String) : Option Int :=
  if decValue tok.toList ≤ 2147483647 then some (decValue tok.toList : Int) else none

/-- Call `stoull(addrHex, nullptr, 16)` on a literal `0x` followed by
hexadecimal digits: `none` is the `std::out_of_range` exception, thrown when the
value exceeds `ULLONG_MAX`. -/
def stoull16 (addrHex : String) : Option Nat :=
  if hexValue (addrHex.toList.drop 2) < 2 ^ 64 then some (hexValue (addrHex.toList.drop 2))
  else none

/-- Conversion `static_cast<uint16_t>` of an `int`. -/
def toUint16 (v : Int) : Nat := (v % 65536).toNat

/-- Conversion of a `size_t` to the `int` parameter of `loadPageIfNotInMemory`. -/
def sizeToInt (n : Nat) : Int :=
  if n % 2 ^ 32 < 2 ^ 31 then ((n % 2 ^ 32 : Nat) : Int) else ((n % 2 ^ 32 : Nat) : Int) - 2 ^ 32

/-- Read access `memory[k]` of the variable store: the value, and the store
with `k` inserted with value 0 when it was absent. -/
def memIndex (k : String) (m : List (String × Nat)) : Nat × List (String × Nat) :=
  match mapFind k m with
  | some v => (v, m)
  | none => (0, mapAssign k 0 m)

/-- Read `memory.count(k) ? memory[k] : 0`. -/
def memGet (k : String) (m : List (String × Nat)) : Nat := (mapFind k m).getD 0

/-- Update of the Process object at heap index `p`. -/
def modifyProc (s : State) (p : Nat) (f : Process → Process) : State :=
  match s.heap[p]? with
  | none => s
  | some pr => { s with heap := s.heap.set p (f pr) }

/-- The statement `instructions.resize(currentLine + 1)` guarded by
`instructions.size() <= currentLine`. -/
def resizeLog (instructions : List String) (currentLine : Nat) : List String :=
  if instructions.length ≤ currentLine then
    instructions ++ List.replicate (currentLine + 1 - instructions.length) ""
  else instructions

/-- The statement `instructions[currentLine] = line` on the process at `p`. -/
def commitLog (s : State) (p currentLine : Nat) (line : String) : State :=
  modifyProc s p (fun pr => { pr with instructions := pr.instructions.set currentLine line })

/-- The page `min<uint64_t>(address / memPerFrame, pageTable.size() - 1)` in
64-bit unsigned arithmetic; `none` is the division by zero. -/
def pageOfAddress (memPerFrame address pages : Nat) : Option Nat :=
  if memPerFrame = 0 then none
  else some (min (address / memPerFrame) ((pages + 2 ^ 64 - 1) % 2 ^ 64))

/-- The statement `physicalMemory[f].data += str` with `f` an `int` read from a
page-table entry; `none` when `f` is out of bounds. -/
def appendFrameAt (s : State) (f : Int) (str : String) : Option State :=
  if 0 ≤ f ∧ f.toNat < s.physicalMemory.length then some (appendFrameData s f.toNat str)
  else none

/-- The bounds-check failure of a user READ or WRITE (source lines 466-473 and
500-507): shut the process down and write the log line. -/
def shutdownViolation (s : State) (p currentLine : Nat) (logStart addrHex ts2 : String) : State :=
  modifyProc s p (fun pr =>
    { pr with
      isShutdown := true
      shutdownReason := "Memory access violation at " ++ addrHex
      shutdownTime := ts2
      instructions := pr.instructions.set currentLine
        (logStart ++ "\"" ++ ("Memory access violation at " ++ addrHex) ++ "\"") })

/-- The custom-program part of `instructions_manager` (source lines 424-535):
execute `instr`.  `logStart` is the common log start, `ts2` the value of
`generateTimestamp()` for `shutdownTime`. -/
def runCustom (s : State) (p currentLine : Nat) (logStart ts2 instr : String) : Outcome :=
  match s.heap[p]? with
  | none => Outcome.undefined
  | some pr =>
  match matchDeclare instr with
  | some (var, val) =>
    match stoi val with
    | none => Outcome.throws "stoi"
    | some v =>
      let s1 := modifyProc s p (fun q => { q with memory := mapAssign var (toUint16 v) q.memory })
      match loadPageIfNotInMemory s1 (some p) 0 with
      | none => Outcome.undefined
      | some (loaded, s2) =>
        let line := logStart ++ "\"" ++ ("DECLARE " ++ var ++ " = " ++ val) ++ "\""
        if loaded then
          match entryOf s2.heap p 0 with
          | none => Outcome.undefined
          | some e =>
            match appendFrameAt s2 e.frameIndex ("(" ++ var ++ " " ++ val ++ ")") with
            | none => Outcome.undefined
            | some s3 => Outcome.ok (commitLog s3 p currentLine line)
        else Outcome.ok (commitLog s2 p currentLine line)
  | none =>
  match matchThree "ADD" instr with
  | some (dst, a, b) =>
    let ra := memIndex a pr.memory
    let rb := memIndex b ra.2
    let res := clampUint16 ((ra.1 : Int) + (rb.1 : Int))
    let m1 := mapAssign dst res rb.2
    let la := memIndex a m1
    let lb := memIndex b la.2
    let line := logStart ++ "\"" ++ ("ADD " ++ a ++ "(" ++ toString la.1 ++ ") + " ++
      b ++ "(" ++ toString lb.1 ++ ") = " ++ toString res) ++ "\""
    Outcome.ok (commitLog (modifyProc s p (fun q => { q with memory := lb.2 })) p currentLine line)
  | none =>
  match matchThree "SUBTRACT" instr with
  | some (dst, a, b) =>
    let ra := memIndex a pr.memory
    let rb := memIndex b ra.2
    let res := clampUint16 ((ra.1 : Int) - (rb.1 : Int))
    let m1 := mapAssign dst res rb.2
    let la := memIndex a m1
    let lb := memIndex b la.2
    let line := logStart ++ "\"" ++ ("SUBTRACT " ++ a ++ "(" ++ toString la.1 ++ ") - " ++
      b ++ "(" ++ toString lb.1 ++ ") = " ++ toString res) ++ "\""
    Outcome.ok (commitLog (modifyProc s p (fun q => { q with memory := lb.2 })) p currentLine line)
  | none =>
  match matchWrite instr with
  | some (addrHex, tok) =>
    match stoull16 addrHex with
    | none => Outcome.throws "stoull"
    | some address =>
      if address < 64 ∨ address ≥ pr.memorySize then
        Outcome.ok (shutdownViolation s p currentLine logStart addrHex ts2)
      else
        let tokVal : Option (Nat × List (String × Nat)) :=
          if (tok.toList.head?.map isDigitChar).getD false then
            (stoi tok).map (fun v => (toUint16 v, pr.memory))
          else some (memIndex tok pr.memory)
        match tokVal with
        | none => Outcome.throws "stoi"
        | some (val, m1) =>
          let s1 := modifyProc s p (fun q => { q with memory := m1 })
          match pageOfAddress s.GLOBAL_CONFIG.memPerFrame address pr.pageTable.length with
          | none => Outcome.undefined
          | some pageNum =>
            match loadPageIfNotInMemory s1 (some p) (sizeToInt pageNum) with
            | none => Outcome.undefined
            | some (loaded, s2) =>
              let finish (s3 : State) : Outcome :=
                Outcome.ok (commitLog
                  (modifyProc s3 p (fun q => { q with memory := mapAssign addrHex val q.memory }))
                  p currentLine
                  (logStart ++ "\"" ++ ("WRITE " ++ addrHex ++ " " ++ toString val) ++ "\""))
              if loaded then
                match entryOf s2.heap p pageNum with
                | none => Outcome.undefined
                | some e =>
                  match appendFrameAt s2 e.frameIndex
                      ("(" ++ addrHex ++ " " ++ toString val ++ ")") with
                  | none => Outcome.undefined
                  | some s3 => finish s3
              else finish s2
  | none =>
  match matchRead instr with
  | some (var, addrHex) =>
    match stoull16 addrHex with
    | none => Outcome.throws "stoull"
    | some address =>
      if address < 64 ∨ address ≥ pr.memorySize then
        Outcome.ok (shutdownViolation s p currentLine logStart addrHex ts2)
      else
        match pageOfAddress s.GLOBAL_CONFIG.memPerFrame address pr.pageTable.length with
        | none => Outcome.undefined
        | some pageNum =>
          match loadPageIfNotInMemory s (some p) (sizeToInt pageNum) with
          | none => Outcome.undefined
          | some (loaded, s2) =>
            let val := memGet addrHex pr.memory
            let line := logStart ++ "\"" ++ ("READ " ++ var ++ " = " ++ toString val ++
              " from " ++ addrHex ++ (if loaded then " (loaded)" else " (not loaded)")) ++ "\""
            Outcome.ok (commitLog
              (modifyProc s2 p (fun q => { q with memory := mapAssign var val q.memory }))
              p currentLine line)
  | none =>
  match matchPrint instr with
  | some var =>
    let r := memIndex var pr.memory
    let line := logStart ++ "\"" ++ ("PRINT(\"Result: \" + " ++ var ++ ") = " ++ toString r.1) ++
      "\""
    Outcome.ok (commitLog (modifyProc s p (fun q => { q with memory := r.2 })) p currentLine line)
  | none =>
    Outcome.ok (commitLog s p currentLine (logStart ++ "\"" ++ "UNKNOWN_INSTR" ++ "\""))

/-- Random draws of one generated instruction: `cmd` is `cmdDistrib(gen)`, `val`
is `valDistrib(gen)`, `pick1` and `pick2` are raw values of `gen()`, `address` is
the value of `generateRandomDataAddress`. -/
structure Draws where
  cmd : Nat
  val : Nat
  pick1 : Nat
  pick2 : Nat
  address : Nat
  deriving DecidableEq, Repr

/-- The `thread_local` vector `varNames` of the worker thread of core `coreId`. -/
def threadVars (s : State) (coreId : Int) : List String := (mapFind coreId s.varNames).getD []

/-- The element `varNames[pick % varNames.size()]`. -/
def pickVar (vars : List String) (pick : Nat) : String := (vars[pick % vars.length]?).getD ""

/-- The text `"0x" << hex << address`. -/
def hexText (address : Nat) : String := "0x" ++ String.mk (Nat.toDigits 16 address)

/-- The warning logged when page 0 could not be loaded. -/
def pageZeroWarning : String := "WARNING: Page 0 not loaded; DECLARE attempted without memory."

/-- The random-generation part of `instructions_manager` (source lines 537-738). -/
def runGenerated (s : State) (p currentLine : Nat) (coreId : Int) (logStart : String)
    (d : Draws) : Outcome :=
  match s.heap[p]? with
  | none => Outcome.undefined
  | some pr =>
  let vars := threadVars s coreId
  let commit (s1 : State) (body : String) : Outcome :=
    Outcome.ok (commitLog s1 p currentLine (logStart ++ "\"" ++ body ++ "\""))
  if d.cmd = 1 ∨ vars = [] then
    let var := "v" ++ toString vars.length
    if vars.length < 32 then
      match loadPageIfNotInMemory s (some p) 0 with
      | none => Outcome.undefined
      | some (loaded, s2) =>
        let r : Option (State × String) :=
          if loaded then
            match entryOf s2.heap p 0 with
            | none => none
            | some e =>
              if 0 ≤ e.frameIndex ∧ e.frameIndex < (s2.physicalMemory.length : Int) then
                some (appendFrameData s2 e.frameIndex.toNat
                  ("(" ++ var ++ " " ++ toString d.val ++ ")"), "")
              else some (s2, "")
          else some (s2, pageZeroWarning)
        match r with
        | none => Outcome.undefined
        | some (s3, warn) =>
          let s4 := modifyProc s3 p (fun q => { q with memory := mapAssign var d.val q.memory })
          let s5 := { s4 with varNames := mapAssign coreId (vars ++ [var]) s4.varNames }
          commit s5 (warn ++ "DECLARE " ++ var ++ " = " ++ toString d.val)
    else commit s "DECLARE ignored"
  else if d.cmd = 0 ∧ vars ≠ [] then
    match loadPageIfNotInMemory s (some p) 0 with
    | none => Outcome.undefined
    | some (loaded, s2) =>
      let var := pickVar vars d.pick1
      commit s2 ((if loaded then "" else pageZeroWarning) ++
        "PRINT " ++ var ++ " = " ++ toString (memGet var pr.memory))
  else if d.cmd = 2 ∧ vars.length ≥ 2 then
    match loadPageIfNotInMemory s (some p) 0 with
    | none => Outcome.undefined
    | some (loaded, s2) =>
      let a := pickVar vars d.pick1
      let b := pickVar vars d.pick2
      let valA := memGet a pr.memory
      let valB := memGet b pr.memory
      let result := clampUint16 ((valA : Int) + (valB : Int))
      let s3 := modifyProc s2 p (fun q =>
        { q with memory := mapAssign ("res" ++ toString currentLine) result q.memory })
      commit s3 ((if loaded then "" else pageZeroWarning) ++
        "ADD " ++ a ++ "(" ++ toString valA ++ ") + " ++ b ++ "(" ++ toString valB ++ ") = " ++
        toString result)
  else if d.cmd = 3 ∧ vars.length ≥ 2 then
    match loadPageIfNotInMemory s (some p) 0 with
    | none => Outcome.undefined
    | some (loaded, s2) =>
      let a := pickVar vars d.pick1
      let b := pickVar vars d.pick2
      let valA := memGet a pr.memory
      let valB := memGet b pr.memory
      let result := clampUint16 ((valA : Int) - (valB : Int))
      let s3 := modifyProc s2 p (fun q =>
        { q with memory := mapAssign ("res" ++ toString currentLine) result q.memory })
      commit s3 ((if loaded then "" else pageZeroWarning) ++
        "SUBTRACT " ++ a ++ "(" ++ toString valA ++ ") - " ++ b ++ "(" ++ toString valB ++
        ") = " ++ toString result)
  else if d.cmd = 4 then commit s "SLEPT for 100ms"
  else if d.cmd = 5 then
    if vars ≠ [] then
      let var := pickVar vars d.pick1
      match pageOfAddress s.GLOBAL_CONFIG.memPerFrame d.address pr.pageTable.length with
      | none => Outcome.undefined
      | some pageNumber =>
        match loadPageIfNotInMemory s (some p) (sizeToInt pageNumber) with
        | none => Outcome.undefined
        | some (pageLoaded, s2) =>
          let addrKey := hexText d.address
          let readValue := memGet addrKey pr.memory
          let s3 := modifyProc s2 p (fun q => { q with memory := mapAssign var readValue q.memory })
          commit s3 ("READ " ++ var ++ " = " ++ toString readValue ++ " from " ++ addrKey ++
            " (Page " ++ toString pageNumber ++
            (if pageLoaded then " loaded)" else " not loaded - memory full)"))
    else commit s ""
  else if d.cmd = 6 then
    match pageOfAddress s.GLOBAL_CONFIG.memPerFrame d.address pr.pageTable.length with
    | none => Outcome.undefined
    | some pageNumber =>
      match loadPageIfNotInMemory s (some p) (sizeToInt pageNumber) with
      | none => Outcome.undefined
      | some (pageLoaded, s2) =>
        let addrKey := hexText d.address
        if pageLoaded then
          let s3 := modifyProc s2 p (fun q => { q with memory := mapAssign addrKey d.val q.memory })
          match entryOf s3.heap p pageNumber with
          | none => Outcome.undefined
          | some e =>
            let s4 :=
              if 0 ≤ e.frameIndex ∧ e.frameIndex < (s3.physicalMemory.length : Int) then
                appendFrameData s3 e.frameIndex.toNat
                  ("(" ++ addrKey ++ " " ++ toString d.val ++ ")")
              else s3
            commit s4 ("WRITE " ++ addrKey ++ " " ++ toString d.val ++
              " (Page " ++ toString pageNumber ++ " loaded)")
        else
          commit s2 ("WRITE " ++ addrKey ++ " " ++ toString d.val ++
            " (Page " ++ toString pageNumber ++ " not loaded - memory full)")
  else
    let s1 :=
      if vars = [] then
        { modifyProc s p (fun q => { q with memory := mapAssign "v0" d.val q.memory }) with
          varNames := mapAssign coreId ["v0"] s.varNames }
      else s
    let vars1 := threadVars s1 coreId
    let var := pickVar vars1 d.pick1
    let m0 := match s1.heap[p]? with
      | none => []
      | some q => q.memory
    let v0 := (memIndex var m0).1
    let v1 := (v0 + 1) % 65536
    let v2 := (v1 + 1) % 65536
    let v3 := (v2 + 1) % 65536
    let s2 := modifyProc s1 p (fun q => { q with memory := mapAssign var v3 q.memory })
    commit s2 ("FOR loop on " ++ var ++ ": " ++ "[1]=" ++ toString v1 ++ " " ++
      "[2]=" ++ toString v2 ++ " " ++ "[3]=" ++ toString v3 ++ " ")

/-- Function `instructions_manager(currentLine, instructions, memory,
processName, coreId, proc)` as `cpuWorker` calls it: `instructions`, `memory` and
`processName` are the fields of `*proc`, the process at heap index `p`.  `ts` and
`ts2` are the values of `generateTimestamp()` for the log line and for
`shutdownTime`; `d` are the random draws.  The local `prefix` of the source is
`logStart`. -/
def instructions_manager (s : State) (currentLine : Nat) (coreId : Int) (p : Nat)
    (ts ts2 : String) (d : Draws) : Outcome :=
  match s.heap[p]? with
  | none => Outcome.undefined
  | some pr =>
    if pr.isShutdown then Outcome.ok s
    else
      let s0 := modifyProc s p (fun q =>
        { q with instructions := resizeLog q.instructions currentLine })
      let logStart := "(" ++ ts ++ ") Core: " ++ toString coreId ++ " "
      if currentLine < pr.customInstrList.length then
        runCustom s0 p currentLine logStart ts2 ((pr.customInstrList[currentLine]?).getD "")
      else runGenerated s0 p currentLine coreId logStart d

/-! ## Executions and their history -/

/-- Keys `(pid, page)` of the entries of one page table whose `inMemory` flag is
set; `n` is the page number of the first entry. -/
def residentFrom (pid : Int) : Nat → List PageTableEntry → List (Int × Int)
  | _, [] => []
  | n, e :: es =>
      if e.inMemory then (pid, (n : Int)) :: residentFrom pid (n + 1) es
      else residentFrom pid (n + 1) es

/-- Keys `(pid, page)` of all resident pages of all processes. -/
def residentKeys (s : State) : List (Int × Int) :=
  s.heap.flatMap (fun pr => residentFrom pr.id 0 pr.pageTable)

/-- Observable paging events of one call: a page that became resident was paged
in, a page that stopped being resident was paged out. -/
inductive Event where
  | pageIn (key : Int × Int)
  | pageOut (key : Int × Int)
  deriving DecidableEq, Repr

/-- Events of a call that took state `s` to state `t`. -/
def stepEvents (s t : State) : List Event :=
  ((residentKeys t).filter (fun k => decide (k ∉ residentKeys s))).map Event.pageIn ++
  ((residentKeys s).filter (fun k => decide (k ∉ residentKeys t))).map Event.pageOut

/-- Time of the latest page-in of `k` in a history (newest call first, calls
numbered from 1); `0` when `k` was never paged in. -/
def lastLoad : List (List Event) → Int × Int → Nat
  | [], _ => 0
  | evs :: log, k => if Event.pageIn k ∈ evs then log.length + 1 else lastLoad log k

/-- States reachable from the freshly initialised state, with the history of
the `loadPageIfNotInMemory` calls made so far (newest first).  The steps are
process creation, a call of `loadPageIfNotInMemory` that has defined behaviour,
and the append of a token to the data of a frame by the instruction executor. -/
inductive Reach : State → List (List Event) → Prop where
  | init (cfg : SystemConfig) (h : 0 < cfg.memPerFrame) : Reach (initState cfg) []
  | create {s : State} {log : List (List Event)} (name : String) (cpuBurst memSize : Nat)
      (ts : String) (h : Reach s log) : Reach (createProcess s name cpuBurst memSize ts) log
  | load {s t : State} {log : List (List Event)} (proc : Option Nat) (pageNumber : Int) (b : Bool)
      (h : Reach s log) (hl : loadPageIfNotInMemory s proc pageNumber = some (b, t)) :
      Reach t (stepEvents s t :: log)
  | write {s : State} {log : List (List Event)} (f : Nat) (str : String) (h : Reach s log) :
      Reach (appendFrameData s f str) log

/-- States reachable from the freshly initialised state. -/
def Reachable (s : State) : Prop := ∃ log, Reach s log

/-! ## Well-formedness of the memory-manager state -/

/-- Key `(pid, page)` of page `pn` of the process at heap index `p`: process ids
are handed out from 1 in creation order, so that process has id `p + 1`. -/
def keyOf (p pn : Nat) : Int × Int := ((p : Int) + 1, (pn : Int))

/-- Page `pn` of the process at heap index `p` is resident. -/
def Resident (s : State) (p pn : Nat) : Prop :=
  ∃ e, entryOf s.heap p pn = some e ∧ e.inMemory = true

/-- Structural invariant of the memory-manager state. -/
structure Wf (s : State) : Prop where
  ids : ∀ (p : Nat) (pr : Process), s.heap[p]? = some pr → pr.id = (p : Int) + 1
  nextId : s.nextProcessID = (s.heap.length : Int) + 1
  lookup : ∀ (pid : Int) (p : Nat),
    mapFind pid s.processLookup = some p ↔ (p < s.heap.length ∧ pid = (p : Int) + 1)
  entFrame : ∀ (p pn : Nat) (e : PageTableEntry), entryOf s.heap p pn = some e →
    e.inMemory = true → ∃ (i : Nat) (f : Frame), e.frameIndex = (i : Int) ∧
      s.physicalMemory[i]? = some f ∧ f.processId = (p : Int) + 1 ∧ f.pageNumber = (pn : Int)
  entFree : ∀ (p pn : Nat) (e : PageTableEntry), entryOf s.heap p pn = some e →
    e.inMemory = false → e.frameIndex = -1
  frameEnt : ∀ (i : Nat) (f : Frame), s.physicalMemory[i]? = some f → f.processId ≠ -1 →
    ∃ (p pn : Nat), f.processId = (p : Int) + 1 ∧ f.pageNumber = (pn : Int) ∧
      entryOf s.heap p pn = some { inMemory := true, frameIndex := (i : Int) }
  qNodup : s.pageLoadOrder.Nodup
  qRes : ∀ (k : Int × Int), k ∈ s.pageLoadOrder ↔ ∃ (p pn : Nat), Resident s p pn ∧ k = keyOf p pn
  bsKeys : ∀ (k : Int × Int) (d : String), mapFind k s.backingStore = some d →
    ∃ (p pn : Nat) (e : PageTableEntry),
      k = keyOf p pn ∧ entryOf s.heap p pn = some e ∧ e.inMemory = false
  bsFree : firstFreeFrame s.physicalMemory ≠ none ∨ s.physicalMemory = [] → s.backingStore = []

/-- The three ways a call of `loadPageIfNotInMemory` can go in a well-formed
state: nothing changes (a hit, or one of the failures), a free frame is claimed,
or the head of the queue is replaced. -/
def LoadCases (s t : State) (proc : Option Nat) (pg : Int) (b : Bool) : Prop :=
  (t = s ∧ (b = true → ∃ (p pn : Nat), proc = some p ∧ pg = (pn : Int) ∧ Resident s p pn) ∧
    (b = false → proc = none ∨
      (∃ (p : Nat) (pr : Process), proc = some p ∧ s.heap[p]? = some pr ∧
        (pg < 0 ∨ pg ≥ (pr.pageTable.length : Int))) ∨
      (firstFreeFrame s.physicalMemory = none ∧ s.pageLoadOrder = []))) ∨
  (∃ (p pn i : Nat) (pr : Process) (e0 : PageTableEntry),
    proc = some p ∧ pg = (pn : Int) ∧ s.heap[p]? = some pr ∧ pr.pageTable[pn]? = some e0 ∧
    e0.inMemory = false ∧ firstFreeFrame s.physicalMemory = some i ∧ b = true ∧
    t = claimFreeFrame s p pr (pn : Int) i) ∨
  (∃ (p pn ep vpn vi : Nat) (pr : Process) (e0 ev : PageTableEntry) (vf : Frame)
    (rest : List (Int × Int)),
    proc = some p ∧ pg = (pn : Int) ∧ s.heap[p]? = some pr ∧ pr.pageTable[pn]? = some e0 ∧
    e0.inMemory = false ∧ firstFreeFrame s.physicalMemory = none ∧
    s.pageLoadOrder = keyOf ep vpn :: rest ∧ entryOf s.heap ep vpn = some ev ∧
    ev.inMemory = true ∧ ev.frameIndex = (vi : Int) ∧ s.physicalMemory[vi]? = some vf ∧
    vf.processId = (ep : Int) + 1 ∧ vf.pageNumber = (vpn : Int) ∧ b = true ∧
    t = replaceVictim { s with pageLoadOrder := rest } p pr (pn : Int) ((ep : Int) + 1)
      (vpn : Int) ep (vi : Int) vf)

/-- Record list that `syncBackingStoreToFile` writes for a backing store. -/
def fileRecords (m : List ((Int × Int) × String)) : List (Int × Int × String) :=
  m.map (fun e => (e.1.1, e.1.2, e.2))

/-- Invariant that ties the state to the history of calls. -/
structure Hist (s : State) (log : List (List Event)) : Prop where
  order : s.pageLoadOrder.Pairwise (fun a b => lastLoad log a < lastLoad log b)
  loaded : ∀ (k : Int × Int), k ∈ s.pageLoadOrder → 0 < lastLoad log k
  noOut : firstFreeFrame s.physicalMemory ≠ none →
    ∀ (evs : List Event), evs ∈ log → ∀ (k : Int × Int), Event.pageOut k ∉ evs
  file : (∃ (evs : List Event), evs ∈ log ∧ ∃ (k : Int × Int), Event.pageOut k ∈ evs) →
    s.backingFile = some (fileRecords s.backingStore)
  stored : ∀ (k : Int × Int) (d : String), mapFind k s.backingStore = some d →
    ∃ (evs : List Event), evs ∈ log ∧ Event.pageOut k ∈ evs

/-- Executions from `s` to `t` that never call `loadPageIfNotInMemory` for page
`pn` of the process at heap index `p`. -/
inductive Undisturbed (p pn : Nat) : State → State → Prop where
  | refl (s : State) : Undisturbed p pn s s
  | create {s t : State} (name : String) (cpuBurst memSize : Nat) (ts : String)
      (h : Undisturbed p pn s t) : Undisturbed p pn s (createProcess t name cpuBurst memSize ts)
  | write {s t : State} (f : Nat) (str : String) (h : Undisturbed p pn s t) :
      Undisturbed p pn s (appendFrameData t f str)
  | load {s t u : State} (proc : Option Nat) (pageNumber : Int) (b : Bool)
      (h : Undisturbed p pn s t) (hl : loadPageIfNotInMemory t proc pageNumber = some (b, u))
      (hne : ¬ (proc = some p ∧ pageNumber = (pn : Int))) : Undisturbed p pn s u

/-! ## Properties of the memory manager stated on the program state -/

/-- Frame consistency (P1): every page-table entry has `inMemory` set exactly
when its `frameIndex` is not `-1`, and for a resident page the `frameIndex` is
the index of the one frame whose `processId` and `pageNumber` name that page. -/
def FrameConsistent (s : State) : Prop :=
  ∀ (p pn : Nat) (pr : Process) (e : PageTableEntry),
    s.heap[p]? = some pr → pr.pageTable[pn]? = some e →
      (e.inMemory = true ↔ e.frameIndex ≠ -1) ∧
      (e.inMemory = true → ∃ (i : Nat), i < s.physicalMemory.length ∧ e.frameIndex = (i : Int) ∧
        ∀ (j : Nat) (f : Frame), s.physicalMemory[j]? = some f →
          ((f.processId = pr.id ∧ f.pageNumber = (pn : Int)) ↔ j = i))

/-- Backing/frame disjointness (P2): the key of a resident page, and the key
held by an occupied frame, is not a key of `backingStore`. -/
def BackingDisjoint (s : State) : Prop :=
  (∀ (p pn : Nat) (pr : Process) (e : PageTableEntry),
    s.heap[p]? = some pr → pr.pageTable[pn]? = some e → e.inMemory = true →
      mapFind (pr.id, (pn : Int)) s.backingStore = none) ∧
  (∀ (j : Nat) (f : Frame), s.physicalMemory[j]? = some f → f.processId ≠ -1 →
      mapFind (f.processId, f.pageNumber) s.backingStore = none)

/-- Victim-queue coverage (P3): `pageLoadOrder` has no duplicates and its
entries are exactly the keys of the resident pages. -/
def QueueCoverage (s : State) : Prop :=
  s.pageLoadOrder.Nodup ∧
  ∀ (k : Int × Int), k ∈ s.pageLoadOrder ↔
    ∃ (p pn : Nat) (pr : Process) (e : PageTableEntry),
      s.heap[p]? = some pr ∧ pr.pageTable[pn]? = some e ∧ e.inMemory = true ∧
      k = (pr.id, (pn : Int))

/-! ## A small concrete execution

One frame of 64 bytes, one process of two pages: page 0 is loaded, a token is
appended to its frame, page 1 is loaded (evicting page 0), page 0 is loaded
again (evicting page 1 and restoring the token). -/

/-- State after a call of `loadPageIfNotInMemory`, when it has defined behaviour. -/
def afterLoad (s : State) (proc : Option Nat) (pageNumber : Int) : State :=
  match loadPageIfNotInMemory s proc pageNumber with
  | some r => r.2
  | none => s

/-- A configuration with a single frame. -/
def demoConfig : SystemConfig :=
  { numCPU := 1, scheduler := "fcfs", quantumCycles := 1, batchProcessFreq := 1,
    minInstructions := 1, maxInstructions := 5, delayPerExec := 0, maxOverallMem := 64,
    memPerFrame := 64, minMemPerProc := 64, maxMemPerProc := 128 }

/-- One process of 128 bytes (two pages) has been created. -/
def demo1 : State := createProcess (initState demoConfig) "p1" 5 128 "t0"

/-- Page 0 has been loaded into the only frame. -/
def demo2 : State := afterLoad demo1 (some 0) 0

/-- The token `(x 1)` has been appended to the frame. -/
def demo3 : State := appendFrameData demo2 0 "(x 1)"

/-- Page 1 has been loaded: page 0 was evicted. -/
def demo4 : State := afterLoad demo3 (some 0) 1

/-- Page 0 has been loaded again: page 1 was evicted. -/
def demo5 : State := afterLoad demo4 (some 0) 0

/-- A configuration with two frames of 64 bytes. -/
def duoConfig : SystemConfig :=
  { numCPU := 1, scheduler := "fcfs", quantumCycles := 1, batchProcessFreq := 1,
    minInstructions := 1, maxInstructions := 5, delayPerExec := 0, maxOverallMem := 128,
    memPerFrame := 64, minMemPerProc := 64, maxMemPerProc := 256 }

/-- Two frames, one process of four pages. -/
def duo0 : State := createProcess (initState duoConfig) "p1" 5 256 "t0"

/-- Page 0 has been loaded into frame 0. -/
def duo1 : State := afterLoad duo0 (some 0) 0

/-- Page 1 has been loaded into frame 1: the frame table is full. -/
def duo2 : State := afterLoad duo1 (some 0) 1

/-! ## A user program under a frame size of 128 bytes -/

/-- A configuration whose frames have 128 bytes. -/
def wideConfig : SystemConfig :=
  { numCPU := 1, scheduler := "fcfs", quantumCycles := 1, batchProcessFreq := 1,
    minInstructions := 1, maxInstructions := 5, delayPerExec := 0, maxOverallMem := 512,
    memPerFrame := 128, minMemPerProc := 128, maxMemPerProc := 256 }

/-- State after `screen -c p 256 "WRITE 0x40 5; READ x 0x40; WRITE 0x100 5"` under
`wideConfig`: a process of 256 bytes (two pages) with that program. -/
def wideState : State :=
  modifyProc (createProcess (initState wideConfig) "p" 5 256 "t0") 0
    (fun q => { q with customInstrList := ["WRITE 0x40 5", "READ x 0x40", "WRITE 0x100 5"] })

/-- Draws for a call that executes a line of the user program (they are not
read). -/
def noDraws : Draws := { cmd := 0, val := 1, pick1 := 0, pick2 := 0, address := 0 }

/-- Flag `isShutdown` of the process at heap index `p`. -/
def flagAt (s : State) (p : Nat) : Option Bool := (s.heap[p]?).map (fun q => q.isShutdown)

/-- Flag `isShutdown` of the process at heap index `p` after a call; `none`
when the call did not return. -/
def shutdownFlag (o : Outcome) (p : Nat) : Option Bool :=
  match o with
  | Outcome.ok t => flagAt t p
  | _ => none

/-- The executor dispatches `instr` to its WRITE branch with the address
literal `addrHex` and the value token `tok`: none of the patterns tried before
matches and the WRITE pattern does. -/
def IsUserWrite (instr addrHex tok : String) : Prop :=
  matchDeclare instr = none ∧ matchThree "ADD" instr = none ∧
  matchThree "SUBTRACT" instr = none ∧ matchWrite instr = some (addrHex, tok)

/-- The executor dispatches `instr` to its READ branch with the variable `var`
and the address literal `addrHex`. -/
def IsUserRead (instr var addrHex : String) : Prop :=
  matchDeclare instr = none ∧ matchThree "ADD" instr = none ∧
  matchThree "SUBTRACT" instr = none ∧ matchWrite instr = none ∧
  matchRead instr = some (var, addrHex)

/-! ## Canonical text of user READ and WRITE instructions -/

/-- A non-empty string of hexadecimal digits. -/
def IsHexDigits (hs : List Char) : Prop := hs ≠ [] ∧ ∀ c ∈ hs, isHexChar c = true

/-- A non-empty string of decimal digits. -/
def IsDecimal (ts : List Char) : Prop := ts ≠ [] ∧ ∀ c ∈ ts, isDigitChar c = true

/-- An identifier `[A-Za-z_]\w*`. -/
def IsIdent (vs : List Char) : Prop :=
  ∃ (c : Char) (cs : List Char), vs = c :: cs ∧ isIdentStart c = true ∧
    ∀ x ∈ cs, isWordChar x = true

/-- The address literal `0x` followed by the digits `hs`. -/
def hexLit (hs : List Char) : String := String.mk ("0x".toList ++ hs)

/-- Text `WRITE 0x<hs> <ts>` with single spaces. -/
def writeInstr (hs ts : List Char) : String :=
  String.mk ("WRITE 0x".toList ++ (hs ++ Char.ofNat 32 :: ts))

/-- Text `READ <vs> 0x<hs>` with single spaces. -/
def readInstr (vs hs : List Char) : String :=
  String.mk ("READ ".toList ++ (vs ++ Char.ofNat 32 :: ("0x".toList ++ hs)))

/-! ## Arithmetic instructions of a user program -/

/-- The executor dispatches `instr` to its DECLARE branch with the variable
`var` and the literal `val`. -/
def IsUserDeclare (instr var val : String) : Prop := matchDeclare instr = some (var, val)

/-- The executor dispatches `instr` to its ADD branch with destination `dst`
and operands `a`, `b`. -/
def IsUserAdd (instr dst a b : String) : Prop :=
  matchDeclare instr = none ∧ matchThree "ADD" instr = some (dst, a, b)

/-- The executor dispatches `instr` to its SUBTRACT branch with destination
`dst` and operands `a`, `b`. -/
def IsUserSubtract (instr dst a b : String) : Prop :=
  matchDeclare instr = none ∧ matchThree "ADD" instr = none ∧
  matchThree "SUBTRACT" instr = some (dst, a, b)

/-- The Process object at heap index `p` after a call; `none` when the call did
not return. -/
def procAfter (o : Outcome) (p : Nat) : Option Process :=
  match o with
  | Outcome.ok t => t.heap[p]?
  | _ => none

/-- Value of the variable `x` of the process at heap index `p` after a call,
an absent variable reading as 0; `none` when the call did not return. -/
def varAfter (o : Outcome) (p : Nat) (x : String) : Option Nat :=
  (procAfter o p).map (fun q => memGet x q.memory)

/-- The log line written at a bounds-check failure: the common start followed by
the quoted reason. -/
def violationLine (ts : String) (coreId : Int) (addrHex : String) : String :=
  "(" ++ ts ++ ") Core: " ++ toString coreId ++ " " ++ "\"" ++
    ("Memory access violation at " ++ addrHex) ++ "\""

/-- State after `screen -c calc 256 "DECLARE x 65535; DECLARE y 7; ADD z x y;
SUBTRACT w y x; ADD x x x; DECLARE big 65536; WRITE 0x40 65536;
DECLARE huge 2147483648"` under `wideConfig`. -/
def calcState : State :=
  modifyProc (createProcess (initState wideConfig) "calc" 8 256 "t0") 0
    (fun q => { q with customInstrList :=
      ["DECLARE x 65535", "DECLARE y 7", "ADD z x y", "SUBTRACT w y x", "ADD x x x",
       "DECLARE big 65536", "WRITE 0x40 65536", "DECLARE huge 2147483648"] })

/-- The state a call leaves, the state before the call when it did not
return. -/
def stateAfter (s : State) (o : Outcome) : State :=
  match o with
  | Outcome.ok t => t
  | _ => s

/-- Lines 0 and 1 of the program of `calcState` executed on core 1. -/
def calcState2 : State :=
  let s1 := stateAfter calcState (instructions_manager calcState 0 1 0 "T" "T2" noDraws)
  stateAfter s1 (instructions_manager s1 1 1 0 "T" "T2" noDraws)

/-- The process of `wideState` after line 2 of its program, `WRITE 0x100 5`,
failed the bounds check. -/
def haltedState : State :=
  stateAfter wideState (instructions_manager wideState 2 1 0 "T" "T2" noDraws)

/-- The Process object that `calcState2` holds at heap index 0. -/
def calcProcess2 : Process :=
  { id := 1
    name := "calc"
    currentLine := 0
    totalLine := 8
    timestamp := "t0"
    memorySize := 256
    pageTable := [{ inMemory := true, frameIndex := 0 }, {}]
    instructions := ["(T) Core: 1 \"DECLARE x = 65535\"", "(T) Core: 1 \"DECLARE y = 7\""]
    memory := [("y", 7), ("x", 65535)]
    customInstrList :=
      ["DECLARE x 65535", "DECLARE y 7", "ADD z x y", "SUBTRACT w y x", "ADD x x x",
       "DECLARE big 65536", "WRITE 0x40 65536", "DECLARE huge 2147483648"] }

/-- The fields of a Process object that the executor never writes: all but the
log, the variable store, the page table and the three shutdown fields. -/
def schedFields (pr : Process) :
    Int × String × Nat × Nat × String × Int × Bool × String × Nat × List String :=
  (pr.id, pr.name, pr.currentLine, pr.totalLine, pr.timestamp, pr.coreAssigned, pr.isFinished,
    pr.finishedTime, pr.memorySize, pr.customInstrList)

/-- The configuration and, for every Process object, the fields the executor
never writes. -/
def schedView (s : State) :
    SystemConfig ×
      List (Int × String × Nat × Nat × String × Int × Bool × String × Nat × List String) :=
  (s.GLOBAL_CONFIG, s.heap.map schedFields)

/-! ## Scheduler

The ready queues, the stop flags, the tick counters and the local variables of
the threads are the fields of `Machine`, next to the `State` of the memory and
process managers.  A step of a `cpuWorker` thread is one of three pieces of its
outer loop: the dequeue (source lines 1017-1042), one iteration of the dispatch
loop of its policy (lines 1045-1049 and 1053-1061), and the exit of that loop
with the re-enqueue or the completion (lines 1063-1072).  Steps of different
threads interleave; the stop flag may change between any two of them. -/

/-- Local variables of a `cpuWorker` thread that has dequeued a process: `proc`
and the counter `executedInstructions` of the RR loop (it stays 0 under FCFS,
whose loop has no counter). -/
structure Worker where
  proc : Nat
  executedInstructions : Nat := 0
  deriving DecidableEq, Repr

/-- The program state: `st` holds the globals of the memory manager and the
`ProcessManager`; `workers` maps the core id of each `cpuWorker` thread that
holds a process to its local variables (a thread without an entry is at the top
of its outer loop); `generator` is the local `processCountName` of the
`scheduler_start` thread while `main` has one running. -/
structure Machine where
  st : State := {}
  fcfsQueue : List Nat := []
  rrQueue : List Nat := []
  stopScheduler : Bool := false
  stopProcessCreation : Bool := false
  totalCpuTicks : Nat := 0
  activeCpuTicks : Nat := 0
  idleCpuTicks : Nat := 0
  workers : List (Int × Worker) := []
  generator : Option Nat := none
  deriving DecidableEq, Repr

/-- Method `ProcessManager::retrieveProcess(name)`. -/
def retrieveProcess (s : State) (name : String) : Option Nat := mapFind name s.processes

/-- Function `clampMemPow2(value)`: `none` is the `invalid_argument` exception. -/
def clampMemPow2 (value : Nat) : Option Nat :=
  if value ∈ [64, 128, 256, 512, 1024, 2048, 4096, 8192, 16384, 32768, 65536] then some value
  else none

/-- The pieces `getline` with the semicolon delimiter reads from a text: the text split
at every semicolon (character 59), without the empty piece after a final
semicolon. -/
def splitSemicolon : List Char → List (List Char)
  | [] => []
  | c :: cs =>
    if c.toNat = 59 then [] :: splitSemicolon cs
    else
      match splitSemicolon cs with
      | [] => [[c]]
      | piece :: rest => (c :: piece) :: rest

/-- The characters `" \t"` of `find_first_not_of` and `find_last_not_of`. -/
def isBlankChar (c : Char) : Bool := c.toNat = 32 || c.toNat = 9

/-- The trimmed piece `piece.substr(a, b - a + 1)`; `none` when the piece has
only blanks (`a == npos`). -/
def trimPiece (piece : List Char) : Option String :=
  let t := ((piece.dropWhile isBlankChar).reverse.dropWhile isBlankChar).reverse
  if t = [] then none else some (String.mk t)

/-- The trimmed non-blank pieces of `raw`. -/
def splitInstructions (raw : String) : List String :=
  (splitSemicolon raw.toList).filterMap trimPiece

/-- Function `validateCustomInstructions(raw)`: every trimmed piece matches one
of the six patterns. -/
def validateCustomInstructions (raw : String) : Bool :=
  (splitInstructions raw).all (fun t =>
    (matchDeclare t).isSome || (matchThree "ADD" t).isSome || (matchThree "SUBTRACT" t).isSome ||
    (matchPrint t).isSome || (matchWrite t).isSome || (matchRead t).isSome)

/-- The enqueue of `handleScreenCommand` (source lines 1195-1203 and 1250-1258):
the FCFS queue under `"fcfs"`, the RR queue otherwise. -/
def enqueueScreen (m : Machine) (p : Nat) : Machine :=
  if m.st.GLOBAL_CONFIG.scheduler = "fcfs" then { m with fcfsQueue := m.fcfsQueue ++ [p] }
  else { m with rrQueue := m.rrQueue ++ [p] }

/-- The enqueue of `scheduler_start` (source lines 1295-1301). -/
def enqueueGenerated (m : Machine) (p : Nat) : Machine :=
  if m.st.GLOBAL_CONFIG.scheduler = "fcfs" then { m with fcfsQueue := m.fcfsQueue ++ [p] }
  else if m.st.GLOBAL_CONFIG.scheduler = "rr" then { m with rrQueue := m.rrQueue ++ [p] }
  else m

/-- Branch `screen -s NAME [MEM]` of `handleScreenCommand`; `requestedMem` is 0
when no size was given.  `cpuBurst`, `memSize` and `ts` are the environment
inputs of `createProcess`.  The interactive `displayProcess` changes no state. -/
def screenS (m : Machine) (processName : String) (requestedMem cpuBurst memSize : Nat)
    (ts : String) : Machine :=
  if processName = "" then m
  else
    let checked : Option Nat :=
      if requestedMem ≠ 0 then
        match clampMemPow2 requestedMem with
        | none => none
        | some r =>
          if r < m.st.GLOBAL_CONFIG.minMemPerProc ∨ r > m.st.GLOBAL_CONFIG.maxMemPerProc then none
          else some r
      else some 0
    match checked with
    | none => m
    | some r =>
      let s1 := createProcess m.st processName cpuBurst memSize ts
      match retrieveProcess s1 processName with
      | none => { m with st := s1 }
      | some p =>
        let s2 :=
          if r ≠ 0 then
            modifyProc s1 p (fun q =>
              { q with
                memorySize := r
                pageTable := List.replicate (r / s1.GLOBAL_CONFIG.memPerFrame) {} })
          else s1
        enqueueScreen { m with st := s2 } p

/-- Branch `screen -c NAME MEM "raw"` of `handleScreenCommand`; `raw` is the
text between the quotes. -/
def screenC (m : Machine) (processName : String) (requestedMem : Nat) (raw : String)
    (cpuBurst memSize : Nat) (ts : String) : Machine :=
  if processName = "" then m
  else if validateCustomInstructions raw = false then m
  else
    match clampMemPow2 requestedMem with
    | none => m
    | some r =>
      if r < m.st.GLOBAL_CONFIG.minMemPerProc ∨ r > m.st.GLOBAL_CONFIG.maxMemPerProc then m
      else
        let s1 := createProcess m.st processName cpuBurst memSize ts
        match retrieveProcess s1 processName with
        | none => { m with st := s1 }
        | some p =>
          let s2 := modifyProc s1 p (fun q =>
            { q with
              memorySize := r
              pageTable := List.replicate (r / s1.GLOBAL_CONFIG.memPerFrame) {}
              customInstrList := q.customInstrList ++ splitInstructions raw })
          enqueueScreen { m with st := s2 } p

/-- The name `processNN` of the auto-generator. -/
def generatedName (processCountName : Nat) : String :=
  "process" ++ (if processCountName < 10 then "0" ++ toString processCountName
    else toString processCountName)

/-- One iteration of the inner loop of `scheduler_start` (source lines
1288-1310); `none` when no generator thread runs or a stop flag ends it. -/
def generatorStep (m : Machine) (cpuBurst memSize : Nat) (ts : String) : Option Machine :=
  match m.generator with
  | none => none
  | some n =>
    if m.stopScheduler ∨ m.stopProcessCreation then none
    else if (retrieveProcess m.st (generatedName n)).isNone then
      let s1 := createProcess m.st (generatedName n) cpuBurst memSize ts
      let m1 := { m with st := s1, generator := some (n + 1) }
      match retrieveProcess s1 (generatedName n) with
      | none => some m1
      | some p => some (enqueueGenerated m1 p)
    else some { m with generator := some (n + 1) }

/-- Increment of a 64-bit tick counter. -/
def tick (n : Nat) : Nat := (n + 1) % 2 ^ 64

/-- The dequeue of `cpuWorker(coreId)` (source lines 1017-1042), for a thread at
the top of its outer loop: count the tick, pop the queue of the configured
policy, and either take the process (`activeCpuTicks`, `coreAssigned`) or idle
(`idleCpuTicks`).  `none` when the thread is not there: `main` starts the threads
1 to `numCPU`, the thread holds a process, or the stop flag ends the outer
loop. -/
def cpuWorkerDequeue (m : Machine) (coreId : Int) : Option Machine :=
  if coreId < 1 ∨ m.st.GLOBAL_CONFIG.numCPU < coreId then none
  else if m.stopScheduler then none
  else if (mapFind coreId m.workers).isSome then none
  else
    let m1 := { m with totalCpuTicks := tick m.totalCpuTicks }
    let popped : Option (Nat × Machine) :=
      if m1.st.GLOBAL_CONFIG.scheduler = "fcfs" then
        match m1.fcfsQueue with
        | p :: rest => some (p, { m1 with fcfsQueue := rest })
        | [] => none
      else if m1.st.GLOBAL_CONFIG.scheduler = "rr" then
        match m1.rrQueue with
        | p :: rest => some (p, { m1 with rrQueue := rest })
        | [] => none
      else none
    match popped with
    | none => some { m1 with idleCpuTicks := tick m1.idleCpuTicks }
    | some (p, m2) =>
      match m2.st.heap[p]? with
      | none => none
      | some _ =>
        some { m2 with
          activeCpuTicks := tick m2.activeCpuTicks
          st := modifyProc m2.st p (fun q => { q with coreAssigned := coreId })
          workers := mapAssign coreId { proc := p, executedInstructions := 0 } m2.workers }

/-- The condition of the dispatch loop of the configured policy (source lines
1045 and 1053-1055) for a thread with local variables `w`. -/
def loopRuns (m : Machine) (w : Worker) : Option Bool :=
  (m.st.heap[w.proc]?).map (fun pr =>
    if m.st.GLOBAL_CONFIG.scheduler = "fcfs" then
      decide (pr.currentLine < pr.totalLine) && !m.stopScheduler
    else if m.st.GLOBAL_CONFIG.scheduler = "rr" then
      decide (pr.currentLine < pr.totalLine) &&
        decide (w.executedInstructions < m.st.GLOBAL_CONFIG.quantumCycles) && !m.stopScheduler
    else false)

/-- One iteration of the dispatch loop of `cpuWorker(coreId)` (source lines
1046-1047 and 1057-1059): the condition holds, `instructions_manager` runs the
line `currentLine`, then `currentLine++` (and `executedInstructions++` under RR).
`none` when the thread holds no process, the condition fails, or the executor
throws or has undefined behaviour. -/
def cpuWorkerExec (m : Machine) (coreId : Int) (ts ts2 : String) (d : Draws) : Option Machine :=
  match mapFind coreId m.workers with
  | none => none
  | some w =>
    match m.st.heap[w.proc]? with
    | none => none
    | some pr =>
      if loopRuns m w = some true then
        match instructions_manager m.st pr.currentLine coreId w.proc ts ts2 d with
        | Outcome.ok t =>
          some { m with
            st := modifyProc t w.proc (fun q => { q with currentLine := q.currentLine + 1 })
            workers := mapAssign coreId
              { w with executedInstructions :=
                  if m.st.GLOBAL_CONFIG.scheduler = "rr" then w.executedInstructions + 1
                  else w.executedInstructions } m.workers }
        | _ => none
      else none

/-- The exit of the dispatch loop of `cpuWorker(coreId)` (source lines
1063-1072): under RR a process with remaining lines is pushed at the back of
`rrQueue`; otherwise `isFinished` is set and `finishedTime` stamped with `ts`.
The thread is back at the top of its outer loop.  `none` when the thread holds no
process or the loop condition still holds. -/
def cpuWorkerLeave (m : Machine) (coreId : Int) (ts : String) : Option Machine :=
  match mapFind coreId m.workers with
  | none => none
  | some w =>
    match m.st.heap[w.proc]? with
    | none => none
    | some pr =>
      if loopRuns m w = some true then none
      else if m.st.GLOBAL_CONFIG.scheduler = "rr" ∧ pr.currentLine < pr.totalLine then
        some { m with
          rrQueue := m.rrQueue ++ [w.proc]
          workers := mapErase coreId m.workers }
      else
        some { m with
          st := modifyProc m.st w.proc (fun q => { q with isFinished := true, finishedTime := ts })
          workers := mapErase coreId m.workers }

/-- The steps of the program: commands of `main`, the auto-generator and the
worker threads. -/
inductive Action where
  | screenS (processName : String) (requestedMem cpuBurst memSize : Nat) (ts : String)
  | screenC (processName : String) (requestedMem : Nat) (raw : String)
      (cpuBurst memSize : Nat) (ts : String)
  | schedulerStart
  | schedulerStop
  | generate (cpuBurst memSize : Nat) (ts : String)
  | dequeue (coreId : Int)
  | exec (coreId : Int) (ts ts2 : String) (d : Draws)
  | leave (coreId : Int) (ts : String)
  | stop
  deriving DecidableEq, Repr

/-- One step.  `schedulerStart` and `schedulerStop` are the commands of `main`
(source lines 1449-1452 and 1469-1473); `stop` is the assignment of both stop
flags when `main` leaves its command loop (lines 1523-1524) or re-initialises
(lines 1402-1403). -/
def step (m : Machine) : Action → Option Machine
  | Action.screenS processName requestedMem cpuBurst memSize ts =>
    some (screenS m processName requestedMem cpuBurst memSize ts)
  | Action.screenC processName requestedMem raw cpuBurst memSize ts =>
    some (screenC m processName requestedMem raw cpuBurst memSize ts)
  | Action.schedulerStart =>
    if m.generator.isSome then some m
    else some { m with stopProcessCreation := false, generator := some 1 }
  | Action.schedulerStop =>
    if m.generator.isSome then some { m with stopProcessCreation := true, generator := none }
    else some m
  | Action.generate cpuBurst memSize ts => generatorStep m cpuBurst memSize ts
  | Action.dequeue coreId => cpuWorkerDequeue m coreId
  | Action.exec coreId ts ts2 d => cpuWorkerExec m coreId ts ts2 d
  | Action.leave coreId ts => cpuWorkerLeave m coreId ts
  | Action.stop => some { m with stopScheduler := true, stopProcessCreation := true }

/-- A sequence of steps; `none` when one of them is not possible. -/
def run (m : Machine) : List Action → Option Machine
  | [] => some m
  | a :: rest =>
    match step m a with
    | none => none
    | some m1 => run m1 rest

/-- The program after the first `initialize` with configuration `cfg`: worker
threads 1 to `numCPU` at the top of their loops, empty queues. -/
def boot (cfg : SystemConfig) : Machine := { st := initState cfg }

/-- A state of the program that some sequence of steps reaches. -/
def MachineReachable (m : Machine) : Prop :=
  ∃ (cfg : SystemConfig) (acts : List Action), run (boot cfg) acts = some m

/-- Result of a worker visit run with a bound on its iterations. -/
inductive Run where
  | done (m : Machine)
  | failed
  | timeout
  deriving DecidableEq, Repr

/-- Environment inputs of one executor call. -/
structure Env where
  ts : String := ""
  ts2 : String := ""
  d : Draws := { cmd := 0, val := 1, pick1 := 0, pick2 := 0, address := 0 }
  deriving DecidableEq, Repr

/-- The visit of a process by `cpuWorker(coreId)` after its dequeue: iterations
of the dispatch loop while its condition holds, then the exit of the loop.
`env k` are the environment inputs of the executor call at line `k`, `tsEnd` the
timestamp of a completion.  `fuel` bounds the number of iterations: `timeout`
when it is used up, `failed` when a step is not possible (the executor threw or
had undefined behaviour). -/
def cpuWorkerVisit : Nat → Machine → Int → (Nat → Env) → String → Run
  | 0, _, _, _, _ => Run.timeout
  | fuel + 1, m, coreId, env, tsEnd =>
    match mapFind coreId m.workers with
    | none => Run.failed
    | some w =>
      match m.st.heap[w.proc]? with
      | none => Run.failed
      | some pr =>
        if loopRuns m w = some true then
          match cpuWorkerExec m coreId (env pr.currentLine).ts (env pr.currentLine).ts2
              (env pr.currentLine).d with
          | none => Run.failed
          | some m1 => cpuWorkerVisit fuel m1 coreId env tsEnd
        else
          match cpuWorkerLeave m coreId tsEnd with
          | none => Run.failed
          | some m1 => Run.done m1

/-- A configuration with two cores under FCFS and frames of 64 bytes. -/
def fcfsConfig : SystemConfig :=
  { numCPU := 2, scheduler := "fcfs", quantumCycles := 3, batchProcessFreq := 1,
    minInstructions := 1, maxInstructions := 10, delayPerExec := 0, maxOverallMem := 512,
    memPerFrame := 64, minMemPerProc := 64, maxMemPerProc := 256 }

/-- The configuration `fcfsConfig` under RR with quantum `q`. -/
def rrConfig (q : Nat) : SystemConfig := { fcfsConfig with scheduler := "rr", quantumCycles := q }

/-- Environment inputs that are the same at every line. -/
def plainEnv : Nat → Env := fun _ => { ts := "T", ts2 := "T2" }

/-- Flags and line counters of the process at heap index `p`: `isShutdown`,
`isFinished`, `currentLine`, `totalLine`. -/
def procStatus (m : Machine) (p : Nat) : Option (Bool × Bool × Nat × Nat) :=
  (m.st.heap[p]?).map (fun q => (q.isShutdown, q.isFinished, q.currentLine, q.totalLine))

/-- The command `screen -c p 256 "WRITE 0x100 5"`, the process drawing 3
instructions: address 256 is outside its 256 bytes. -/
def faultCommand : Action := Action.screenC "p" 256 "WRITE 0x100 5" 3 64 "t0"

/-- The machine after `faultCommand` and the dequeue by the worker of core 1,
under FCFS. -/
def faultFcfs : Machine :=
  (run (boot fcfsConfig) [faultCommand, Action.dequeue 1]).getD (boot fcfsConfig)

/-- The machine after `faultCommand` and the dequeue by the worker of core 1,
under RR with quantum 2. -/
def faultRr : Machine :=
  (run (boot (rrConfig 2)) [faultCommand, Action.dequeue 1]).getD (boot (rrConfig 2))

/-- The Process object that `faultFcfs` and `faultRr` hold at heap index 0. -/
def faultProcess : Process :=
  { id := 1
    name := "p"
    currentLine := 0
    totalLine := 3
    timestamp := "t0"
    coreAssigned := 1
    memorySize := 256
    pageTable := [{}, {}, {}, {}]
    customInstrList := ["WRITE 0x100 5"] }

/-- Flags and line counters of the process at heap index `p` when a visit has
ended; `none` when it did not. -/
def visitStatus (r : Run) (p : Nat) : Option (Bool × Bool × Nat × Nat) :=
  match r with
  | Run.done m => procStatus m p
  | _ => none

/-- One iteration of the dispatch loop of core 1 with fixed environment
inputs. -/
def execOne : Action := Action.exec 1 "T" "T2" noDraws

/-- The run under FCFS in which the process of `faultCommand` is dequeued, fails
the bounds check at line 0, and is taken through its remaining lines to
completion. -/
def faultRun : List Action :=
  [faultCommand, Action.dequeue 1, execOne, execOne, execOne, Action.leave 1 "tE"]

/-- The machine `faultRun` leaves. -/
def faultDone : Machine := (run (boot fcfsConfig) faultRun).getD (boot fcfsConfig)

/-- The machine `faultFcfs` after the three iterations of the dispatch loop. -/
def faultRan : Machine := (run faultFcfs [execOne, execOne, execOne]).getD faultFcfs

/-- The step from `m` to `m1` pushed the process at heap index `p` at the back
of one ready queue and left the other queue as it was. -/
def Pushes (m m1 : Machine) (p : Nat) : Prop :=
  (m1.fcfsQueue = m.fcfsQueue ++ [p] ∧ m1.rrQueue = m.rrQueue) ∨
  (m1.fcfsQueue = m.fcfsQueue ∧ m1.rrQueue = m.rrQueue ++ [p])

/-- The step from `m` to `m1` left both ready queues as they were. -/
def SameQueues (m m1 : Machine) : Prop :=
  m1.fcfsQueue = m.fcfsQueue ∧ m1.rrQueue = m.rrQueue

/-- The step from `m` to `m1` pushed nothing, or pushed one process whose
`isFinished` and `isShutdown` flags are clear. -/
def PushesClear (m m1 : Machine) : Prop :=
  SameQueues m m1 ∨
  ∃ (p : Nat) (pr : Process), Pushes m m1 p ∧ m1.st.heap[p]? = some pr ∧
    pr.isFinished = false ∧ pr.isShutdown = false

/-- The Process object that `faultRan` and `faultDone` hold at heap index 0,
before the completion: shut down at line 0, line counter at 3. -/
def faultProcessRan : Process :=
  { faultProcess with
    currentLine := 3
    instructions := ["(T) Core: 1 \"Memory access violation at 0x100\""]
    isShutdown := true
    shutdownReason := "Memory access violation at 0x100"
    shutdownTime := "T2" }

/-- The machine after `scheduler-start` under FCFS. -/
def generatorDemo : Machine := { boot fcfsConfig with generator := some 1 }

/-- The machine `generatorDemo` after one step of the generator. -/
def generatorDemo1 : Machine := (generatorStep generatorDemo 3 64 "t0").getD generatorDemo

/-- The machine `faultRr` after the two iterations of its quantum: the process
is shut down, at line 2 of 3. -/
def faultRrRan : Machine := (run faultRr [execOne, execOne]).getD faultRr

/-- The machine `faultRrRan` after the exit of the dispatch loop. -/
def faultRrLeft : Machine := (cpuWorkerLeave faultRrRan 1 "tE").getD faultRrRan

/-! ## Configuration file

`loadSystemConfig` reads `config.txt` as a sequence of keys, each followed by
one token.  The file is the list of these pairs.  An extraction `file >> value`
that fails leaves the stream in a failed state, which ends the reading loop at
its next test. -/

/-- The token after a key of `config.txt`: an integer numeral, or any other
text (empty when the file ends after the key). -/
inductive ConfigValue where
  | number (v : Int)
  | word (w : String)
  deriving DecidableEq, Repr

/-- Extraction `file >> value` into a signed integer of `bits` bits: the value
stored and whether the stream is still good.  A numeral out of range stores the
nearest limit and fails the stream; any other token stores 0 and fails it. -/
def extractSigned (bits : Nat) : ConfigValue → Int × Bool
  | ConfigValue.number v =>
    if v < -(2 ^ (bits - 1)) then (-(2 ^ (bits - 1)), false)
    else if 2 ^ (bits - 1) ≤ v then (2 ^ (bits - 1) - 1, false)
    else (v, true)
  | ConfigValue.word _ => (0, false)

/-- Extraction `file >> value` into a `uint64_t`: a numeral with a minus sign is
negated in the unsigned type; a magnitude above `ULLONG_MAX` stores the limit
and fails the stream. -/
def extractUint64 : ConfigValue → Nat × Bool
  | ConfigValue.number v =>
    if 2 ^ 64 ≤ v ∨ v ≤ -(2 ^ 64) then (2 ^ 64 - 1, false)
    else ((v % 2 ^ 64).toNat, true)
  | ConfigValue.word _ => (0, false)

/-- Function `clampCPUs(int value)`, the `uint8_t` result read as an `int`. -/
def clampCPUs (value : Int) : Int := (max 1 (min value 128)) % 256

/-- Function `clampUint32Range(uint64_t value)`: the argument is converted to
`int64_t` for the comparison with the two bounds. -/
def clampUint32Range (value : Nat) : Nat :=
  let v : Int := if value % 2 ^ 64 < 2 ^ 63 then ((value % 2 ^ 64 : Nat) : Int)
    else ((value % 2 ^ 64 : Nat) : Int) - 2 ^ 64
  (max 1 (min v 4294967296)).toNat

/-- Function `clampDelayPerExec(uint64_t value)`. -/
def clampDelayPerExec (value : Nat) : Nat := min value 4294967296

/-- Conversion of an `int64_t` to the `uint64_t` parameter of
`clampUint32Range`. -/
def int64ToUint64 (v : Int) : Nat := (v % 2 ^ 64).toNat

/-- What one iteration of the reading loop does with a key and its token:
`next cfg good` continues with the configuration `cfg`, the stream being good
or failed; `invalid` is `return false`; `throws` is the `invalid_argument`
exception of `clampMemPow2`. -/
inductive EntryResult where
  | next (cfg : SystemConfig) (good : Bool)
  | invalid
  | throws
  deriving DecidableEq, Repr

/-- The body of the reading loop of `loadSystemConfig` (source lines 87-154) for
the key `key` followed by the token `value`. -/
def loadConfigEntry (cfg : SystemConfig) (key : String) (value : ConfigValue) : EntryResult :=
  if key = "num-cpu" then
    let r := extractSigned 32 value
    if r.1 < 1 ∨ r.1 > 128 then EntryResult.invalid
    else EntryResult.next { cfg with numCPU := clampCPUs r.1 } r.2
  else if key = "scheduler" then
    match value with
    | ConfigValue.word w =>
      if w ≠ "fcfs" ∧ w ≠ "rr" then EntryResult.invalid
      else EntryResult.next { cfg with scheduler := w } true
    | ConfigValue.number _ => EntryResult.invalid
  else if key = "quantum-cycles" then
    let r := extractSigned 64 value
    EntryResult.next { cfg with quantumCycles := clampUint32Range (int64ToUint64 r.1) } r.2
  else if key = "batch-process-freq" then
    let r := extractSigned 64 value
    EntryResult.next { cfg with batchProcessFreq := clampUint32Range (int64ToUint64 r.1) } r.2
  else if key = "min-ins" then
    let r := extractSigned 64 value
    EntryResult.next { cfg with minInstructions := clampUint32Range (int64ToUint64 r.1) } r.2
  else if key = "max-ins" then
    let r := extractSigned 64 value
    EntryResult.next { cfg with maxInstructions := clampUint32Range (int64ToUint64 r.1) } r.2
  else if key = "delay-per-exec" then
    let r := extractUint64 value
    EntryResult.next { cfg with delayPerExec := clampDelayPerExec r.1 } r.2
  else if key = "max-overall-mem" then
    let r := extractUint64 value
    match clampMemPow2 r.1 with
    | none => EntryResult.throws
    | some v => EntryResult.next { cfg with maxOverallMem := v } r.2
  else if key = "mem-per-frame" then
    let r := extractUint64 value
    match clampMemPow2 r.1 with
    | none => EntryResult.throws
    | some v => EntryResult.next { cfg with memPerFrame := v } r.2
  else if key = "min-mem-per-proc" then
    let r := extractUint64 value
    match clampMemPow2 r.1 with
    | none => EntryResult.throws
    | some v => EntryResult.next { cfg with minMemPerProc := v } r.2
  else if key = "max-mem-per-proc" then
    let r := extractUint64 value
    match clampMemPow2 r.1 with
    | none => EntryResult.throws
    | some v => EntryResult.next { cfg with maxMemPerProc := v } r.2
  else EntryResult.invalid

/-- Result of `loadSystemConfig`: the value returned, or the exception of
`clampMemPow2` leaving the function; in both cases the value `GLOBAL_CONFIG`
has by then. -/
inductive LoadResult where
  | returned (ok : Bool) (cfg : SystemConfig)
  | thrown (cfg : SystemConfig)
  deriving DecidableEq, Repr

/-- The final validation of `loadSystemConfig` (source lines 157-163). -/
def finalValidation (cfg : SystemConfig) : LoadResult :=
  if cfg.minInstructions > cfg.maxInstructions then LoadResult.returned false cfg
  else LoadResult.returned true cfg

/-- Function `loadSystemConfig()` on an opened file with the pairs `file`,
`GLOBAL_CONFIG` being `cfg` at the call. -/
def loadSystemConfig (cfg : SystemConfig) : List (String × ConfigValue) → LoadResult
  | [] => finalValidation cfg
  | (key, value) :: rest =>
    match loadConfigEntry cfg key value with
    | EntryResult.next cfg1 good =>
      if good then loadSystemConfig cfg1 rest else finalValidation cfg1
    | EntryResult.invalid => LoadResult.returned false cfg
    | EntryResult.throws => LoadResult.thrown cfg

/-- The keys the reading loop of `loadSystemConfig` gets to: those up to the
first pair at which the loop ends. -/
def keysRead : List (String × ConfigValue) → List String
  | [] => []
  | (key, value) :: rest =>
    match loadConfigEntry {} key value with
    | EntryResult.next _ good => key :: (if good then keysRead rest else [])
    | _ => [key]

/-- The field of `GLOBAL_CONFIG` that a memory key sets. -/
def memoryField (cfg : SystemConfig) (key : String) : Option Nat :=
  if key = "max-overall-mem" then some cfg.maxOverallMem
  else if key = "mem-per-frame" then some cfg.memPerFrame
  else if key = "min-mem-per-proc" then some cfg.minMemPerProc
  else if key = "max-mem-per-proc" then some cfg.maxMemPerProc
  else none

/-- The values `clampMemPow2` lets through: the powers of two from 64 to
65536. -/
def IsMemPow2 (n : Nat) : Prop := clampMemPow2 n = some n

/-- A file `config.txt` with the values of `fcfsConfig`. -/
def fcfsFile : List (String × ConfigValue) :=
  [("num-cpu", ConfigValue.number 2), ("scheduler", ConfigValue.word "fcfs"),
   ("quantum-cycles", ConfigValue.number 3), ("batch-process-freq", ConfigValue.number 1),
   ("min-ins", ConfigValue.number 1), ("max-ins", ConfigValue.number 10),
   ("delay-per-exec", ConfigValue.number 0), ("max-overall-mem", ConfigValue.number 512),
   ("mem-per-frame", ConfigValue.number 64), ("min-mem-per-proc", ConfigValue.number 64),
   ("max-mem-per-proc", ConfigValue.number 256)]

/-! ## Draws of the process creation and of the generated instructions -/

/-- The candidates `filtered` of `generateRandomMemSize()`: the powers of two
from 64 to 65536 within `[minMemPerProc, maxMemPerProc]`. -/
def memSizeChoices (cfg : SystemConfig) : List Nat :=
  [64, 128, 256, 512, 1024, 2048, 4096, 8192, 16384, 32768, 65536].filter
    (fun v => decide (cfg.minMemPerProc ≤ v ∧ v ≤ cfg.maxMemPerProc))

/-- Function `generateRandomMemSize()`; `pick` is a raw random value, reduced to
an index of `filtered`.  `none` is the `runtime_error` thrown when no candidate
is left. -/
def generateRandomMemSize (cfg : SystemConfig) (pick : Nat) : Option Nat :=
  if memSizeChoices cfg = [] then none
  else (memSizeChoices cfg)[pick % (memSizeChoices cfg).length]?

/-- The bounds `(minAddr, maxAddr)` of the address draw of a generated READ or
WRITE (source lines 639-641 and 675-677), in 64-bit unsigned arithmetic. -/
def dataAddressBounds (cfg : SystemConfig) (pr : Process) : Nat × Nat :=
  let minAddr := cfg.memPerFrame
  let maxAddr := (pr.memorySize + 2 ^ 64 - 1) % 2 ^ 64
  (minAddr, if maxAddr < minAddr then minAddr else maxAddr)

/-- The value `address` is one that `generateRandomDataAddress(minAddr, maxAddr)`
can return for the process `pr`. -/
def IsDataAddress (cfg : SystemConfig) (pr : Process) (address : Nat) : Prop :=
  (dataAddressBounds cfg pr).1 ≤ address ∧ address ≤ (dataAddressBounds cfg pr).2

/-- A sequence of calls `loadPageIfNotInMemory(proc, pageNumber)`; `none` when
one of them has undefined behaviour. -/
def loadPages (s : State) : List (Option Nat × Int) → Option State
  | [] => some s
  | (proc, pageNumber) :: rest =>
    match loadPageIfNotInMemory s proc pageNumber with
    | none => none
    | some (_, s1) => loadPages s1 rest

/-! ## Re-initialisation

The command `initialize` of `main`, given when the system has been initialised
before, runs while the worker threads and the auto-generator run (source lines
1375-1422).  Its statements are steps of `main`: the call of `loadSystemConfig`
(line 1377), the assignment of the frame table (lines 1378-1379), the assignment
of the stop flags (lines 1402-1403), and, once every worker thread has been
joined, the reset of the flags and the start of new threads (lines 1409-1416).
Steps of the other threads come between them.  The threads that run during
the command are those of the preceding `initialize`, numbered 1 to `threads`,
whatever `numCPU` has become. -/

/-- An iteration of the outer loop of `cpuWorker(coreId)` from the wait on
(source lines 1021-1042 and 1074-1078), for a thread that holds no process and
has passed the test `!stopScheduler` of the loop: `wait_for` returns after 1 ms
at most, the tick is counted, the queue of the configured policy is popped, and
the thread takes the process (`activeCpuTicks`, `coreAssigned`) or idles
(`idleCpuTicks`).  The stop flag is not read between the test of the loop and
the dispatch loop.  `threads` is the number of worker threads that run. -/
def cpuWorkerWake (m : Machine) (threads coreId : Int) : Option Machine :=
  if coreId < 1 ∨ threads < coreId then none
  else if (mapFind coreId m.workers).isSome then none
  else
    let m1 := { m with totalCpuTicks := tick m.totalCpuTicks }
    let popped : Option (Nat × Machine) :=
      if m1.st.GLOBAL_CONFIG.scheduler = "fcfs" then
        match m1.fcfsQueue with
        | p :: rest => some (p, { m1 with fcfsQueue := rest })
        | [] => none
      else if m1.st.GLOBAL_CONFIG.scheduler = "rr" then
        match m1.rrQueue with
        | p :: rest => some (p, { m1 with rrQueue := rest })
        | [] => none
      else none
    match popped with
    | none => some { m1 with idleCpuTicks := tick m1.idleCpuTicks }
    | some (p, m2) =>
      match m2.st.heap[p]? with
      | none => none
      | some _ =>
        some { m2 with
          activeCpuTicks := tick m2.activeCpuTicks
          st := modifyProc m2.st p (fun q => { q with coreAssigned := coreId })
          workers := mapAssign coreId { proc := p, executedInstructions := 0 } m2.workers }

/-- A step of a worker thread or of the auto-generator while `main` runs a
command: the test of the outer loop followed by an iteration from the wait on
(`dequeue`), an iteration of a dispatch loop, the exit of a dispatch loop, or an
iteration of the generator.  `none` for the commands of `main`. -/
def threadStep (threads : Int) (m : Machine) : Action → Option Machine
  | Action.dequeue coreId => if m.stopScheduler then none else cpuWorkerWake m threads coreId
  | Action.exec coreId ts ts2 d => cpuWorkerExec m coreId ts ts2 d
  | Action.leave coreId ts => cpuWorkerLeave m coreId ts
  | Action.generate cpuBurst memSize ts => generatorStep m cpuBurst memSize ts
  | _ => none

/-- A sequence of steps of the threads; `none` when one of them is not
possible. -/
def runThreads (threads : Int) (m : Machine) : List Action → Option Machine
  | [] => some m
  | a :: rest =>
    match threadStep threads m a with
    | none => none
    | some m1 => runThreads threads m1 rest

/-- A step of a worker thread after `main` has set the stop flags: a thread
that holds a process leaves its dispatch loop, whose condition has become
false; a thread that was waiting inside its outer loop takes the iteration it
has begun.  Either step is the last of the thread, which then finds the flag at
the test of its outer loop. -/
inductive JoinAction where
  | wake (coreId : Int)
  | leave (coreId : Int) (ts : String)
  deriving DecidableEq, Repr

/-- The steps `acts` of the worker threads between the assignment of the stop
flags and the end of the `join` calls.  `gone` lists the threads that have taken
their last step from the wait on: a thread takes one such step at most, and none
after it has left a dispatch loop.  `none` when a step is not possible. -/
def joinThreads (threads : Int) : List Int → Machine → List JoinAction → Option Machine
  | _, m, [] => some m
  | gone, m, JoinAction.wake coreId :: rest =>
    if coreId ∈ gone then none
    else
      match cpuWorkerWake m threads coreId with
      | none => none
      | some m1 => joinThreads threads (coreId :: gone) m1 rest
  | gone, m, JoinAction.leave coreId ts :: rest =>
    match cpuWorkerLeave m coreId ts with
    | none => none
    | some m1 => joinThreads threads (coreId :: gone) m1 rest

/-- The call `loadSystemConfig()` of the command (source line 1377) reading
`file`: `GLOBAL_CONFIG` takes the value the call leaves, whether it returns
`true` or `false`.  `none` when the exception of `clampMemPow2` leaves `main`. -/
def initLoad (m : Machine) (file : List (String × ConfigValue)) : Option (Bool × Machine) :=
  match loadSystemConfig m.st.GLOBAL_CONFIG file with
  | LoadResult.thrown _ => none
  | LoadResult.returned ok cfg => some (ok, { m with st := { m.st with GLOBAL_CONFIG := cfg } })

/-- The assignment `physicalMemory.assign(numFrames, Frame())` of the command
(source lines 1378-1379), with `numFrames = maxOverallMem / memPerFrame` read
from `GLOBAL_CONFIG`; `none` when the frame size is 0 (a division by zero). -/
def initAssign (m : Machine) : Option Machine :=
  if m.st.GLOBAL_CONFIG.memPerFrame = 0 then none
  else
    some { m with
      st := { m.st with
        physicalMemory :=
          List.replicate (m.st.GLOBAL_CONFIG.maxOverallMem / m.st.GLOBAL_CONFIG.memPerFrame)
            {} } }

/-- The end of the command (source lines 1405-1416) once every worker thread
has left its outer loop and been joined: both stop flags are cleared and new
threads start at the top of their loops, with empty `thread_local` vectors
`varNames`.  `none` while a thread holds a process. -/
def initRestart (m : Machine) : Option Machine :=
  if m.workers = [] then
    some { m with
      st := { m.st with varNames := [] }
      stopScheduler := false
      stopProcessCreation := false }
  else none

/-- The command `initialize` of `main` when the system has been initialised
before (`confirmInitialize` is set; source lines 1375-1422) and `threads`
worker threads run.  `loadSystemConfig` reads `file`; when it returns `false`
only `GLOBAL_CONFIG` has changed.  When it returns `true`, the threads take the
steps `loaded` before the frame table is assigned, the steps `assigned` between
that assignment and the assignment of the stop flags, and the steps `joined`
until all are joined; then the flags are cleared and new threads start.  `none`
when the exception of `clampMemPow2` leaves `main`, when the frame size is 0,
when a step is not possible, or when `joined` does not end with every thread
out of its dispatch loop. -/
def initCommand (m : Machine) (file : List (String × ConfigValue)) (threads : Int)
    (loaded assigned : List Action) (joined : List JoinAction) : Option Machine :=
  match initLoad m file with
  | none => none
  | some (false, m0) => some m0
  | some (true, m0) =>
    match runThreads threads m0 loaded with
    | none => none
    | some m1 =>
      match initAssign m1 with
      | none => none
      | some m2 =>
        match runThreads threads m2 assigned with
        | none => none
        | some m3 =>
          match joinThreads threads []
              { m3 with stopScheduler := true, stopProcessCreation := true } joined with
          | none => none
          | some m4 => initRestart m4

/-- Draws of a generated instruction with command 1 (DECLARE) and value 7. -/
def declareDraws : Draws := { cmd := 1, val := 7, pick1 := 0, pick2 := 0, address := 0 }

/-- The machine after `screen -s p` and `screen -s q` under `fcfsConfig`, each
process drawing 1 instruction and 64 bytes, when the worker of core 1 has run
`p` to completion: its generated DECLARE loaded page 0 into frame 0. -/
def busyMachine : Machine :=
  (run (boot fcfsConfig)
    [Action.screenS "p" 0 1 64 "t0", Action.screenS "q" 0 1 64 "t1", Action.dequeue 1,
     Action.exec 1 "T" "T2" declareDraws, Action.leave 1 "tE"]).getD (boot fcfsConfig)

/-- The machine `busyMachine` after the worker of core 1 has dequeued `q` and
run its line 0 with the draw `cmd = 0`. -/
def busyNext : Machine :=
  (run busyMachine [Action.dequeue 1, Action.exec 1 "T3" "T4" noDraws]).getD busyMachine

/-- Memory layout of a process `pr` under the configuration `cfg`: the size is
one of the eleven powers of two and within the per-process bounds, the page
table has `memorySize / memPerFrame` entries, and these cover the size exactly
when a frame is no larger than the process. -/
def MemoryShape (cfg : SystemConfig) (pr : Process) : Prop :=
  IsMemPow2 pr.memorySize ∧
  cfg.minMemPerProc ≤ pr.memorySize ∧ pr.memorySize ≤ cfg.maxMemPerProc ∧
  pr.pageTable.length = pr.memorySize / cfg.memPerFrame ∧
  (pr.pageTable.length * cfg.memPerFrame = pr.memorySize ↔ cfg.memPerFrame ≤ pr.memorySize)

/-- A configuration whose frames, of 128 bytes, are larger than its processes,
of 64 bytes. -/
def coarseConfig : SystemConfig :=
  { numCPU := 1, scheduler := "fcfs", quantumCycles := 1, batchProcessFreq := 1,
    minInstructions := 1, maxInstructions := 1, delayPerExec := 0, maxOverallMem := 256,
    memPerFrame := 128, minMemPerProc := 64, maxMemPerProc := 64 }

/-- A file `config.txt` with the values of `coarseConfig`. -/
def coarseFile : List (String × ConfigValue) :=
  [("num-cpu", ConfigValue.number 1), ("scheduler", ConfigValue.word "fcfs"),
   ("quantum-cycles", ConfigValue.number 1), ("batch-process-freq", ConfigValue.number 1),
   ("min-ins", ConfigValue.number 1), ("max-ins", ConfigValue.number 1),
   ("delay-per-exec", ConfigValue.number 0), ("max-overall-mem", ConfigValue.number 256),
   ("mem-per-frame", ConfigValue.number 128), ("min-mem-per-proc", ConfigValue.number 64),
   ("max-mem-per-proc", ConfigValue.number 64)]

/-- The Process object that `screen -s p` creates under `fcfsConfig` when the
draws are 1 instruction and 64 bytes: one page. -/
def tinyProcess : Process :=
  { id := 1
    name := "p"
    currentLine := 0
    totalLine := 1
    timestamp := "t0"
    memorySize := 64
    pageTable := [{}] }

/-- Draws of a generated WRITE (command 6) of the value 7 at address 64. -/
def writeDraws : Draws := { cmd := 6, val := 7, pick1 := 0, pick2 := 0, address := 64 }

/-- The Process object `pr` without its page table: the part that
`loadPageIfNotInMemory` never writes. -/
def withoutPages (pr : Process) : Process := { pr with pageTable := [] }

/-- The increment `currentLine++` of the worker after an executor call. -/
def nextLine (s : State) (p : Nat) : State :=
  modifyProc s p (fun q => { q with currentLine := q.currentLine + 1 })

/-- The executor dispatches `instr` to its PRINT branch with the variable
`var`: none of the five patterns tried before matches and the PRINT pattern
does. -/
def IsUserPrint (instr var : String) : Prop :=
  matchDeclare instr = none ∧ matchThree "ADD" instr = none ∧
  matchThree "SUBTRACT" instr = none ∧ matchWrite instr = none ∧ matchRead instr = none ∧
  matchPrint instr = some var

/-- The program of scenario 5. -/
def scenarioProgram : String := "DECLARE A 1; ADD B A A; PRINT(\"Result: \" + B)"

/-- The state after `screen -c p 256 "DECLARE A 1; ADD B A A; PRINT("Result: " + B)"`
under `fcfsConfig`, the process drawing 3 instructions. -/
def scenarioState : State :=
  modifyProc (createProcess (initState fcfsConfig) "p" 3 256 "t0") 0
    (fun q => { q with customInstrList := splitInstructions scenarioProgram })

/-- The test `isdigit(valueToken[0])` of the WRITE branch: the value token is a
literal. -/
def isLiteralToken (tok : String) : Bool := (tok.toList.head?.map isDigitChar).getD false

/-- The state after `screen -c p 256 "WRITE 0x80 7; READ x 0x80"` under
`fcfsConfig`, the process drawing 2 instructions. -/
def roundTripState : State :=
  modifyProc (createProcess (initState fcfsConfig) "p" 2 256 "t0") 0
    (fun q => { q with customInstrList := ["WRITE 0x80 7", "READ x 0x80"] })

/-- What the exits of dispatch loops leave as it was from `m` to `m1`: the
configuration, the frame table, the victim queue, the paging counters, the tick
counters, the stop flags and the FCFS queue; the RR queue keeps its entries and
may have more at its back. -/
def LeavesAlone (m m1 : Machine) : Prop :=
  m1.st.GLOBAL_CONFIG = m.st.GLOBAL_CONFIG ∧ m1.st.physicalMemory = m.st.physicalMemory ∧
  m1.st.pageLoadOrder = m.st.pageLoadOrder ∧ m1.st.pageInCount = m.st.pageInCount ∧
  m1.st.pageOutCount = m.st.pageOutCount ∧ m1.totalCpuTicks = m.totalCpuTicks ∧
  m1.activeCpuTicks = m.activeCpuTicks ∧ m1.idleCpuTicks = m.idleCpuTicks ∧
  m1.stopScheduler = m.stopScheduler ∧ m1.stopProcessCreation = m.stopProcessCreation ∧
  m1.fcfsQueue = m.fcfsQueue ∧ m.rrQueue <+: m1.rrQueue

/-! ## Canonical forms of the user instructions

The six forms of the instruction table, as texts: the tokens of a form are
separated by non-empty runs of whitespace. -/

/-- A non-empty run of whitespace. -/
def IsSpaces (ws : List Char) : Prop := ws ≠ [] ∧ ∀ c ∈ ws, isSpaceChar c = true

/-- A run of whitespace that may be empty. -/
def IsBlank (ws : List Char) : Prop := ∀ c ∈ ws, isSpaceChar c = true

/-- The text `cs` is empty or starts with a character outside the class `p`. -/
def StopsAt (p : Char → Bool) (cs : List Char) : Prop := ∀ c ∈ cs.head?, p c = false

/-- Form `DECLARE id dec`. -/
def DeclareForm (t : List Char) : Prop :=
  ∃ w1 v w2 n : List Char, IsSpaces w1 ∧ IsIdent v ∧ IsSpaces w2 ∧ IsDecimal n ∧
    t = "DECLARE".toList ++ (w1 ++ (v ++ (w2 ++ n)))

/-- Forms `ADD id id id` and `SUBTRACT id id id`, for `op` the opcode. -/
def ThreeForm (op : String) (t : List Char) : Prop :=
  ∃ w1 a w2 b w3 c : List Char, IsSpaces w1 ∧ IsIdent a ∧ IsSpaces w2 ∧ IsIdent b ∧
    IsSpaces w3 ∧ IsIdent c ∧ t = op.toList ++ (w1 ++ (a ++ (w2 ++ (b ++ (w3 ++ c)))))

/-- Form `WRITE 0xhex (dec|id)`. -/
def WriteForm (t : List Char) : Prop :=
  ∃ w1 hs w2 tok : List Char, IsSpaces w1 ∧ IsHexDigits hs ∧ IsSpaces w2 ∧
    (IsDecimal tok ∨ IsIdent tok) ∧
    t = "WRITE".toList ++ (w1 ++ (("0x".toList ++ hs) ++ (w2 ++ tok)))

/-- Form `READ id 0xhex`. -/
def ReadForm (t : List Char) : Prop :=
  ∃ w1 v w2 hs : List Char, IsSpaces w1 ∧ IsIdent v ∧ IsSpaces w2 ∧ IsHexDigits hs ∧
    t = "READ".toList ++ (w1 ++ (v ++ (w2 ++ ("0x".toList ++ hs))))

/-- Form `PRINT("Result: " + id)`: the string, the plus sign and the identifier
separated by whitespace. -/
def PrintForm (t : List Char) : Prop :=
  ∃ w1 w2 v : List Char, IsSpaces w1 ∧ IsSpaces w2 ∧ IsIdent v ∧
    t = "PRINT(\"Result: \"".toList ++ (w1 ++ ("+".toList ++ (w2 ++ (v ++ ")".toList))))

/-- The PRINT form with optional whitespace: any run of whitespace, also an
empty one, after the opening parenthesis, around the plus sign and before the
closing parenthesis. -/
def PrintFormLoose (t : List Char) : Prop :=
  ∃ w0 w1 w2 v w3 : List Char, IsBlank w0 ∧ IsBlank w1 ∧ IsBlank w2 ∧ IsIdent v ∧ IsBlank w3 ∧
    t = "PRINT(".toList ++ (w0 ++ ("\"Result: \"".toList ++ (w1 ++ ("+".toList ++
      (w2 ++ (v ++ (w3 ++ ")".toList)))))))

/-- One of the six canonical forms, tokens separated by whitespace. -/
def Canonical (t : List Char) : Prop :=
  DeclareForm t ∨ ThreeForm "ADD" t ∨ ThreeForm "SUBTRACT" t ∨ PrintForm t ∨ WriteForm t ∨
    ReadForm t

/-- One of the six forms, the PRINT form with optional whitespace. -/
def AcceptedForm (t : List Char) : Prop :=
  DeclareForm t ∨ ThreeForm "ADD" t ∨ ThreeForm "SUBTRACT" t ∨ PrintFormLoose t ∨ WriteForm t ∨
    ReadForm t

/-- A PRINT instruction without whitespace around the plus sign. -/
def tightPrint : String := "PRINT(\"Result: \"+B)"

/-! ## Executions of the program and its counters -/

/-- One transition of the program: a step of `step`; an iteration of a worker
thread from the wait on, which a thread that has passed the test of its outer
loop takes whatever the stop flag has become (`threads` worker threads run);
or a statement of the command `initialize` given again: the call of
`loadSystemConfig`, the assignment of the frame table, the restart of the
worker threads.  The assignment of the stop flags is the step `Action.stop`. -/
inductive Transition (m : Machine) : Machine → Prop where
  | act (a : Action) (m1 : Machine) (h : step m a = some m1) : Transition m m1
  | wake (threads coreId : Int) (m1 : Machine) (h : cpuWorkerWake m threads coreId = some m1) :
      Transition m m1
  | load (file : List (String × ConfigValue)) (ok : Bool) (m1 : Machine)
      (h : initLoad m file = some (ok, m1)) : Transition m m1
  | assign (m1 : Machine) (h : initAssign m = some m1) : Transition m m1
  | restart (m1 : Machine) (h : initRestart m = some m1) : Transition m m1

/-- The machine `m` is reached from the program after its first `initialize` by
`n` transitions. -/
inductive Execution : Machine → Nat → Prop where
  | boot (cfg : SystemConfig) : Execution (boot cfg) 0
  | next {m m1 : Machine} {n : Nat} (h : Execution m n) (ht : Transition m m1) :
      Execution m1 (n + 1)

/-- The paging counters `(pageInCount, pageOutCount)`. -/
def pagingCounters (s : State) : Nat × Nat := (s.pageInCount, s.pageOutCount)

/-- What one call of `loadPageIfNotInMemory` does to the paging counters `a`:
nothing, `pageInCount++`, or `pageOutCount++` and `pageInCount++`. -/
def PagingStep (a b : Nat × Nat) : Prop :=
  b = a ∨ b = ((a.1 + 1) % 2 ^ 64, a.2) ∨ b = ((a.1 + 1) % 2 ^ 64, (a.2 + 1) % 2 ^ 64)

/-- The tick counters `(totalCpuTicks, activeCpuTicks, idleCpuTicks)`. -/
def tickCounters (m : Machine) : Nat × Nat × Nat :=
  (m.totalCpuTicks, m.activeCpuTicks, m.idleCpuTicks)

/-- The step from `m` to `m1` wrote none of the five counters. -/
def SameCounters (m m1 : Machine) : Prop :=
  tickCounters m1 = tickCounters m ∧ pagingCounters m1.st = pagingCounters m.st

/-- Number of frames of `physicalMemory` whose `processId` is not `-1`. -/
def occupiedFrames (s : State) : Nat :=
  s.physicalMemory.countP (fun f => decide (f.processId ≠ -1))

/-- Number of page-table entries, over all processes, whose `inMemory` flag is
set. -/
def residentPages (s : State) : Nat :=
  (s.heap.map (fun pr => pr.pageTable.countP (fun e => e.inMemory))).sum

/-- The call `loadPageIfNotInMemory(proc, pageNumber)` in the state `s` is a
hit: the page-table entry it names has `inMemory` set. -/
def IsHit (s : State) (proc : Option Nat) (pageNumber : Int) : Prop :=
  ∃ (p pn : Nat), proc = some p ∧ pageNumber = (pn : Int) ∧ Resident s p pn

/-- States that follow `s`: reached from it by process creations, calls of
`loadPageIfNotInMemory` with defined behaviour, and appends of a token to the
data of a frame. -/
inductive Later (s : State) : State → Prop where
  | refl : Later s s
  | create {t : State} (name : String) (cpuBurst memSize : Nat) (ts : String) (h : Later s t) :
      Later s (createProcess t name cpuBurst memSize ts)
  | load {t u : State} (proc : Option Nat) (pageNumber : Int) (b : Bool) (h : Later s t)
      (hl : loadPageIfNotInMemory t proc pageNumber = some (b, u)) : Later s u
  | write {t : State} (f : Nat) (str : String) (h : Later s t) :
      Later s (appendFrameData t f str)

/-- The frame `i` of the state `s` is claimed: its `processId` is not `-1`. -/
def Claimed (s : State) (i : Nat) : Prop :=
  ∃ f, s.physicalMemory[i]? = some f ∧ f.processId ≠ -1

/-! ## Validated instructions in the executor -/

/-- The log line of the fallback branch of the executor (source line 529). -/
def unknownLine (logStart : String) : String := logStart ++ "\"" ++ "UNKNOWN_INSTR" ++ "\""

/-- Which of the six patterns match the text `t`, in the order of
`validateCustomInstructions`: DECLARE, ADD, SUBTRACT, PRINT, WRITE, READ. -/
def patternMatches (t : String) : List Bool :=
  [(matchDeclare t).isSome, (matchThree "ADD" t).isSome, (matchThree "SUBTRACT" t).isSome,
   (matchPrint t).isSome, (matchWrite t).isSome, (matchRead t).isSome]

/-- Code of the first character of a text. -/
def headCode (t : String) : Option Nat := (t.toList.head?).map Char.toNat

/-- The variable store that the ADD and SUBTRACT branches leave from `m`: the
reads `memory[a]` and `memory[b]`, the assignment of the result `res` to
`memory[dst]`, and the two reads of the log line. -/
def storeAfterThree (dst a b : String) (res : Nat) (m : List (String × Nat)) :
    List (String × Nat) :=
  (memIndex b (memIndex a (mapAssign dst res (memIndex b (memIndex a m).2).2)).2).2

/-- What the custom-program part of the executor does with `instr`: the branch
it takes, the code of the first character of the log body it writes (`D`, `A`,
`S`, `W`, `R`, `P`, or `M` for the violation message), and the variable store
`m1` it leaves from `m`. -/
def CustomEffect (instr : String) (m m1 : List (String × Nat)) (body : String) : Prop :=
  (∃ (var val : String) (v : Int), IsUserDeclare instr var val ∧ headCode body = some 68 ∧
    m1 = mapAssign var (toUint16 v) m) ∨
  (∃ (dst a b : String) (res : Nat), IsUserAdd instr dst a b ∧ headCode body = some 65 ∧
    m1 = storeAfterThree dst a b res m) ∨
  (∃ (dst a b : String) (res : Nat), IsUserSubtract instr dst a b ∧ headCode body = some 83 ∧
    m1 = storeAfterThree dst a b res m) ∨
  (∃ (addrHex tok : String), IsUserWrite instr addrHex tok ∧
    ((headCode body = some 77 ∧ m1 = m) ∨
      (headCode body = some 87 ∧
        ∃ val : Nat, m1 = mapAssign addrHex val m ∨
          m1 = mapAssign addrHex val (memIndex tok m).2))) ∨
  (∃ (var addrHex : String), IsUserRead instr var addrHex ∧
    ((headCode body = some 77 ∧ m1 = m) ∨
      (headCode body = some 82 ∧ m1 = mapAssign var (memGet addrHex m) m))) ∨
  (∃ var : String, IsUserPrint instr var ∧ headCode body = some 80 ∧
    m1 = (memIndex var m).2) ∨
  (matchDeclare instr = none ∧ matchThree "ADD" instr = none ∧
    matchThree "SUBTRACT" instr = none ∧ matchWrite instr = none ∧ matchRead instr = none ∧
    matchPrint instr = none ∧ body = "UNKNOWN_INSTR" ∧ m1 = m)

/-- The log line at index `k` of the process at heap index `p` after a call;
`none` when the call did not return or the log has no such line. -/
def lineAfter (o : Outcome) (p k : Nat) : Option String :=
  (procAfter o p).bind (fun q => q.instructions[k]?)

/-- A program whose literals exceed `INT_MAX` and `ULLONG_MAX`. -/
def longProgram : String :=
  "DECLARE x 2147483648; WRITE 0x10000000000000000 1; READ y 0x10000000000000000; " ++
    "WRITE 0x80 99999999999"

/-- The machine after `screen -c big 256 "<longProgram>"` under `fcfsConfig`,
the process drawing 4 instructions. -/
def longMachine : Machine := screenC (boot fcfsConfig) "big" 256 longProgram 4 64 "t0"

/-! ## A command for a name that is taken -/

/-- The machine after `screen -s p 256` under `fcfsConfig` (the process draws 3
instructions), the dequeue by the worker of core 1 and one generated DECLARE:
page 0 of the process is in frame 0 and the worker holds the process. -/
def heldMachine : Machine :=
  (run (boot fcfsConfig)
    [Action.screenS "p" 256 3 64 "t0", Action.dequeue 1,
     Action.exec 1 "T" "T2" declareDraws]).getD (boot fcfsConfig)

/-- The machine `heldMachine` after a second `screen -s p`. -/
def heldPlain : Machine := screenS heldMachine "p" 0 5 128 "t1"

/-- The machine `heldMachine` after `screen -s p 64`. -/
def heldSized : Machine := screenS heldMachine "p" 64 5 128 "t1"

/-- The machine `heldMachine` after `screen -c p 128 "DECLARE A 1"`. -/
def heldCustom : Machine := screenC heldMachine "p" 128 "DECLARE A 1" 5 128 "t1"

/-- The machine `heldSized` after the worker of core 1 has run the next line of
the process, a generated DECLARE. -/
def heldSizedNext : Machine :=
  (cpuWorkerExec heldSized 1 "T3" "T4" declareDraws).getD heldSized

/-- Size, page table and custom program of the process at heap index `p`. -/
def procLayout (m : Machine) (p : Nat) : Option (Nat × List PageTableEntry × List String) :=
  (m.st.heap[p]?).map (fun q => (q.memorySize, q.pageTable, q.customInstrList))

/-! ## Spellings of an address -/

/-- The state after `screen -c p 256 "WRITE 0x4A 7; READ x 0x4a; WRITE 0x80 9;
READ y 0x080"` under `fcfsConfig`, the process drawing 4 instructions. -/
def spellingState : State :=
  modifyProc (createProcess (initState fcfsConfig) "p" 4 256 "t0") 0
    (fun q => { q with
      customInstrList := ["WRITE 0x4A 7", "READ x 0x4a", "WRITE 0x80 9", "READ y 0x080"] })

/-- The state `s` after the lines `0` to `n - 1` of the program of the process
at heap index 0 have run on core 1 (`s` itself where a call does not
return). -/
def ranLines : Nat → State → State
  | 0, s => s
  | n + 1, s =>
    let s1 := ranLines n s
    stateAfter s1 (instructions_manager s1 n 1 0 "T" "T2" noDraws)

/-- The machine after `screen -s p` under `fcfsConfig`, the process drawing 3
instructions and 64 bytes. -/
def createdMachine : Machine := screenS (boot fcfsConfig) "p" 0 3 64 "t0"

/-- The machine `createdMachine` after the dequeue by the worker of core 1. -/
def tickedMachine : Machine := (cpuWorkerDequeue createdMachine 1).getD createdMachine

/-- The machine `tickedMachine` after an iteration of the worker of core 2,
which finds the queue empty. -/
def tickedIdle : Machine := (cpuWorkerDequeue tickedMachine 2).getD tickedMachine

/-! ## Runs of several threads -/

/-- The counters of `m1` are those of `m` after `k` events at most: `a`
iterations of workers that took a process, `i` that idled, `pin` page-ins of
which `pout` came with a page-out. -/
def CountedFrom (k : Nat) (m m1 : Machine) : Prop :=
  ∃ a i pin pout : Nat, a + i + pin ≤ k ∧ pout ≤ pin ∧
    m1.totalCpuTicks = Nat.iterate tick (a + i) m.totalCpuTicks ∧
    m1.activeCpuTicks = Nat.iterate tick a m.activeCpuTicks ∧
    m1.idleCpuTicks = Nat.iterate tick i m.idleCpuTicks ∧
    m1.st.pageInCount = Nat.iterate tick pin m.st.pageInCount ∧
    m1.st.pageOutCount = Nat.iterate tick pout m.st.pageOutCount

theorem mapErase_cons {κ ν : Type} [DecidableEq κ] (k : κ) (e : κ × ν) (m : List (κ × ν)) :
    mapErase k (e :: m) = if e.1 = k then mapErase k m else e :: mapErase k m := by
  unfold mapErase
  by_cases h : e.1 = k <;> simp [List.filter_cons, h]

theorem mapFind_erase {κ ν : Type} [DecidableEq κ] (k j : κ) (m : List (κ × ν)) :
    mapFind j (mapErase k m) = if j = k then none else mapFind j m := by
  induction m with
  | nil => simp [mapErase, mapFind]
  | cons e m ih =>
    rw [mapErase_cons]
    by_cases hek : e.1 = k
    · rw [if_pos hek, ih]
      by_cases hjk : j = k
      · simp [hjk]
      · have : ¬ e.1 = j := fun h => hjk (h ▸ hek)
        simp [hjk, mapFind, this]
    · rw [if_neg hek]
      simp only [mapFind]
      rw [ih]
      by_cases hej : e.1 = j
      · have : ¬ j = k := fun h => hek (hej.trans h)
        simp [hej, this]
      · simp [hej]

theorem mapFind_assign {κ ν : Type} [DecidableEq κ] (k j : κ) (v : ν) (m : List (κ × ν)) :
    mapFind j (mapAssign k v m) = if j = k then some v else mapFind j m := by
  unfold mapAssign
  by_cases hjk : j = k
  · simp [mapFind, hjk]
  · have : ¬ k = j := fun h => hjk h.symm
    simp [mapFind, hjk, this, mapFind_erase]

theorem mapErase_of_find_none {κ ν : Type} [DecidableEq κ] (k : κ) (m : List (κ × ν))
    (h : mapFind k m = none) : mapErase k m = m := by
  induction m with
  | nil => rfl
  | cons e m ih =>
    rw [mapErase_cons]
    by_cases hek : e.1 = k
    · simp [mapFind, hek] at h
    · simp [mapFind, hek] at h
      simp [hek, ih h]

/-! ## Lemmas on the frame scan and the queue -/

theorem firstFreeFrame_some {fs : List Frame} {i : Nat} (h : firstFreeFrame fs = some i) :
    ∃ f, fs[i]? = some f ∧ f.processId = -1 := by
  induction fs generalizing i with
  | nil => simp [firstFreeFrame] at h
  | cons f fs ih =>
    unfold firstFreeFrame at h
    by_cases hf : f.processId = -1
    · simp [hf] at h
      subst h
      exact ⟨f, by simp, hf⟩
    · simp [hf] at h
      obtain ⟨j, hj, rfl⟩ := h
      obtain ⟨g, hg, hg1⟩ := ih hj
      exact ⟨g, by simpa using hg, hg1⟩

theorem firstFreeFrame_none {fs : List Frame} :
    firstFreeFrame fs = none ↔ ∀ (i : Nat) (f : Frame), fs[i]? = some f → f.processId ≠ -1 := by
  induction fs with
  | nil => simp [firstFreeFrame]
  | cons f fs ih =>
    unfold firstFreeFrame
    by_cases hf : f.processId = -1
    · simp [hf]
      exact ⟨0, f, by simp, hf⟩
    · simp only [hf, if_false, Option.map_eq_none', ih]
      constructor
      · intro h i g hg
        cases i with
        | zero => simp at hg; subst hg; exact hf
        | succ j => simp at hg; exact h j g hg
      · intro h i g hg
        exact h (i + 1) g (by simpa using hg)

theorem drainQueue_eq (key : Int × Int) (q : List (Int × Int)) (b : Bool) (t : List (Int × Int)) :
    drainQueue key q b t = (b || decide (key ∈ q), t ++ q) := by
  induction q generalizing b t with
  | nil => simp [drainQueue]
  | cons x q ih =>
    unfold drainQueue
    rw [ih]
    by_cases hx : x = key
    · simp [hx]
    · have : ¬ key = x := fun h => hx h.symm
      simp [hx, this]

theorem requeue_eq (q : List (Int × Int)) (key : Int × Int) :
    requeue q key = if key ∈ q then q else q ++ [key] := by
  unfold requeue
  rw [drainQueue_eq]
  by_cases h : key ∈ q <;> simp [h]

/-! ## Lemmas on page-table updates -/

theorem setEntry_length (h : List Process) (p pn : Nat) (e : PageTableEntry) :
    (setEntry h p pn e).length = h.length := by
  unfold setEntry
  split <;> simp

theorem setEntry_getElem? (h : List Process) (p pn : Nat) (e : PageTableEntry) (q : Nat) :
    (setEntry h p pn e)[q]? =
      (h[q]?).map (fun pr => if q = p then { pr with pageTable := pr.pageTable.set pn e } else pr) := by
  unfold setEntry
  cases hp : h[p]? with
  | none =>
    by_cases hq : q = p
    · subst hq; simp [hp]
    · simp [hq]
  | some pr =>
    by_cases hq : q = p
    · subst hq
      have hlt : q < h.length := by
        rcases List.getElem?_eq_some.mp hp with ⟨hl, _⟩; exact hl
      simp [List.getElem?_set, hlt, hp]
    · have : ¬ p = q := fun h => hq h.symm
      simp [List.getElem?_set, this, hq]

theorem setEntry_id (h : List Process) (p pn : Nat) (e : PageTableEntry) (q : Nat) (pr : Process)
    (hq : (setEntry h p pn e)[q]? = some pr) : ∃ pr0, h[q]? = some pr0 ∧ pr.id = pr0.id := by
  rw [setEntry_getElem?] at hq
  cases h0 : h[q]? with
  | none => simp [h0] at hq
  | some pr0 =>
    simp [h0] at hq
    refine ⟨pr0, rfl, ?_⟩
    subst hq
    split <;> rfl

theorem entryOf_setEntry (h : List Process) (p pn : Nat) (e : PageTableEntry) (q qn : Nat) :
    entryOf (setEntry h p pn e) q qn =
      if q = p ∧ qn = pn ∧ (entryOf h p pn).isSome then some e else entryOf h q qn := by
  unfold entryOf
  rw [setEntry_getElem?]
  cases h0 : h[q]? with
  | none =>
    by_cases hq : q = p
    · subst hq
      simp [h0]
    · simp [hq]
  | some pr0 =>
    by_cases hq : q = p
    · subst hq
      simp [h0, List.getElem?_set]
      by_cases hn : qn = pn
      · subst hn
        by_cases hlt : qn < pr0.pageTable.length
        · simp [hlt]
        · simp [hlt]
          have : pr0.pageTable[qn]? = none := List.getElem?_eq_none (by omega)
          simp [this]
      · have : ¬ pn = qn := fun h => hn h.symm
        simp [hn, this]
    · simp [hq]

/-! ## Shape of the state after each branch -/

theorem keyOf_inj {p pn q qn : Nat} (h : keyOf p pn = keyOf q qn) : p = q ∧ pn = qn := by
  unfold keyOf at h
  have h1 := congrArg Prod.fst h
  have h2 := congrArg Prod.snd h
  simp at h1 h2
  exact ⟨h1, h2⟩

theorem claimFreeFrame_heap (s : State) (p : Nat) (pr : Process) (pg : Int) (i : Nat) :
    (claimFreeFrame s p pr pg i).heap =
      setEntry s.heap p pg.toNat { inMemory := true, frameIndex := (i : Int) } := by
  unfold claimFreeFrame
  dsimp only
  split <;> rfl

theorem claimFreeFrame_frames (s : State) (p : Nat) (pr : Process) (pg : Int) (i : Nat) :
    (claimFreeFrame s p pr pg i).physicalMemory =
      s.physicalMemory.set i
        { processId := pr.id
          pageNumber := pg
          data := (mapFind (pr.id, pg) s.backingStore).getD "" } := by
  unfold claimFreeFrame
  dsimp only
  split <;> rename_i h <;> simp [h]

theorem claimFreeFrame_store (s : State) (p : Nat) (pr : Process) (pg : Int) (i : Nat) :
    (claimFreeFrame s p pr pg i).backingStore = mapErase (pr.id, pg) s.backingStore := by
  unfold claimFreeFrame
  dsimp only
  split
  · rfl
  · rename_i h
    exact (mapErase_of_find_none _ _ h).symm

theorem claimFreeFrame_queue (s : State) (p : Nat) (pr : Process) (pg : Int) (i : Nat) :
    (claimFreeFrame s p pr pg i).pageLoadOrder = requeue s.pageLoadOrder (pr.id, pg) := by
  unfold claimFreeFrame
  dsimp only
  split <;> rfl

theorem claimFreeFrame_rest (s : State) (p : Nat) (pr : Process) (pg : Int) (i : Nat) :
    (claimFreeFrame s p pr pg i).processLookup = s.processLookup ∧
    (claimFreeFrame s p pr pg i).nextProcessID = s.nextProcessID ∧
    (claimFreeFrame s p pr pg i).backingFile = s.backingFile ∧
    (claimFreeFrame s p pr pg i).pageInCount = (s.pageInCount + 1) % 2 ^ 64 ∧
    (claimFreeFrame s p pr pg i).pageOutCount = s.pageOutCount ∧
    (claimFreeFrame s p pr pg i).processes = s.processes ∧
    (claimFreeFrame s p pr pg i).GLOBAL_CONFIG = s.GLOBAL_CONFIG := by
  unfold claimFreeFrame
  dsimp only
  split <;> simp

theorem replaceVictim_heap (s : State) (p : Nat) (pr : Process) (pg vpid vpg : Int) (ep : Nat)
    (vi : Int) (vf : Frame) :
    (replaceVictim s p pr pg vpid vpg ep vi vf).heap =
      setEntry (setEntry s.heap ep vpg.toNat { inMemory := false, frameIndex := -1 }) p pg.toNat
        { inMemory := true, frameIndex := vi } := by
  unfold replaceVictim syncBackingStoreToFile
  dsimp only
  split <;> rfl

theorem replaceVictim_frames (s : State) (p : Nat) (pr : Process) (pg vpid vpg : Int) (ep : Nat)
    (vi : Int) (vf : Frame) :
    (replaceVictim s p pr pg vpid vpg ep vi vf).physicalMemory =
      s.physicalMemory.set vi.toNat
        { processId := pr.id
          pageNumber := pg
          data := (mapFind (pr.id, pg) (mapAssign (vpid, vpg) vf.data s.backingStore)).getD "" } := by
  unfold replaceVictim syncBackingStoreToFile
  dsimp only
  split <;> rename_i h <;> simp [h]

theorem replaceVictim_store (s : State) (p : Nat) (pr : Process) (pg vpid vpg : Int) (ep : Nat)
    (vi : Int) (vf : Frame) :
    (replaceVictim s p pr pg vpid vpg ep vi vf).backingStore =
      mapErase (pr.id, pg) (mapAssign (vpid, vpg) vf.data s.backingStore) := by
  unfold replaceVictim syncBackingStoreToFile
  dsimp only
  split
  · rfl
  · rename_i h
    exact (mapErase_of_find_none _ _ h).symm

theorem replaceVictim_file (s : State) (p : Nat) (pr : Process) (pg vpid vpg : Int) (ep : Nat)
    (vi : Int) (vf : Frame) :
    (replaceVictim s p pr pg vpid vpg ep vi vf).backingFile =
      some ((replaceVictim s p pr pg vpid vpg ep vi vf).backingStore.map
        (fun e => (e.1.1, e.1.2, e.2))) := by
  unfold replaceVictim syncBackingStoreToFile
  dsimp only
  split <;> rfl

theorem replaceVictim_queue (s : State) (p : Nat) (pr : Process) (pg vpid vpg : Int) (ep : Nat)
    (vi : Int) (vf : Frame) :
    (replaceVictim s p pr pg vpid vpg ep vi vf).pageLoadOrder =
      requeue s.pageLoadOrder (pr.id, pg) := by
  unfold replaceVictim syncBackingStoreToFile
  dsimp only
  split <;> rfl

theorem replaceVictim_rest (s : State) (p : Nat) (pr : Process) (pg vpid vpg : Int) (ep : Nat)
    (vi : Int) (vf : Frame) :
    (replaceVictim s p pr pg vpid vpg ep vi vf).processLookup = s.processLookup ∧
    (replaceVictim s p pr pg vpid vpg ep vi vf).nextProcessID = s.nextProcessID ∧
    (replaceVictim s p pr pg vpid vpg ep vi vf).pageInCount = (s.pageInCount + 1) % 2 ^ 64 ∧
    (replaceVictim s p pr pg vpid vpg ep vi vf).pageOutCount = (s.pageOutCount + 1) % 2 ^ 64 ∧
    (replaceVictim s p pr pg vpid vpg ep vi vf).processes = s.processes ∧
    (replaceVictim s p pr pg vpid vpg ep vi vf).GLOBAL_CONFIG = s.GLOBAL_CONFIG := by
  unfold replaceVictim syncBackingStoreToFile
  dsimp only
  split <;> simp

theorem entryOf_of (s : State) (p pn : Nat) (pr : Process) (e : PageTableEntry)
    (hp : s.heap[p]? = some pr) (he : pr.pageTable[pn]? = some e) :
    entryOf s.heap p pn = some e := by
  simp [entryOf, hp, he]

theorem not_queued_of_not_resident {s : State} (hw : Wf s) {p pn : Nat} {e : PageTableEntry}
    (he : entryOf s.heap p pn = some e) (hnm : e.inMemory = false) :
    keyOf p pn ∉ s.pageLoadOrder := by
  intro hk
  obtain ⟨q, qn, ⟨e1, he1, hm1⟩, hkq⟩ := (hw.qRes _).mp hk
  obtain ⟨rfl, rfl⟩ := keyOf_inj hkq
  rw [he] at he1
  cases he1
  rw [hnm] at hm1
  cases hm1

theorem not_stored_of_resident {s : State} (hw : Wf s) {p pn : Nat} (hr : Resident s p pn) :
    mapFind (keyOf p pn) s.backingStore = none := by
  cases h : mapFind (keyOf p pn) s.backingStore with
  | none => rfl
  | some d =>
    obtain ⟨q, qn, e, hk, he, hm⟩ := hw.bsKeys _ d h
    obtain ⟨rfl, rfl⟩ := keyOf_inj hk
    obtain ⟨e1, he1, hm1⟩ := hr
    rw [he] at he1
    cases he1
    rw [hm] at hm1
    cases hm1

/-- Effect of the free-frame branch on a well-formed state. -/
theorem claim_spec {s : State} (hw : Wf s) {p pn i : Nat} {pr : Process}
    {e0 : PageTableEntry} (hp : s.heap[p]? = some pr) (he0 : pr.pageTable[pn]? = some e0)
    (hnm : e0.inMemory = false) (hi : firstFreeFrame s.physicalMemory = some i) :
    (∀ q qn, entryOf (claimFreeFrame s p pr (pn : Int) i).heap q qn =
      if q = p ∧ qn = pn then some { inMemory := true, frameIndex := (i : Int) }
      else entryOf s.heap q qn) ∧
    (∀ j, (claimFreeFrame s p pr (pn : Int) i).physicalMemory[j]? =
      if j = i then some ⟨(p : Int) + 1, (pn : Int), ""⟩ else s.physicalMemory[j]?) ∧
    (claimFreeFrame s p pr (pn : Int) i).pageLoadOrder = s.pageLoadOrder ++ [keyOf p pn] ∧
    (claimFreeFrame s p pr (pn : Int) i).backingStore = [] ∧ s.backingStore = [] := by
  have hid : pr.id = (p : Int) + 1 := hw.ids p pr hp
  have hent : entryOf s.heap p pn = some e0 := entryOf_of s p pn pr e0 hp he0
  obtain ⟨f0, hf0, hfree⟩ := firstFreeFrame_some hi
  have hilt : i < s.physicalMemory.length := (List.getElem?_eq_some.mp hf0).1
  have hkey : (pr.id, (pn : Int)) = keyOf p pn := by simp [keyOf, hid]
  have hnotq : keyOf p pn ∉ s.pageLoadOrder := not_queued_of_not_resident hw hent hnm
  have hbs : s.backingStore = [] := hw.bsFree (Or.inl (by simp [hi]))
  have hH := claimFreeFrame_heap s p pr (pn : Int) i
  have hF := claimFreeFrame_frames s p pr (pn : Int) i
  have hS := claimFreeFrame_store s p pr (pn : Int) i
  have hQ := claimFreeFrame_queue s p pr (pn : Int) i
  rw [Int.toNat_ofNat] at hH
  rw [hkey, requeue_eq, if_neg hnotq] at hQ
  rw [hbs] at hS hF
  simp only [mapErase, List.filter_nil] at hS
  simp only [mapFind, Option.getD_none, hid] at hF
  refine ⟨?_, ?_, hQ, hS, hbs⟩
  · intro q qn
    rw [hH, entryOf_setEntry, hent]
    simp
  · intro j
    rw [hF, List.getElem?_set]
    by_cases hj : i = j
    · subst hj; simp [hilt]
    · have : ¬ j = i := fun h => hj h.symm
      simp [hj, this]

theorem wf_claimFreeFrame {s : State} (hw : Wf s) {p pn i : Nat} {pr : Process}
    {e0 : PageTableEntry} (hp : s.heap[p]? = some pr) (he0 : pr.pageTable[pn]? = some e0)
    (hnm : e0.inMemory = false) (hi : firstFreeFrame s.physicalMemory = some i) :
    Wf (claimFreeFrame s p pr (pn : Int) i) := by
  obtain ⟨hE, hG, hQ, hS, -⟩ := claim_spec hw hp he0 hnm hi
  have hent : entryOf s.heap p pn = some e0 := entryOf_of s p pn pr e0 hp he0
  obtain ⟨f0, hf0, hfree⟩ := firstFreeFrame_some hi
  have hnotq : keyOf p pn ∉ s.pageLoadOrder := not_queued_of_not_resident hw hent hnm
  have hH := claimFreeFrame_heap s p pr (pn : Int) i
  obtain ⟨hL, hN, -, -, -, -, -⟩ := claimFreeFrame_rest s p pr (pn : Int) i
  generalize claimFreeFrame s p pr (pn : Int) i = t at hE hG hQ hS hH hL hN ⊢
  have hR : ∀ q qn, Resident t q qn ↔ ((q = p ∧ qn = pn) ∨ Resident s q qn) := by
    intro q qn
    unfold Resident
    rw [hE]
    by_cases hq : q = p ∧ qn = pn
    · simp [hq]
    · simp only [hq, if_false, false_or]
  refine ⟨?_, ?_, ?_, ?_, ?_, ?_, ?_, ?_, ?_, ?_⟩
  · intro q prq hq
    rw [hH] at hq
    obtain ⟨pr0, h0, hid0⟩ := setEntry_id _ _ _ _ _ _ hq
    rw [hid0]
    exact hw.ids q pr0 h0
  · rw [hN, hH, setEntry_length]
    exact hw.nextId
  · intro pid q
    rw [hL, hH, setEntry_length]
    exact hw.lookup pid q
  · intro q qn e he hm
    rw [hE] at he
    by_cases hq : q = p ∧ qn = pn
    · rw [if_pos hq] at he
      cases he
      obtain ⟨rfl, rfl⟩ := hq
      exact ⟨i, _, rfl, by rw [hG, if_pos rfl], rfl, rfl⟩
    · rw [if_neg hq] at he
      obtain ⟨j, f, hj, hf, hf1, hf2⟩ := hw.entFrame q qn e he hm
      have hji : j ≠ i := by
        rintro rfl
        rw [hf0] at hf
        cases hf
        omega
      exact ⟨j, f, hj, by rw [hG, if_neg hji]; exact hf, hf1, hf2⟩
  · intro q qn e he hm
    rw [hE] at he
    by_cases hq : q = p ∧ qn = pn
    · rw [if_pos hq] at he
      cases he
      cases hm
    · rw [if_neg hq] at he
      exact hw.entFree q qn e he hm
  · intro j f hf hne
    rw [hG] at hf
    by_cases hji : j = i
    · rw [if_pos hji] at hf
      cases hf
      exact ⟨p, pn, rfl, rfl, by rw [hE, if_pos ⟨rfl, rfl⟩, hji]⟩
    · rw [if_neg hji] at hf
      obtain ⟨q, qn, h1, h2, h3⟩ := hw.frameEnt j f hf hne
      refine ⟨q, qn, h1, h2, ?_⟩
      rw [hE]
      by_cases hq : q = p ∧ qn = pn
      · obtain ⟨rfl, rfl⟩ := hq
        rw [hent] at h3
        cases h3
        cases hnm
      · rw [if_neg hq]
        exact h3
  · rw [hQ]
    refine List.Nodup.append hw.qNodup (List.nodup_singleton _) ?_
    intro a ha hb
    rw [List.mem_singleton] at hb
    exact hnotq (hb ▸ ha)
  · intro k
    rw [hQ]
    simp only [List.mem_append, List.mem_singleton, hw.qRes]
    constructor
    · rintro (⟨q, qn, hr, hk⟩ | hk)
      · exact ⟨q, qn, (hR q qn).mpr (Or.inr hr), hk⟩
      · exact ⟨p, pn, (hR p pn).mpr (Or.inl ⟨rfl, rfl⟩), hk⟩
    · rintro ⟨q, qn, hr, hk⟩
      rcases (hR q qn).mp hr with ⟨rfl, rfl⟩ | hr
      · exact Or.inr hk
      · exact Or.inl ⟨q, qn, hr, hk⟩
  · intro k d hk
    rw [hS] at hk
    cases hk
  · intro _
    exact hS

theorem victim_facts {s : State} (hw : Wf s) {vpid vpg : Int} {rest : List (Int × Int)}
    (hq : s.pageLoadOrder = (vpid, vpg) :: rest) :
    ∃ (ep vpn vi : Nat) (evictedProc : Process) (ev : PageTableEntry) (vf : Frame),
      vpid = (ep : Int) + 1 ∧ vpg = (vpn : Int) ∧ mapFind vpid s.processLookup = some ep ∧
      s.heap[ep]? = some evictedProc ∧ evictedProc.pageTable[vpn]? = some ev ∧
      ev.inMemory = true ∧ ev.frameIndex = (vi : Int) ∧ s.physicalMemory[vi]? = some vf ∧
      vf.processId = (ep : Int) + 1 ∧ vf.pageNumber = (vpn : Int) := by
  have hmem : (vpid, vpg) ∈ s.pageLoadOrder := by rw [hq]; exact List.mem_cons_self _ _
  obtain ⟨ep, vpn, ⟨ev, hev, hm⟩, hk⟩ := (hw.qRes _).mp hmem
  have h1 : vpid = (ep : Int) + 1 := congrArg Prod.fst hk
  have h2 : vpg = (vpn : Int) := congrArg Prod.snd hk
  obtain ⟨vi, vf, hvi, hvf, hvf1, hvf2⟩ := hw.entFrame ep vpn ev hev hm
  unfold entryOf at hev
  cases hh : s.heap[ep]? with
  | none => rw [hh] at hev; cases hev
  | some evictedProc =>
    rw [hh] at hev
    have hlt : ep < s.heap.length := (List.getElem?_eq_some.mp hh).1
    simp only at hev
    exact ⟨ep, vpn, vi, evictedProc, ev, vf, h1, h2, (hw.lookup vpid ep).mpr ⟨hlt, h1⟩, hh, hev,
      hm, hvi, hvf, hvf1, hvf2⟩

/-- Effect of the eviction branch on a well-formed state. -/
theorem replace_spec {s : State} (hw : Wf s) {p pn ep vpn vi : Nat} {pr : Process}
    {e0 ev : PageTableEntry} {vf : Frame} {rest : List (Int × Int)}
    (hp : s.heap[p]? = some pr) (he0 : pr.pageTable[pn]? = some e0) (hnm : e0.inMemory = false)
    (hq : s.pageLoadOrder = keyOf ep vpn :: rest)
    (hev : entryOf s.heap ep vpn = some ev) (hevm : ev.inMemory = true)
    (hvf : s.physicalMemory[vi]? = some vf) (t : State)
    (ht : t = replaceVictim { s with pageLoadOrder := rest } p pr (pn : Int) ((ep : Int) + 1)
      (vpn : Int) ep (vi : Int) vf) :
    (∀ q qn, entryOf t.heap q qn =
      if q = p ∧ qn = pn then some { inMemory := true, frameIndex := (vi : Int) }
      else if q = ep ∧ qn = vpn then some { inMemory := false, frameIndex := -1 }
      else entryOf s.heap q qn) ∧
    (∀ j, t.physicalMemory[j]? =
      if j = vi then some ⟨(p : Int) + 1, (pn : Int), (mapFind (keyOf p pn) s.backingStore).getD ""⟩
      else s.physicalMemory[j]?) ∧
    t.pageLoadOrder = rest ++ [keyOf p pn] ∧
    (∀ k, mapFind k t.backingStore =
      if k = keyOf p pn then none else if k = keyOf ep vpn then some vf.data
      else mapFind k s.backingStore) ∧
    t.backingFile = some (t.backingStore.map (fun e => (e.1.1, e.1.2, e.2))) ∧
    ¬ (p = ep ∧ pn = vpn) := by
  have hid : pr.id = (p : Int) + 1 := hw.ids p pr hp
  have hent : entryOf s.heap p pn = some e0 := entryOf_of s p pn pr e0 hp he0
  have hvilt : vi < s.physicalMemory.length := (List.getElem?_eq_some.mp hvf).1
  have hkey : (pr.id, (pn : Int)) = keyOf p pn := by simp [keyOf, hid]
  have hvkey : (((ep : Int) + 1, (vpn : Int)) : Int × Int) = keyOf ep vpn := rfl
  have hnotq : keyOf p pn ∉ s.pageLoadOrder := not_queued_of_not_resident hw hent hnm
  have hnotr : keyOf p pn ∉ rest := fun h => hnotq (by rw [hq]; exact List.mem_cons_of_mem _ h)
  have hpv : ¬ (p = ep ∧ pn = vpn) := by
    rintro ⟨rfl, rfl⟩
    rw [hent] at hev
    cases hev
    rw [hnm] at hevm
    cases hevm
  have hkne : keyOf p pn ≠ keyOf ep vpn := fun h => hpv (keyOf_inj h)
  have hH := replaceVictim_heap { s with pageLoadOrder := rest } p pr (pn : Int) ((ep : Int) + 1)
    (vpn : Int) ep (vi : Int) vf
  have hF := replaceVictim_frames { s with pageLoadOrder := rest } p pr (pn : Int) ((ep : Int) + 1)
    (vpn : Int) ep (vi : Int) vf
  have hS := replaceVictim_store { s with pageLoadOrder := rest } p pr (pn : Int) ((ep : Int) + 1)
    (vpn : Int) ep (vi : Int) vf
  have hQ := replaceVictim_queue { s with pageLoadOrder := rest } p pr (pn : Int) ((ep : Int) + 1)
    (vpn : Int) ep (vi : Int) vf
  have hFile := replaceVictim_file { s with pageLoadOrder := rest } p pr (pn : Int)
    ((ep : Int) + 1) (vpn : Int) ep (vi : Int) vf
  rw [← ht] at hH hF hS hQ hFile
  dsimp only at hH hF hS hQ
  simp only [Int.toNat_ofNat] at hH hF
  rw [hkey, requeue_eq] at hQ
  simp only [if_neg hnotr] at hQ
  rw [hkey, hvkey] at hS hF
  rw [mapFind_assign, if_neg hkne] at hF
  refine ⟨?_, ?_, hQ, ?_, hFile, hpv⟩
  · intro q qn
    rw [hH, entryOf_setEntry, entryOf_setEntry, entryOf_setEntry, hev, hent]
    simp [hpv]
  · intro j
    rw [hF]
    simp only [List.getElem?_set]
    by_cases hj : vi = j
    · subst hj; simp [hvilt, hid]
    · have : ¬ j = vi := fun h => hj h.symm
      simp [hj, this]
  · intro k
    rw [hS, mapFind_erase, mapFind_assign]

theorem wf_replaceVictim {s : State} (hw : Wf s) {p pn ep vpn vi : Nat} {pr : Process}
    {e0 ev : PageTableEntry} {vf : Frame} {rest : List (Int × Int)}
    (hp : s.heap[p]? = some pr) (he0 : pr.pageTable[pn]? = some e0) (hnm : e0.inMemory = false)
    (hnone : firstFreeFrame s.physicalMemory = none)
    (hq : s.pageLoadOrder = keyOf ep vpn :: rest)
    (hev : entryOf s.heap ep vpn = some ev) (hevm : ev.inMemory = true)
    (hevi : ev.frameIndex = (vi : Int)) (hvf : s.physicalMemory[vi]? = some vf)
    (hvf1 : vf.processId = (ep : Int) + 1) (hvf2 : vf.pageNumber = (vpn : Int)) :
    Wf (replaceVictim { s with pageLoadOrder := rest } p pr (pn : Int) ((ep : Int) + 1)
      (vpn : Int) ep (vi : Int) vf) := by
  obtain ⟨hE, hG, hQ, hB, -, hpv⟩ := replace_spec hw hp he0 hnm hq hev hevm hvf _ rfl
  have hent : entryOf s.heap p pn = some e0 := entryOf_of s p pn pr e0 hp he0
  have hvilt : vi < s.physicalMemory.length := (List.getElem?_eq_some.mp hvf).1
  have hnotq : keyOf p pn ∉ s.pageLoadOrder := not_queued_of_not_resident hw hent hnm
  have hnotr : keyOf p pn ∉ rest := fun h => hnotq (by rw [hq]; exact List.mem_cons_of_mem _ h)
  have hnd := hw.qNodup
  rw [hq, List.nodup_cons] at hnd
  have hH := replaceVictim_heap { s with pageLoadOrder := rest } p pr (pn : Int) ((ep : Int) + 1)
    (vpn : Int) ep (vi : Int) vf
  obtain ⟨hL, hN, -, -, -, -⟩ := replaceVictim_rest { s with pageLoadOrder := rest } p pr
    (pn : Int) ((ep : Int) + 1) (vpn : Int) ep (vi : Int) vf
  generalize replaceVictim { s with pageLoadOrder := rest } p pr (pn : Int) ((ep : Int) + 1)
    (vpn : Int) ep (vi : Int) vf = t at hE hG hQ hB hH hL hN ⊢
  dsimp only at hH hL hN
  simp only [Int.toNat_ofNat] at hH
  have hR : ∀ q qn, Resident t q qn ↔
      ((q = p ∧ qn = pn) ∨ (Resident s q qn ∧ ¬ (q = ep ∧ qn = vpn))) := by
    intro q qn
    unfold Resident
    rw [hE]
    by_cases hq1 : q = p ∧ qn = pn
    · simp [hq1]
    · by_cases hq2 : q = ep ∧ qn = vpn
      · rw [if_neg hq1, if_pos hq2]
        simp [hq1, hq2]
        intro h1 h2
        exact hpv ⟨h1.symm, h2.symm⟩
      · simp only [hq1, hq2, if_false, false_or, not_false_eq_true, and_true]
  refine ⟨?_, ?_, ?_, ?_, ?_, ?_, ?_, ?_, ?_, ?_⟩
  · intro q prq hq0
    rw [hH] at hq0
    obtain ⟨pr1, h1, hid1⟩ := setEntry_id _ _ _ _ _ _ hq0
    obtain ⟨pr0, h0, hid0⟩ := setEntry_id _ _ _ _ _ _ h1
    rw [hid1, hid0]
    exact hw.ids q pr0 h0
  · rw [hN, hH, setEntry_length, setEntry_length]
    exact hw.nextId
  · intro pid q
    rw [hL, hH, setEntry_length, setEntry_length]
    exact hw.lookup pid q
  · intro q qn e he hm
    rw [hE] at he
    by_cases hq1 : q = p ∧ qn = pn
    · rw [if_pos hq1] at he
      cases he
      obtain ⟨rfl, rfl⟩ := hq1
      exact ⟨vi, _, rfl, by rw [hG, if_pos rfl], rfl, rfl⟩
    · rw [if_neg hq1] at he
      by_cases hq2 : q = ep ∧ qn = vpn
      · rw [if_pos hq2] at he
        cases he
        cases hm
      · rw [if_neg hq2] at he
        obtain ⟨j, f, hj, hf, hf1, hf2⟩ := hw.entFrame q qn e he hm
        have hji : j ≠ vi := by
          rintro rfl
          rw [hvf] at hf
          cases hf
          exact hq2 ⟨by omega, by omega⟩
        exact ⟨j, f, hj, by rw [hG, if_neg hji]; exact hf, hf1, hf2⟩
  · intro q qn e he hm
    rw [hE] at he
    by_cases hq1 : q = p ∧ qn = pn
    · rw [if_pos hq1] at he
      cases he
      cases hm
    · rw [if_neg hq1] at he
      by_cases hq2 : q = ep ∧ qn = vpn
      · rw [if_pos hq2] at he
        cases he
        rfl
      · rw [if_neg hq2] at he
        exact hw.entFree q qn e he hm
  · intro j f hf hne
    rw [hG] at hf
    by_cases hji : j = vi
    · rw [if_pos hji] at hf
      cases hf
      exact ⟨p, pn, rfl, rfl, by rw [hE, if_pos ⟨rfl, rfl⟩, hji]⟩
    · rw [if_neg hji] at hf
      obtain ⟨q, qn, h1, h2, h3⟩ := hw.frameEnt j f hf hne
      refine ⟨q, qn, h1, h2, ?_⟩
      rw [hE]
      by_cases hq1 : q = p ∧ qn = pn
      · obtain ⟨rfl, rfl⟩ := hq1
        rw [hent] at h3
        cases h3
        cases hnm
      · rw [if_neg hq1]
        by_cases hq2 : q = ep ∧ qn = vpn
        · obtain ⟨rfl, rfl⟩ := hq2
          rw [hev] at h3
          cases h3
          simp at hevi
          exact absurd hevi hji
        · rw [if_neg hq2]
          exact h3
  · rw [hQ]
    refine List.Nodup.append hnd.2 (List.nodup_singleton _) ?_
    intro a ha hb
    rw [List.mem_singleton] at hb
    exact hnotr (hb ▸ ha)
  · intro k
    rw [hQ]
    simp only [List.mem_append, List.mem_singleton]
    have hrest : k ∈ rest ↔ (k ∈ s.pageLoadOrder ∧ k ≠ keyOf ep vpn) := by
      rw [hq, List.mem_cons]
      constructor
      · intro h
        exact ⟨Or.inr h, fun hk => hnd.1 (hk ▸ h)⟩
      · rintro ⟨h | h, hne⟩
        · exact absurd h hne
        · exact h
    rw [hrest, hw.qRes]
    constructor
    · rintro (⟨⟨q, qn, hr, hk⟩, hne⟩ | hk)
      · refine ⟨q, qn, (hR q qn).mpr (Or.inr ⟨hr, ?_⟩), hk⟩
        rintro ⟨rfl, rfl⟩
        exact hne hk
      · exact ⟨p, pn, (hR p pn).mpr (Or.inl ⟨rfl, rfl⟩), hk⟩
    · rintro ⟨q, qn, hr, hk⟩
      rcases (hR q qn).mp hr with ⟨rfl, rfl⟩ | ⟨hr, hne⟩
      · exact Or.inr hk
      · refine Or.inl ⟨⟨q, qn, hr, hk⟩, ?_⟩
        intro h
        exact hne (keyOf_inj (hk ▸ h))
  · intro k d hk
    rw [hB] at hk
    by_cases h1 : k = keyOf p pn
    · rw [if_pos h1] at hk
      cases hk
    · rw [if_neg h1] at hk
      by_cases h2 : k = keyOf ep vpn
      · refine ⟨ep, vpn, { inMemory := false, frameIndex := -1 }, h2, ?_, rfl⟩
        rw [hE, if_neg (fun h => hpv ⟨h.1.symm, h.2.symm⟩), if_pos ⟨rfl, rfl⟩]
      · rw [if_neg h2] at hk
        obtain ⟨q, qn, e, hkq, he, hm⟩ := hw.bsKeys k d hk
        refine ⟨q, qn, e, hkq, ?_, hm⟩
        rw [hE]
        have hq1 : ¬ (q = p ∧ qn = pn) := by
          rintro ⟨rfl, rfl⟩
          exact h1 hkq
        have hq2 : ¬ (q = ep ∧ qn = vpn) := by
          rintro ⟨rfl, rfl⟩
          exact h2 hkq
        rw [if_neg hq1, if_neg hq2]
        exact he
  · intro hfree
    exfalso
    rcases hfree with hfree | hfree
    · apply hfree
      rw [firstFreeFrame_none]
      intro j f hf
      rw [hG] at hf
      by_cases hji : j = vi
      · rw [if_pos hji] at hf
        cases hf
        show (p : Int) + 1 ≠ -1
        omega
      · rw [if_neg hji] at hf
        exact (firstFreeFrame_none.mp hnone) j f hf
    · have h := hG vi
      rw [if_pos rfl, hfree] at h
      cases h

/-- A call on a null or valid process pointer in a well-formed state has defined
behaviour and follows one of the three cases. -/
theorem load_spec {s : State} (hw : Wf s) (proc : Option Nat) (pg : Int)
    (hv : ∀ p, proc = some p → p < s.heap.length) :
    ∃ b t, loadPageIfNotInMemory s proc pg = some (b, t) ∧ LoadCases s t proc pg b := by
  cases proc with
  | none => exact ⟨false, s, rfl, Or.inl ⟨rfl, by simp, by simp⟩⟩
  | some p =>
    have hplt := hv p rfl
    obtain ⟨pr, hp⟩ : ∃ pr, s.heap[p]? = some pr := ⟨s.heap[p], List.getElem?_eq_getElem hplt⟩
    by_cases hr : pg < 0 ∨ pg ≥ (pr.pageTable.length : Int)
    · refine ⟨false, s, ?_, Or.inl ⟨rfl, by simp, fun _ => Or.inr (Or.inl ⟨p, pr, rfl, hp, hr⟩)⟩⟩
      unfold loadPageIfNotInMemory
      simp only [hp, if_pos hr]
    · obtain ⟨pn, rfl⟩ : ∃ pn : Nat, pg = (pn : Int) := ⟨pg.toNat, by omega⟩
      have hpnlt : pn < pr.pageTable.length := by omega
      obtain ⟨e0, he0⟩ : ∃ e0, pr.pageTable[pn]? = some e0 :=
        ⟨pr.pageTable[pn], List.getElem?_eq_getElem hpnlt⟩
      cases hm : e0.inMemory with
      | true =>
        refine ⟨true, s, ?_, Or.inl ⟨rfl,
          fun _ => ⟨p, pn, rfl, rfl, e0, entryOf_of s p pn pr e0 hp he0, hm⟩, by simp⟩⟩
        unfold loadPageIfNotInMemory
        simp only [hp, if_neg hr, Int.toNat_ofNat, he0, hm, if_true]
      | false =>
        cases hi : firstFreeFrame s.physicalMemory with
        | some i =>
          refine ⟨true, claimFreeFrame s p pr (pn : Int) i, ?_,
            Or.inr (Or.inl ⟨p, pn, i, pr, e0, rfl, rfl, hp, he0, hm, hi, rfl, rfl⟩)⟩
          unfold loadPageIfNotInMemory
          simp only [hp, if_neg hr, Int.toNat_ofNat, he0, hm, Bool.false_eq_true, if_false, hi]
        | none =>
          cases hq : s.pageLoadOrder with
          | nil =>
            refine ⟨false, s, ?_, Or.inl ⟨rfl, by simp, fun _ => Or.inr (Or.inr ⟨hi, hq⟩)⟩⟩
            unfold loadPageIfNotInMemory evictAndLoad
            simp only [hp, if_neg hr, Int.toNat_ofNat, he0, hm, Bool.false_eq_true, if_false, hi,
              hq]
          | cons v rest =>
            obtain ⟨vpid, vpg⟩ := v
            obtain ⟨ep, vpn, vi, evictedProc, ev, vf, h1, h2, h3, h4, h5, h6, h7, h8, h9, h10⟩ :=
              victim_facts hw hq
            subst h1 h2
            have hnn : ¬ ((vpn : Int) < 0) := by omega
            have hnn2 : ¬ (ev.frameIndex < 0) := by omega
            refine ⟨true, replaceVictim { s with pageLoadOrder := rest } p pr (pn : Int)
              ((ep : Int) + 1) (vpn : Int) ep (vi : Int) vf, ?_,
              Or.inr (Or.inr ⟨p, pn, ep, vpn, vi, pr, e0, ev, vf, rest, rfl, rfl,
              hp, he0, hm, hi, hq, by simp [entryOf, h4, h5], h6, h7, h8, h9, h10, rfl, rfl⟩)⟩
            unfold loadPageIfNotInMemory evictAndLoad
            simp only [hp, if_neg hr, Int.toNat_ofNat, he0, hm, Bool.false_eq_true, if_false, hi,
              hq, h3, h4, if_neg hnn, h5, if_neg hnn2, h7, h8]
            rw [if_neg (by omega)]

theorem load_valid {s t : State} {proc : Option Nat} {pg : Int} {b : Bool}
    (hl : loadPageIfNotInMemory s proc pg = some (b, t)) :
    ∀ p, proc = some p → p < s.heap.length := by
  intro p hp
  subst hp
  unfold loadPageIfNotInMemory at hl
  by_contra hlt
  have : s.heap[p]? = none := List.getElem?_eq_none (by omega)
  simp [this] at hl

theorem load_cases {s t : State} {proc : Option Nat} {pg : Int} {b : Bool} (hw : Wf s)
    (hl : loadPageIfNotInMemory s proc pg = some (b, t)) : LoadCases s t proc pg b := by
  obtain ⟨b0, t0, h0, hc⟩ := load_spec hw proc pg (load_valid hl)
  rw [h0] at hl
  simp only [Option.some.injEq, Prod.mk.injEq] at hl
  obtain ⟨rfl, rfl⟩ := hl
  exact hc

theorem wf_load {s t : State} {proc : Option Nat} {pg : Int} {b : Bool} (hw : Wf s)
    (hl : loadPageIfNotInMemory s proc pg = some (b, t)) : Wf t := by
  rcases load_cases hw hl with ⟨rfl, -, -⟩ | ⟨p, pn, i, pr, e0, -, -, hp, he0, hm, hi, -, rfl⟩ |
    ⟨p, pn, ep, vpn, vi, pr, e0, ev, vf, rest, -, -, hp, he0, hm, hi, hq, hev, hevm, hevi, hvf,
      hvf1, hvf2, -, rfl⟩
  · exact hw
  · exact wf_claimFreeFrame hw hp he0 hm hi
  · exact wf_replaceVictim hw hp he0 hm hi hq hev hevm hevi hvf hvf1 hvf2

theorem wf_init (cfg : SystemConfig) : Wf (initState cfg) := by
  have hE : ∀ q qn, entryOf (initState cfg).heap q qn = none := by
    intro q qn
    simp [entryOf, initState]
  have hR : ∀ q qn, ¬ Resident (initState cfg) q qn := by
    rintro q qn ⟨e, he, -⟩
    rw [hE] at he
    cases he
  refine ⟨?_, ?_, ?_, ?_, ?_, ?_, ?_, ?_, ?_, ?_⟩
  · intro p pr h
    simp [initState] at h
  · simp [initState]
  · intro pid p
    simp [initState, mapFind]
  · intro p pn e he
    rw [hE] at he
    cases he
  · intro p pn e he
    rw [hE] at he
    cases he
  · intro i f hf hne
    exfalso
    apply hne
    simp only [initState, List.getElem?_replicate] at hf
    split at hf
    · cases hf
      rfl
    · cases hf
  · simp [initState]
  · intro k
    constructor
    · intro h
      simp [initState] at h
    · rintro ⟨p, pn, hr, -⟩
      exact absurd hr (hR p pn)
  · intro k d h
    simp [initState, mapFind] at h
  · intro _
    rfl

theorem entryOf_append (h : List Process) (pr : Process) (q qn : Nat) :
    entryOf (h ++ [pr]) q qn =
      if q < h.length then entryOf h q qn
      else if q = h.length then pr.pageTable[qn]? else none := by
  unfold entryOf
  by_cases h1 : q < h.length
  · rw [List.getElem?_append_left h1, if_pos h1]
  · rw [if_neg h1]
    by_cases h2 : q = h.length
    · subst h2
      simp
    · rw [if_neg h2]
      have : (h ++ [pr])[q]? = none := List.getElem?_eq_none (by simp; omega)
      rw [this]

theorem entryOf_lt {h : List Process} {q qn : Nat} {e : PageTableEntry}
    (he : entryOf h q qn = some e) : q < h.length := by
  unfold entryOf at he
  by_contra hlt
  have : h[q]? = none := List.getElem?_eq_none (by omega)
  rw [this] at he
  cases he

theorem wf_addProcess {s t : State} (hw : Wf s) (np : Process) (hid : np.id = s.nextProcessID)
    (hpt : ∀ (qn : Nat) (e : PageTableEntry), np.pageTable[qn]? = some e →
      e = { inMemory := false, frameIndex := -1 })
    (hH : t.heap = s.heap ++ [np])
    (hL : t.processLookup = mapAssign s.nextProcessID s.heap.length s.processLookup)
    (hN : t.nextProcessID = s.nextProcessID + 1) (hF : t.physicalMemory = s.physicalMemory)
    (hQ : t.pageLoadOrder = s.pageLoadOrder) (hS : t.backingStore = s.backingStore) : Wf t := by
  have hE : ∀ q qn e, entryOf s.heap q qn = some e → entryOf t.heap q qn = some e := by
    intro q qn e he
    rw [hH, entryOf_append, if_pos (entryOf_lt he)]
    exact he
  have hE2 : ∀ q qn e, entryOf t.heap q qn = some e →
      entryOf s.heap q qn = some e ∨ e = { inMemory := false, frameIndex := -1 } := by
    intro q qn e he
    rw [hH, entryOf_append] at he
    by_cases h1 : q < s.heap.length
    · rw [if_pos h1] at he
      exact Or.inl he
    · rw [if_neg h1] at he
      by_cases h2 : q = s.heap.length
      · rw [if_pos h2] at he
        exact Or.inr (hpt qn e he)
      · rw [if_neg h2] at he
        cases he
  have hR : ∀ q qn, Resident t q qn ↔ Resident s q qn := by
    intro q qn
    constructor
    · rintro ⟨e, he, hm⟩
      rcases hE2 q qn e he with h | h
      · exact ⟨e, h, hm⟩
      · subst h
        cases hm
    · rintro ⟨e, he, hm⟩
      exact ⟨e, hE q qn e he, hm⟩
  have hnext := hw.nextId
  refine ⟨?_, ?_, ?_, ?_, ?_, ?_, ?_, ?_, ?_, ?_⟩
  · intro q prq hq
    rw [hH, List.getElem?_append] at hq
    by_cases h1 : q < s.heap.length
    · rw [if_pos h1] at hq
      exact hw.ids q prq hq
    · rw [if_neg h1] at hq
      have hq0 : q - s.heap.length = 0 := by
        by_contra hne
        have : [np][q - s.heap.length]? = none := List.getElem?_eq_none (by simp; omega)
        rw [this] at hq
        cases hq
      rw [hq0] at hq
      simp at hq
      subst hq
      rw [hid, hnext]
      have : q = s.heap.length := by omega
      rw [this]
  · rw [hN, hH, hnext]
    simp
  · intro pid q
    rw [hL, mapFind_assign, hH]
    simp only [List.length_append, List.length_singleton]
    by_cases h1 : pid = s.nextProcessID
    · rw [if_pos h1]
      constructor
      · intro h
        cases h
        exact ⟨by omega, by rw [h1, hnext]⟩
      · rintro ⟨-, h⟩
        rw [h1, hnext] at h
        have : q = s.heap.length := by omega
        rw [this]
    · rw [if_neg h1, hw.lookup]
      constructor
      · rintro ⟨h2, h3⟩
        exact ⟨by omega, h3⟩
      · rintro ⟨h2, h3⟩
        refine ⟨?_, h3⟩
        by_contra hge
        apply h1
        rw [h3, hnext]
        have : q = s.heap.length := by omega
        rw [this]
  · intro q qn e he hm
    rcases hE2 q qn e he with h | h
    · rw [hF]
      exact hw.entFrame q qn e h hm
    · subst h
      cases hm
  · intro q qn e he hm
    rcases hE2 q qn e he with h | h
    · exact hw.entFree q qn e h hm
    · subst h
      rfl
  · intro i f hf hne
    rw [hF] at hf
    obtain ⟨q, qn, h1, h2, h3⟩ := hw.frameEnt i f hf hne
    exact ⟨q, qn, h1, h2, hE q qn _ h3⟩
  · rw [hQ]
    exact hw.qNodup
  · intro k
    rw [hQ, hw.qRes]
    constructor
    · rintro ⟨q, qn, hr, hk⟩
      exact ⟨q, qn, (hR q qn).mpr hr, hk⟩
    · rintro ⟨q, qn, hr, hk⟩
      exact ⟨q, qn, (hR q qn).mp hr, hk⟩
  · intro k d hk
    rw [hS] at hk
    obtain ⟨q, qn, e, h1, h2, h3⟩ := hw.bsKeys k d hk
    exact ⟨q, qn, e, h1, hE q qn e h2, h3⟩
  · rw [hF, hS]
    exact hw.bsFree

theorem wf_create {s : State} (hw : Wf s) (name : String) (cpuBurst memSize : Nat) (ts : String) :
    Wf (createProcess s name cpuBurst memSize ts) := by
  unfold createProcess
  split
  · exact hw
  · refine wf_addProcess hw _ rfl ?_ rfl rfl rfl rfl rfl rfl
    intro qn e he
    simp only [List.getElem?_replicate] at he
    split at he
    · cases he
      rfl
    · cases he

theorem firstFreeFrame_set_data (fs : List Frame) (f : Nat) (fr : Frame) (d : String)
    (h : fs[f]? = some fr) :
    firstFreeFrame (fs.set f { fr with data := d }) = firstFreeFrame fs := by
  induction fs generalizing f with
  | nil => rfl
  | cons g gs ih =>
    cases f with
    | zero =>
      simp at h
      subst h
      simp [firstFreeFrame]
    | succ f =>
      simp at h
      simp [firstFreeFrame, ih f h]

theorem wf_write {s : State} (hw : Wf s) (f : Nat) (str : String) :
    Wf (appendFrameData s f str) := by
  unfold appendFrameData
  cases hf : s.physicalMemory[f]? with
  | none => exact hw
  | some fr =>
    dsimp only
    have hflt : f < s.physicalMemory.length := (List.getElem?_eq_some.mp hf).1
    have hG : ∀ (j : Nat) (g : Frame), (s.physicalMemory.set f { fr with data := fr.data ++ str })[j]? = some g →
        ∃ g0 : Frame, s.physicalMemory[j]? = some g0 ∧ g.processId = g0.processId ∧
          g.pageNumber = g0.pageNumber := by
      intro j g hg
      rw [List.getElem?_set] at hg
      by_cases hj : f = j
      · subst hj
        simp [hflt] at hg
        subst hg
        exact ⟨fr, hf, rfl, rfl⟩
      · rw [if_neg hj] at hg
        exact ⟨g, hg, rfl, rfl⟩
    have hG2 : ∀ (j : Nat) (g0 : Frame), s.physicalMemory[j]? = some g0 →
        ∃ g : Frame, (s.physicalMemory.set f { fr with data := fr.data ++ str })[j]? = some g ∧
          g.processId = g0.processId ∧ g.pageNumber = g0.pageNumber := by
      intro j g0 hg
      rw [List.getElem?_set]
      by_cases hj : f = j
      · subst hj
        rw [hf] at hg
        cases hg
        simp [hflt]
      · rw [if_neg hj]
        exact ⟨g0, hg, rfl, rfl⟩
    refine ⟨hw.ids, hw.nextId, hw.lookup, ?_, hw.entFree, ?_, hw.qNodup, hw.qRes, hw.bsKeys, ?_⟩
    · intro q qn e he hm
      obtain ⟨i, g0, h1, h2, h3, h4⟩ := hw.entFrame q qn e he hm
      obtain ⟨g, hg, hg1, hg2⟩ := hG2 i g0 h2
      exact ⟨i, g, h1, hg, hg1 ▸ h3, hg2 ▸ h4⟩
    · intro i g hg hne
      obtain ⟨g0, hg0, hg1, hg2⟩ := hG i g hg
      rw [hg1] at hne
      rw [hg1, hg2]
      exact hw.frameEnt i g0 hg0 hne
    · intro h
      apply hw.bsFree
      rw [firstFreeFrame_set_data _ _ _ _ hf] at h
      rcases h with h | h
      · exact Or.inl h
      · exfalso
        have := congrArg List.length h
        rw [List.length_set] at this
        simp only [List.length_nil] at this
        omega

theorem wf_of_reach {s : State} {log : List (List Event)} (h : Reach s log) : Wf s := by
  induction h with
  | init cfg _ => exact wf_init cfg
  | create name cpuBurst memSize ts _ ih => exact wf_create ih name cpuBurst memSize ts
  | load proc pg b _ hl ih => exact wf_load ih hl
  | write f str _ ih => exact wf_write ih f str

/-! ## Events and the history invariant -/

theorem mem_residentFrom (pid : Int) (n : Nat) (es : List PageTableEntry) (k : Int × Int) :
    k ∈ residentFrom pid n es ↔
      ∃ (j : Nat) (e : PageTableEntry), es[j]? = some e ∧ e.inMemory = true ∧
        k = (pid, ((n + j : Nat) : Int)) := by
  induction es generalizing n with
  | nil => simp [residentFrom]
  | cons e es ih =>
    unfold residentFrom
    constructor
    · intro h
      by_cases hm : e.inMemory = true
      · rw [if_pos hm, List.mem_cons] at h
        rcases h with h | h
        · exact ⟨0, e, by simp, hm, by simpa using h⟩
        · obtain ⟨j, e1, h1, h2, h3⟩ := (ih (n + 1)).mp h
          exact ⟨j + 1, e1, by simpa using h1, h2, by rw [h3]; congr 2; omega⟩
      · rw [if_neg hm] at h
        obtain ⟨j, e1, h1, h2, h3⟩ := (ih (n + 1)).mp h
        exact ⟨j + 1, e1, by simpa using h1, h2, by rw [h3]; congr 2; omega⟩
    · rintro ⟨j, e1, h1, h2, h3⟩
      cases j with
      | zero =>
        simp at h1
        subst h1
        rw [if_pos h2, h3]
        simp
      | succ j =>
        simp at h1
        have : k ∈ residentFrom pid (n + 1) es :=
          (ih (n + 1)).mpr ⟨j, e1, h1, h2, by rw [h3]; congr 2; omega⟩
        split
        · exact List.mem_cons_of_mem _ this
        · exact this

theorem mem_residentKeys {s : State} (hw : Wf s) (k : Int × Int) :
    k ∈ residentKeys s ↔ k ∈ s.pageLoadOrder := by
  rw [hw.qRes]
  unfold residentKeys
  rw [List.mem_flatMap]
  constructor
  · rintro ⟨pr, hpr, hk⟩
    obtain ⟨p, hp⟩ := List.mem_iff_getElem?.mp hpr
    obtain ⟨j, e, h1, h2, h3⟩ := (mem_residentFrom _ _ _ _).mp hk
    refine ⟨p, j, ⟨e, entryOf_of s p j pr e hp h1, h2⟩, ?_⟩
    rw [h3, hw.ids p pr hp]
    simp [keyOf]
  · rintro ⟨p, pn, ⟨e, he, hm⟩, hk⟩
    unfold entryOf at he
    cases hp : s.heap[p]? with
    | none => rw [hp] at he; cases he
    | some pr =>
      rw [hp] at he
      refine ⟨pr, List.mem_iff_getElem?.mpr ⟨p, hp⟩, ?_⟩
      rw [mem_residentFrom]
      refine ⟨pn, e, he, hm, ?_⟩
      rw [hk, hw.ids p pr hp]
      simp [keyOf]

theorem pageIn_mem {s t : State} (hs : Wf s) (ht : Wf t) (k : Int × Int) :
    Event.pageIn k ∈ stepEvents s t ↔ (k ∈ t.pageLoadOrder ∧ k ∉ s.pageLoadOrder) := by
  unfold stepEvents
  simp [List.mem_append, List.mem_map, List.mem_filter, mem_residentKeys hs, mem_residentKeys ht]

theorem pageOut_mem {s t : State} (hs : Wf s) (ht : Wf t) (k : Int × Int) :
    Event.pageOut k ∈ stepEvents s t ↔ (k ∈ s.pageLoadOrder ∧ k ∉ t.pageLoadOrder) := by
  unfold stepEvents
  simp [List.mem_append, List.mem_map, List.mem_filter, mem_residentKeys hs, mem_residentKeys ht]

theorem lastLoad_le (log : List (List Event)) (k : Int × Int) : lastLoad log k ≤ log.length := by
  induction log with
  | nil => simp [lastLoad]
  | cons evs log ih =>
    unfold lastLoad
    split
    · simp
    · simp only [List.length_cons]
      omega

theorem hist_init (cfg : SystemConfig) : Hist (initState cfg) [] := by
  refine ⟨?_, ?_, ?_, ?_, ?_⟩
  · simp [initState]
  · intro k hk
    simp [initState] at hk
  · intro _ evs hevs
    cases hevs
  · rintro ⟨evs, hevs, -⟩
    cases hevs
  · intro k d hk
    simp [initState, mapFind] at hk

theorem hist_create {s : State} {log : List (List Event)} (hh : Hist s log) (name : String)
    (cpuBurst memSize : Nat) (ts : String) : Hist (createProcess s name cpuBurst memSize ts) log := by
  unfold createProcess
  split
  · exact hh
  · exact ⟨hh.order, hh.loaded, hh.noOut, hh.file, hh.stored⟩

theorem hist_write {s : State} {log : List (List Event)} (hh : Hist s log) (f : Nat)
    (str : String) : Hist (appendFrameData s f str) log := by
  unfold appendFrameData
  cases hf : s.physicalMemory[f]? with
  | none => exact hh
  | some fr =>
    refine ⟨hh.order, hh.loaded, ?_, hh.file, hh.stored⟩
    intro h
    apply hh.noOut
    dsimp only at h
    rw [firstFreeFrame_set_data _ _ _ _ hf] at h
    exact h

theorem lastLoad_cons_of_not_in {evs : List Event} {log : List (List Event)} {k : Int × Int}
    (h : Event.pageIn k ∉ evs) : lastLoad (evs :: log) k = lastLoad log k := by
  simp [lastLoad, h]

theorem lastLoad_cons_of_in {evs : List Event} {log : List (List Event)} {k : Int × Int}
    (h : Event.pageIn k ∈ evs) : lastLoad (evs :: log) k = log.length + 1 := by
  simp [lastLoad, h]

/-- History step for a call that appends `key` to the queue `q0` it kept
(`q0` is the whole old queue, or the old queue without its head). -/
theorem hist_queue_step {s t : State} {log : List (List Event)} (hh : Hist s log)
    (hs : Wf s) (ht : Wf t) {key : Int × Int} {q0 : List (Int × Int)}
    (hsub : ∀ k, k ∈ q0 → k ∈ s.pageLoadOrder) (hpw : q0.Sublist s.pageLoadOrder)
    (hkey : key ∉ s.pageLoadOrder) (hQ : t.pageLoadOrder = q0 ++ [key]) :
    t.pageLoadOrder.Pairwise
      (fun a b => lastLoad (stepEvents s t :: log) a < lastLoad (stepEvents s t :: log) b) ∧
    ∀ k, k ∈ t.pageLoadOrder → 0 < lastLoad (stepEvents s t :: log) k := by
  have hin : ∀ k, Event.pageIn k ∈ stepEvents s t ↔ k = key := by
    intro k
    rw [pageIn_mem hs ht, hQ, List.mem_append, List.mem_singleton]
    constructor
    · rintro ⟨h1 | h1, h2⟩
      · exact absurd (hsub k h1) h2
      · exact h1
    · rintro rfl
      exact ⟨Or.inr rfl, hkey⟩
  have hold : ∀ k, k ∈ q0 → lastLoad (stepEvents s t :: log) k = lastLoad log k := by
    intro k hk
    apply lastLoad_cons_of_not_in
    rw [hin]
    rintro rfl
    exact hkey (hsub _ hk)
  have hnew : lastLoad (stepEvents s t :: log) key = log.length + 1 :=
    lastLoad_cons_of_in ((hin key).mpr rfl)
  constructor
  · rw [hQ, List.pairwise_append]
    refine ⟨?_, List.pairwise_singleton _ _, ?_⟩
    · have h0 : q0.Pairwise (fun a b => lastLoad log a < lastLoad log b) :=
        List.Pairwise.sublist hpw hh.order
      refine List.Pairwise.imp_of_mem ?_ h0
      intro a b ha hb hab
      rw [hold a ha, hold b hb]
      exact hab
    · intro a ha b hb
      rw [List.mem_singleton] at hb
      subst hb
      rw [hold a ha, hnew]
      have := lastLoad_le log a
      omega
  · intro k hk
    rw [hQ, List.mem_append, List.mem_singleton] at hk
    rcases hk with hk | hk
    · rw [hold k hk]
      exact hh.loaded k (hsub k hk)
    · subst hk
      rw [hnew]
      omega

theorem hist_load {s t : State} {log : List (List Event)} {proc : Option Nat} {pg : Int}
    {b : Bool} (hs : Wf s) (hh : Hist s log)
    (hl : loadPageIfNotInMemory s proc pg = some (b, t)) : Hist t (stepEvents s t :: log) := by
  have ht : Wf t := wf_load hs hl
  rcases load_cases hs hl with ⟨rfl, -, -⟩ | ⟨p, pn, i, pr, e0, -, -, hp, he0, hm, hi, -, rfl⟩ |
    ⟨p, pn, ep, vpn, vi, pr, e0, ev, vf, rest, -, -, hp, he0, hm, hi, hq, hev, hevm, hevi, hvf,
      hvf1, hvf2, -, rfl⟩
  · have hnin : ∀ k, Event.pageIn k ∉ stepEvents t t := by
      intro k h
      rw [pageIn_mem hs hs] at h
      exact h.2 h.1
    have hnout : ∀ k, Event.pageOut k ∉ stepEvents t t := by
      intro k h
      rw [pageOut_mem hs hs] at h
      exact h.2 h.1
    refine ⟨?_, ?_, ?_, ?_, ?_⟩
    · refine List.Pairwise.imp ?_ hh.order
      intro a b hab
      rw [lastLoad_cons_of_not_in (hnin a), lastLoad_cons_of_not_in (hnin b)]
      exact hab
    · intro k hk
      rw [lastLoad_cons_of_not_in (hnin k)]
      exact hh.loaded k hk
    · intro hf evs hevs k
      rw [List.mem_cons] at hevs
      rcases hevs with rfl | hevs
      · exact hnout k
      · exact hh.noOut hf evs hevs k
    · rintro ⟨evs, hevs, k, hk⟩
      rw [List.mem_cons] at hevs
      rcases hevs with rfl | hevs
      · exact absurd hk (hnout k)
      · exact hh.file ⟨evs, hevs, k, hk⟩
    · intro k d hk
      obtain ⟨evs, hevs, h⟩ := hh.stored k d hk
      exact ⟨evs, List.mem_cons_of_mem _ hevs, h⟩
  · obtain ⟨hE, hG, hQ, hS, hS0⟩ := claim_spec hs hp he0 hm hi
    have hent : entryOf s.heap p pn = some e0 := entryOf_of s p pn pr e0 hp he0
    have hnotq : keyOf p pn ∉ s.pageLoadOrder := not_queued_of_not_resident hs hent hm
    obtain ⟨h1, h2⟩ := hist_queue_step hh hs ht (fun k hk => hk) (List.Sublist.refl _) hnotq hQ
    have hnout : ∀ k, Event.pageOut k ∉ stepEvents s (claimFreeFrame s p pr (pn : Int) i) := by
      intro k h
      rw [pageOut_mem hs ht, hQ] at h
      exact h.2 (List.mem_append_left _ h.1)
    have hprev : ∀ evs, evs ∈ log → ∀ k, Event.pageOut k ∉ evs := hh.noOut (by simp [hi])
    have hall : ∀ evs, evs ∈ stepEvents s (claimFreeFrame s p pr (pn : Int) i) :: log →
        ∀ k, Event.pageOut k ∉ evs := by
      intro evs hevs k
      rw [List.mem_cons] at hevs
      rcases hevs with rfl | hevs
      · exact hnout k
      · exact hprev evs hevs k
    refine ⟨h1, h2, fun _ => hall, ?_, ?_⟩
    · rintro ⟨evs, hevs, k, hk⟩
      exact absurd hk (hall evs hevs k)
    · intro k d hk
      rw [hS] at hk
      cases hk
  · obtain ⟨hE, hG, hQ, hB, hFile, hpv⟩ := replace_spec hs hp he0 hm hq hev hevm hvf _ rfl
    have hent : entryOf s.heap p pn = some e0 := entryOf_of s p pn pr e0 hp he0
    have hnotq : keyOf p pn ∉ s.pageLoadOrder := not_queued_of_not_resident hs hent hm
    have hnd := hs.qNodup
    rw [hq, List.nodup_cons] at hnd
    have hsub : ∀ k, k ∈ rest → k ∈ s.pageLoadOrder := by
      intro k hk
      rw [hq]
      exact List.mem_cons_of_mem _ hk
    have hsl : rest.Sublist s.pageLoadOrder := by
      rw [hq]
      exact List.sublist_cons_self _ _
    obtain ⟨h1, h2⟩ := hist_queue_step hh hs ht hsub hsl hnotq hQ
    have hout : Event.pageOut (keyOf ep vpn) ∈ stepEvents s
        (replaceVictim { s with pageLoadOrder := rest } p pr (pn : Int) ((ep : Int) + 1)
          (vpn : Int) ep (vi : Int) vf) := by
      rw [pageOut_mem hs ht, hQ, hq]
      refine ⟨List.mem_cons_self _ _, ?_⟩
      rw [List.mem_append, List.mem_singleton]
      rintro (h | h)
      · exact hnd.1 h
      · exact hpv ⟨(keyOf_inj h).1.symm, (keyOf_inj h).2.symm⟩
    refine ⟨h1, h2, ?_, fun _ => hFile, ?_⟩
    · intro hfree
      exfalso
      exact absurd (ht.bsFree (Or.inl hfree)) (by
        intro hnil
        have := hB (keyOf ep vpn)
        rw [hnil, if_neg (fun h => hpv ⟨(keyOf_inj h).1.symm, (keyOf_inj h).2.symm⟩),
          if_pos rfl] at this
        cases this)
    · intro k d hk
      rw [hB] at hk
      by_cases hk1 : k = keyOf p pn
      · rw [if_pos hk1] at hk
        cases hk
      · rw [if_neg hk1] at hk
        by_cases hk2 : k = keyOf ep vpn
        · subst hk2
          exact ⟨_, List.mem_cons_self _ _, hout⟩
        · rw [if_neg hk2] at hk
          obtain ⟨evs, hevs, h⟩ := hh.stored k d hk
          exact ⟨evs, List.mem_cons_of_mem _ hevs, h⟩

theorem hist_of_reach {s : State} {log : List (List Event)} (h : Reach s log) : Hist s log := by
  induction h with
  | init cfg _ => exact hist_init cfg
  | create name cpuBurst memSize ts _ ih => exact hist_create ih name cpuBurst memSize ts
  | load proc pg b hr hl ih => exact hist_load (wf_of_reach hr) ih hl
  | write f str _ ih => exact hist_write ih f str

/-! ## The demonstration execution is reachable -/

theorem reach_demo1 : Reach demo1 [] :=
  Reach.create "p1" 5 128 "t0" (Reach.init demoConfig (by decide))

theorem load_demo1 : loadPageIfNotInMemory demo1 (some 0) 0 = some (true, demo2) := by decide

theorem load_demo3 : loadPageIfNotInMemory demo3 (some 0) 1 = some (true, demo4) := by decide

theorem load_demo4 : loadPageIfNotInMemory demo4 (some 0) 0 = some (true, demo5) := by decide

theorem reach_demo2 : Reach demo2 [stepEvents demo1 demo2] :=
  Reach.load (some 0) 0 true reach_demo1 load_demo1

theorem reach_demo3 : Reach demo3 [stepEvents demo1 demo2] :=
  Reach.write 0 "(x 1)" reach_demo2

theorem reach_demo4 : Reach demo4 [stepEvents demo3 demo4, stepEvents demo1 demo2] :=
  Reach.load (some 0) 1 true reach_demo3 load_demo3

theorem reach_demo5 :
    Reach demo5 [stepEvents demo4 demo5, stepEvents demo3 demo4, stepEvents demo1 demo2] :=
  Reach.load (some 0) 0 true reach_demo4 load_demo4

theorem reach_duo0 : Reach duo0 [] :=
  Reach.create "p1" 5 256 "t0" (Reach.init duoConfig (by decide))

theorem load_duo0 : loadPageIfNotInMemory duo0 (some 0) 0 = some (true, duo1) := by decide

theorem load_duo1 : loadPageIfNotInMemory duo1 (some 0) 1 = some (true, duo2) := by decide

theorem reach_duo2 : Reach duo2 [stepEvents duo1 duo2, stepEvents duo0 duo1] :=
  Reach.load (some 0) 1 true (Reach.load (some 0) 0 true reach_duo0 load_duo0) load_duo1

/-! ## Claims -/

/-- C1 (P1, frame consistency): in every state reachable from the freshly
initialised state by process creations, `loadPageIfNotInMemory` calls and data
appends, each page-table entry has `inMemory` set iff its `frameIndex` is not
`-1`, and for a resident page exactly one frame carries its `(pid, page)` and
the entry's `frameIndex` is the index of that frame. -/
theorem frame_consistency (s : State) (h : Reachable s) : FrameConsistent s := by
  obtain ⟨log, hr⟩ := h
  have hw := wf_of_reach hr
  intro p pn pr e hp he
  have hent := entryOf_of s p pn pr e hp he
  have hid := hw.ids p pr hp
  cases hm : e.inMemory with
  | false =>
    have := hw.entFree p pn e hent hm
    simp [this]
  | true =>
    obtain ⟨i, f, h1, h2, h3, h4⟩ := hw.entFrame p pn e hent hm
    have hilt : i < s.physicalMemory.length := (List.getElem?_eq_some.mp h2).1
    refine ⟨?_, fun _ => ⟨i, hilt, h1, ?_⟩⟩
    · simp only [true_iff]
      omega
    · intro j g hg
      constructor
      · rintro ⟨hg1, hg2⟩
        have hne : g.processId ≠ -1 := by omega
        obtain ⟨q, qn, k1, k2, k3⟩ := hw.frameEnt j g hg hne
        have hq : q = p := by omega
        have hqn : qn = pn := by omega
        subst hq hqn
        rw [hent] at k3
        cases k3
        simp at h1
        exact h1
      · rintro rfl
        rw [h2] at hg
        cases hg
        exact ⟨by rw [h3, hid], h4⟩

/-- Witness for C1: the state of the demonstration after an eviction and a
reload is reachable, hence frame-consistent. -/
theorem frame_consistency_witness : Reachable demo5 ∧ FrameConsistent demo5 :=
  ⟨⟨_, reach_demo5⟩, frame_consistency demo5 ⟨_, reach_demo5⟩⟩

/-- C2 (P2, backing/frame disjointness): in every reachable state no key
`(pid, page)` is both a key of `backingStore` and resident (by its page-table
entry, or as the owner of a frame). -/
theorem backing_frame_disjoint (s : State) (h : Reachable s) : BackingDisjoint s := by
  obtain ⟨log, hr⟩ := h
  have hw := wf_of_reach hr
  have key : ∀ (p pn : Nat) (pr : Process), s.heap[p]? = some pr →
      (pr.id, (pn : Int)) = keyOf p pn := by
    intro p pn pr hp
    rw [hw.ids p pr hp]
    rfl
  constructor
  · intro p pn pr e hp he hm
    rw [key p pn pr hp]
    exact not_stored_of_resident hw ⟨e, entryOf_of s p pn pr e hp he, hm⟩
  · intro j f hf hne
    obtain ⟨q, qn, k1, k2, k3⟩ := hw.frameEnt j f hf hne
    have : (f.processId, f.pageNumber) = keyOf q qn := by
      rw [k1, k2]
      rfl
    rw [this]
    exact not_stored_of_resident hw ⟨_, k3, rfl⟩

/-- Witness for C2: at the reachable state `demo4` page 0 is in the backing
store and page 1 is resident. -/
theorem backing_frame_disjoint_witness : Reachable demo4 ∧ BackingDisjoint demo4 :=
  ⟨⟨_, reach_demo4⟩, backing_frame_disjoint demo4 ⟨_, reach_demo4⟩⟩

/-- C3 (P3, victim-queue coverage): in every reachable state `pageLoadOrder`
contains no duplicates and its entries are exactly the keys of the currently
resident pages. -/
theorem victim_queue_coverage (s : State) (h : Reachable s) : QueueCoverage s := by
  obtain ⟨log, hr⟩ := h
  have hw := wf_of_reach hr
  refine ⟨hw.qNodup, fun k => ?_⟩
  rw [hw.qRes]
  constructor
  · rintro ⟨p, pn, ⟨e, he, hm⟩, hk⟩
    unfold entryOf at he
    cases hp : s.heap[p]? with
    | none => rw [hp] at he; cases he
    | some pr =>
      rw [hp] at he
      refine ⟨p, pn, pr, e, hp, he, hm, ?_⟩
      rw [hk, hw.ids p pr hp]
      rfl
  · rintro ⟨p, pn, pr, e, hp, he, hm, hk⟩
    refine ⟨p, pn, ⟨e, entryOf_of s p pn pr e hp he, hm⟩, ?_⟩
    rw [hk, hw.ids p pr hp]
    rfl

/-- Witness for C3: the reachable state `demo2` with one resident page. -/
theorem victim_queue_coverage_witness : Reachable demo2 ∧ QueueCoverage demo2 :=
  ⟨⟨_, reach_demo2⟩, victim_queue_coverage demo2 ⟨_, reach_demo2⟩⟩

theorem entryOf_some {h : List Process} {p pn : Nat} {e : PageTableEntry}
    (he : entryOf h p pn = some e) : ∃ pr, h[p]? = some pr ∧ pr.pageTable[pn]? = some e := by
  unfold entryOf at he
  cases hp : h[p]? with
  | none => rw [hp] at he; cases he
  | some pr =>
    rw [hp] at he
    exact ⟨pr, rfl, he⟩

theorem resident_after_load {s t : State} {p : Nat} {pg : Int} (hw : Wf s)
    (hl : loadPageIfNotInMemory s (some p) pg = some (true, t)) :
    ∃ pn : Nat, pg = (pn : Int) ∧ Resident t p pn := by
  rcases load_cases hw hl with ⟨rfl, h, -⟩ | ⟨p1, pn, i, pr, e0, hpp, hpg, hp, he0, hm, hi, -, rfl⟩ |
    ⟨p1, pn, ep, vpn, vi, pr, e0, ev, vf, rest, hpp, hpg, hp, he0, hm, hi, hq, hev, hevm, hevi,
      hvf, hvf1, hvf2, -, rfl⟩
  · obtain ⟨p1, pn, hpp, hpg, hr⟩ := h rfl
    cases hpp
    exact ⟨pn, hpg, hr⟩
  · cases hpp
    obtain ⟨hE, -⟩ := claim_spec hw hp he0 hm hi
    exact ⟨pn, hpg, _, by rw [hE, if_pos ⟨rfl, rfl⟩], rfl⟩
  · cases hpp
    obtain ⟨hE, -⟩ := replace_spec hw hp he0 hm hq hev hevm hvf _ rfl
    exact ⟨pn, hpg, _, by rw [hE, if_pos ⟨rfl, rfl⟩], rfl⟩

theorem queue_nonempty_of_full {s : State} (hw : Wf s) (hframes : s.physicalMemory ≠ [])
    (hfull : firstFreeFrame s.physicalMemory = none) : s.pageLoadOrder ≠ [] := by
  intro hq
  cases hfs : s.physicalMemory with
  | nil => exact hframes hfs
  | cons f fs =>
    have hf : s.physicalMemory[0]? = some f := by rw [hfs]; simp
    have hne := (firstFreeFrame_none.mp hfull) 0 f hf
    obtain ⟨q, qn, -, -, k3⟩ := hw.frameEnt 0 f hf hne
    have : keyOf q qn ∈ s.pageLoadOrder := (hw.qRes _).mpr ⟨q, qn, ⟨_, k3, rfl⟩, rfl⟩
    rw [hq] at this
    cases this

theorem count_eq_one_of_nodup {α : Type} [BEq α] [LawfulBEq α] {l : List α} {a : α}
    (hn : l.Nodup) (hm : a ∈ l) : l.count a = 1 := by
  induction l with
  | nil => cases hm
  | cons x l ih =>
    rw [List.nodup_cons] at hn
    rw [List.count_cons]
    by_cases hx : x = a
    · subst hx
      rw [List.count_eq_zero_of_not_mem hn.1]
      simp
    · rw [List.mem_cons] at hm
      rcases hm with hm | hm
      · exact absurd hm.symm hx
      · rw [ih hn.2 hm]
        simp [hx]

theorem load_succeeds {s : State} (hw : Wf s) (hframes : s.physicalMemory ≠ []) {p : Nat}
    {pr : Process} {pg : Int} (hp : s.heap[p]? = some pr) (h0 : 0 ≤ pg)
    (h1 : pg < (pr.pageTable.length : Int)) :
    ∃ t, loadPageIfNotInMemory s (some p) pg = some (true, t) := by
  have hplt : p < s.heap.length := (List.getElem?_eq_some.mp hp).1
  obtain ⟨b, t, hl, hc⟩ := load_spec hw (some p) pg (fun q hq => by cases hq; exact hplt)
  cases b with
  | true => exact ⟨t, hl⟩
  | false =>
    exfalso
    rcases hc with ⟨-, -, h⟩ | ⟨_, _, _, _, _, _, _, _, _, _, _, hb, _⟩ |
      ⟨_, _, _, _, _, _, _, _, _, _, _, _, _, _, _, _, _, _, _, _, _, _, _, hb, _⟩
    · rcases h rfl with h | ⟨p1, pr1, hpp, hp1, hr⟩ | ⟨hfull, hq⟩
      · cases h
      · cases hpp
        rw [hp] at hp1
        cases hp1
        omega
      · exact queue_nonempty_of_full hw hframes hfull hq
    · cases hb
    · cases hb

/-- C4: in a reachable state whose frame table is not empty,
`loadPageIfNotInMemory(proc, pg)` on a registered process with
`0 <= pg < pageTable.size()` returns true, and afterwards the page is resident:
its entry points to a frame owned by `(proc.id, pg)`, and `pageLoadOrder`
contains `(proc.id, pg)` exactly once. -/
theorem load_never_fails (s : State) (h : Reachable s) (hframes : s.physicalMemory ≠ [])
    (p : Nat) (pr : Process) (pg : Int) (hp : s.heap[p]? = some pr) (h0 : 0 ≤ pg)
    (h1 : pg < (pr.pageTable.length : Int)) :
    ∃ (t : State) (pr1 : Process) (e : PageTableEntry) (i : Nat) (f : Frame),
      loadPageIfNotInMemory s (some p) pg = some (true, t) ∧
      t.heap[p]? = some pr1 ∧ pr1.id = pr.id ∧ pr1.pageTable[pg.toNat]? = some e ∧
      e.inMemory = true ∧ e.frameIndex = (i : Int) ∧ t.physicalMemory[i]? = some f ∧
      f.processId = pr.id ∧ f.pageNumber = pg ∧ t.pageLoadOrder.count (pr.id, pg) = 1 := by
  obtain ⟨log, hr⟩ := h
  have hw := wf_of_reach hr
  obtain ⟨t, hl⟩ := load_succeeds hw hframes hp h0 h1
  have ht := wf_load hw hl
  obtain ⟨pn, rfl, e, he, hm⟩ := resident_after_load hw hl
  obtain ⟨pr1, hp1, he1⟩ := entryOf_some he
  obtain ⟨i, f, k1, k2, k3, k4⟩ := ht.entFrame p pn e he hm
  have hid : pr.id = (p : Int) + 1 := hw.ids p pr hp
  have hid1 : pr1.id = (p : Int) + 1 := ht.ids p pr1 hp1
  refine ⟨t, pr1, e, i, f, hl, hp1, by rw [hid, hid1], by simpa using he1, hm, k1, k2,
    by rw [k3, hid], k4, ?_⟩
  apply count_eq_one_of_nodup ht.qNodup
  rw [ht.qRes]
  exact ⟨p, pn, ⟨e, he, hm⟩, by rw [hid]; rfl⟩

/-- Witness for C4: at the reachable state `demo4` (frame table full, page 0
evicted) the load of page 0 succeeds. -/
theorem load_never_fails_witness :
    ∃ (t : State) (pr1 : Process) (e : PageTableEntry) (i : Nat) (f : Frame),
      loadPageIfNotInMemory demo4 (some 0) 0 = some (true, t) ∧
      t.heap[0]? = some pr1 ∧ pr1.id = 1 ∧ pr1.pageTable[(0 : Int).toNat]? = some e ∧
      e.inMemory = true ∧ e.frameIndex = (i : Int) ∧ t.physicalMemory[i]? = some f ∧
      f.processId = 1 ∧ f.pageNumber = 0 ∧ t.pageLoadOrder.count (1, 0) = 1 :=
  load_never_fails demo4 ⟨_, reach_demo4⟩ (by decide) 0
    { id := 1, name := "p1", currentLine := 0, totalLine := 5, timestamp := "t0",
      memorySize := 128,
      pageTable := [{ inMemory := false, frameIndex := -1 }, { inMemory := true, frameIndex := 0 }] }
    0 (by decide) (by decide) (by decide)

/-- C5: for every state and every process, `loadPageIfNotInMemory(proc, pg)`
with `pg < 0` or `pg >= pageTable.size()` returns false and leaves the whole
state (frame table, page tables, backing store, victim queue, both paging
counters) unchanged. -/
theorem load_out_of_range (s : State) (p : Nat) (pr : Process) (pg : Int)
    (hp : s.heap[p]? = some pr) (hr : pg < 0 ∨ pg ≥ (pr.pageTable.length : Int)) :
    loadPageIfNotInMemory s (some p) pg = some (false, s) := by
  unfold loadPageIfNotInMemory
  simp only [hp, if_pos hr]

/-- Witness for C5: page number 2 of the two-page process of `demo4`. -/
theorem load_out_of_range_witness :
    loadPageIfNotInMemory demo4 (some 0) 2 = some (false, demo4) :=
  load_out_of_range demo4 0
    { id := 1, name := "p1", currentLine := 0, totalLine := 5, timestamp := "t0",
      memorySize := 128,
      pageTable := [{ inMemory := false, frameIndex := -1 }, { inMemory := true, frameIndex := 0 }] }
    2 (by decide) (by decide)

theorem load_hit {s : State} {p : Nat} {pr : Process} {pg : Int} {e : PageTableEntry}
    (hp : s.heap[p]? = some pr) (h0 : 0 ≤ pg) (he : pr.pageTable[pg.toNat]? = some e)
    (hm : e.inMemory = true) : loadPageIfNotInMemory s (some p) pg = some (true, s) := by
  have hlt : pg.toNat < pr.pageTable.length := (List.getElem?_eq_some.mp he).1
  have hr : ¬ (pg < 0 ∨ pg ≥ (pr.pageTable.length : Int)) := by omega
  unfold loadPageIfNotInMemory
  simp only [hp, if_neg hr, he, hm, if_true]

theorem setEntry_entry {h : List Process} {p pn : Nat} {pr : Process} (e : PageTableEntry)
    (hp : h[p]? = some pr) (hpn : pn < pr.pageTable.length) :
    ∃ pr1, (setEntry h p pn e)[p]? = some pr1 ∧ pr1.pageTable[pn]? = some e ∧
      pr1.pageTable.length = pr.pageTable.length := by
  refine ⟨{ pr with pageTable := pr.pageTable.set pn e }, ?_, ?_, ?_⟩
  · rw [setEntry_getElem?, hp]
    simp
  · simp [List.getElem?_set, hpn]
  · simp

theorem setEntry_keeps {h : List Process} {p : Nat} {pr : Process} (q qn : Nat)
    (e : PageTableEntry) (hp : h[p]? = some pr) :
    ∃ pr1, (setEntry h q qn e)[p]? = some pr1 ∧
      pr1.pageTable.length = pr.pageTable.length := by
  rw [setEntry_getElem?, hp]
  by_cases hq : p = q
  · refine ⟨{ pr with pageTable := pr.pageTable.set qn e }, by simp [hq], by simp⟩
  · exact ⟨pr, by simp [hq], rfl⟩

/-- After a call that returned true, the requested page is resident, whatever
the state the call started from. -/
theorem load_true_entry {s t : State} {p : Nat} {pg : Int}
    (hl : loadPageIfNotInMemory s (some p) pg = some (true, t)) :
    ∃ pr1 e, t.heap[p]? = some pr1 ∧ 0 ≤ pg ∧ pr1.pageTable[pg.toNat]? = some e ∧
      e.inMemory = true := by
  unfold loadPageIfNotInMemory at hl
  cases hp : s.heap[p]? with
  | none => simp [hp] at hl
  | some pr =>
    simp only [hp] at hl
    by_cases hr : pg < 0 ∨ pg ≥ (pr.pageTable.length : Int)
    · simp [if_pos hr] at hl
    · rw [if_neg hr] at hl
      have h0 : 0 ≤ pg := by omega
      have hlt : pg.toNat < pr.pageTable.length := by omega
      cases he0 : pr.pageTable[pg.toNat]? with
      | none => simp [he0] at hl
      | some e0 =>
        simp only [he0] at hl
        cases hm : e0.inMemory with
        | true =>
          simp only [hm, if_true, Option.some.injEq, Prod.mk.injEq, true_and] at hl
          subst hl
          exact ⟨pr, e0, hp, h0, he0, hm⟩
        | false =>
          simp only [hm, Bool.false_eq_true, if_false] at hl
          cases hi : firstFreeFrame s.physicalMemory with
          | some i =>
            simp only [hi, Option.some.injEq, Prod.mk.injEq, true_and] at hl
            subst hl
            rw [claimFreeFrame_heap]
            obtain ⟨pr1, k1, k2, -⟩ := setEntry_entry
              ({ inMemory := true, frameIndex := (i : Int) } : PageTableEntry) hp hlt
            exact ⟨pr1, _, k1, h0, k2, rfl⟩
          | none =>
            simp only [hi] at hl
            unfold evictAndLoad at hl
            cases hq : s.pageLoadOrder with
            | nil => simp [hq] at hl
            | cons v rest =>
              obtain ⟨evictedPID, evictedPageNum⟩ := v
              simp only [hq] at hl
              cases h3 : mapFind evictedPID s.processLookup with
              | none => simp [h3] at hl
              | some ep =>
                simp only [h3] at hl
                cases h4 : s.heap[ep]? with
                | none => simp [h4] at hl
                | some evictedProc =>
                  simp only [h4] at hl
                  by_cases hneg : evictedPageNum < 0
                  · simp [hneg] at hl
                  · rw [if_neg hneg] at hl
                    cases h5 : evictedProc.pageTable[evictedPageNum.toNat]? with
                    | none => simp [h5] at hl
                    | some evictedEntry =>
                      simp only [h5] at hl
                      by_cases hneg2 : evictedEntry.frameIndex < 0
                      · simp [hneg2] at hl
                      · rw [if_neg hneg2] at hl
                        cases h8 : s.physicalMemory[evictedEntry.frameIndex.toNat]? with
                        | none => simp [h8] at hl
                        | some vf =>
                          simp only [h8, Option.some.injEq, Prod.mk.injEq, true_and] at hl
                          subst hl
                          rw [replaceVictim_heap]
                          dsimp only
                          obtain ⟨pr0, j1, j2⟩ := setEntry_keeps ep evictedPageNum.toNat
                            ({ inMemory := false, frameIndex := -1 } : PageTableEntry) hp
                          obtain ⟨pr1, k1, k2, -⟩ := setEntry_entry
                            ({ inMemory := true, frameIndex := evictedEntry.frameIndex } :
                              PageTableEntry) j1 (show pg.toNat < pr0.pageTable.length by omega)
                          exact ⟨pr1, _, k1, h0, k2, rfl⟩

/-- C6: when page `pg` of the process is already resident,
`loadPageIfNotInMemory` returns true and the state (counters, victim queue,
frame table, page tables, backing store) is unchanged; and from any state, a
second resolve of the page right after a successful one changes nothing more. -/
theorem resolve_resident_noop (s : State) (p : Nat) (pr : Process) (pg : Int)
    (e : PageTableEntry) (hp : s.heap[p]? = some pr) (h0 : 0 ≤ pg)
    (he : pr.pageTable[pg.toNat]? = some e) (hm : e.inMemory = true) :
    loadPageIfNotInMemory s (some p) pg = some (true, s) ∧
    ∀ (s0 t : State), loadPageIfNotInMemory s0 (some p) pg = some (true, t) →
      loadPageIfNotInMemory t (some p) pg = some (true, t) := by
  refine ⟨load_hit hp h0 he hm, ?_⟩
  intro s0 t hl
  obtain ⟨pr1, e1, k1, k2, k3, k4⟩ := load_true_entry hl
  exact load_hit k1 k2 k3 k4

/-- Witness for C6: page 1 is resident in `demo4`. -/
theorem resolve_resident_noop_witness :
    loadPageIfNotInMemory demo4 (some 0) 1 = some (true, demo4) ∧
    ∀ (s0 t : State), loadPageIfNotInMemory s0 (some 0) 1 = some (true, t) →
      loadPageIfNotInMemory t (some 0) 1 = some (true, t) :=
  resolve_resident_noop demo4 0
    { id := 1, name := "p1", currentLine := 0, totalLine := 5, timestamp := "t0",
      memorySize := 128,
      pageTable := [{ inMemory := false, frameIndex := -1 }, { inMemory := true, frameIndex := 0 }] }
    1 { inMemory := true, frameIndex := 0 } (by decide) (by decide) (by decide) rfl

/-- C7 (FIFO eviction): in a reachable state with a non-empty frame table and
no free frame, a miss on page `pn` of a registered process succeeds, evicts
exactly the page `v` at the head of `pageLoadOrder` (its entry becomes
non-resident), and `v` is the resident page whose latest page-in is the oldest;
every other resident page keeps its entry and its frame; the new queue is the
old tail followed by the requested page. -/
theorem fifo_eviction (s : State) (log : List (List Event)) (h : Reach s log)
    (p pn : Nat) (pr : Process) (e0 : PageTableEntry)
    (hp : s.heap[p]? = some pr) (he0 : pr.pageTable[pn]? = some e0)
    (hmiss : e0.inMemory = false)
    (hfull : firstFreeFrame s.physicalMemory = none) (hframes : s.physicalMemory ≠ []) :
    ∃ (t : State) (v : Int × Int) (rest : List (Int × Int)),
      loadPageIfNotInMemory s (some p) (pn : Int) = some (true, t) ∧
      s.pageLoadOrder = v :: rest ∧
      t.pageLoadOrder = rest ++ [(pr.id, (pn : Int))] ∧
      (∃ (q qn : Nat) (prq : Process) (e : PageTableEntry),
        s.heap[q]? = some prq ∧ prq.pageTable[qn]? = some e ∧ e.inMemory = true ∧
        v = (prq.id, (qn : Int)) ∧
        entryOf t.heap q qn = some { inMemory := false, frameIndex := -1 }) ∧
      0 < lastLoad log v ∧
      (∀ (q qn : Nat) (prq : Process) (e : PageTableEntry),
        s.heap[q]? = some prq → prq.pageTable[qn]? = some e → e.inMemory = true →
        (prq.id, (qn : Int)) ≠ v →
          lastLoad log v < lastLoad log (prq.id, (qn : Int)) ∧
          entryOf t.heap q qn = some e ∧
          t.physicalMemory[e.frameIndex.toNat]? = s.physicalMemory[e.frameIndex.toNat]?) := by
  have hw := wf_of_reach h
  have hh := hist_of_reach h
  have hlen : pn < pr.pageTable.length := (List.getElem?_eq_some.mp he0).1
  obtain ⟨t, hl⟩ := load_succeeds hw hframes hp (Int.ofNat_nonneg pn) (by omega)
  have hent0 : entryOf s.heap p pn = some e0 := entryOf_of s p pn pr e0 hp he0
  rcases load_cases hw hl with ⟨-, hA, -⟩ | ⟨_, _, _, _, _, _, _, _, _, _, hi, _, _⟩ |
    ⟨p1, pn1, ep, vpn, vi, pr1, e1, ev, vf, rest, hpp, hpg, hp1, he1, hm1, -, hq, hev, hevm, hevi,
      hvf, hvf1, hvf2, -, ht⟩
  · exfalso
    obtain ⟨p1, pn1, hpp, hpg, e, he, hm⟩ := hA rfl
    cases hpp
    have : pn1 = pn := by omega
    subst this
    rw [hent0] at he
    cases he
    rw [hmiss] at hm
    cases hm
  · rw [hfull] at hi
    cases hi
  · cases hpp
    have : pn1 = pn := by omega
    subst this
    rw [hp] at hp1
    cases hp1
    obtain ⟨hE, hG, hQ, hB, -, hpv⟩ := replace_spec hw hp he0 hmiss hq hev hevm hvf t ht
    have hid : pr.id = (p : Int) + 1 := hw.ids p pr hp
    have hkey : (pr.id, (pn1 : Int)) = keyOf p pn1 := by rw [hid]; rfl
    have hord := hh.order
    rw [hq, List.pairwise_cons] at hord
    have hnd := hw.qNodup
    rw [hq, List.nodup_cons] at hnd
    refine ⟨t, keyOf ep vpn, rest, hl, hq, by rw [hQ, hkey], ?_, ?_, ?_⟩
    · obtain ⟨prq, k1, k2⟩ := entryOf_some hev
      refine ⟨ep, vpn, prq, ev, k1, k2, hevm, by rw [hw.ids ep prq k1]; rfl, ?_⟩
      rw [hE, if_neg (fun hx => hpv ⟨hx.1.symm, hx.2.symm⟩), if_pos ⟨rfl, rfl⟩]
    · exact hh.loaded _ (by rw [hq]; exact List.mem_cons_self _ _)
    · intro q qn prq e hq1 hq2 hqm hne
      have hidq : prq.id = (q : Int) + 1 := hw.ids q prq hq1
      have hkq : (prq.id, (qn : Int)) = keyOf q qn := by rw [hidq]; rfl
      rw [hkq] at hne ⊢
      have hentq : entryOf s.heap q qn = some e := entryOf_of s q qn prq e hq1 hq2
      have hmem : keyOf q qn ∈ s.pageLoadOrder := (hw.qRes _).mpr ⟨q, qn, ⟨e, hentq, hqm⟩, rfl⟩
      rw [hq, List.mem_cons] at hmem
      have hrest : keyOf q qn ∈ rest := by
        rcases hmem with hmem | hmem
        · exact absurd hmem hne
        · exact hmem
      have hq1ne : ¬ (q = p ∧ qn = pn1) := by
        rintro ⟨rfl, rfl⟩
        rw [hent0] at hentq
        cases hentq
        rw [hmiss] at hqm
        cases hqm
      have hq2ne : ¬ (q = ep ∧ qn = vpn) := by
        rintro ⟨rfl, rfl⟩
        exact hne rfl
      refine ⟨hord.1 _ hrest, by rw [hE, if_neg hq1ne, if_neg hq2ne]; exact hentq, ?_⟩
      obtain ⟨i, f, j1, j2, j3, j4⟩ := hw.entFrame q qn e hentq hqm
      rw [j1, Int.toNat_ofNat, hG]
      have hi : i ≠ vi := by
        rintro rfl
        rw [hvf] at j2
        cases j2
        exact hq2ne ⟨by omega, by omega⟩
      rw [if_neg hi]

/-- Witness for C7: in `duo2` both frames are taken (page 0 loaded first, then
page 1); a miss on page 2 evicts page 0, the head of the queue, and page 1 keeps
its frame. -/
theorem fifo_eviction_witness :
    ∃ (t : State) (v : Int × Int) (rest : List (Int × Int)),
      loadPageIfNotInMemory duo2 (some 0) ((2 : Nat) : Int) = some (true, t) ∧
      duo2.pageLoadOrder = v :: rest ∧
      t.pageLoadOrder = rest ++ [((1 : Int), ((2 : Nat) : Int))] ∧
      (∃ (q qn : Nat) (prq : Process) (e : PageTableEntry),
        duo2.heap[q]? = some prq ∧ prq.pageTable[qn]? = some e ∧ e.inMemory = true ∧
        v = (prq.id, (qn : Int)) ∧
        entryOf t.heap q qn = some { inMemory := false, frameIndex := -1 }) ∧
      0 < lastLoad [stepEvents duo1 duo2, stepEvents duo0 duo1] v ∧
      (∀ (q qn : Nat) (prq : Process) (e : PageTableEntry),
        duo2.heap[q]? = some prq → prq.pageTable[qn]? = some e → e.inMemory = true →
        (prq.id, (qn : Int)) ≠ v →
          lastLoad [stepEvents duo1 duo2, stepEvents duo0 duo1] v <
            lastLoad [stepEvents duo1 duo2, stepEvents duo0 duo1] (prq.id, (qn : Int)) ∧
          entryOf t.heap q qn = some e ∧
          t.physicalMemory[e.frameIndex.toNat]? = duo2.physicalMemory[e.frameIndex.toNat]?) :=
  fifo_eviction duo2 _ reach_duo2 0 2
    { id := 1, name := "p1", currentLine := 0, totalLine := 5, timestamp := "t0",
      memorySize := 256,
      pageTable := [{ inMemory := true, frameIndex := 0 }, { inMemory := true, frameIndex := 1 },
        { inMemory := false, frameIndex := -1 }, { inMemory := false, frameIndex := -1 }] }
    { inMemory := false, frameIndex := -1 } (by decide) (by decide) rfl (by decide) (by decide)

theorem createProcess_store (s : State) (name : String) (cpuBurst memSize : Nat) (ts : String) :
    (createProcess s name cpuBurst memSize ts).backingStore = s.backingStore := by
  unfold createProcess
  split <;> rfl

theorem appendFrameData_store (s : State) (f : Nat) (str : String) :
    (appendFrameData s f str).backingStore = s.backingStore := by
  unfold appendFrameData
  split <;> rfl

/-- A key of the backing store names an existing, non-resident page. -/
theorem stored_entry {s : State} (hw : Wf s) {p pn : Nat} {d : String}
    (hd : mapFind (keyOf p pn) s.backingStore = some d) :
    ∃ pr e, s.heap[p]? = some pr ∧ pr.pageTable[pn]? = some e ∧ e.inMemory = false := by
  obtain ⟨q, qn, e, hk, he, hm⟩ := hw.bsKeys _ d hd
  obtain ⟨rfl, rfl⟩ := keyOf_inj hk
  obtain ⟨pr, k1, k2⟩ := entryOf_some he
  exact ⟨pr, e, k1, k2, hm⟩

/-- A call for another page leaves a stored page where it is. -/
theorem stored_stable {s t : State} (hw : Wf s) {p pn : Nat} {d : String} {proc : Option Nat}
    {pg : Int} {b : Bool} (hd : mapFind (keyOf p pn) s.backingStore = some d)
    (hl : loadPageIfNotInMemory s proc pg = some (b, t))
    (hne : ¬ (proc = some p ∧ pg = (pn : Int))) :
    mapFind (keyOf p pn) t.backingStore = some d := by
  rcases load_cases hw hl with ⟨rfl, -, -⟩ | ⟨p1, pn1, i, pr, e0, -, -, hp, he0, hm, hi, -, rfl⟩ |
    ⟨p1, pn1, ep, vpn, vi, pr1, e1, ev, vf, rest, hpp, hpg, hp1, he1, hm1, -, hq, hev, hevm, hevi,
      hvf, hvf1, hvf2, -, ht⟩
  · exact hd
  · obtain ⟨-, -, -, -, hS0⟩ := claim_spec hw hp he0 hm hi
    rw [hS0] at hd
    cases hd
  · obtain ⟨-, -, -, hB, -, -⟩ := replace_spec hw hp1 he1 hm1 hq hev hevm hvf t ht
    rw [hB]
    have h1 : keyOf p pn ≠ keyOf p1 pn1 := by
      intro hk
      obtain ⟨rfl, rfl⟩ := keyOf_inj hk
      exact hne ⟨hpp, hpg⟩
    have h2 : keyOf p pn ≠ keyOf ep vpn := by
      intro hk
      obtain ⟨rfl, rfl⟩ := keyOf_inj hk
      have := not_stored_of_resident hw ⟨ev, hev, hevm⟩
      rw [this] at hd
      cases hd
    rw [if_neg h1, if_neg h2]
    exact hd

theorem undisturbed_keeps {s1 s2 : State} {p pn : Nat} {d : String} {log1 : List (List Event)}
    (hr : Reach s1 log1) (hd : mapFind (keyOf p pn) s1.backingStore = some d)
    (hu : Undisturbed p pn s1 s2) :
    (∃ log2, Reach s2 log2) ∧ mapFind (keyOf p pn) s2.backingStore = some d := by
  induction hu with
  | refl => exact ⟨⟨log1, hr⟩, hd⟩
  | create name cpuBurst memSize ts _ ih =>
    obtain ⟨⟨log2, h2⟩, hd2⟩ := ih
    exact ⟨⟨log2, Reach.create name cpuBurst memSize ts h2⟩, by rw [createProcess_store]; exact hd2⟩
  | write f str _ ih =>
    obtain ⟨⟨log2, h2⟩, hd2⟩ := ih
    exact ⟨⟨log2, Reach.write f str h2⟩, by rw [appendFrameData_store]; exact hd2⟩
  | load proc pg b _ hl hne ih =>
    obtain ⟨⟨log2, h2⟩, hd2⟩ := ih
    exact ⟨⟨_, Reach.load proc pg b h2 hl⟩, stored_stable (wf_of_reach h2) hd2 hl hne⟩

/-- Resolving a page that is in the backing store gives it a frame that holds
the stored data, and deletes the entry. -/
theorem restore_spec {s : State} (hw : Wf s) {p pn : Nat} {d : String}
    (hd : mapFind (keyOf p pn) s.backingStore = some d) :
    ∃ (t : State) (j : Nat) (g : Frame),
      loadPageIfNotInMemory s (some p) (pn : Int) = some (true, t) ∧
      entryOf t.heap p pn = some { inMemory := true, frameIndex := (j : Int) } ∧
      t.physicalMemory[j]? = some g ∧ g.processId = (p : Int) + 1 ∧ g.pageNumber = (pn : Int) ∧
      g.data = d ∧ mapFind (keyOf p pn) t.backingStore = none := by
  obtain ⟨pr, e, hp, he, hm⟩ := stored_entry hw hd
  have hframes : s.physicalMemory ≠ [] := by
    intro hnil
    rw [hw.bsFree (Or.inr hnil)] at hd
    cases hd
  have hlen : pn < pr.pageTable.length := (List.getElem?_eq_some.mp he).1
  obtain ⟨t, hl⟩ := load_succeeds hw hframes hp (Int.ofNat_nonneg pn) (by omega)
  have hent0 : entryOf s.heap p pn = some e := entryOf_of s p pn pr e hp he
  rcases load_cases hw hl with ⟨-, hA, -⟩ | ⟨p1, pn1, i, pr1, e1, -, -, hp1, he1, hm1, hi, -, rfl⟩ |
    ⟨p1, pn1, ep, vpn, vi, pr1, e1, ev, vf, rest, hpp, hpg, hp1, he1, hm1, -, hq, hev, hevm, hevi,
      hvf, hvf1, hvf2, -, ht⟩
  · exfalso
    obtain ⟨p1, pn1, hpp, hpg, e2, he2, hm2⟩ := hA rfl
    cases hpp
    have : pn1 = pn := by omega
    subst this
    rw [hent0] at he2
    cases he2
    rw [hm] at hm2
    cases hm2
  · exfalso
    obtain ⟨-, -, -, -, hS0⟩ := claim_spec hw hp1 he1 hm1 hi
    rw [hS0] at hd
    cases hd
  · cases hpp
    have : pn1 = pn := by omega
    subst this
    obtain ⟨hE, hG, -, hB, -, -⟩ := replace_spec hw hp1 he1 hm1 hq hev hevm hvf t ht
    refine ⟨t, vi, _, hl, by rw [hE, if_pos ⟨rfl, rfl⟩], by rw [hG, if_pos rfl], rfl, rfl, ?_, ?_⟩
    · simp [hd]
    · rw [hB, if_pos rfl]

/-- When a call makes a resident page non-resident, the data of its frame is
in the backing store afterwards. -/
theorem evict_saves {s s1 : State} (hw : Wf s) {p pn i : Nat} {e : PageTableEntry} {f : Frame}
    {proc : Option Nat} {pg : Int} {b : Bool} (hent : entryOf s.heap p pn = some e)
    (hm : e.inMemory = true) (hi : e.frameIndex = (i : Int)) (hf : s.physicalMemory[i]? = some f)
    (hl : loadPageIfNotInMemory s proc pg = some (b, s1)) (hnr : ¬ Resident s1 p pn) :
    mapFind (keyOf p pn) s1.backingStore = some f.data := by
  rcases load_cases hw hl with ⟨rfl, -, -⟩ | ⟨p1, pn1, i1, pr1, e1, -, -, hp1, he1, hm1, hi1, -, rfl⟩ |
    ⟨p1, pn1, ep, vpn, vi, pr1, e1, ev, vf, rest, hpp, hpg, hp1, he1, hm1, -, hq, hev, hevm, hevi,
      hvf, hvf1, hvf2, -, ht⟩
  · exact absurd ⟨e, hent, hm⟩ hnr
  · exfalso
    apply hnr
    obtain ⟨hE, -⟩ := claim_spec hw hp1 he1 hm1 hi1
    unfold Resident
    rw [hE]
    by_cases hq : p = p1 ∧ pn = pn1
    · exact ⟨_, by rw [if_pos hq], rfl⟩
    · exact ⟨e, by rw [if_neg hq]; exact hent, hm⟩
  · obtain ⟨hE, -, -, hB, -, hpv⟩ := replace_spec hw hp1 he1 hm1 hq hev hevm hvf s1 ht
    by_cases hq1 : p = p1 ∧ pn = pn1
    · exfalso
      apply hnr
      unfold Resident
      rw [hE]
      exact ⟨_, by rw [if_pos hq1], rfl⟩
    · by_cases hq2 : p = ep ∧ pn = vpn
      · obtain ⟨rfl, rfl⟩ := hq2
        rw [hent] at hev
        cases hev
        have : i = vi := by omega
        subst this
        rw [hf] at hvf
        cases hvf
        rw [hB, if_neg (fun hk => hq1 (keyOf_inj hk)), if_pos rfl]
      · exfalso
        apply hnr
        unfold Resident
        rw [hE]
        exact ⟨e, by rw [if_neg hq1, if_neg hq2]; exact hent, hm⟩

/-- A miss on a page that is not in the backing store loads it with empty data. -/
theorem fresh_load_empty {s t : State} (hw : Wf s) {p pn : Nat} {pr : Process}
    {e : PageTableEntry} (hp : s.heap[p]? = some pr) (he : pr.pageTable[pn]? = some e)
    (hm : e.inMemory = false) (hnone : mapFind (keyOf p pn) s.backingStore = none)
    (hl : loadPageIfNotInMemory s (some p) (pn : Int) = some (true, t)) :
    ∃ (j : Nat) (g : Frame),
      entryOf t.heap p pn = some { inMemory := true, frameIndex := (j : Int) } ∧
      t.physicalMemory[j]? = some g ∧ g.data = "" := by
  have hent0 : entryOf s.heap p pn = some e := entryOf_of s p pn pr e hp he
  rcases load_cases hw hl with ⟨-, hA, -⟩ | ⟨p1, pn1, i, pr1, e1, hpp, hpg, hp1, he1, hm1, hi, -, rfl⟩ |
    ⟨p1, pn1, ep, vpn, vi, pr1, e1, ev, vf, rest, hpp, hpg, hp1, he1, hm1, -, hq, hev, hevm, hevi,
      hvf, hvf1, hvf2, -, ht⟩
  · exfalso
    obtain ⟨p1, pn1, hpp, hpg, e2, he2, hm2⟩ := hA rfl
    cases hpp
    have : pn1 = pn := by omega
    subst this
    rw [hent0] at he2
    cases he2
    rw [hm] at hm2
    cases hm2
  · cases hpp
    have : pn1 = pn := by omega
    subst this
    obtain ⟨hE, hG, -⟩ := claim_spec hw hp1 he1 hm1 hi
    exact ⟨i, _, by rw [hE, if_pos ⟨rfl, rfl⟩], by rw [hG, if_pos rfl], rfl⟩
  · cases hpp
    have : pn1 = pn := by omega
    subst this
    obtain ⟨hE, hG, -⟩ := replace_spec hw hp1 he1 hm1 hq hev hevm hvf t ht
    refine ⟨vi, _, by rw [hE, if_pos ⟨rfl, rfl⟩], by rw [hG, if_pos rfl], ?_⟩
    simp [hnone]

/-- C8 (page data survives eviction): in a reachable state, if a resident page
with frame data `f.data` stops being resident in a call of
`loadPageIfNotInMemory`, then right after the call `backingStore[(pid, pg)]` is
`f.data`; and after any further execution that does not resolve that page, the
next resolve of it succeeds, gives it a frame that holds exactly `f.data`, and
deletes the backing-store entry.  A page that was never paged out is loaded with
empty data. -/
theorem page_data_survives_eviction (s : State) (log : List (List Event)) (h : Reach s log)
    (p pn : Nat) (pr : Process) (e : PageTableEntry)
    (hp : s.heap[p]? = some pr) (he : pr.pageTable[pn]? = some e) :
    (∀ (i : Nat) (f : Frame) (proc : Option Nat) (pg : Int) (b : Bool) (s1 : State),
      e.inMemory = true → e.frameIndex = (i : Int) → s.physicalMemory[i]? = some f →
      loadPageIfNotInMemory s proc pg = some (b, s1) → ¬ Resident s1 p pn →
        mapFind (pr.id, (pn : Int)) s1.backingStore = some f.data ∧
        ∀ (s2 : State), Undisturbed p pn s1 s2 →
          ∃ (t : State) (j : Nat) (g : Frame),
            loadPageIfNotInMemory s2 (some p) (pn : Int) = some (true, t) ∧
            entryOf t.heap p pn = some { inMemory := true, frameIndex := (j : Int) } ∧
            t.physicalMemory[j]? = some g ∧ g.processId = pr.id ∧ g.pageNumber = (pn : Int) ∧
            g.data = f.data ∧ mapFind (pr.id, (pn : Int)) t.backingStore = none) ∧
    (∀ (t : State), e.inMemory = false →
      (∀ (evs : List Event), evs ∈ log → Event.pageOut (pr.id, (pn : Int)) ∉ evs) →
      loadPageIfNotInMemory s (some p) (pn : Int) = some (true, t) →
        ∃ (j : Nat) (g : Frame),
          entryOf t.heap p pn = some { inMemory := true, frameIndex := (j : Int) } ∧
          t.physicalMemory[j]? = some g ∧ g.data = "") := by
  have hw := wf_of_reach h
  have hh := hist_of_reach h
  have hid : pr.id = (p : Int) + 1 := hw.ids p pr hp
  have hkey : (pr.id, (pn : Int)) = keyOf p pn := by rw [hid]; rfl
  have hent : entryOf s.heap p pn = some e := entryOf_of s p pn pr e hp he
  rw [hkey, hid]
  constructor
  · intro i f proc pg b s1 hm hi hf hl hnr
    have hsaved := evict_saves hw hent hm hi hf hl hnr
    refine ⟨hsaved, ?_⟩
    intro s2 hu
    obtain ⟨⟨log2, hr2⟩, hd2⟩ := undisturbed_keeps (Reach.load proc pg b h hl) hsaved hu
    exact restore_spec (wf_of_reach hr2) hd2
  · intro t hm hnever hl
    have hnone : mapFind (keyOf p pn) s.backingStore = none := by
      cases hd : mapFind (keyOf p pn) s.backingStore with
      | none => rfl
      | some d =>
        obtain ⟨evs, hevs, hout⟩ := hh.stored _ d hd
        exact absurd hout (hnever evs hevs)
    exact fresh_load_empty hw hp he hm hnone hl

/-- Witness for C8: page 0 of `demo3` holds `(x 1)`; loading page 1 evicts it
into the backing store, and resolving page 0 again restores `(x 1)`. -/
theorem page_data_survives_eviction_witness :
    mapFind ((1 : Int), ((0 : Nat) : Int)) demo4.backingStore = some "(x 1)" ∧
    ∃ (t : State) (j : Nat) (g : Frame),
      loadPageIfNotInMemory demo4 (some 0) ((0 : Nat) : Int) = some (true, t) ∧
      entryOf t.heap 0 0 = some { inMemory := true, frameIndex := (j : Int) } ∧
      t.physicalMemory[j]? = some g ∧ g.processId = 1 ∧ g.pageNumber = ((0 : Nat) : Int) ∧
      g.data = "(x 1)" ∧ mapFind ((1 : Int), ((0 : Nat) : Int)) t.backingStore = none := by
  have hnr : ¬ Resident demo4 0 0 := by
    rintro ⟨e, he, hm⟩
    have h0 : entryOf demo4.heap 0 0 = some { inMemory := false, frameIndex := -1 } := by decide
    rw [h0] at he
    cases he
    cases hm
  have key := (page_data_survives_eviction demo3 _ reach_demo3 0 0
    { id := 1, name := "p1", currentLine := 0, totalLine := 5, timestamp := "t0",
      memorySize := 128,
      pageTable := [{ inMemory := true, frameIndex := 0 }, { inMemory := false, frameIndex := -1 }] }
    { inMemory := true, frameIndex := 0 } (by decide) (by decide)).1 0
    { processId := 1, pageNumber := 0, data := "(x 1)" } (some 0) 1 true demo4 rfl rfl
    (by decide) load_demo3 hnr
  exact ⟨key.1, key.2 demo4 (Undisturbed.refl demo4)⟩

/-- C9 (R2): in every reachable state in whose history at least one page-out
has happened, the records of the backing-store file are exactly the entries of
the in-memory `backingStore`. -/
theorem backing_file_matches (s : State) (log : List (List Event)) (h : Reach s log)
    (hout : ∃ (evs : List Event), evs ∈ log ∧ ∃ (k : Int × Int), Event.pageOut k ∈ evs) :
    s.backingFile = some (fileRecords s.backingStore) :=
  (hist_of_reach h).file hout

/-- Witness for C9: page 0 has been paged out on the way to `demo5`. -/
theorem backing_file_matches_witness :
    demo5.backingFile = some (fileRecords demo5.backingStore) :=
  backing_file_matches demo5 _ reach_demo5
    ⟨stepEvents demo3 demo4, by simp, (1, 0), by decide⟩

/-! ## The shutdown flag across the executor -/

theorem modifyProc_getElem? (s : State) (p : Nat) (f : Process → Process) (q : Nat) :
    (modifyProc s p f).heap[q]? = (s.heap[q]?).map (fun pr => if q = p then f pr else pr) := by
  unfold modifyProc
  cases hp : s.heap[p]? with
  | none =>
    by_cases hq : q = p
    · subst hq; simp [hp]
    · simp [hq]
  | some pr =>
    by_cases hq : q = p
    · subst hq
      have hlt : q < s.heap.length := (List.getElem?_eq_some.mp hp).1
      simp [List.getElem?_set, hlt, hp]
    · have : ¬ p = q := fun h => hq h.symm
      simp [List.getElem?_set, this, hq]

theorem flagAt_modifyProc (s : State) (p : Nat) (f : Process → Process) (q : Nat)
    (hf : ∀ pr, (f pr).isShutdown = pr.isShutdown) : flagAt (modifyProc s p f) q = flagAt s q := by
  unfold flagAt
  rw [modifyProc_getElem?]
  cases s.heap[q]? with
  | none => rfl
  | some pr =>
    simp only [Option.map_some']
    split
    · rw [hf]
    · rfl

theorem flagAt_setEntry (s : State) (h : List Process) (p pn : Nat) (e : PageTableEntry)
    (q : Nat) (hh : s.heap = setEntry h p pn e) :
    flagAt s q = (h[q]?).map (fun pr => pr.isShutdown) := by
  unfold flagAt
  rw [hh, setEntry_getElem?]
  cases h[q]? with
  | none => rfl
  | some pr =>
    simp only [Option.map_some']
    split <;> rfl

theorem flagAt_commitLog (s : State) (p k : Nat) (line : String) (q : Nat) :
    flagAt (commitLog s p k line) q = flagAt s q :=
  flagAt_modifyProc s p _ q (fun _ => rfl)

theorem flagAt_appendFrameData (s : State) (f : Nat) (str : String) (q : Nat) :
    flagAt (appendFrameData s f str) q = flagAt s q := by
  unfold appendFrameData
  split <;> rfl

theorem flagAt_appendFrameAt {s t : State} {f : Int} {str : String} (q : Nat)
    (h : appendFrameAt s f str = some t) : flagAt t q = flagAt s q := by
  unfold appendFrameAt at h
  split at h
  · cases h
    exact flagAt_appendFrameData s _ str q
  · cases h

/-- A call of `loadPageIfNotInMemory` changes the `isShutdown` flag of no process. -/
theorem flagAt_load {s t : State} {proc : Option Nat} {pg : Int} {b : Bool} (q : Nat)
    (hl : loadPageIfNotInMemory s proc pg = some (b, t)) : flagAt t q = flagAt s q := by
  unfold loadPageIfNotInMemory at hl
  cases proc with
  | none =>
    simp only [Option.some.injEq, Prod.mk.injEq] at hl
    rw [← hl.2]
  | some p =>
    simp only at hl
    cases hp : s.heap[p]? with
    | none => simp [hp] at hl
    | some pr =>
      simp only [hp] at hl
      by_cases hr : pg < 0 ∨ pg ≥ (pr.pageTable.length : Int)
      · simp only [if_pos hr, Option.some.injEq, Prod.mk.injEq] at hl
        rw [← hl.2]
      · rw [if_neg hr] at hl
        cases he0 : pr.pageTable[pg.toNat]? with
        | none => simp [he0] at hl
        | some e0 =>
          simp only [he0] at hl
          cases hm : e0.inMemory with
          | true =>
            simp only [hm, if_true, Option.some.injEq, Prod.mk.injEq] at hl
            rw [← hl.2]
          | false =>
            simp only [hm, Bool.false_eq_true, if_false] at hl
            cases hi : firstFreeFrame s.physicalMemory with
            | some i =>
              simp only [hi, Option.some.injEq, Prod.mk.injEq] at hl
              rw [← hl.2]
              exact flagAt_setEntry _ _ _ _ _ q (claimFreeFrame_heap s p pr pg i)
            | none =>
              simp only [hi] at hl
              unfold evictAndLoad at hl
              cases hq : s.pageLoadOrder with
              | nil =>
                simp only [hq, Option.some.injEq, Prod.mk.injEq] at hl
                rw [← hl.2]
              | cons v rest =>
                obtain ⟨evictedPID, evictedPageNum⟩ := v
                simp only [hq] at hl
                cases h3 : mapFind evictedPID s.processLookup with
                | none =>
                  simp only [h3, Option.some.injEq, Prod.mk.injEq] at hl
                  rw [← hl.2]
                  rfl
                | some ep =>
                  simp only [h3] at hl
                  cases h4 : s.heap[ep]? with
                  | none => simp [h4] at hl
                  | some evictedProc =>
                    simp only [h4] at hl
                    by_cases hneg : evictedPageNum < 0
                    · simp [hneg] at hl
                    · rw [if_neg hneg] at hl
                      cases h5 : evictedProc.pageTable[evictedPageNum.toNat]? with
                      | none => simp [h5] at hl
                      | some evictedEntry =>
                        simp only [h5] at hl
                        by_cases hneg2 : evictedEntry.frameIndex < 0
                        · simp [hneg2] at hl
                        · rw [if_neg hneg2] at hl
                          cases h8 : s.physicalMemory[evictedEntry.frameIndex.toNat]? with
                          | none => simp [h8] at hl
                          | some vf =>
                            simp only [h8, Option.some.injEq, Prod.mk.injEq] at hl
                            rw [← hl.2]
                            rw [flagAt_setEntry _ _ _ _ _ q (replaceVictim_heap _ p pr pg
                              evictedPID evictedPageNum ep evictedEntry.frameIndex vf)]
                            dsimp only
                            rw [setEntry_getElem?]
                            unfold flagAt
                            cases s.heap[q]? with
                            | none => rfl
                            | some pr0 =>
                              simp only [Option.map_some']
                              split <;> rfl

theorem shutdownFlag_ok (t : State) (p : Nat) : shutdownFlag (Outcome.ok t) p = flagAt t p := rfl

theorem flagAt_shutdownViolation (s : State) (p k : Nat) (logStart addrHex ts2 : String)
    (pr : Process) (hp : s.heap[p]? = some pr) :
    flagAt (shutdownViolation s p k logStart addrHex ts2) p = some true := by
  unfold flagAt shutdownViolation
  rw [modifyProc_getElem?, hp]
  simp

theorem flagAt_setMemory (s : State) (p : Nat) (g : Process → List (String × Nat)) (q : Nat) :
    flagAt (modifyProc s p (fun r => { r with memory := g r })) q = flagAt s q :=
  flagAt_modifyProc s p _ q (fun _ => rfl)

/-- The WRITE branch of the executor, after a passed bounds check, leaves the
process not shut down whenever it returns. -/
theorem runCustom_access {s : State} {p k : Nat} {pr : Process} {logStart ts2 : String}
    {instr addrHex other : String} {a : Nat}
    (hp : s.heap[p]? = some pr) (hns : pr.isShutdown = false)
    (hacc : IsUserWrite instr addrHex other ∨ IsUserRead instr other addrHex)
    (ha : stoull16 addrHex = some a) :
    shutdownFlag (runCustom s p k logStart ts2 instr) p = some true ↔
      (a < 64 ∨ a ≥ pr.memorySize) := by
  have hflag : flagAt s p = some false := by
    unfold flagAt
    rw [hp]
    simp [hns]
  unfold runCustom
  simp only [hp]
  rcases hacc with ⟨h1, h2, h3, h4⟩ | ⟨h1, h2, h3, h4, h5⟩
  · simp only [h1, h2, h3, h4, ha]
    by_cases hv : a < 64 ∨ a ≥ pr.memorySize
    · rw [if_pos hv, shutdownFlag_ok, flagAt_shutdownViolation _ _ _ _ _ _ pr hp]
      simp [hv]
    · rw [if_neg hv]
      simp only [hv, iff_false]
      split
      · simp [shutdownFlag]
      · rename_i val m1 htok
        split
        · simp [shutdownFlag]
        · rename_i pageNum hpage
          split
          · simp [shutdownFlag]
          · rename_i loaded s2 hl
            have hs1 := flagAt_setMemory s p (fun _ => m1) p
            have hs2 := flagAt_load p hl
            split
            · split
              · simp [shutdownFlag]
              · rename_i e he
                split
                · simp [shutdownFlag]
                · rename_i s3 h3
                  rw [shutdownFlag_ok, flagAt_commitLog,
                    flagAt_setMemory, flagAt_appendFrameAt p h3, hs2, hs1,
                    hflag]
                  simp
            · rw [shutdownFlag_ok, flagAt_commitLog,
                flagAt_setMemory, hs2, hs1, hflag]
              simp
  · simp only [h1, h2, h3, h4, h5, ha]
    by_cases hv : a < 64 ∨ a ≥ pr.memorySize
    · rw [if_pos hv, shutdownFlag_ok, flagAt_shutdownViolation _ _ _ _ _ _ pr hp]
      simp [hv]
    · rw [if_neg hv]
      simp only [hv, iff_false]
      split
      · simp [shutdownFlag]
      · rename_i pageNum hpage
        split
        · simp [shutdownFlag]
        · rename_i loaded s2 hl
          rw [shutdownFlag_ok, flagAt_commitLog, flagAt_setMemory,
            flagAt_load p hl, hflag]
          simp

/-- C10 as amended: for every state and configuration, every process that is
not shut down and every line of its user program that the executor dispatches as
`WRITE addrHex tok` or `READ var addrHex` with address value `a`, the call of
`instructions_manager` returns with the process shut down if and only if
`a < 64` or `a >= memorySize`. -/
theorem user_access_shutdown_iff (s : State) (k : Nat) (coreId : Int) (p : Nat) (pr : Process)
    (ts ts2 : String) (d : Draws) (instr addrHex other : String) (a : Nat)
    (hp : s.heap[p]? = some pr) (hns : pr.isShutdown = false)
    (hk : pr.customInstrList[k]? = some instr)
    (hacc : IsUserWrite instr addrHex other ∨ IsUserRead instr other addrHex)
    (ha : stoull16 addrHex = some a) :
    shutdownFlag (instructions_manager s k coreId p ts ts2 d) p = some true ↔
      (a < 64 ∨ a ≥ pr.memorySize) := by
  have hlt : k < pr.customInstrList.length := (List.getElem?_eq_some.mp hk).1
  have hp0 : (modifyProc s p (fun q =>
      { q with instructions := resizeLog q.instructions k })).heap[p]? =
      some { pr with instructions := resizeLog pr.instructions k } := by
    rw [modifyProc_getElem?, hp]
    simp
  unfold instructions_manager
  simp only [hp, hns, Bool.false_eq_true, if_false, if_pos hlt, hk, Option.getD_some]
  exact @runCustom_access _ _ _ { pr with instructions := resizeLog pr.instructions k } _ _ _ _ _ _
    hp0 hns hacc ha

/-- Witness for C10 as amended: line 2 of the program of `wideState` is
`WRITE 0x100 5`, address 256 of a process of 256 bytes. -/
theorem user_access_shutdown_iff_witness :
    shutdownFlag (instructions_manager wideState 2 1 0 "T" "T2" noDraws) 0 = some true ↔
      (256 < 64 ∨ 256 ≥ 256) :=
  user_access_shutdown_iff wideState 2 1 0
    { id := 1, name := "p", currentLine := 0, totalLine := 5, timestamp := "t0",
      memorySize := 256, pageTable := [{}, {}],
      customInstrList := ["WRITE 0x40 5", "READ x 0x40", "WRITE 0x100 5"] }
    "T" "T2" noDraws "WRITE 0x100 5" "0x100" "5" 256 (by decide) rfl (by decide)
    (Or.inl (by unfold IsUserWrite; decide)) (by decide)

/-- C10 as stated fails: with `mem_per_frame = 128` the user instructions
`WRITE 0x40 5` and `READ x 0x40` have address 64, below the frame size and
inside the process memory of 256 bytes, and both run without shutting the
process down. -/
theorem user_access_below_frame_size_runs :
    wideState.GLOBAL_CONFIG.memPerFrame = 128 ∧ stoull16 "0x40" = some 64 ∧
    IsUserWrite "WRITE 0x40 5" "0x40" "5" ∧ IsUserRead "READ x 0x40" "x" "0x40" ∧
    ¬ (shutdownFlag (instructions_manager wideState 0 1 0 "T" "T2" noDraws) 0 = some true ↔
        (64 < wideState.GLOBAL_CONFIG.memPerFrame ∨ 64 ≥ 256)) ∧
    ¬ (shutdownFlag (instructions_manager wideState 1 1 0 "T" "T2" noDraws) 0 = some true ↔
        (64 < wideState.GLOBAL_CONFIG.memPerFrame ∨ 64 ≥ 256)) := by
  unfold IsUserWrite IsUserRead
  decide

/-! ## Canonical WRITE and READ instructions are dispatched as such -/

theorem takeWhile_all_then {p : Char → Bool} (xs : List Char) (y : Char) (ys : List Char)
    (hx : ∀ c ∈ xs, p c = true) (hy : p y = false) :
    (xs ++ y :: ys).takeWhile p = xs ∧ (xs ++ y :: ys).dropWhile p = y :: ys := by
  induction xs with
  | nil => simp [List.takeWhile, List.dropWhile, hy]
  | cons x xs ih =>
    have hxx : p x = true := hx x (List.mem_cons_self _ _)
    have := ih (fun c hc => hx c (List.mem_cons_of_mem _ hc))
    simp [List.takeWhile, List.dropWhile, hxx, this.1, this.2]

theorem takeWhile_all {p : Char → Bool} (xs : List Char) (hx : ∀ c ∈ xs, p c = true) :
    xs.takeWhile p = xs ∧ xs.dropWhile p = [] := by
  induction xs with
  | nil => simp
  | cons x xs ih =>
    have hxx : p x = true := hx x (List.mem_cons_self _ _)
    have := ih (fun c hc => hx c (List.mem_cons_of_mem _ hc))
    simp [List.takeWhile, List.dropWhile, hxx, this.1, this.2]

theorem eatLit_append (l cs : List Char) : eatLit l (l ++ cs) = some cs := by
  induction l with
  | nil => cases cs <;> rfl
  | cons x l ih => simp [eatLit, ih]

theorem eatLit_head_ne (l cs : List Char) (x y : Char) (h : x ≠ y) :
    eatLit (x :: l) (y :: cs) = none := by
  simp [eatLit, h]

theorem not_space_of_digit {c : Char} (h : isDigitChar c = true) : isSpaceChar c = false := by
  simp only [isDigitChar, isSpaceChar, Bool.and_eq_true, Bool.or_eq_false_iff,
    decide_eq_true_eq, decide_eq_false_iff_not, Bool.and_eq_false_iff] at h ⊢
  omega

theorem not_space_of_identStart {c : Char} (h : isIdentStart c = true) :
    isSpaceChar c = false := by
  simp only [isIdentStart, isSpaceChar, Bool.and_eq_true, Bool.or_eq_true, Bool.or_eq_false_iff,
    decide_eq_true_eq, decide_eq_false_iff_not, Bool.and_eq_false_iff] at h ⊢
  omega

theorem not_digit_of_identStart {c : Char} (h : isIdentStart c = true) :
    isDigitChar c = false := by
  simp only [isIdentStart, isDigitChar, Bool.and_eq_true, Bool.or_eq_true,
    decide_eq_true_eq, Bool.and_eq_false_iff, decide_eq_false_iff_not] at h ⊢
  omega

theorem eatSpaces1_one (c : Char) (cs : List Char) (hc : isSpaceChar c = false) :
    eatSpaces1 (Char.ofNat 32 :: c :: cs) = some (c :: cs) := by
  have h32 : isSpaceChar (Char.ofNat 32) = true := by decide
  simp [eatSpaces1, h32, List.dropWhile, hc]

theorem eatHexAddr_then (hs : List Char) (y : Char) (ys : List Char) (hh : IsHexDigits hs)
    (hy : isHexChar y = false) :
    eatHexAddr ("0x".toList ++ (hs ++ y :: ys)) = some ("0x".toList ++ hs, y :: ys) := by
  unfold eatHexAddr
  rw [eatLit_append]
  obtain ⟨hne, hall⟩ := hh
  cases hs with
  | nil => exact absurd rfl hne
  | cons c r1 =>
    have hc : isHexChar c = true := hall c (List.mem_cons_self _ _)
    have := takeWhile_all_then r1 y ys (fun x hx => hall x (List.mem_cons_of_mem _ hx)) hy
    simp only [List.cons_append, hc, if_true, this.1, this.2]

theorem eatHexAddr_end (hs : List Char) (hh : IsHexDigits hs) :
    eatHexAddr ("0x".toList ++ hs) = some ("0x".toList ++ hs, []) := by
  unfold eatHexAddr
  rw [eatLit_append]
  obtain ⟨hne, hall⟩ := hh
  cases hs with
  | nil => exact absurd rfl hne
  | cons c r1 =>
    have hc : isHexChar c = true := hall c (List.mem_cons_self _ _)
    have := takeWhile_all r1 (fun x hx => hall x (List.mem_cons_of_mem _ hx))
    simp only [hc, if_true, this.1, this.2]

/-- Every canonical `WRITE 0x<hex> <decimal or identifier>` is dispatched to the
WRITE branch with that literal and token. -/
theorem write_dispatch (hs ts : List Char) (hh : IsHexDigits hs)
    (ht : IsDecimal ts ∨ IsIdent ts) :
    IsUserWrite (writeInstr hs ts) (hexLit hs) (String.mk ts) := by
  have hsp : isHexChar (Char.ofNat 32) = false := by decide
  have hx0 : isSpaceChar (Char.ofNat 48) = false := by decide
  have e1 : (writeInstr hs ts).toList =
      "WRITE".toList ++ (Char.ofNat 32 :: ("0x".toList ++ (hs ++ Char.ofNat 32 :: ts))) := rfl
  have hhead : ∃ c cs, ts = c :: cs ∧ isSpaceChar c = false := by
    rcases ht with ⟨hne, hall⟩ | ⟨c, cs, rfl, hc, -⟩
    · cases ts with
      | nil => exact absurd rfl hne
      | cons c cs => exact ⟨c, cs, rfl, not_space_of_digit (hall c (List.mem_cons_self _ _))⟩
    · exact ⟨c, cs, rfl, not_space_of_identStart hc⟩
  refine ⟨?_, ?_, ?_, ?_⟩
  · unfold matchDeclare
    have : eatLit "DECLARE".toList (writeInstr hs ts).toList = none :=
      eatLit_head_ne _ _ _ _ (by decide)
    rw [this]
    rfl
  · unfold matchThree
    have : eatLit "ADD".toList (writeInstr hs ts).toList = none :=
      eatLit_head_ne _ _ _ _ (by decide)
    rw [this]
    rfl
  · unfold matchThree
    have : eatLit "SUBTRACT".toList (writeInstr hs ts).toList = none :=
      eatLit_head_ne _ _ _ _ (by decide)
    rw [this]
    rfl
  · unfold matchWrite
    rw [e1, eatLit_append]
    have h2 : eatSpaces1 (Char.ofNat 32 :: ("0x".toList ++ (hs ++ Char.ofNat 32 :: ts))) =
        some ("0x".toList ++ (hs ++ Char.ofNat 32 :: ts)) := eatSpaces1_one _ _ hx0
    obtain ⟨c, cs, rfl, hc⟩ := hhead
    have h4 : eatSpaces1 (Char.ofNat 32 :: c :: cs) = some (c :: cs) := eatSpaces1_one _ _ hc
    simp only [Option.bind_eq_bind, Option.some_bind, h2, eatHexAddr_then hs _ _ hh hsp, h4]
    rcases ht with ⟨hne, hall⟩ | ⟨c1, cs1, hcs, hc1, hall⟩
    · have hd : isDigitChar c = true := hall c (List.mem_cons_self _ _)
      have := takeWhile_all cs (fun x hx => hall x (List.mem_cons_of_mem _ hx))
      simp only [eatDigits1, hd, if_true, this.1, this.2]
      rfl
    · cases hcs
      have hd : isDigitChar c = false := not_digit_of_identStart hc1
      have := takeWhile_all cs hall
      simp only [eatDigits1, hd, Bool.false_eq_true, if_false, eatIdent, hc1, if_true, this.1,
        this.2]
      rfl

theorem not_word_space : isWordChar (Char.ofNat 32) = false := by decide

/-- Every canonical `READ <identifier> 0x<hex>` is dispatched to the READ branch
with that variable and literal. -/
theorem read_dispatch (vs hs : List Char) (hv : IsIdent vs) (hh : IsHexDigits hs) :
    IsUserRead (readInstr vs hs) (String.mk vs) (hexLit hs) := by
  have hx0 : isSpaceChar (Char.ofNat 48) = false := by decide
  obtain ⟨c, cs, rfl, hc, hall⟩ := hv
  have e1 : (readInstr (c :: cs) hs).toList =
      "READ".toList ++ (Char.ofNat 32 :: c :: (cs ++ Char.ofNat 32 :: ("0x".toList ++ hs))) := rfl
  refine ⟨?_, ?_, ?_, ?_, ?_⟩
  · unfold matchDeclare
    have : eatLit "DECLARE".toList (readInstr (c :: cs) hs).toList = none :=
      eatLit_head_ne _ _ _ _ (by decide)
    rw [this]
    rfl
  · unfold matchThree
    have : eatLit "ADD".toList (readInstr (c :: cs) hs).toList = none :=
      eatLit_head_ne _ _ _ _ (by decide)
    rw [this]
    rfl
  · unfold matchThree
    have : eatLit "SUBTRACT".toList (readInstr (c :: cs) hs).toList = none :=
      eatLit_head_ne _ _ _ _ (by decide)
    rw [this]
    rfl
  · unfold matchWrite
    have : eatLit "WRITE".toList (readInstr (c :: cs) hs).toList = none :=
      eatLit_head_ne _ _ _ _ (by decide)
    rw [this]
    rfl
  · unfold matchRead
    rw [e1, eatLit_append]
    have h2 := eatSpaces1_one c (cs ++ Char.ofNat 32 :: ("0x".toList ++ hs))
      (not_space_of_identStart hc)
    have h3 := takeWhile_all_then cs (Char.ofNat 32) ("0x".toList ++ hs) hall not_word_space
    have h4 : eatSpaces1 (Char.ofNat 32 :: ("0x".toList ++ hs)) = some ("0x".toList ++ hs) :=
      eatSpaces1_one _ _ hx0
    simp only [Option.bind_eq_bind, Option.some_bind, h2, eatIdent, hc, if_true, h3.1, h3.2, h4,
      eatHexAddr_end hs hh]
    rfl

theorem stoull16_hexLit (hs : List Char) (h : hexValue hs < 2 ^ 64) :
    stoull16 (hexLit hs) = some (hexValue hs) := by
  unfold stoull16
  have : (hexLit hs).toList.drop 2 = hs := rfl
  rw [this, if_pos h]

/-! ## Effect of a bounds-check failure -/

theorem modifyProc_rest (s : State) (p : Nat) (f : Process → Process) :
    (modifyProc s p f).GLOBAL_CONFIG = s.GLOBAL_CONFIG ∧
    (modifyProc s p f).physicalMemory = s.physicalMemory ∧
    (modifyProc s p f).backingStore = s.backingStore ∧
    (modifyProc s p f).backingFile = s.backingFile ∧
    (modifyProc s p f).pageLoadOrder = s.pageLoadOrder ∧
    (modifyProc s p f).processLookup = s.processLookup ∧
    (modifyProc s p f).pageInCount = s.pageInCount ∧
    (modifyProc s p f).pageOutCount = s.pageOutCount ∧
    (modifyProc s p f).processes = s.processes ∧
    (modifyProc s p f).nextProcessID = s.nextProcessID ∧
    (modifyProc s p f).varNames = s.varNames := by
  unfold modifyProc
  split <;> simp

theorem modifyProc_heap_length (s : State) (p : Nat) (f : Process → Process) :
    (modifyProc s p f).heap.length = s.heap.length := by
  unfold modifyProc
  split
  · rfl
  · simp

theorem modifyProc_at {s : State} {p : Nat} {pr : Process} (f : Process → Process)
    (hp : s.heap[p]? = some pr) : (modifyProc s p f).heap[p]? = some (f pr) := by
  rw [modifyProc_getElem?, hp]
  simp

theorem modifyProc_other (s : State) {p q : Nat} (f : Process → Process) (hq : q ≠ p) :
    (modifyProc s p f).heap[q]? = s.heap[q]? := by
  rw [modifyProc_getElem?]
  cases s.heap[q]? with
  | none => rfl
  | some pr => simp [hq]

/-- A user READ or WRITE whose address fails the bounds check returns the state
of `shutdownViolation`. -/
theorem runCustom_violation {s : State} {p k : Nat} {pr : Process} {logStart ts2 : String}
    {instr addrHex other : String} {a : Nat}
    (hp : s.heap[p]? = some pr)
    (hacc : IsUserWrite instr addrHex other ∨ IsUserRead instr other addrHex)
    (ha : stoull16 addrHex = some a) (hv : a < 64 ∨ a ≥ pr.memorySize) :
    runCustom s p k logStart ts2 instr =
      Outcome.ok (shutdownViolation s p k logStart addrHex ts2) := by
  unfold runCustom
  simp only [hp]
  rcases hacc with ⟨h1, h2, h3, h4⟩ | ⟨h1, h2, h3, h4, h5⟩
  · simp only [h1, h2, h3, h4, ha]
    rw [if_pos hv]
  · simp only [h1, h2, h3, h4, h5, ha]
    rw [if_pos hv]

theorem resizeLog_length (l : List String) (k : Nat) :
    (resizeLog l k).length = max l.length (k + 1) := by
  unfold resizeLog
  split
  · rw [List.length_append, List.length_replicate]
    omega
  · omega

theorem resizeLog_getD (l : List String) (k i : Nat) :
    ((resizeLog l k)[i]?).getD "" = (l[i]?).getD "" := by
  unfold resizeLog
  split
  · by_cases hi : i < l.length
    · rw [List.getElem?_append_left hi]
    · have hi2 : l.length ≤ i := by omega
      rw [List.getElem?_append_right hi2, List.getElem?_eq_none hi2]
      by_cases h3 : i - l.length < k + 1 - l.length
      · rw [List.getElem?_replicate, if_pos h3]
        rfl
      · rw [List.getElem?_replicate, if_neg h3]
  · rfl

theorem manager_shutdown_id (s : State) (k : Nat) (coreId : Int) (p : Nat) (pr : Process)
    (ts ts2 : String) (d : Draws) (hp : s.heap[p]? = some pr) (hs : pr.isShutdown = true) :
    instructions_manager s k coreId p ts ts2 d = Outcome.ok s := by
  unfold instructions_manager
  simp only [hp, hs, if_true]

/-- The state a bounds-check failure at line `k` leaves. -/
theorem violation_outcome {s : State} {k : Nat} {coreId : Int} {p : Nat} {pr : Process}
    {ts ts2 : String} {d : Draws} {instr addrHex other : String} {a : Nat}
    (hp : s.heap[p]? = some pr) (hns : pr.isShutdown = false)
    (hk : pr.customInstrList[k]? = some instr)
    (hacc : IsUserWrite instr addrHex other ∨ IsUserRead instr other addrHex)
    (ha : stoull16 addrHex = some a) (hv : a < 64 ∨ a ≥ pr.memorySize) :
    instructions_manager s k coreId p ts ts2 d =
      Outcome.ok (shutdownViolation
        (modifyProc s p (fun q => { q with instructions := resizeLog q.instructions k }))
        p k ("(" ++ ts ++ ") Core: " ++ toString coreId ++ " ") addrHex ts2) := by
  have hlt : k < pr.customInstrList.length := (List.getElem?_eq_some.mp hk).1
  have hp0 := modifyProc_at (fun q => { q with instructions := resizeLog q.instructions k }) hp
  unfold instructions_manager
  simp only [hp, hns, Bool.false_eq_true, if_false, if_pos hlt, hk, Option.getD_some]
  exact @runCustom_violation _ _ _ { pr with instructions := resizeLog pr.instructions k } _ _ _ _ _ _
    hp0 hacc ha hv

/-! ## Claims on the executor -/

/-- C11: when a user READ or WRITE at line `k` of a process that is not shut
down fails the bounds check, `instructions_manager` returns; the process then has
`isShutdown` set, `shutdownReason` equal to "Memory access violation at "
followed by the address literal of the instruction, and the log entry `k` holding
that reason; every other log entry reads as before (an index past the old end
reads as the empty string, before and after), and the variable store, the page
table, the frame table, the backing store and its file, the victim queue, the
paging counters and every other process are unchanged. -/
theorem violation_effect (s : State) (k : Nat) (coreId : Int) (p : Nat) (pr : Process)
    (ts ts2 : String) (d : Draws) (instr addrHex other : String) (a : Nat)
    (hp : s.heap[p]? = some pr) (hns : pr.isShutdown = false)
    (hk : pr.customInstrList[k]? = some instr)
    (hacc : IsUserWrite instr addrHex other ∨ IsUserRead instr other addrHex)
    (ha : stoull16 addrHex = some a) (hv : a < 64 ∨ a ≥ pr.memorySize) :
    ∃ (t : State) (pr1 : Process),
      instructions_manager s k coreId p ts ts2 d = Outcome.ok t ∧ t.heap[p]? = some pr1 ∧
      pr1.isShutdown = true ∧
      pr1.shutdownReason = "Memory access violation at " ++ addrHex ∧
      pr1.shutdownTime = ts2 ∧
      pr1.instructions[k]? = some (violationLine ts coreId addrHex) ∧
      (∀ i, i ≠ k → (pr1.instructions[i]?).getD "" = (pr.instructions[i]?).getD "") ∧
      pr1.instructions.length = max pr.instructions.length (k + 1) ∧
      pr1.memory = pr.memory ∧ pr1.pageTable = pr.pageTable ∧
      pr1.currentLine = pr.currentLine ∧ pr1.totalLine = pr.totalLine ∧
      pr1.isFinished = pr.isFinished ∧
      t.physicalMemory = s.physicalMemory ∧ t.backingStore = s.backingStore ∧
      t.backingFile = s.backingFile ∧ t.pageLoadOrder = s.pageLoadOrder ∧
      t.pageInCount = s.pageInCount ∧ t.pageOutCount = s.pageOutCount ∧
      (∀ q, q ≠ p → t.heap[q]? = s.heap[q]?) := by
  have hlen : k < (resizeLog pr.instructions k).length := by
    rw [resizeLog_length]
    omega
  refine ⟨_, { pr with
      isShutdown := true
      shutdownReason := "Memory access violation at " ++ addrHex
      shutdownTime := ts2
      instructions := (resizeLog pr.instructions k).set k
        (("(" ++ ts ++ ") Core: " ++ toString coreId ++ " ") ++ "\"" ++
          ("Memory access violation at " ++ addrHex) ++ "\"") },
    violation_outcome hp hns hk hacc ha hv, ?_, ?_⟩
  · unfold shutdownViolation
    exact modifyProc_at _ (modifyProc_at _ hp)
  · refine ⟨rfl, rfl, rfl, ?_, ?_, ?_, rfl, rfl, rfl, rfl, rfl, ?_, ?_, ?_, ?_, ?_, ?_, ?_⟩
    · show ((resizeLog pr.instructions k).set k _)[k]? = _
      rw [List.getElem?_set_self hlen]
      rfl
    · intro i hi
      show (((resizeLog pr.instructions k).set k _)[i]?).getD "" = _
      rw [List.getElem?_set_ne (fun h => hi h.symm), resizeLog_getD]
    · show ((resizeLog pr.instructions k).set k _).length = _
      rw [List.length_set, resizeLog_length]
    · unfold shutdownViolation
      rw [(modifyProc_rest _ _ _).2.1, (modifyProc_rest _ _ _).2.1]
    · unfold shutdownViolation
      rw [(modifyProc_rest _ _ _).2.2.1, (modifyProc_rest _ _ _).2.2.1]
    · unfold shutdownViolation
      rw [(modifyProc_rest _ _ _).2.2.2.1, (modifyProc_rest _ _ _).2.2.2.1]
    · unfold shutdownViolation
      rw [(modifyProc_rest _ _ _).2.2.2.2.1, (modifyProc_rest _ _ _).2.2.2.2.1]
    · unfold shutdownViolation
      rw [(modifyProc_rest _ _ _).2.2.2.2.2.2.1, (modifyProc_rest _ _ _).2.2.2.2.2.2.1]
    · unfold shutdownViolation
      rw [(modifyProc_rest _ _ _).2.2.2.2.2.2.2.1, (modifyProc_rest _ _ _).2.2.2.2.2.2.2.1]
    · intro q hq
      unfold shutdownViolation
      rw [modifyProc_other _ _ hq, modifyProc_other _ _ hq]

/-- Witness for C11: line 2 of the program of `wideState` is `WRITE 0x100 5`,
address 256 of a process of 256 bytes. -/
theorem violation_effect_witness :
    ∃ (t : State) (pr1 : Process),
      instructions_manager wideState 2 1 0 "T" "T2" noDraws = Outcome.ok t ∧
      t.heap[0]? = some pr1 ∧
      pr1.isShutdown = true ∧
      pr1.shutdownReason = "Memory access violation at " ++ "0x100" ∧
      pr1.shutdownTime = "T2" ∧
      pr1.instructions[2]? = some (violationLine "T" 1 "0x100") ∧
      (∀ i, i ≠ 2 → (pr1.instructions[i]?).getD "" =
        (([] : List String)[i]?).getD "") ∧
      pr1.instructions.length = max ([] : List String).length (2 + 1) ∧
      pr1.memory = [] ∧ pr1.pageTable = [{}, {}] ∧
      pr1.currentLine = 0 ∧ pr1.totalLine = 5 ∧
      pr1.isFinished = false ∧
      t.physicalMemory = wideState.physicalMemory ∧ t.backingStore = wideState.backingStore ∧
      t.backingFile = wideState.backingFile ∧ t.pageLoadOrder = wideState.pageLoadOrder ∧
      t.pageInCount = wideState.pageInCount ∧ t.pageOutCount = wideState.pageOutCount ∧
      (∀ q, q ≠ 0 → t.heap[q]? = wideState.heap[q]?) :=
  violation_effect wideState 2 1 0
    { id := 1, name := "p", currentLine := 0, totalLine := 5, timestamp := "t0",
      memorySize := 256, pageTable := [{}, {}],
      customInstrList := ["WRITE 0x40 5", "READ x 0x40", "WRITE 0x100 5"] }
    "T" "T2" noDraws "WRITE 0x100 5" "0x100" "5" 256 (by decide) rfl (by decide)
    (Or.inl (by unfold IsUserWrite; decide)) (by decide) (Or.inr (by decide))

/-- C12 (P7, no further log lines): for a process whose `isShutdown` flag is
set, every call of `instructions_manager`, at any line and on any core, returns
the state it was given: the instruction log, the variable store, the shutdown
reason and time, the page table and the whole memory-manager state are
unchanged. -/
theorem shutdown_is_noop (s : State) (k : Nat) (coreId : Int) (p : Nat) (pr : Process)
    (ts ts2 : String) (d : Draws) (hp : s.heap[p]? = some pr) (hs : pr.isShutdown = true) :
    instructions_manager s k coreId p ts ts2 d = Outcome.ok s := by
  unfold instructions_manager
  simp only [hp, hs, if_true]

/-- Witness for C12: the process of `haltedState` was shut down at line 2; a
further call at line 3 on core 4 changes nothing. -/
theorem shutdown_is_noop_witness :
    instructions_manager haltedState 3 4 0 "T3" "T4" noDraws = Outcome.ok haltedState :=
  shutdown_is_noop haltedState 3 4 0
    { id := 1, name := "p", currentLine := 0, totalLine := 5, timestamp := "t0",
      memorySize := 256, pageTable := [{}, {}],
      instructions := ["", "", "(T) Core: 1 \"Memory access violation at 0x100\""],
      customInstrList := ["WRITE 0x40 5", "READ x 0x40", "WRITE 0x100 5"],
      isShutdown := true, shutdownReason := "Memory access violation at 0x100",
      shutdownTime := "T2" }
    "T3" "T4" noDraws (by decide) rfl

/-! ## Values of the variable store -/

theorem memGet_assign (x k : String) (v : Nat) (m : List (String × Nat)) :
    memGet x (mapAssign k v m) = if x = k then v else memGet x m := by
  unfold memGet
  rw [mapFind_assign]
  split <;> rfl

theorem memIndex_fst (k : String) (m : List (String × Nat)) : (memIndex k m).1 = memGet k m := by
  unfold memIndex memGet
  cases mapFind k m <;> rfl

theorem memGet_memIndex (x k : String) (m : List (String × Nat)) :
    memGet x (memIndex k m).2 = memGet x m := by
  unfold memIndex
  cases h : mapFind k m with
  | some v => rfl
  | none =>
    show memGet x (mapAssign k 0 m) = memGet x m
    rw [memGet_assign]
    split
    · rename_i hx
      subst hx
      unfold memGet
      rw [h]
      rfl
    · rfl

theorem clampUint16_add (x y : Nat) : clampUint16 ((x : Int) + (y : Int)) = min (x + y) 65535 := by
  unfold clampUint16
  omega

theorem clampUint16_sub (x y : Nat) (hx : x < 65536) :
    ((clampUint16 ((x : Int) - (y : Int)) : Nat) : Int) = max ((x : Int) - (y : Int)) 0 := by
  unfold clampUint16
  omega

theorem commitLog_memory {s : State} {p : Nat} {pr : Process} (k : Nat) (line : String)
    (m : List (String × Nat)) (hp : s.heap[p]? = some pr) :
    (commitLog (modifyProc s p (fun q => { q with memory := m })) p k line).heap[p]? =
      some { pr with memory := m, instructions := pr.instructions.set k line } := by
  unfold commitLog
  exact modifyProc_at _ (modifyProc_at _ hp)

/-- The ADD branch of the executor. -/
theorem runCustom_add {s : State} {p k : Nat} {pr : Process} {logStart ts2 : String}
    {instr dst a b : String} (hp : s.heap[p]? = some pr) (h : IsUserAdd instr dst a b) :
    ∃ (t : State) (pr1 : Process),
      runCustom s p k logStart ts2 instr = Outcome.ok t ∧ t.heap[p]? = some pr1 ∧
      memGet dst pr1.memory = min (memGet a pr.memory + memGet b pr.memory) 65535 ∧
      ∀ x, x ≠ dst → memGet x pr1.memory = memGet x pr.memory := by
  obtain ⟨h1, h2⟩ := h
  unfold runCustom
  simp only [hp, h1, h2]
  refine ⟨_, _, rfl, commitLog_memory k _ _ hp, ?_, ?_⟩
  · dsimp only
    rw [memGet_memIndex, memGet_memIndex, memGet_assign, if_pos rfl, memIndex_fst,
      memIndex_fst, memGet_memIndex, clampUint16_add]
  · intro x hx
    dsimp only
    rw [memGet_memIndex, memGet_memIndex, memGet_assign, if_neg hx, memGet_memIndex,
      memGet_memIndex]

/-- The SUBTRACT branch of the executor. -/
theorem runCustom_subtract {s : State} {p k : Nat} {pr : Process} {logStart ts2 : String}
    {instr dst a b : String} (hp : s.heap[p]? = some pr) (h : IsUserSubtract instr dst a b)
    (hu : memGet a pr.memory < 65536) :
    ∃ (t : State) (pr1 : Process),
      runCustom s p k logStart ts2 instr = Outcome.ok t ∧ t.heap[p]? = some pr1 ∧
      ((memGet dst pr1.memory : Nat) : Int) =
        max ((memGet a pr.memory : Int) - (memGet b pr.memory : Int)) 0 ∧
      ∀ x, x ≠ dst → memGet x pr1.memory = memGet x pr.memory := by
  obtain ⟨h1, h2, h3⟩ := h
  unfold runCustom
  simp only [hp, h1, h2, h3]
  refine ⟨_, _, rfl, commitLog_memory k _ _ hp, ?_, ?_⟩
  · dsimp only
    rw [memGet_memIndex, memGet_memIndex, memGet_assign, if_pos rfl, memIndex_fst,
      memIndex_fst, memGet_memIndex, clampUint16_sub _ _ hu]
  · intro x hx
    dsimp only
    rw [memGet_memIndex, memGet_memIndex, memGet_assign, if_neg hx, memGet_memIndex,
      memGet_memIndex]

/-- The executor at a line of the user program of a process that is not shut
down runs `runCustom` on the state with the log resized. -/
theorem manager_custom {s : State} {k : Nat} {coreId : Int} {p : Nat} {pr : Process}
    {ts ts2 : String} {d : Draws} {instr : String}
    (hp : s.heap[p]? = some pr) (hns : pr.isShutdown = false)
    (hk : pr.customInstrList[k]? = some instr) :
    instructions_manager s k coreId p ts ts2 d =
      runCustom (modifyProc s p (fun q => { q with instructions := resizeLog q.instructions k }))
        p k ("(" ++ ts ++ ") Core: " ++ toString coreId ++ " ") ts2 instr := by
  have hlt : k < pr.customInstrList.length := (List.getElem?_eq_some.mp hk).1
  unfold instructions_manager
  simp only [hp, hns, Bool.false_eq_true, if_false, if_pos hlt, hk, Option.getD_some]

theorem calcProcess2_u16 (x : String) : memGet x calcProcess2.memory < 65536 := by
  show memGet x [("y", 7), ("x", 65535)] < 65536
  unfold memGet mapFind
  simp only []
  split
  · decide
  · unfold mapFind
    simp only []
    split
    · decide
    · simp [mapFind]

/-- C19: for a process that is not shut down whose stored values are 16-bit, the
user instruction `ADD d a b` at line `k` returns and leaves
`d = min(a + b, 65535)`, and `SUBTRACT d a b` returns and leaves
`d = max(a - b, 0)`, the operand values being those before the instruction and an
absent variable reading as 0; `d`, `a` and `b` may coincide; every variable other
than `d` reads as before. -/
theorem add_subtract_saturate (s : State) (k : Nat) (coreId : Int) (p : Nat) (pr : Process)
    (ts ts2 : String) (d : Draws) (instr dst a b : String)
    (hp : s.heap[p]? = some pr) (hns : pr.isShutdown = false)
    (hk : pr.customInstrList[k]? = some instr)
    (hu : ∀ x, memGet x pr.memory < 65536) :
    (IsUserAdd instr dst a b →
      ∃ (t : State) (pr1 : Process),
        instructions_manager s k coreId p ts ts2 d = Outcome.ok t ∧ t.heap[p]? = some pr1 ∧
        memGet dst pr1.memory = min (memGet a pr.memory + memGet b pr.memory) 65535 ∧
        ∀ x, x ≠ dst → memGet x pr1.memory = memGet x pr.memory) ∧
    (IsUserSubtract instr dst a b →
      ∃ (t : State) (pr1 : Process),
        instructions_manager s k coreId p ts ts2 d = Outcome.ok t ∧ t.heap[p]? = some pr1 ∧
        ((memGet dst pr1.memory : Nat) : Int) =
          max ((memGet a pr.memory : Int) - (memGet b pr.memory : Int)) 0 ∧
        ∀ x, x ≠ dst → memGet x pr1.memory = memGet x pr.memory) := by
  have hp0 := modifyProc_at (fun q => { q with instructions := resizeLog q.instructions k }) hp
  rw [manager_custom hp hns hk]
  exact ⟨fun h => @runCustom_add _ _ _ { pr with instructions := resizeLog pr.instructions k }
      _ _ _ _ _ _ hp0 h,
    fun h => @runCustom_subtract _ _ _ { pr with instructions := resizeLog pr.instructions k }
      _ _ _ _ _ _ hp0 h (hu a)⟩

/-- Witness for C19: in `calcState2` the store holds `x = 65535` and `y = 7`;
line 2 of the program is `ADD z x y`, which saturates at 65535, and line 3 is
`SUBTRACT w y x`, which saturates at 0. -/
theorem add_subtract_saturate_witness :
    (∃ (t : State) (pr1 : Process),
      instructions_manager calcState2 2 1 0 "T" "T2" noDraws = Outcome.ok t ∧
      t.heap[0]? = some pr1 ∧
      memGet "z" pr1.memory =
        min (memGet "x" calcProcess2.memory + memGet "y" calcProcess2.memory) 65535 ∧
      ∀ x, x ≠ "z" → memGet x pr1.memory = memGet x calcProcess2.memory) ∧
    (∃ (t : State) (pr1 : Process),
      instructions_manager calcState2 3 1 0 "T" "T2" noDraws = Outcome.ok t ∧
      t.heap[0]? = some pr1 ∧
      ((memGet "w" pr1.memory : Nat) : Int) =
        max ((memGet "y" calcProcess2.memory : Int) - (memGet "x" calcProcess2.memory : Int)) 0 ∧
      ∀ x, x ≠ "w" → memGet x pr1.memory = memGet x calcProcess2.memory) :=
  ⟨(add_subtract_saturate calcState2 2 1 0 calcProcess2 "T" "T2" noDraws "ADD z x y" "z" "x" "y"
      (by decide) rfl (by decide) calcProcess2_u16).1 (by unfold IsUserAdd; decide),
   (add_subtract_saturate calcState2 3 1 0 calcProcess2 "T" "T2" noDraws "SUBTRACT w y x"
      "w" "y" "x" (by decide) rfl (by decide) calcProcess2_u16).2
      (by unfold IsUserSubtract; decide)⟩

/-- C20 fails on the code: the literal of a user `DECLARE` or `WRITE` goes
through `static_cast<uint16_t>(stoi(..))`, which wraps modulo 65536 and throws
above `INT_MAX`.  In `calcState2`, line 5 `DECLARE big 65536` leaves `big = 0`,
line 6 `WRITE 0x40 65536` (address 64 of 256 bytes, in bounds) stores 0 at key
`0x40`, and line 7 `DECLARE huge 2147483648` throws; the claim gives 65535 in
all three cases. -/
theorem literal_operand_wraps :
    IsUserDeclare "DECLARE big 65536" "big" "65536" ∧
    varAfter (instructions_manager calcState2 5 1 0 "T" "T2" noDraws) 0 "big" = some 0 ∧
    IsUserWrite "WRITE 0x40 65536" "0x40" "65536" ∧
    shutdownFlag (instructions_manager calcState2 6 1 0 "T" "T2" noDraws) 0 = some false ∧
    varAfter (instructions_manager calcState2 6 1 0 "T" "T2" noDraws) 0 "0x40" = some 0 ∧
    min 65536 65535 = 65535 ∧
    IsUserDeclare "DECLARE huge 2147483648" "huge" "2147483648" ∧
    instructions_manager calcState2 7 1 0 "T" "T2" noDraws = Outcome.throws "stoi" := by
  unfold IsUserDeclare IsUserWrite
  decide

/-! ## Fields the executor never writes -/

theorem schedView_of_heap {s t : State} (hc : t.GLOBAL_CONFIG = s.GLOBAL_CONFIG)
    (hh : ∀ q : Nat, (t.heap[q]?).map schedFields = (s.heap[q]?).map schedFields) :
    schedView t = schedView s := by
  unfold schedView
  rw [hc]
  congr 1
  apply List.ext_getElem?
  intro q
  rw [List.getElem?_map, List.getElem?_map]
  exact hh q

theorem schedView_modifyProc (s : State) (p : Nat) (f : Process → Process)
    (hf : ∀ pr, schedFields (f pr) = schedFields pr) :
    schedView (modifyProc s p f) = schedView s := by
  apply schedView_of_heap (modifyProc_rest s p f).1
  intro q
  rw [modifyProc_getElem?]
  cases s.heap[q]? with
  | none => rfl
  | some pr =>
    simp only [Option.map_some']
    split
    · rw [hf]
    · rfl

theorem schedFields_setEntry (h : List Process) (p pn : Nat) (e : PageTableEntry) (q : Nat) :
    ((setEntry h p pn e)[q]?).map schedFields = (h[q]?).map schedFields := by
  rw [setEntry_getElem?]
  cases h[q]? with
  | none => rfl
  | some pr =>
    simp only [Option.map_some']
    split <;> rfl

theorem schedView_commitLog (s : State) (p k : Nat) (line : String) :
    schedView (commitLog s p k line) = schedView s :=
  schedView_modifyProc s p _ (fun _ => rfl)

theorem schedView_setMemory (s : State) (p : Nat) (g : Process → List (String × Nat)) :
    schedView (modifyProc s p (fun r => { r with memory := g r })) = schedView s :=
  schedView_modifyProc s p _ (fun _ => rfl)

theorem schedView_setLog (s : State) (p : Nat) (g : Process → List String) :
    schedView (modifyProc s p (fun r => { r with instructions := g r })) = schedView s :=
  schedView_modifyProc s p _ (fun _ => rfl)

theorem schedView_shutdownViolation (s : State) (p k : Nat) (logStart addrHex ts2 : String) :
    schedView (shutdownViolation s p k logStart addrHex ts2) = schedView s :=
  schedView_modifyProc s p _ (fun _ => rfl)

theorem schedView_appendFrameData (s : State) (f : Nat) (str : String) :
    schedView (appendFrameData s f str) = schedView s := by
  unfold appendFrameData
  split <;> rfl

theorem schedView_appendFrameAt {s t : State} {f : Int} {str : String}
    (h : appendFrameAt s f str = some t) : schedView t = schedView s := by
  unfold appendFrameAt at h
  split at h
  · cases h
    exact schedView_appendFrameData s _ str
  · cases h

theorem schedView_varNames (s : State) (v : List (Int × List String)) :
    schedView { s with varNames := v } = schedView s := rfl

theorem schedView_claimFreeFrame (s : State) (p : Nat) (pr : Process) (pg : Int) (i : Nat) :
    schedView (claimFreeFrame s p pr pg i) = schedView s := by
  apply schedView_of_heap (claimFreeFrame_rest s p pr pg i).2.2.2.2.2.2
  intro q
  rw [claimFreeFrame_heap, schedFields_setEntry]

theorem schedView_replaceVictim (s : State) (p : Nat) (pr : Process) (pg vpid vpg : Int)
    (ep : Nat) (vi : Int) (vf : Frame) :
    schedView (replaceVictim s p pr pg vpid vpg ep vi vf) = schedView s := by
  apply schedView_of_heap (replaceVictim_rest s p pr pg vpid vpg ep vi vf).2.2.2.2.2
  intro q
  rw [replaceVictim_heap, schedFields_setEntry, schedFields_setEntry]

/-- A call of `loadPageIfNotInMemory` writes page tables and memory-manager
state only. -/
theorem schedView_load {s t : State} {proc : Option Nat} {pg : Int} {b : Bool}
    (hl : loadPageIfNotInMemory s proc pg = some (b, t)) : schedView t = schedView s := by
  unfold loadPageIfNotInMemory at hl
  cases proc with
  | none =>
    simp only [Option.some.injEq, Prod.mk.injEq] at hl
    rw [← hl.2]
  | some p =>
    simp only at hl
    cases hp : s.heap[p]? with
    | none => simp [hp] at hl
    | some pr =>
      simp only [hp] at hl
      by_cases hr : pg < 0 ∨ pg ≥ (pr.pageTable.length : Int)
      · simp only [if_pos hr, Option.some.injEq, Prod.mk.injEq] at hl
        rw [← hl.2]
      · rw [if_neg hr] at hl
        cases he0 : pr.pageTable[pg.toNat]? with
        | none => simp [he0] at hl
        | some e0 =>
          simp only [he0] at hl
          cases hm : e0.inMemory with
          | true =>
            simp only [hm, if_true, Option.some.injEq, Prod.mk.injEq] at hl
            rw [← hl.2]
          | false =>
            simp only [hm, Bool.false_eq_true, if_false] at hl
            cases hi : firstFreeFrame s.physicalMemory with
            | some i =>
              simp only [hi, Option.some.injEq, Prod.mk.injEq] at hl
              rw [← hl.2]
              exact schedView_claimFreeFrame s p pr pg i
            | none =>
              simp only [hi] at hl
              unfold evictAndLoad at hl
              cases hq : s.pageLoadOrder with
              | nil =>
                simp only [hq, Option.some.injEq, Prod.mk.injEq] at hl
                rw [← hl.2]
              | cons v rest =>
                obtain ⟨evictedPID, evictedPageNum⟩ := v
                simp only [hq] at hl
                cases h3 : mapFind evictedPID s.processLookup with
                | none =>
                  simp only [h3, Option.some.injEq, Prod.mk.injEq] at hl
                  rw [← hl.2]
                  rfl
                | some ep =>
                  simp only [h3] at hl
                  cases h4 : s.heap[ep]? with
                  | none => simp [h4] at hl
                  | some evictedProc =>
                    simp only [h4] at hl
                    by_cases hneg : evictedPageNum < 0
                    · simp [hneg] at hl
                    · rw [if_neg hneg] at hl
                      cases h5 : evictedProc.pageTable[evictedPageNum.toNat]? with
                      | none => simp [h5] at hl
                      | some evictedEntry =>
                        simp only [h5] at hl
                        by_cases hneg2 : evictedEntry.frameIndex < 0
                        · simp [hneg2] at hl
                        · rw [if_neg hneg2] at hl
                          cases h8 : s.physicalMemory[evictedEntry.frameIndex.toNat]? with
                          | none => simp [h8] at hl
                          | some vf =>
                            simp only [h8, Option.some.injEq, Prod.mk.injEq] at hl
                            rw [← hl.2, schedView_replaceVictim]
                            rfl

/-- The custom-program part of the executor writes the log, the variable store,
page tables, shutdown fields and memory-manager state only. -/
theorem schedView_runCustom {s t : State} {p k : Nat} {logStart ts2 instr : String}
    (h : runCustom s p k logStart ts2 instr = Outcome.ok t) : schedView t = schedView s := by
  unfold runCustom at h
  repeat' first
    | split at h
    | dsimp only at h
  all_goals cases h
  all_goals
    try (have hA := schedView_appendFrameAt ‹appendFrameAt _ _ _ = some _›)
    try (have hL := schedView_load ‹loadPageIfNotInMemory _ _ _ = some _›)
    simp only [schedView_commitLog, schedView_setMemory, schedView_shutdownViolation, *]

/-- The random-generation part of the executor writes the log, the variable
store, page tables and memory-manager state only. -/
theorem schedView_runGenerated {s t : State} {p k : Nat} {coreId : Int} {logStart : String}
    {d : Draws} (h : runGenerated s p k coreId logStart d = Outcome.ok t) :
    schedView t = schedView s := by
  unfold runGenerated at h
  cases hp : s.heap[p]? with
  | none => simp [hp] at h
  | some pr =>
    simp only [hp] at h
    by_cases h1 : d.cmd = 1 ∨ threadVars s coreId = []
    · rw [if_pos h1] at h
      by_cases h32 : (threadVars s coreId).length < 32
      · rw [if_pos h32] at h
        cases hl : loadPageIfNotInMemory s (some p) 0 with
        | none => simp [hl] at h
        | some r =>
          obtain ⟨loaded, s2⟩ := r
          have hL := schedView_load hl
          simp only [hl] at h
          cases loaded with
          | false =>
            simp only [Bool.false_eq_true, if_false] at h
            cases h
            simp only [schedView_commitLog, schedView_setMemory, schedView_varNames, hL]
          | true =>
            simp only [if_true] at h
            cases he : entryOf s2.heap p 0 with
            | none => simp [he] at h
            | some e =>
              simp only [he] at h
              by_cases hf : 0 ≤ e.frameIndex ∧ e.frameIndex < (s2.physicalMemory.length : Int)
              · rw [if_pos hf] at h
                cases h
                simp only [schedView_commitLog, schedView_setMemory, schedView_varNames,
                  schedView_appendFrameData, hL]
              · rw [if_neg hf] at h
                cases h
                simp only [schedView_commitLog, schedView_setMemory, schedView_varNames, hL]
      · rw [if_neg h32] at h
        cases h
        simp only [schedView_commitLog]
    · rw [if_neg h1] at h
      by_cases h0 : d.cmd = 0 ∧ threadVars s coreId ≠ []
      · rw [if_pos h0] at h
        cases hl : loadPageIfNotInMemory s (some p) 0 with
        | none => simp [hl] at h
        | some r =>
          obtain ⟨loaded, s2⟩ := r
          have hL := schedView_load hl
          simp only [hl] at h
          cases h
          simp only [schedView_commitLog, schedView_setMemory, hL]
      · rw [if_neg h0] at h
        by_cases h2 : d.cmd = 2 ∧ (threadVars s coreId).length ≥ 2
        · rw [if_pos h2] at h
          cases hl : loadPageIfNotInMemory s (some p) 0 with
          | none => simp [hl] at h
          | some r =>
            obtain ⟨loaded, s2⟩ := r
            have hL := schedView_load hl
            simp only [hl] at h
            cases h
            simp only [schedView_commitLog, schedView_setMemory, hL]
        · rw [if_neg h2] at h
          by_cases h3 : d.cmd = 3 ∧ (threadVars s coreId).length ≥ 2
          · rw [if_pos h3] at h
            cases hl : loadPageIfNotInMemory s (some p) 0 with
            | none => simp [hl] at h
            | some r =>
              obtain ⟨loaded, s2⟩ := r
              have hL := schedView_load hl
              simp only [hl] at h
              cases h
              simp only [schedView_commitLog, schedView_setMemory, hL]
          · rw [if_neg h3] at h
            by_cases h4 : d.cmd = 4
            · rw [if_pos h4] at h
              cases h
              simp only [schedView_commitLog]
            · rw [if_neg h4] at h
              by_cases h5 : d.cmd = 5
              · rw [if_pos h5] at h
                by_cases hv : threadVars s coreId ≠ []
                · rw [if_pos hv] at h
                  cases hpg : pageOfAddress s.GLOBAL_CONFIG.memPerFrame d.address pr.pageTable.length with
                  | none => simp [hpg] at h
                  | some pageNumber =>
                    simp only [hpg] at h
                    cases hl : loadPageIfNotInMemory s (some p) (sizeToInt pageNumber) with
                    | none => simp [hl] at h
                    | some r =>
                      obtain ⟨loaded, s2⟩ := r
                      have hL := schedView_load hl
                      simp only [hl] at h
                      cases h
                      simp only [schedView_commitLog, schedView_setMemory, hL]
                · rw [if_neg hv] at h
                  cases h
                  simp only [schedView_commitLog]
              · rw [if_neg h5] at h
                by_cases h6 : d.cmd = 6
                · rw [if_pos h6] at h
                  cases hpg : pageOfAddress s.GLOBAL_CONFIG.memPerFrame d.address pr.pageTable.length with
                  | none => simp [hpg] at h
                  | some pageNumber =>
                    simp only [hpg] at h
                    cases hl : loadPageIfNotInMemory s (some p) (sizeToInt pageNumber) with
                    | none => simp [hl] at h
                    | some r =>
                      obtain ⟨loaded, s2⟩ := r
                      have hL := schedView_load hl
                      simp only [hl] at h
                      cases loaded with
                      | false =>
                        simp only [Bool.false_eq_true, if_false] at h
                        cases h
                        simp only [schedView_commitLog, hL]
                      | true =>
                        simp only [if_true] at h
                        split at h
                        · cases h
                        · cases h
                          split
                          · simp only [schedView_commitLog, schedView_appendFrameData,
                              schedView_setMemory, hL]
                          · simp only [schedView_commitLog, schedView_setMemory, hL]
                · rw [if_neg h6] at h
                  cases h
                  rw [schedView_commitLog, schedView_setMemory]
                  split
                  · rw [schedView_varNames, schedView_setMemory]
                  · rfl

/-- The executor writes the log, the variable store and the shutdown fields of
the process it runs, page tables and memory-manager state; for every process
the other fields, and the configuration, are as before. -/
theorem schedView_manager {s t : State} {k : Nat} {coreId : Int} {p : Nat} {ts ts2 : String}
    {d : Draws} (h : instructions_manager s k coreId p ts ts2 d = Outcome.ok t) :
    schedView t = schedView s := by
  unfold instructions_manager at h
  cases hp : s.heap[p]? with
  | none => simp [hp] at h
  | some pr =>
    simp only [hp] at h
    split at h
    · cases h
      rfl
    · split at h
      · rw [schedView_runCustom h, schedView_setLog]
      · rw [schedView_runGenerated h, schedView_setLog]

/-! ## Steps of a worker thread -/

theorem modifyProc_modifyProc (s : State) (p : Nat) (f g : Process → Process) :
    modifyProc (modifyProc s p f) p g = modifyProc s p (fun q => g (f q)) := by
  cases hp : s.heap[p]? with
  | none =>
    have h1 : modifyProc s p f = s := by
      unfold modifyProc
      rw [hp]
    rw [h1]
    unfold modifyProc
    rw [hp]
  | some pr =>
    have h2 := modifyProc_at f hp
    have h1 : modifyProc s p f = { s with heap := s.heap.set p (f pr) } := by
      unfold modifyProc
      rw [hp]
    unfold modifyProc
    rw [hp]
    unfold modifyProc at h2
    rw [hp] at h2
    simp only at h2 ⊢
    rw [h2]
    simp only [List.set_set]

theorem mapErase_assign {κ ν : Type} [DecidableEq κ] (k : κ) (v : ν) (m : List (κ × ν)) :
    mapErase k (mapAssign k v m) = mapErase k m := by
  unfold mapAssign
  rw [mapErase_cons, if_pos rfl]
  unfold mapErase
  rw [List.filter_filter]
  congr 1
  funext e
  simp

theorem mapFind_assign_self {κ ν : Type} [DecidableEq κ] (k : κ) (v : ν) (m : List (κ × ν)) :
    mapFind k (mapAssign k v m) = some v := by
  rw [mapFind_assign, if_pos rfl]

theorem loopRuns_rr {m : Machine} {w : Worker} {pr : Process}
    (hp : m.st.heap[w.proc]? = some pr) (hs : m.st.GLOBAL_CONFIG.scheduler = "rr")
    (hstop : m.stopScheduler = false) :
    loopRuns m w = some (decide (pr.currentLine < pr.totalLine) &&
      decide (w.executedInstructions < m.st.GLOBAL_CONFIG.quantumCycles)) := by
  unfold loopRuns
  rw [hp, hs, hstop]
  simp

theorem quantum_step {q e n c fuel : Nat} (h1 : c < n) (h2 : e < q)
    (hf : min (q - e) (n - c) < fuel + 1) : min (q - (e + 1)) (n - (c + 1)) < fuel := by
  omega

theorem quantum_advance {q e n c : Nat} (h1 : c < n) (h2 : e < q) :
    c + 1 + min (q - (e + 1)) (n - (c + 1)) = c + min (q - e) (n - c) := by
  omega

theorem quantum_spent {q e n c : Nat} (h : ¬ (c < n ∧ e < q)) : min (q - e) (n - c) = 0 := by
  omega

theorem modifyProc_congr {s : State} {p : Nat} {pr : Process} (f g : Process → Process)
    (hp : s.heap[p]? = some pr) (h : f pr = g pr) : modifyProc s p f = modifyProc s p g := by
  unfold modifyProc
  rw [hp]
  simp only
  rw [h]

theorem loopRuns_fcfs {m : Machine} {w : Worker} {pr : Process}
    (hp : m.st.heap[w.proc]? = some pr) (hs : m.st.GLOBAL_CONFIG.scheduler = "fcfs")
    (hstop : m.stopScheduler = false) :
    loopRuns m w = some (decide (pr.currentLine < pr.totalLine)) := by
  unfold loopRuns
  rw [hp, hs, hstop]
  simp

/-- One iteration of the dispatch loop, given the state the executor returns. -/
theorem exec_eq {m : Machine} {coreId : Int} {ts ts2 : String} {d : Draws} {w : Worker}
    {pr : Process} {t : State} (hw : mapFind coreId m.workers = some w)
    (hp : m.st.heap[w.proc]? = some pr) (hrun : loopRuns m w = some true)
    (ht : instructions_manager m.st pr.currentLine coreId w.proc ts ts2 d = Outcome.ok t) :
    cpuWorkerExec m coreId ts ts2 d = some
      { m with
        st := modifyProc t w.proc (fun q => { q with currentLine := q.currentLine + 1 })
        workers := mapAssign coreId
          { w with executedInstructions :=
              if m.st.GLOBAL_CONFIG.scheduler = "rr" then w.executedInstructions + 1
              else w.executedInstructions } m.workers } := by
  unfold cpuWorkerExec
  simp only [hw, hp, if_pos hrun, ht]

/-- The exit of the loop that completes the process. -/
theorem leave_complete {m : Machine} {coreId : Int} {ts : String} {w : Worker} {pr : Process}
    (hw : mapFind coreId m.workers = some w) (hp : m.st.heap[w.proc]? = some pr)
    (hrun : ¬ loopRuns m w = some true)
    (hre : ¬ (m.st.GLOBAL_CONFIG.scheduler = "rr" ∧ pr.currentLine < pr.totalLine)) :
    cpuWorkerLeave m coreId ts = some
      { m with
        st := modifyProc m.st w.proc (fun q => { q with isFinished := true, finishedTime := ts })
        workers := mapErase coreId m.workers } := by
  unfold cpuWorkerLeave
  simp only [hw, hp, if_neg hrun, if_neg hre]

/-- The exit of the RR loop that puts the process back in the queue. -/
theorem leave_requeue {m : Machine} {coreId : Int} {ts : String} {w : Worker} {pr : Process}
    (hw : mapFind coreId m.workers = some w) (hp : m.st.heap[w.proc]? = some pr)
    (hrun : ¬ loopRuns m w = some true)
    (hre : m.st.GLOBAL_CONFIG.scheduler = "rr" ∧ pr.currentLine < pr.totalLine) :
    cpuWorkerLeave m coreId ts = some
      { m with
        rrQueue := m.rrQueue ++ [w.proc]
        workers := mapErase coreId m.workers } := by
  unfold cpuWorkerLeave
  simp only [hw, hp, if_neg hrun, if_pos hre]

theorem fcfs_ne_rr {m : Machine} (hs : m.st.GLOBAL_CONFIG.scheduler = "fcfs") :
    ¬ m.st.GLOBAL_CONFIG.scheduler = "rr" := by
  rw [hs]
  decide

/-- Under FCFS with the stop flag clear the visit of a shut-down process runs
the line counter up to `totalLine` and marks the process finished; nothing else
changes. -/
theorem shutdown_visit_fcfs (coreId : Int) (env : Nat → Env) (tsEnd : String) :
    ∀ (fuel : Nat) (m : Machine) (w : Worker) (pr : Process),
      mapFind coreId m.workers = some w → m.st.heap[w.proc]? = some pr →
      pr.isShutdown = true → m.st.GLOBAL_CONFIG.scheduler = "fcfs" → m.stopScheduler = false →
      pr.currentLine ≤ pr.totalLine → pr.totalLine - pr.currentLine < fuel →
      cpuWorkerVisit fuel m coreId env tsEnd = Run.done
        { m with
          st := modifyProc m.st w.proc (fun q =>
            { q with currentLine := pr.totalLine, isFinished := true, finishedTime := tsEnd })
          workers := mapErase coreId m.workers } := by
  intro fuel
  induction fuel with
  | zero =>
    intro m w pr _ _ _ _ _ _ hf
    exact absurd hf (Nat.not_lt_zero _)
  | succ fuel ih =>
    intro m w pr hw hp hsd hs hstop hle hf
    have hlr := loopRuns_fcfs hp hs hstop
    unfold cpuWorkerVisit
    simp only [hw, hp]
    by_cases hc : pr.currentLine < pr.totalLine
    · have hrun : loopRuns m w = some true := by
        rw [hlr]
        simp [hc]
      rw [if_pos hrun]
      have hx := exec_eq hw hp hrun
        (manager_shutdown_id m.st pr.currentLine coreId w.proc pr (env pr.currentLine).ts
          (env pr.currentLine).ts2 (env pr.currentLine).d hp hsd)
      rw [if_neg (fcfs_ne_rr hs)] at hx
      rw [hx]
      simp only
      have hp1 := modifyProc_at (fun q => { q with currentLine := q.currentLine + 1 }) hp
      have h1 := ih
        { m with
          st := modifyProc m.st w.proc (fun q => { q with currentLine := q.currentLine + 1 })
          workers := mapAssign coreId w m.workers }
        w { pr with currentLine := pr.currentLine + 1 } (mapFind_assign_self _ _ _) hp1 hsd
        (by rw [← hs]; exact congrArg SystemConfig.scheduler (modifyProc_rest _ _ _).1) hstop
        (by show pr.currentLine + 1 ≤ pr.totalLine; omega)
        (by show pr.totalLine - (pr.currentLine + 1) < fuel; omega)
      rw [h1]
      simp only [modifyProc_modifyProc, mapErase_assign]
    · have hrun : ¬ loopRuns m w = some true := by
        rw [hlr]
        simp [hc]
      rw [if_neg hrun, leave_complete hw hp hrun (fun h => fcfs_ne_rr hs h.1)]
      simp only
      have heq : pr.currentLine = pr.totalLine := by omega
      rw [modifyProc_congr (fun q => { q with isFinished := true, finishedTime := tsEnd })
        (fun q => { q with currentLine := pr.totalLine, isFinished := true,
                           finishedTime := tsEnd }) hp (by simp only [← heq])]

theorem modifyProc_self {s : State} {p : Nat} {pr : Process} (f : Process → Process)
    (hp : s.heap[p]? = some pr) (h : f pr = pr) : modifyProc s p f = s := by
  unfold modifyProc
  rw [hp]
  simp only
  rw [h]
  have hset : s.heap.set p pr = s.heap := by
    apply List.ext_getElem?
    intro j
    rw [List.getElem?_set]
    split
    · rename_i hj
      subst hj
      rw [hp]
      split
      · rfl
      · rename_i hlt
        have := (List.getElem?_eq_some.mp hp).1
        exact absurd this hlt
    · rfl
  rw [hset]

/-- Under RR with the stop flag clear the visit of a shut-down process runs the
line counter on by the smaller of the rest of the quantum and the rest of the
program, then re-enqueues the process or marks it finished; nothing else
changes. -/
theorem shutdown_visit_rr (coreId : Int) (env : Nat → Env) (tsEnd : String) :
    ∀ (fuel : Nat) (m : Machine) (w : Worker) (pr : Process) (tgt : Nat),
      mapFind coreId m.workers = some w → m.st.heap[w.proc]? = some pr →
      pr.isShutdown = true → m.st.GLOBAL_CONFIG.scheduler = "rr" → m.stopScheduler = false →
      tgt = pr.currentLine + min (m.st.GLOBAL_CONFIG.quantumCycles - w.executedInstructions)
        (pr.totalLine - pr.currentLine) →
      min (m.st.GLOBAL_CONFIG.quantumCycles - w.executedInstructions)
        (pr.totalLine - pr.currentLine) < fuel →
      cpuWorkerVisit fuel m coreId env tsEnd = Run.done
        (if tgt < pr.totalLine then
          { m with
            st := modifyProc m.st w.proc (fun q => { q with currentLine := tgt })
            rrQueue := m.rrQueue ++ [w.proc]
            workers := mapErase coreId m.workers }
        else
          { m with
            st := modifyProc m.st w.proc (fun q =>
              { q with currentLine := tgt, isFinished := true, finishedTime := tsEnd })
            workers := mapErase coreId m.workers }) := by
  intro fuel
  induction fuel with
  | zero =>
    intro m w pr tgt _ _ _ _ _ _ hf
    exact absurd hf (Nat.not_lt_zero _)
  | succ fuel ih =>
    intro m w pr tgt hw hp hsd hs hstop htgt hf
    have hlr := loopRuns_rr hp hs hstop
    unfold cpuWorkerVisit
    simp only [hw, hp]
    by_cases hc : pr.currentLine < pr.totalLine ∧
        w.executedInstructions < m.st.GLOBAL_CONFIG.quantumCycles
    · have hrun : loopRuns m w = some true := by
        rw [hlr]
        simp [hc.1, hc.2]
      rw [if_pos hrun]
      have hx := exec_eq hw hp hrun
        (manager_shutdown_id m.st pr.currentLine coreId w.proc pr (env pr.currentLine).ts
          (env pr.currentLine).ts2 (env pr.currentLine).d hp hsd)
      rw [if_pos hs] at hx
      rw [hx]
      simp only
      have hp1 := modifyProc_at (fun q => { q with currentLine := q.currentLine + 1 }) hp
      have hcfg : (modifyProc m.st w.proc
          (fun q => { q with currentLine := q.currentLine + 1 })).GLOBAL_CONFIG =
          m.st.GLOBAL_CONFIG := (modifyProc_rest _ _ _).1
      have h1 := ih
        { m with
          st := modifyProc m.st w.proc (fun q => { q with currentLine := q.currentLine + 1 })
          workers := mapAssign coreId
            { w with executedInstructions := w.executedInstructions + 1 } m.workers }
        { w with executedInstructions := w.executedInstructions + 1 }
        { pr with currentLine := pr.currentLine + 1 } tgt (mapFind_assign_self _ _ _) hp1 hsd
        (by rw [← hs]; exact congrArg SystemConfig.scheduler hcfg) hstop
        (by
          show tgt = pr.currentLine + 1 + min
            ((modifyProc m.st w.proc
              (fun q => { q with currentLine := q.currentLine + 1 })).GLOBAL_CONFIG.quantumCycles -
              (w.executedInstructions + 1)) (pr.totalLine - (pr.currentLine + 1))
          rw [hcfg, quantum_advance hc.1 hc.2]
          exact htgt)
        (by
          show min
            ((modifyProc m.st w.proc
              (fun q => { q with currentLine := q.currentLine + 1 })).GLOBAL_CONFIG.quantumCycles -
              (w.executedInstructions + 1)) (pr.totalLine - (pr.currentLine + 1)) < fuel
          rw [hcfg]
          exact quantum_step hc.1 hc.2 hf)
      rw [h1]
      simp only [modifyProc_modifyProc, mapErase_assign]
    · have hrun : ¬ loopRuns m w = some true := by
        rw [hlr]
        simp only [Option.some.injEq, Bool.and_eq_true, decide_eq_true_eq]
        exact hc
      have hmin := quantum_spent hc
      rw [hmin, Nat.add_zero] at htgt
      rw [if_neg hrun]
      by_cases hre : pr.currentLine < pr.totalLine
      · rw [leave_requeue hw hp hrun ⟨hs, hre⟩, htgt, if_pos hre]
        simp only
        rw [modifyProc_self (fun q => { q with currentLine := pr.currentLine }) hp rfl]
      · rw [leave_complete hw hp hrun (fun h => hre h.2), htgt, if_neg hre]
        simp only
        rw [modifyProc_congr (fun q => { q with isFinished := true, finishedTime := tsEnd })
          (fun q => { q with currentLine := pr.currentLine, isFinished := true,
                             finishedTime := tsEnd }) hp rfl]

/-! ## A violation inside a visit -/

/-- The process right after a bounds-check failure. -/
theorem violation_proc {s : State} {k : Nat} {coreId : Int} {p : Nat} {pr : Process}
    {ts ts2 : String} {d : Draws} {instr addrHex other : String} {a : Nat}
    (hp : s.heap[p]? = some pr) (hns : pr.isShutdown = false)
    (hk : pr.customInstrList[k]? = some instr)
    (hacc : IsUserWrite instr addrHex other ∨ IsUserRead instr other addrHex)
    (ha : stoull16 addrHex = some a) (hv : a < 64 ∨ a ≥ pr.memorySize) :
    ∃ (t : State) (prt : Process),
      instructions_manager s k coreId p ts ts2 d = Outcome.ok t ∧ t.heap[p]? = some prt ∧
      prt.isShutdown = true ∧ prt.currentLine = pr.currentLine ∧ prt.totalLine = pr.totalLine ∧
      t.GLOBAL_CONFIG = s.GLOBAL_CONFIG := by
  refine ⟨_, { pr with
      isShutdown := true
      shutdownReason := "Memory access violation at " ++ addrHex
      shutdownTime := ts2
      instructions := (resizeLog pr.instructions k).set k
        (("(" ++ ts ++ ") Core: " ++ toString coreId ++ " ") ++ "\"" ++
          ("Memory access violation at " ++ addrHex) ++ "\"") },
    violation_outcome hp hns hk hacc ha hv, ?_, ?_⟩
  · unfold shutdownViolation
    exact modifyProc_at _ (modifyProc_at _ hp)
  · refine ⟨rfl, rfl, rfl, ?_⟩
    unfold shutdownViolation
    rw [(modifyProc_rest _ _ _).1, (modifyProc_rest _ _ _).1]

theorem fuel_succ {n c fuel : Nat} (hlt : c < n) (hf : n - c < fuel) :
    ∃ f, fuel = f + 1 ∧ n - (c + 1) < f := by
  refine ⟨fuel - 1, ?_, ?_⟩ <;> omega

theorem fuel_succ_rr {q e n c fuel : Nat} (hlt : c < n) (he : e < q) (hf : n - c < fuel) :
    ∃ f, fuel = f + 1 ∧ min (q - (e + 1)) (n - (c + 1)) < f := by
  refine ⟨fuel - 1, ?_, ?_⟩ <;> omega

/-- C13 as amended: when a user READ or WRITE at line `k = currentLine` fails
the bounds check inside a worker visit with the stop flag clear, the executor
returns a state `t` with the process shut down, and the dispatch loop goes on:
every further iteration calls the executor, which changes nothing, and increments
`currentLine`.  Under FCFS the visit ends with `currentLine = totalLine` and the
process marked finished; under RR it ends with
`currentLine = k + min(quantum - e, totalLine - k)`, `e` being the instructions
the visit had executed before, and the process is re-enqueued when lines are
left and marked finished otherwise.  The machine the visit leaves differs from
`t` in these fields only: no further log entry is written. -/
theorem violation_visit (m : Machine) (coreId : Int) (w : Worker) (pr : Process)
    (env : Nat → Env) (tsEnd instr addrHex other : String) (a fuel : Nat)
    (hw : mapFind coreId m.workers = some w) (hp : m.st.heap[w.proc]? = some pr)
    (hns : pr.isShutdown = false) (hstop : m.stopScheduler = false)
    (hk : pr.customInstrList[pr.currentLine]? = some instr)
    (hacc : IsUserWrite instr addrHex other ∨ IsUserRead instr other addrHex)
    (ha : stoull16 addrHex = some a) (hv : a < 64 ∨ a ≥ pr.memorySize)
    (hlt : pr.currentLine < pr.totalLine) (hfuel : pr.totalLine - pr.currentLine < fuel) :
    ∃ (t : State) (prt : Process),
      instructions_manager m.st pr.currentLine coreId w.proc (env pr.currentLine).ts
        (env pr.currentLine).ts2 (env pr.currentLine).d = Outcome.ok t ∧
      t.heap[w.proc]? = some prt ∧ prt.isShutdown = true ∧
      (m.st.GLOBAL_CONFIG.scheduler = "fcfs" →
        cpuWorkerVisit fuel m coreId env tsEnd = Run.done
          { m with
            st := modifyProc t w.proc (fun q =>
              { q with currentLine := pr.totalLine, isFinished := true, finishedTime := tsEnd })
            workers := mapErase coreId m.workers }) ∧
      (m.st.GLOBAL_CONFIG.scheduler = "rr" →
        w.executedInstructions < m.st.GLOBAL_CONFIG.quantumCycles →
        cpuWorkerVisit fuel m coreId env tsEnd = Run.done
          (if pr.currentLine + min (m.st.GLOBAL_CONFIG.quantumCycles - w.executedInstructions)
              (pr.totalLine - pr.currentLine) < pr.totalLine then
            { m with
              st := modifyProc t w.proc (fun q =>
                { q with
                  currentLine :=
                    pr.currentLine +
                      min (m.st.GLOBAL_CONFIG.quantumCycles - w.executedInstructions)
                        (pr.totalLine - pr.currentLine) })
              rrQueue := m.rrQueue ++ [w.proc]
              workers := mapErase coreId m.workers }
          else
            { m with
              st := modifyProc t w.proc (fun q =>
                { q with
                  currentLine :=
                    pr.currentLine +
                      min (m.st.GLOBAL_CONFIG.quantumCycles - w.executedInstructions)
                        (pr.totalLine - pr.currentLine)
                  isFinished := true
                  finishedTime := tsEnd })
              workers := mapErase coreId m.workers })) := by
  obtain ⟨t, prt, ht, hpt, hsd, hcl, htl, hcfg⟩ :=
    @violation_proc m.st pr.currentLine coreId w.proc pr (env pr.currentLine).ts
      (env pr.currentLine).ts2 (env pr.currentLine).d instr addrHex other a hp hns hk hacc ha hv
  refine ⟨t, prt, ht, hpt, hsd, ?_, ?_⟩
  · intro hs
    obtain ⟨f, hf1, hf2⟩ := fuel_succ hlt hfuel
    subst hf1
    have hrun : loopRuns m w = some true := by
      rw [loopRuns_fcfs hp hs hstop]
      simp [hlt]
    have hx := exec_eq hw hp hrun ht
    rw [if_neg (fcfs_ne_rr hs)] at hx
    unfold cpuWorkerVisit
    simp only [hw, hp, if_pos hrun, hx]
    have hp1 := modifyProc_at (fun q => { q with currentLine := q.currentLine + 1 }) hpt
    have h1 := shutdown_visit_fcfs coreId env tsEnd f
      { m with
        st := modifyProc t w.proc (fun q => { q with currentLine := q.currentLine + 1 })
        workers := mapAssign coreId w m.workers }
      w { prt with currentLine := prt.currentLine + 1 } (mapFind_assign_self _ _ _) hp1 hsd
      (by
        show (modifyProc t w.proc
          (fun q => { q with currentLine := q.currentLine + 1 })).GLOBAL_CONFIG.scheduler = "fcfs"
        rw [(modifyProc_rest _ _ _).1, hcfg]
        exact hs)
      hstop
      (by show prt.currentLine + 1 ≤ prt.totalLine; omega)
      (by show prt.totalLine - (prt.currentLine + 1) < f; omega)
    rw [h1]
    simp only [modifyProc_modifyProc, mapErase_assign, htl]
  · intro hs he
    obtain ⟨f, hf1, hf2⟩ := fuel_succ_rr hlt he hfuel
    subst hf1
    have hrun : loopRuns m w = some true := by
      rw [loopRuns_rr hp hs hstop]
      simp [hlt, he]
    have hx := exec_eq hw hp hrun ht
    rw [if_pos hs] at hx
    unfold cpuWorkerVisit
    simp only [hw, hp, if_pos hrun, hx]
    have hp1 := modifyProc_at (fun q => { q with currentLine := q.currentLine + 1 }) hpt
    have hcfg1 : (modifyProc t w.proc
        (fun q => { q with currentLine := q.currentLine + 1 })).GLOBAL_CONFIG =
        m.st.GLOBAL_CONFIG := by
      rw [(modifyProc_rest _ _ _).1, hcfg]
    have h1 := shutdown_visit_rr coreId env tsEnd f
      { m with
        st := modifyProc t w.proc (fun q => { q with currentLine := q.currentLine + 1 })
        workers := mapAssign coreId
          { w with executedInstructions := w.executedInstructions + 1 } m.workers }
      { w with executedInstructions := w.executedInstructions + 1 }
      { prt with currentLine := prt.currentLine + 1 }
      (pr.currentLine + min (m.st.GLOBAL_CONFIG.quantumCycles - w.executedInstructions)
        (pr.totalLine - pr.currentLine))
      (mapFind_assign_self _ _ _) hp1 hsd
      (by rw [← hs]; exact congrArg SystemConfig.scheduler hcfg1) hstop
      (by
        show _ = prt.currentLine + 1 + min
          ((modifyProc t w.proc
            (fun q => { q with currentLine := q.currentLine + 1 })).GLOBAL_CONFIG.quantumCycles -
            (w.executedInstructions + 1)) (prt.totalLine - (prt.currentLine + 1))
        rw [hcfg1, hcl, htl, quantum_advance hlt he])
      (by
        show min
          ((modifyProc t w.proc
            (fun q => { q with currentLine := q.currentLine + 1 })).GLOBAL_CONFIG.quantumCycles -
            (w.executedInstructions + 1)) (prt.totalLine - (prt.currentLine + 1)) < f
        rw [hcfg1, hcl, htl]
        exact hf2)
    rw [h1]
    simp only [modifyProc_modifyProc, mapErase_assign, htl]

/-- Witness for C13 as amended: under FCFS the process of `faultFcfs` fails the
bounds check at line 0 of 3; the visit ends with the line counter at 3. -/
theorem violation_visit_witness :
    ∃ (t : State) (prt : Process),
      instructions_manager faultFcfs.st faultProcess.currentLine 1 0
        (plainEnv faultProcess.currentLine).ts (plainEnv faultProcess.currentLine).ts2
        (plainEnv faultProcess.currentLine).d = Outcome.ok t ∧
      t.heap[0]? = some prt ∧ prt.isShutdown = true ∧
      (faultFcfs.st.GLOBAL_CONFIG.scheduler = "fcfs" →
        cpuWorkerVisit 4 faultFcfs 1 plainEnv "tE" = Run.done
          { faultFcfs with
            st := modifyProc t 0 (fun q =>
              { q with
                currentLine := faultProcess.totalLine
                isFinished := true
                finishedTime := "tE" })
            workers := mapErase 1 faultFcfs.workers }) ∧
      (faultFcfs.st.GLOBAL_CONFIG.scheduler = "rr" →
        0 < faultFcfs.st.GLOBAL_CONFIG.quantumCycles →
        cpuWorkerVisit 4 faultFcfs 1 plainEnv "tE" = Run.done
          (if faultProcess.currentLine + min (faultFcfs.st.GLOBAL_CONFIG.quantumCycles - 0)
              (faultProcess.totalLine - faultProcess.currentLine) < faultProcess.totalLine then
            { faultFcfs with
              st := modifyProc t 0 (fun q =>
                { q with
                  currentLine :=
                    faultProcess.currentLine +
                      min (faultFcfs.st.GLOBAL_CONFIG.quantumCycles - 0)
                        (faultProcess.totalLine - faultProcess.currentLine) })
              rrQueue := faultFcfs.rrQueue ++ [0]
              workers := mapErase 1 faultFcfs.workers }
          else
            { faultFcfs with
              st := modifyProc t 0 (fun q =>
                { q with
                  currentLine :=
                    faultProcess.currentLine +
                      min (faultFcfs.st.GLOBAL_CONFIG.quantumCycles - 0)
                        (faultProcess.totalLine - faultProcess.currentLine)
                  isFinished := true
                  finishedTime := "tE" })
              workers := mapErase 1 faultFcfs.workers })) :=
  violation_visit faultFcfs 1 { proc := 0, executedInstructions := 0 } faultProcess plainEnv
    "tE" "WRITE 0x100 5" "0x100" "5" 256 4 (by decide) (by decide) rfl (by decide) (by decide)
    (Or.inl (by unfold IsUserWrite; decide)) (by decide) (Or.inr (by decide)) (by decide)
    (by decide)

/-- C13 as stated fails: under FCFS the process of `faultCommand` fails the
bounds check at line `k = 0` (first iteration), after which the loop cannot be
left (the `leave` step is not possible) and two more iterations run; the visit
ends with the line counter at 3, beyond `k + 1 = 1`.  Under RR with quantum 2 the
visit ends with the line counter at 2. -/
theorem violation_does_not_end_visit :
    run (boot fcfsConfig) [faultCommand, Action.dequeue 1] = some faultFcfs ∧
    procStatus faultFcfs 0 = some (false, false, 0, 3) ∧
    (run faultFcfs [execOne]).bind (fun m => procStatus m 0) = some (true, false, 1, 3) ∧
    run faultFcfs [execOne, Action.leave 1 "tE"] = none ∧
    (run faultFcfs [execOne, execOne, execOne, Action.leave 1 "tE"]).bind
      (fun m => procStatus m 0) = some (true, true, 3, 3) ∧
    visitStatus (cpuWorkerVisit 4 faultFcfs 1 plainEnv "tE") 0 = some (true, true, 3, 3) ∧
    ¬ (3 ≤ 0 + 1) ∧
    run (boot (rrConfig 2)) [faultCommand, Action.dequeue 1] = some faultRr ∧
    visitStatus (cpuWorkerVisit 4 faultRr 1 plainEnv "tE") 0 = some (true, false, 2, 3) ∧
    ¬ (2 ≤ 0 + 1) := by
  refine ⟨by decide, by decide, by decide, by decide, by decide, by decide, by decide, by decide,
    by decide, by decide⟩

/-- C14 as stated fails: the run `faultRun` under FCFS reaches a machine whose
process 0 has both `isShutdown` and `isFinished` set. -/
theorem shutdown_and_finished_reachable :
    ¬ (∀ m : Machine, MachineReachable m →
        ∀ pr ∈ m.st.heap, pr.isShutdown = true → pr.isFinished = false) := by
  intro h
  have hr : MachineReachable faultDone := ⟨fcfsConfig, faultRun, by decide⟩
  have h1 := h faultDone hr
    { faultProcess with
      currentLine := 3
      isFinished := true
      finishedTime := "tE"
      instructions := ["(T) Core: 1 \"Memory access violation at 0x100\""]
      isShutdown := true
      shutdownReason := "Memory access violation at 0x100"
      shutdownTime := "T2" }
    (by decide) rfl
  exact absurd h1 (by decide)

/-- C15 as stated fails: under RR with quantum 2 the process of `faultCommand`
is shut down at line 0; the visit ends at line 2 of 3 and the exit of the loop
pushes the process, whose `isShutdown` flag is set, on `rrQueue`. -/
theorem shutdown_process_requeued :
    run (boot (rrConfig 2)) [faultCommand, Action.dequeue 1] = some faultRr ∧
    faultRr.rrQueue = [] ∧
    (run faultRr [execOne, execOne]).map (fun m => (m.rrQueue, procStatus m 0)) =
      some ([], some (true, false, 2, 3)) ∧
    (run faultRr [execOne, execOne, Action.leave 1 "tE"]).map
      (fun m => (m.rrQueue, procStatus m 0)) = some ([0], some (true, false, 2, 3)) := by
  refine ⟨by decide, by decide, by decide, by decide⟩

/-- C16 fails on the code: under FCFS a process of 3 lines is dequeued and runs
line 0; `main` sets the stop flag; the dispatch loop exits and the worker sets
`isFinished` with `currentLine = 1` of `totalLine = 3`.  Under RR the same steps
put the process back in the queue, not finished. -/
theorem stop_flag_marks_unfinished_process_finished :
    (run (boot fcfsConfig)
      [Action.screenS "p" 0 3 64 "t0", Action.dequeue 1, execOne, Action.stop,
       Action.leave 1 "tE"]).bind (fun m => procStatus m 0) = some (false, true, 1, 3) ∧
    (run (boot (rrConfig 2))
      [Action.screenS "p" 0 3 64 "t0", Action.dequeue 1, execOne, Action.stop,
       Action.leave 1 "tE"]).map (fun m => (m.rrQueue, procStatus m 0)) =
      some ([0], some (false, false, 1, 3)) := by
  decide

/-- C18 fails on the code: `screen -s p` issued twice pushes the one process
`p` (heap index 0) twice on the ready queue, and the workers of cores 1 and 2
then both dequeue it and hold it at once. -/
theorem screen_twice_runs_on_two_cores :
    (run (boot fcfsConfig)
      [Action.screenS "p" 0 3 64 "t0", Action.screenS "p" 0 3 64 "t1"]).map
      (fun m => (m.st.heap.length, m.fcfsQueue)) = some (1, [0, 0]) ∧
    (run (boot fcfsConfig)
      [Action.screenS "p" 0 3 64 "t0", Action.screenS "p" 0 3 64 "t1", Action.dequeue 1,
       Action.dequeue 2]).map (fun m => (m.fcfsQueue, m.workers)) =
      some ([], [(2, { proc := 0, executedInstructions := 0 }),
        (1, { proc := 0, executedInstructions := 0 })]) ∧
    (run (boot fcfsConfig)
      [Action.screenS "p" 0 3 64 "t0", Action.screenS "p" 0 3 64 "t1", Action.dequeue 1,
       Action.dequeue 2, Action.exec 1 "T" "T2" noDraws, Action.exec 2 "T" "T2" noDraws]).bind
      (fun m => procStatus m 0) = some (false, false, 2, 3) := by
  decide

/-! ## Completion and the ready queues -/

theorem isFinished_of_schedView {s t : State} (h : schedView t = schedView s) (q : Nat) :
    (t.heap[q]?).map (fun r => r.isFinished) = (s.heap[q]?).map (fun r => r.isFinished) := by
  unfold schedView at h
  simp only [Prod.mk.injEq] at h
  have h2 : ((t.heap.map schedFields)[q]?) = ((s.heap.map schedFields)[q]?) := by rw [h.2]
  rw [List.getElem?_map, List.getElem?_map] at h2
  have h3 := congrArg (Option.map (fun x : Int × String × Nat × Nat × String × Int × Bool ×
    String × Nat × List String => x.2.2.2.2.2.2.1)) h2
  rw [Option.map_map, Option.map_map] at h3
  exact h3

/-- C14 as amended: `isShutdown = true` does not exclude `isFinished = true`.
The executor never writes `isFinished`, so a violation leaves it as it was; the
completion step of `cpuWorker` (the dispatch loop has ended and the process is
not re-enqueued) sets `isFinished = true` on the process the worker holds and
writes `finishedTime` only, so a shut-down process is marked finished like any
other and keeps `isShutdown = true`. -/
theorem completion_ignores_shutdown (m : Machine) (coreId : Int) (ts : String) (w : Worker)
    (pr : Process) (s t : State) (k : Nat) (core : Int) (p : Nat) (ts1 ts2 : String) (d : Draws)
    (hw : mapFind coreId m.workers = some w) (hp : m.st.heap[w.proc]? = some pr)
    (hrun : ¬ loopRuns m w = some true)
    (hre : ¬ (m.st.GLOBAL_CONFIG.scheduler = "rr" ∧ pr.currentLine < pr.totalLine))
    (ht : instructions_manager s k core p ts1 ts2 d = Outcome.ok t) :
    (∀ q : Nat, (t.heap[q]?).map (fun r => r.isFinished) =
      (s.heap[q]?).map (fun r => r.isFinished)) ∧
    ∃ m1, cpuWorkerLeave m coreId ts = some m1 ∧
      m1.st.heap[w.proc]? = some { pr with isFinished := true, finishedTime := ts } ∧
      (∀ q : Nat, q ≠ w.proc → m1.st.heap[q]? = m.st.heap[q]?) :=
  ⟨isFinished_of_schedView (schedView_manager ht),
    _, leave_complete hw hp hrun hre, modifyProc_at _ hp, fun _ hq => modifyProc_other _ _ hq⟩

/-- Witness for C14 as amended: in `faultRan` the worker of core 1 holds the
process shut down at line 0, with the line counter at 3 of 3; the completion
step marks it finished. -/
theorem completion_ignores_shutdown_witness :
    (∀ q : Nat,
      ((stateAfter faultFcfs.st
        (instructions_manager faultFcfs.st 0 1 0 "T" "T2" noDraws)).heap[q]?).map
          (fun r => r.isFinished) =
      (faultFcfs.st.heap[q]?).map (fun r => r.isFinished)) ∧
    ∃ m1, cpuWorkerLeave faultRan 1 "tE" = some m1 ∧
      m1.st.heap[0]? = some { faultProcessRan with isFinished := true, finishedTime := "tE" } ∧
      (∀ q : Nat, q ≠ 0 → m1.st.heap[q]? = faultRan.st.heap[q]?) :=
  completion_ignores_shutdown faultRan 1 "tE" { proc := 0, executedInstructions := 0 }
    faultProcessRan faultFcfs.st
    (stateAfter faultFcfs.st (instructions_manager faultFcfs.st 0 1 0 "T" "T2" noDraws))
    0 1 0 "T" "T2" noDraws (by decide) (by decide) (by decide) (by decide) (by decide)

/-- A process created under a name not yet in the table sits at the end of the
heap, is the one `retrieveProcess` returns, and has both flags clear. -/
theorem createProcess_fresh {s : State} {name : String} (cpuBurst memSize : Nat) (ts : String)
    (h : retrieveProcess s name = none) :
    retrieveProcess (createProcess s name cpuBurst memSize ts) name = some s.heap.length ∧
    ∃ pr, (createProcess s name cpuBurst memSize ts).heap[s.heap.length]? = some pr ∧
      pr.isFinished = false ∧ pr.isShutdown = false := by
  unfold retrieveProcess at h
  unfold createProcess retrieveProcess
  rw [h]
  simp only [Option.isSome_none, Bool.false_eq_true, if_false]
  exact ⟨mapFind_assign_self _ _ _, _, List.getElem?_concat_length _ _, rfl, rfl⟩

theorem modifyProc_clear {s : State} {p : Nat} {pr : Process} (f : Process → Process)
    (hp : s.heap[p]? = some pr) (hfin : pr.isFinished = false) (hsd : pr.isShutdown = false)
    (hf : ∀ q, (f q).isFinished = q.isFinished ∧ (f q).isShutdown = q.isShutdown) :
    ∃ pr1, (modifyProc s p f).heap[p]? = some pr1 ∧ pr1.isFinished = false ∧
      pr1.isShutdown = false :=
  ⟨f pr, modifyProc_at f hp, (hf pr).1.trans hfin, (hf pr).2.trans hsd⟩

theorem pushes_enqueueScreen (m m1 : Machine) (p : Nat) (hf : m1.fcfsQueue = m.fcfsQueue)
    (hr : m1.rrQueue = m.rrQueue) : Pushes m (enqueueScreen m1 p) p := by
  unfold enqueueScreen Pushes
  split
  · left
    exact ⟨by rw [← hf], hr⟩
  · right
    exact ⟨hf, by rw [← hr]⟩

theorem enqueueScreen_st (m : Machine) (p : Nat) : (enqueueScreen m p).st = m.st := by
  unfold enqueueScreen
  split <;> rfl

theorem enqueueGenerated_st (m : Machine) (p : Nat) : (enqueueGenerated m p).st = m.st := by
  unfold enqueueGenerated
  split
  · rfl
  · split <;> rfl

theorem pushes_enqueueGenerated (m m1 : Machine) (p : Nat) (hf : m1.fcfsQueue = m.fcfsQueue)
    (hr : m1.rrQueue = m.rrQueue) :
    SameQueues m (enqueueGenerated m1 p) ∨ Pushes m (enqueueGenerated m1 p) p := by
  unfold enqueueGenerated Pushes SameQueues
  split
  · right
    left
    exact ⟨by rw [← hf], hr⟩
  · split
    · right
      right
      exact ⟨hf, by rw [← hr]⟩
    · left
      exact ⟨hf, hr⟩

theorem generator_pushes_clear {m m1 : Machine} {cpuBurst memSize : Nat} {ts : String}
    (h : generatorStep m cpuBurst memSize ts = some m1) : PushesClear m m1 := by
  unfold generatorStep at h
  cases hg : m.generator with
  | none => simp [hg] at h
  | some n =>
    simp only [hg] at h
    split at h
    · cases h
    · split at h
      · rename_i hnone
        have hnone1 : retrieveProcess m.st (generatedName n) = none := by
          cases hr : retrieveProcess m.st (generatedName n) with
          | none => rfl
          | some x => simp [hr] at hnone
        obtain ⟨hret, pr, hpr, hfin, hsd⟩ := createProcess_fresh cpuBurst memSize ts hnone1
        simp only [hret, Option.some.injEq] at h
        subst h
        rcases pushes_enqueueGenerated m
          { m with
            st := createProcess m.st (generatedName n) cpuBurst memSize ts
            generator := some (n + 1) } m.st.heap.length rfl rfl with hsame | hpush
        · exact Or.inl hsame
        · refine Or.inr ⟨_, pr, hpush, ?_, hfin, hsd⟩
          rw [enqueueGenerated_st]
          exact hpr
      · simp only [Option.some.injEq] at h
        subst h
        exact Or.inl ⟨rfl, rfl⟩

theorem screenS_pushes_clear (m : Machine) (processName : String)
    (requestedMem cpuBurst memSize : Nat) (ts : String)
    (h : retrieveProcess m.st processName = none) :
    PushesClear m (screenS m processName requestedMem cpuBurst memSize ts) := by
  obtain ⟨hret, pr, hpr, hfin, hsd⟩ := createProcess_fresh cpuBurst memSize ts h
  unfold screenS
  by_cases hn : processName = ""
  · rw [if_pos hn]
    exact Or.inl ⟨rfl, rfl⟩
  · rw [if_neg hn]
    by_cases h0 : requestedMem = 0
    · simp only [h0, ne_eq, not_true_eq_false, if_false, hret]
      exact Or.inr ⟨m.st.heap.length, pr, pushes_enqueueScreen m _ _ rfl rfl,
        by rw [enqueueScreen_st]; exact hpr, hfin, hsd⟩
    · cases hc : clampMemPow2 requestedMem with
      | none =>
        simp only [ne_eq, h0, not_false_eq_true, if_true, hc]
        exact Or.inl ⟨rfl, rfl⟩
      | some r =>
        by_cases hr : r < m.st.GLOBAL_CONFIG.minMemPerProc ∨ r > m.st.GLOBAL_CONFIG.maxMemPerProc
        · simp only [ne_eq, h0, not_false_eq_true, if_true, hc, if_pos hr]
          exact Or.inl ⟨rfl, rfl⟩
        · simp only [ne_eq, h0, not_false_eq_true, if_true, hc, if_neg hr, hret]
          refine Or.inr ⟨m.st.heap.length, ?_⟩
          split
          · obtain ⟨pr1, hp1, hf1, hs1⟩ := modifyProc_clear
              (fun q => { q with
                memorySize := r
                pageTable := List.replicate
                  (r / (createProcess m.st processName cpuBurst memSize ts).GLOBAL_CONFIG.memPerFrame)
                  {} })
              hpr hfin hsd (fun _ => ⟨rfl, rfl⟩)
            exact ⟨pr1, pushes_enqueueScreen m _ _ rfl rfl,
              by rw [enqueueScreen_st]; exact hp1, hf1, hs1⟩
          · exact ⟨pr, pushes_enqueueScreen m _ _ rfl rfl, by rw [enqueueScreen_st]; exact hpr,
              hfin, hsd⟩

theorem screenC_pushes_clear (m : Machine) (processName : String) (requestedMem : Nat)
    (raw : String) (cpuBurst memSize : Nat) (ts : String)
    (h : retrieveProcess m.st processName = none) :
    PushesClear m (screenC m processName requestedMem raw cpuBurst memSize ts) := by
  obtain ⟨hret, pr, hpr, hfin, hsd⟩ := createProcess_fresh cpuBurst memSize ts h
  unfold screenC
  split
  · exact Or.inl ⟨rfl, rfl⟩
  · split
    · exact Or.inl ⟨rfl, rfl⟩
    · split
      · exact Or.inl ⟨rfl, rfl⟩
      · split
        · exact Or.inl ⟨rfl, rfl⟩
        · rename_i r hc hrange
          simp only [hret]
          obtain ⟨pr1, hp1, hf1, hs1⟩ := modifyProc_clear
            (fun q => { q with
              memorySize := r
              pageTable := List.replicate
                (r / (createProcess m.st processName cpuBurst memSize ts).GLOBAL_CONFIG.memPerFrame)
                {}
              customInstrList := q.customInstrList ++ splitInstructions raw })
            hpr hfin hsd (fun _ => ⟨rfl, rfl⟩)
          exact Or.inr ⟨m.st.heap.length, pr1, pushes_enqueueScreen m _ _ rfl rfl,
            by rw [enqueueScreen_st]; exact hp1, hf1, hs1⟩

theorem leave_queues {m m1 : Machine} {coreId : Int} {ts : String} {w : Worker} {pr : Process}
    (hw : mapFind coreId m.workers = some w) (hp : m.st.heap[w.proc]? = some pr)
    (h : cpuWorkerLeave m coreId ts = some m1) :
    if m.st.GLOBAL_CONFIG.scheduler = "rr" ∧ pr.currentLine < pr.totalLine then
      Pushes m m1 w.proc ∧ m1.st = m.st
    else SameQueues m m1 := by
  unfold cpuWorkerLeave at h
  simp only [hw, hp] at h
  split at h
  · cases h
  · split at h
    · rename_i hre
      rw [if_pos hre]
      simp only [Option.some.injEq] at h
      subst h
      exact ⟨Or.inr ⟨rfl, rfl⟩, rfl⟩
    · rename_i hre
      rw [if_neg hre]
      simp only [Option.some.injEq] at h
      subst h
      exact ⟨rfl, rfl⟩

/-- C15 as amended: the auto-generator, and `screen -s` and `screen -c` given a
name that is not yet in the process table, push nothing or push the process
they have just created, whose `isFinished` and `isShutdown` flags are clear.  The
exit of the dispatch loop pushes the process the worker holds exactly when the
policy is RR and `currentLine < totalLine`, leaving the process as it is: its
flags are not consulted, so a process shut down by a violation is pushed again
while lines are left. -/
theorem pushes_on_ready_queues (m : Machine) :
    (∀ (cpuBurst memSize : Nat) (ts : String) (m1 : Machine),
      generatorStep m cpuBurst memSize ts = some m1 → PushesClear m m1) ∧
    (∀ (processName : String) (requestedMem cpuBurst memSize : Nat) (ts : String),
      retrieveProcess m.st processName = none →
      PushesClear m (screenS m processName requestedMem cpuBurst memSize ts)) ∧
    (∀ (processName : String) (requestedMem : Nat) (raw : String) (cpuBurst memSize : Nat)
      (ts : String),
      retrieveProcess m.st processName = none →
      PushesClear m (screenC m processName requestedMem raw cpuBurst memSize ts)) ∧
    (∀ (coreId : Int) (ts : String) (w : Worker) (pr : Process) (m1 : Machine),
      mapFind coreId m.workers = some w → m.st.heap[w.proc]? = some pr →
      cpuWorkerLeave m coreId ts = some m1 →
      if m.st.GLOBAL_CONFIG.scheduler = "rr" ∧ pr.currentLine < pr.totalLine then
        Pushes m m1 w.proc ∧ m1.st = m.st
      else SameQueues m m1) :=
  ⟨fun _ _ _ _ h => generator_pushes_clear h,
   fun processName requestedMem cpuBurst memSize ts h =>
     screenS_pushes_clear m processName requestedMem cpuBurst memSize ts h,
   fun processName requestedMem raw cpuBurst memSize ts h =>
     screenC_pushes_clear m processName requestedMem raw cpuBurst memSize ts h,
   fun _ _ _ _ _ hw hp h => leave_queues hw hp h⟩

/-- Witness for C15 as amended: a step of the generator and the commands
`screen -s p` and `screen -c p 256 "WRITE 0x100 5"` on the booted machine push a
process with clear flags; the exit of the loop of `faultRrRan`, under RR with
line 2 of 3 reached, pushes the process the worker holds. -/
theorem pushes_on_ready_queues_witness :
    PushesClear generatorDemo generatorDemo1 ∧
    PushesClear (boot fcfsConfig) (screenS (boot fcfsConfig) "p" 0 3 64 "t0") ∧
    PushesClear (boot fcfsConfig)
      (screenC (boot fcfsConfig) "p" 256 "WRITE 0x100 5" 3 64 "t0") ∧
    (if faultRrRan.st.GLOBAL_CONFIG.scheduler = "rr" ∧
        ({ faultProcessRan with currentLine := 2 } : Process).currentLine <
          ({ faultProcessRan with currentLine := 2 } : Process).totalLine then
      Pushes faultRrRan faultRrLeft 0 ∧ faultRrLeft.st = faultRrRan.st
    else SameQueues faultRrRan faultRrLeft) :=
  ⟨(pushes_on_ready_queues generatorDemo).1 3 64 "t0" generatorDemo1 (by decide),
   (pushes_on_ready_queues (boot fcfsConfig)).2.1 "p" 0 3 64 "t0" (by decide),
   (pushes_on_ready_queues (boot fcfsConfig)).2.2.1 "p" 256 "WRITE 0x100 5" 3 64 "t0" (by decide),
   (pushes_on_ready_queues faultRrRan).2.2.2 1 "tE" { proc := 0, executedInstructions := 2 }
     { faultProcessRan with currentLine := 2 } faultRrLeft (by decide) (by decide) (by decide)⟩

/-! ## Configuration loading -/

theorem clampUint32Range_int64 (v : Int) (hlo : -(2 ^ 63) ≤ v) (hhi : v < 2 ^ 63) :
    clampUint32Range (int64ToUint64 v) = (max 1 (min v 4294967296)).toNat := by
  unfold clampUint32Range int64ToUint64
  have h0 : (0 : Int) ≤ v % 2 ^ 64 := Int.emod_nonneg _ (by norm_num)
  have h1 : v % 2 ^ 64 < 2 ^ 64 := Int.emod_lt_of_pos _ (by norm_num)
  have hcast : (((v % 2 ^ 64).toNat % 2 ^ 64 : Nat) : Int) = v % 2 ^ 64 := by
    have h2 : (v % 2 ^ 64).toNat < 2 ^ 64 := by omega
    rw [Nat.mod_eq_of_lt h2]
    exact Int.toNat_of_nonneg h0
  have hlt : ((v % 2 ^ 64).toNat % 2 ^ 64 < 2 ^ 63) ↔ v % 2 ^ 64 < 2 ^ 63 := by
    constructor
    · intro h
      omega
    · intro h
      omega
  by_cases hv : 0 ≤ v
  · have he : v % 2 ^ 64 = v := Int.emod_eq_of_lt hv (by omega)
    rw [he] at hcast hlt
    rw [he]
    simp only [hcast]
    rw [if_pos (hlt.2 hhi)]
  · have he : v % 2 ^ 64 = v + 2 ^ 64 := by
      rw [← Int.add_emod_self]
      exact Int.emod_eq_of_lt (by omega) (by omega)
    have hn : ¬ (v + 2 ^ 64 < 2 ^ 63) := by omega
    rw [he] at hcast hlt
    rw [he]
    simp only [hcast]
    rw [if_neg (fun h => hn (hlt.1 h))]
    congr 2
    omega

theorem clampUint32Range_range (value : Nat) :
    1 ≤ clampUint32Range value ∧ clampUint32Range value ≤ 4294967296 := by
  unfold clampUint32Range
  dsimp only
  generalize (if value % 2 ^ 64 < 2 ^ 63 then ((value % 2 ^ 64 : Nat) : Int)
    else ((value % 2 ^ 64 : Nat) : Int) - 2 ^ 64) = v
  constructor <;> omega

theorem clampMemPow2_some {value r : Nat} (h : clampMemPow2 value = some r) :
    r = value ∧ IsMemPow2 r := by
  unfold clampMemPow2 at h
  split at h
  · cases h
    refine ⟨rfl, ?_⟩
    unfold IsMemPow2 clampMemPow2
    rw [if_pos (by assumption)]
  · cases h

theorem isMemPow2_range {n : Nat} (h : IsMemPow2 n) : 64 ≤ n ∧ n ≤ 65536 ∧ ∃ k, n = 2 ^ k := by
  unfold IsMemPow2 clampMemPow2 at h
  split at h
  · rename_i hm
    simp only [List.mem_cons, List.mem_singleton, List.not_mem_nil, or_false] at hm
    rcases hm with h | h | h | h | h | h | h | h | h | h | h <;> subst h
    · exact ⟨by norm_num, by norm_num, 6, by norm_num⟩
    · exact ⟨by norm_num, by norm_num, 7, by norm_num⟩
    · exact ⟨by norm_num, by norm_num, 8, by norm_num⟩
    · exact ⟨by norm_num, by norm_num, 9, by norm_num⟩
    · exact ⟨by norm_num, by norm_num, 10, by norm_num⟩
    · exact ⟨by norm_num, by norm_num, 11, by norm_num⟩
    · exact ⟨by norm_num, by norm_num, 12, by norm_num⟩
    · exact ⟨by norm_num, by norm_num, 13, by norm_num⟩
    · exact ⟨by norm_num, by norm_num, 14, by norm_num⟩
    · exact ⟨by norm_num, by norm_num, 15, by norm_num⟩
    · exact ⟨by norm_num, by norm_num, 16, by norm_num⟩
  · cases h

theorem entry_good {cfg : SystemConfig} (cfg0 : SystemConfig) {k : String} {v : ConfigValue}
    {c1 : SystemConfig} {g : Bool} (h : loadConfigEntry cfg k v = EntryResult.next c1 g) :
    ∃ c0, loadConfigEntry cfg0 k v = EntryResult.next c0 g := by
  by_cases h1 : k = "num-cpu"
  · subst h1
    simp only [loadConfigEntry, String.reduceEq, if_false, if_true] at h ⊢
    split at h
    · cases h
    · rename_i hc
      rw [if_neg hc]
      cases h
      exact ⟨_, rfl⟩
  by_cases h2 : k = "scheduler"
  · subst h2
    simp only [loadConfigEntry, String.reduceEq, if_false, if_true] at h ⊢
    cases v with
    | number n => cases h
    | word w =>
      simp only at h ⊢
      split at h
      · cases h
      · rename_i hc
        rw [if_neg hc]
        cases h
        exact ⟨_, rfl⟩
  by_cases h3 : k = "quantum-cycles"
  · subst h3
    simp only [loadConfigEntry, String.reduceEq, if_false, if_true] at h ⊢
    cases h
    exact ⟨_, rfl⟩
  by_cases h4 : k = "batch-process-freq"
  · subst h4
    simp only [loadConfigEntry, String.reduceEq, if_false, if_true] at h ⊢
    cases h
    exact ⟨_, rfl⟩
  by_cases h5 : k = "min-ins"
  · subst h5
    simp only [loadConfigEntry, String.reduceEq, if_false, if_true] at h ⊢
    cases h
    exact ⟨_, rfl⟩
  by_cases h6 : k = "max-ins"
  · subst h6
    simp only [loadConfigEntry, String.reduceEq, if_false, if_true] at h ⊢
    cases h
    exact ⟨_, rfl⟩
  by_cases h7 : k = "delay-per-exec"
  · subst h7
    simp only [loadConfigEntry, String.reduceEq, if_false, if_true] at h ⊢
    cases h
    exact ⟨_, rfl⟩
  by_cases h8 : k = "max-overall-mem"
  · subst h8
    simp only [loadConfigEntry, String.reduceEq, if_false, if_true] at h ⊢
    cases hc : clampMemPow2 (extractUint64 v).1 with
    | none => rw [hc] at h; cases h
    | some r => rw [hc] at h; cases h; exact ⟨_, rfl⟩
  by_cases h9 : k = "mem-per-frame"
  · subst h9
    simp only [loadConfigEntry, String.reduceEq, if_false, if_true] at h ⊢
    cases hc : clampMemPow2 (extractUint64 v).1 with
    | none => rw [hc] at h; cases h
    | some r => rw [hc] at h; cases h; exact ⟨_, rfl⟩
  by_cases h10 : k = "min-mem-per-proc"
  · subst h10
    simp only [loadConfigEntry, String.reduceEq, if_false, if_true] at h ⊢
    cases hc : clampMemPow2 (extractUint64 v).1 with
    | none => rw [hc] at h; cases h
    | some r => rw [hc] at h; cases h; exact ⟨_, rfl⟩
  by_cases h11 : k = "max-mem-per-proc"
  · subst h11
    simp only [loadConfigEntry, String.reduceEq, if_false, if_true] at h ⊢
    cases hc : clampMemPow2 (extractUint64 v).1 with
    | none => rw [hc] at h; cases h
    | some r => rw [hc] at h; cases h; exact ⟨_, rfl⟩
  simp only [loadConfigEntry, h1, h2, h3, h4, h5, h6, h7, h8, h9, h10, h11, if_false] at h
  cases h

theorem entry_field_other {cfg : SystemConfig} {k : String} {v : ConfigValue}
    {c1 : SystemConfig} {g : Bool} (h : loadConfigEntry cfg k v = EntryResult.next c1 g) {key : String}
    (hne : key ≠ k) : memoryField c1 key = memoryField cfg key := by
  by_cases h1 : k = "num-cpu"
  · subst h1
    simp only [loadConfigEntry, String.reduceEq, if_false, if_true] at h
    split at h
    · cases h
    · cases h
      rfl
  by_cases h2 : k = "scheduler"
  · subst h2
    simp only [loadConfigEntry, String.reduceEq, if_false, if_true] at h
    cases v with
    | number n => cases h
    | word w =>
      simp only at h
      split at h
      · cases h
      · cases h
        rfl
  by_cases h3 : k = "quantum-cycles"
  · subst h3
    simp only [loadConfigEntry, String.reduceEq, if_false, if_true] at h
    cases h
    rfl
  by_cases h4 : k = "batch-process-freq"
  · subst h4
    simp only [loadConfigEntry, String.reduceEq, if_false, if_true] at h
    cases h
    rfl
  by_cases h5 : k = "min-ins"
  · subst h5
    simp only [loadConfigEntry, String.reduceEq, if_false, if_true] at h
    cases h
    rfl
  by_cases h6 : k = "max-ins"
  · subst h6
    simp only [loadConfigEntry, String.reduceEq, if_false, if_true] at h
    cases h
    rfl
  by_cases h7 : k = "delay-per-exec"
  · subst h7
    simp only [loadConfigEntry, String.reduceEq, if_false, if_true] at h
    cases h
    rfl
  by_cases h8 : k = "max-overall-mem"
  · subst h8
    simp only [loadConfigEntry, String.reduceEq, if_false, if_true] at h
    cases hc : clampMemPow2 (extractUint64 v).1 with
    | none => rw [hc] at h; cases h
    | some r =>
      rw [hc] at h
      cases h
      unfold memoryField
      simp only [hne, if_false]
  by_cases h9 : k = "mem-per-frame"
  · subst h9
    simp only [loadConfigEntry, String.reduceEq, if_false, if_true] at h
    cases hc : clampMemPow2 (extractUint64 v).1 with
    | none => rw [hc] at h; cases h
    | some r =>
      rw [hc] at h
      cases h
      unfold memoryField
      simp only [hne, if_false]
  by_cases h10 : k = "min-mem-per-proc"
  · subst h10
    simp only [loadConfigEntry, String.reduceEq, if_false, if_true] at h
    cases hc : clampMemPow2 (extractUint64 v).1 with
    | none => rw [hc] at h; cases h
    | some r =>
      rw [hc] at h
      cases h
      unfold memoryField
      simp only [hne, if_false]
  by_cases h11 : k = "max-mem-per-proc"
  · subst h11
    simp only [loadConfigEntry, String.reduceEq, if_false, if_true] at h
    cases hc : clampMemPow2 (extractUint64 v).1 with
    | none => rw [hc] at h; cases h
    | some r =>
      rw [hc] at h
      cases h
      unfold memoryField
      simp only [hne, if_false]
  simp only [loadConfigEntry, h1, h2, h3, h4, h5, h6, h7, h8, h9, h10, h11, if_false] at h
  cases h

theorem entry_field_self {cfg : SystemConfig} {k : String} {v : ConfigValue}
    {c1 : SystemConfig} {g : Bool} (h : loadConfigEntry cfg k v = EntryResult.next c1 g) {n : Nat}
    (hf : memoryField c1 k = some n) : IsMemPow2 n := by
  by_cases h1 : k = "num-cpu"
  · subst h1
    simp only [loadConfigEntry, String.reduceEq, if_false, if_true] at h
    split at h
    · cases h
    · cases h
      simp [memoryField] at hf
  by_cases h2 : k = "scheduler"
  · subst h2
    simp only [loadConfigEntry, String.reduceEq, if_false, if_true] at h
    cases v with
    | number n => cases h
    | word w =>
      simp only at h
      split at h
      · cases h
      · cases h
        simp [memoryField] at hf
  by_cases h3 : k = "quantum-cycles"
  · subst h3
    simp only [loadConfigEntry, String.reduceEq, if_false, if_true] at h
    cases h
    simp [memoryField] at hf
  by_cases h4 : k = "batch-process-freq"
  · subst h4
    simp only [loadConfigEntry, String.reduceEq, if_false, if_true] at h
    cases h
    simp [memoryField] at hf
  by_cases h5 : k = "min-ins"
  · subst h5
    simp only [loadConfigEntry, String.reduceEq, if_false, if_true] at h
    cases h
    simp [memoryField] at hf
  by_cases h6 : k = "max-ins"
  · subst h6
    simp only [loadConfigEntry, String.reduceEq, if_false, if_true] at h
    cases h
    simp [memoryField] at hf
  by_cases h7 : k = "delay-per-exec"
  · subst h7
    simp only [loadConfigEntry, String.reduceEq, if_false, if_true] at h
    cases h
    simp [memoryField] at hf
  by_cases h8 : k = "max-overall-mem"
  · subst h8
    simp only [loadConfigEntry, String.reduceEq, if_false, if_true] at h
    cases hc : clampMemPow2 (extractUint64 v).1 with
    | none => rw [hc] at h; cases h
    | some r =>
      rw [hc] at h
      cases h
      simp only [memoryField, String.reduceEq, if_false, if_true, Option.some.injEq] at hf
      subst hf
      exact (clampMemPow2_some hc).2
  by_cases h9 : k = "mem-per-frame"
  · subst h9
    simp only [loadConfigEntry, String.reduceEq, if_false, if_true] at h
    cases hc : clampMemPow2 (extractUint64 v).1 with
    | none => rw [hc] at h; cases h
    | some r =>
      rw [hc] at h
      cases h
      simp only [memoryField, String.reduceEq, if_false, if_true, Option.some.injEq] at hf
      subst hf
      exact (clampMemPow2_some hc).2
  by_cases h10 : k = "min-mem-per-proc"
  · subst h10
    simp only [loadConfigEntry, String.reduceEq, if_false, if_true] at h
    cases hc : clampMemPow2 (extractUint64 v).1 with
    | none => rw [hc] at h; cases h
    | some r =>
      rw [hc] at h
      cases h
      simp only [memoryField, String.reduceEq, if_false, if_true, Option.some.injEq] at hf
      subst hf
      exact (clampMemPow2_some hc).2
  by_cases h11 : k = "max-mem-per-proc"
  · subst h11
    simp only [loadConfigEntry, String.reduceEq, if_false, if_true] at h
    cases hc : clampMemPow2 (extractUint64 v).1 with
    | none => rw [hc] at h; cases h
    | some r =>
      rw [hc] at h
      cases h
      simp only [memoryField, String.reduceEq, if_false, if_true, Option.some.injEq] at hf
      subst hf
      exact (clampMemPow2_some hc).2
  simp only [loadConfigEntry, h1, h2, h3, h4, h5, h6, h7, h8, h9, h10, h11, if_false] at h
  cases h


theorem clampMemPow2_none {n : Nat} (h : ¬ IsMemPow2 n) : clampMemPow2 n = none := by
  unfold IsMemPow2 at h
  unfold clampMemPow2 at h ⊢
  split
  · rename_i hm
    rw [if_pos hm] at h
    exact absurd rfl h
  · rfl

theorem extractUint64_number {v : Int} (h0 : 0 ≤ v) (h1 : v < 2 ^ 64) :
    extractUint64 (ConfigValue.number v) = (v.toNat, true) := by
  have hn : ¬ (2 ^ 64 ≤ v ∨ v ≤ -(2 ^ 64)) := by omega
  simp only [extractUint64]
  rw [if_neg hn, Int.emod_eq_of_lt h0 h1]

theorem extractSigned_number {bits : Nat} {v : Int} (h0 : -(2 ^ (bits - 1)) ≤ v)
    (h1 : v < 2 ^ (bits - 1)) : extractSigned bits (ConfigValue.number v) = (v, true) := by
  simp only [extractSigned]
  rw [if_neg (not_lt.2 h0), if_neg (not_le.2 h1)]

theorem load_memory_key_throws (cfg : SystemConfig) (rest : List (String × ConfigValue))
    (key : String) (v : Int)
    (hk : key ∈ ["max-overall-mem", "mem-per-frame", "min-mem-per-proc", "max-mem-per-proc"])
    (h0 : 0 ≤ v) (hp : ¬ IsMemPow2 v.toNat) :
    loadSystemConfig cfg ((key, ConfigValue.number v) :: rest) = LoadResult.thrown cfg := by
  have hx : clampMemPow2 (extractUint64 (ConfigValue.number v)).1 = none := by
    by_cases h1 : v < 2 ^ 64
    · rw [extractUint64_number h0 h1]
      exact clampMemPow2_none hp
    · simp only [extractUint64]
      rw [if_pos (Or.inl (not_lt.1 h1))]
      decide
  simp only [List.mem_cons, List.mem_singleton, List.not_mem_nil, or_false] at hk
  rcases hk with h | h | h | h <;> subst h <;>
    simp only [loadSystemConfig, loadConfigEntry, String.reduceEq, if_false, if_true, hx]

theorem load_true_bounds (cfg : SystemConfig) (file : List (String × ConfigValue))
    (c : SystemConfig) (h : loadSystemConfig cfg file = LoadResult.returned true c) :
    c.minInstructions ≤ c.maxInstructions := by
  induction file generalizing cfg with
  | nil =>
    unfold loadSystemConfig finalValidation at h
    split at h
    · cases h
    · rename_i hc
      cases h
      exact not_lt.1 hc
  | cons e rest ih =>
    obtain ⟨key, value⟩ := e
    unfold loadSystemConfig at h
    split at h
    · split at h
      · exact ih _ h
      · unfold finalValidation at h
        split at h
        · cases h
        · rename_i hc
          cases h
          exact not_lt.1 hc
    · cases h
    · cases h

/-- C25 (amended).  When the reading loop of `loadSystemConfig` gets to a pair,
whatever the configuration `cfg` built so far and the pairs `rest` after it: a
`num-cpu` outside [1, 128], a `scheduler` other than `fcfs` and `rr`, and a key
that is not one of the eleven make it return `false`; a memory key whose value
is not a power of two from 64 to 65536 makes `clampMemPow2` throw; a successful
load has `minInstructions ≤ maxInstructions`.  The values of `quantum-cycles`,
`batch-process-freq`, `min-ins` and `max-ins` are not tested: the loop stores
them clamped into [1, 2^32] and goes on, and it stores `delay-per-exec` clamped
to 2^32 at most. -/
theorem load_rejects_or_clamps (cfg : SystemConfig) (rest : List (String × ConfigValue)) :
    (∀ v : Int, (v < 1 ∨ 128 < v) →
      loadSystemConfig cfg (("num-cpu", ConfigValue.number v) :: rest) =
        LoadResult.returned false cfg) ∧
    (∀ value : ConfigValue, value ≠ ConfigValue.word "fcfs" → value ≠ ConfigValue.word "rr" →
      loadSystemConfig cfg (("scheduler", value) :: rest) = LoadResult.returned false cfg) ∧
    (∀ (key : String) (v : Int),
      key ∈ ["max-overall-mem", "mem-per-frame", "min-mem-per-proc", "max-mem-per-proc"] →
      0 ≤ v → ¬ IsMemPow2 v.toNat →
      loadSystemConfig cfg ((key, ConfigValue.number v) :: rest) = LoadResult.thrown cfg) ∧
    (∀ (key : String) (value : ConfigValue),
      key ∉ ["num-cpu", "scheduler", "quantum-cycles", "batch-process-freq", "min-ins", "max-ins",
        "delay-per-exec", "max-overall-mem", "mem-per-frame", "min-mem-per-proc",
        "max-mem-per-proc"] →
      loadSystemConfig cfg ((key, value) :: rest) = LoadResult.returned false cfg) ∧
    (∀ (file : List (String × ConfigValue)) (c : SystemConfig),
      loadSystemConfig cfg file = LoadResult.returned true c →
        c.minInstructions ≤ c.maxInstructions) ∧
    (∀ v : Int, -(2 ^ 63) ≤ v → v < 2 ^ 63 →
      loadSystemConfig cfg (("quantum-cycles", ConfigValue.number v) :: rest) =
        loadSystemConfig { cfg with quantumCycles := (max 1 (min v 4294967296)).toNat } rest ∧
      loadSystemConfig cfg (("batch-process-freq", ConfigValue.number v) :: rest) =
        loadSystemConfig { cfg with batchProcessFreq := (max 1 (min v 4294967296)).toNat } rest ∧
      loadSystemConfig cfg (("min-ins", ConfigValue.number v) :: rest) =
        loadSystemConfig { cfg with minInstructions := (max 1 (min v 4294967296)).toNat } rest ∧
      loadSystemConfig cfg (("max-ins", ConfigValue.number v) :: rest) =
        loadSystemConfig { cfg with maxInstructions := (max 1 (min v 4294967296)).toNat } rest) ∧
    (∀ v : Int, 0 ≤ v → v < 2 ^ 64 →
      loadSystemConfig cfg (("delay-per-exec", ConfigValue.number v) :: rest) =
        loadSystemConfig { cfg with delayPerExec := min v.toNat 4294967296 } rest) := by
  refine ⟨?_, ?_, load_memory_key_throws cfg rest, ?_, load_true_bounds cfg, ?_, ?_⟩
  · intro v hv
    have hx : (extractSigned 32 (ConfigValue.number v)).1 < 1 ∨
        (extractSigned 32 (ConfigValue.number v)).1 > 128 := by
      simp only [extractSigned]
      split
      · left
        norm_num
      · split
        · right
          norm_num
        · rcases hv with hv | hv
          · exact Or.inl hv
          · exact Or.inr hv
    simp only [loadSystemConfig, loadConfigEntry, if_true, hx]
  · intro value h1 h2
    cases value with
    | number n => simp only [loadSystemConfig, loadConfigEntry, String.reduceEq, if_false, if_true]
    | word w =>
      have hw : w ≠ "fcfs" ∧ w ≠ "rr" :=
        ⟨fun h => h1 (by rw [h]), fun h => h2 (by rw [h])⟩
      simp only [loadSystemConfig, loadConfigEntry, String.reduceEq, if_false, if_true, hw,
        and_self, ne_eq, not_false_eq_true]
  · intro key value hk
    simp only [List.mem_cons, List.mem_singleton, List.not_mem_nil, or_false, not_or] at hk
    obtain ⟨h1, h2, h3, h4, h5, h6, h7, h8, h9, h10, h11⟩ := hk
    simp only [loadSystemConfig, loadConfigEntry, h1, h2, h3, h4, h5, h6, h7, h8, h9, h10, h11,
      if_false]
  · intro v hlo hhi
    have hx : extractSigned 64 (ConfigValue.number v) = (v, true) :=
      extractSigned_number (by norm_num; exact hlo) (by norm_num; exact hhi)
    have hc := clampUint32Range_int64 v hlo hhi
    refine ⟨?_, ?_, ?_, ?_⟩ <;>
      simp only [loadSystemConfig, loadConfigEntry, String.reduceEq, if_false, if_true, hx, hc]
  · intro v h0 h1
    simp only [loadSystemConfig, loadConfigEntry, String.reduceEq, if_false, if_true,
      extractUint64_number h0 h1, clampDelayPerExec]

theorem load_rejects_or_clamps_witness :
    loadSystemConfig {} [("num-cpu", ConfigValue.number 129)] = LoadResult.returned false {} ∧
    loadSystemConfig {} [("scheduler", ConfigValue.word "sjf")] = LoadResult.returned false {} ∧
    loadSystemConfig {} [("mem-per-frame", ConfigValue.number 100)] = LoadResult.thrown {} ∧
    loadSystemConfig {} [("cores", ConfigValue.number 4)] = LoadResult.returned false {} ∧
    fcfsConfig.minInstructions ≤ fcfsConfig.maxInstructions ∧
    loadSystemConfig {} [("quantum-cycles", ConfigValue.number 0)] =
      loadSystemConfig { quantumCycles := 1 } [] ∧
    loadSystemConfig {} [("delay-per-exec", ConfigValue.number 4294967297)] =
      loadSystemConfig { delayPerExec := 4294967296 } [] :=
  ⟨(load_rejects_or_clamps {} []).1 129 (by decide),
   (load_rejects_or_clamps {} []).2.1 (ConfigValue.word "sjf") (by decide) (by decide),
   (load_rejects_or_clamps {} []).2.2.1 "mem-per-frame" 100 (by decide) (by decide)
     (by unfold IsMemPow2; decide),
   (load_rejects_or_clamps {} []).2.2.2.1 "cores" (ConfigValue.number 4) (by decide),
   (load_rejects_or_clamps {} []).2.2.2.2.1 fcfsFile fcfsConfig (by decide),
   ((load_rejects_or_clamps {} []).2.2.2.2.2.1 0 (by decide) (by decide)).1,
   (load_rejects_or_clamps {} []).2.2.2.2.2.2 4294967297 (by decide) (by decide)⟩

/-- C25 as stated fails: the file `quantum-cycles 0 delay-per-exec 4294967297`
holds a `quantum-cycles` below 1 and a `delay-per-exec` above 2^32, and
`loadSystemConfig` returns `true` on it, with the two values clamped to 1 and
to 2^32. -/
theorem out_of_range_values_are_clamped :
    ¬ (1 ≤ (0 : Int)) ∧ ¬ ((4294967297 : Int) ≤ 2 ^ 32) ∧
    loadSystemConfig {}
        [("quantum-cycles", ConfigValue.number 0),
         ("delay-per-exec", ConfigValue.number 4294967297)] =
      LoadResult.returned true { quantumCycles := 1, delayPerExec := 4294967296 } := by
  refine ⟨by decide, by decide, by decide⟩

theorem load_memory_fields {cfg : SystemConfig} {file : List (String × ConfigValue)}
    {c : SystemConfig} (h : loadSystemConfig cfg file = LoadResult.returned true c)
    (key : String) (n : Nat) (hf : memoryField c key = some n) :
    (key ∈ keysRead file → IsMemPow2 n) ∧ (key ∉ keysRead file → memoryField cfg key = some n) := by
  induction file generalizing cfg with
  | nil =>
    unfold loadSystemConfig finalValidation at h
    split at h
    · cases h
    · cases h
      exact ⟨fun hk => absurd hk (List.not_mem_nil _), fun _ => hf⟩
  | cons e rest ih =>
    obtain ⟨k, v⟩ := e
    unfold loadSystemConfig at h
    split at h
    · rename_i c1 g he
      obtain ⟨c0, h0⟩ := entry_good {} he
      have hkeys : keysRead ((k, v) :: rest) = k :: (if g then keysRead rest else []) := by
        simp only [keysRead, h0]
      rw [hkeys]
      have hlast : ∀ (d : SystemConfig), finalValidation c1 = LoadResult.returned true d →
          d = c1 := by
        intro d hd
        unfold finalValidation at hd
        split at hd
        · cases hd
        · cases hd
          rfl
      by_cases hkey : key = k
      · subst hkey
        constructor
        · intro _
          by_cases hr : key ∈ (if g then keysRead rest else [])
          · cases g with
            | false => exact absurd hr (List.not_mem_nil _)
            | true =>
              rw [if_pos rfl] at h
              exact (ih h).1 hr
          · have hc1 : memoryField c1 key = some n := by
              cases g with
              | false =>
                have hd := hlast c (by simpa using h)
                rw [← hd]
                exact hf
              | true =>
                rw [if_pos rfl] at h
                exact (ih h).2 hr
            exact entry_field_self he hc1
        · intro hn
          exact absurd (List.mem_cons_self _ _) hn
      · constructor
        · intro hm
          rcases List.mem_cons.1 hm with hm | hm
          · exact absurd hm hkey
          · cases g with
            | false => exact absurd hm (List.not_mem_nil _)
            | true =>
              rw [if_pos rfl] at h
              exact (ih h).1 hm
        · intro hn
          have hn2 : key ∉ (if g then keysRead rest else []) :=
            fun hm => hn (List.mem_cons_of_mem _ hm)
          have hc1 : memoryField c1 key = some n := by
            cases g with
            | false =>
              have hd := hlast c (by simpa using h)
              rw [← hd]
              exact hf
            | true =>
              rw [if_pos rfl] at h
              exact (ih h).2 hn2
          rw [← entry_field_other he hkey]
          exact hc1
    · cases h
    · cases h

/-- C26 (amended).  Whenever `loadSystemConfig` returns `true`, every memory key
that its reading loop got to has left its field a power of two from 64 to 65536,
and the field of a memory key the loop did not get to is as it was before the
call (0 in the default configuration).  No relation between `memPerFrame` and
`maxOverallMem` is part of the result. -/
theorem memory_keys_read_are_powers (cfg : SystemConfig) (file : List (String × ConfigValue))
    (c : SystemConfig) (h : loadSystemConfig cfg file = LoadResult.returned true c)
    (key : String) (n : Nat) (hf : memoryField c key = some n) :
    (key ∈ keysRead file → 64 ≤ n ∧ n ≤ 65536 ∧ ∃ k, n = 2 ^ k) ∧
    (key ∉ keysRead file → memoryField cfg key = some n) :=
  ⟨fun hk => isMemPow2_range ((load_memory_fields h key n hf).1 hk),
   (load_memory_fields h key n hf).2⟩

theorem memory_keys_read_are_powers_witness :
    (64 ≤ 64 ∧ 64 ≤ 65536 ∧ ∃ k, 64 = 2 ^ k) ∧
    memoryField ({} : SystemConfig) "min-mem-per-proc" = some 0 :=
  ⟨(memory_keys_read_are_powers {} fcfsFile fcfsConfig (by decide) "mem-per-frame" 64
      (by decide)).1 (by decide),
   (memory_keys_read_are_powers {}
      [("max-overall-mem", ConfigValue.number 64), ("mem-per-frame", ConfigValue.number 128)]
      { maxOverallMem := 64, memPerFrame := 128 } (by decide) "min-mem-per-proc" 0
      (by decide)).2 (by decide)⟩

/-- C26 as stated fails: from the default configuration the file
`max-overall-mem 64 mem-per-frame 128` loads successfully; the frame size
exceeds the overall memory, so `initialize` allocates 64 / 128 = 0 frames, and
the two per-process bounds, absent from the file, are still 0. -/
theorem frame_size_may_exceed_memory :
    loadSystemConfig {}
        [("max-overall-mem", ConfigValue.number 64), ("mem-per-frame", ConfigValue.number 128)] =
      LoadResult.returned true { maxOverallMem := 64, memPerFrame := 128 } ∧
    ¬ ((128 : Nat) ≤ 64) ∧ (initState { maxOverallMem := 64, memPerFrame := 128 }).physicalMemory = [] ∧
    ¬ IsMemPow2 ({ maxOverallMem := 64, memPerFrame := 128 } : SystemConfig).minMemPerProc := by
  refine ⟨by decide, by decide, by decide, ?_⟩
  unfold IsMemPow2
  decide

/-! ## Memory sizes and generated addresses -/

theorem isMemPow2_dvd {a b : Nat} (ha : IsMemPow2 a) (hb : IsMemPow2 b) (h : a ≤ b) : a ∣ b := by
  obtain ⟨_, _, i, hi⟩ := isMemPow2_range ha
  obtain ⟨_, _, j, hj⟩ := isMemPow2_range hb
  subst hi
  subst hj
  exact pow_dvd_pow 2 ((Nat.pow_le_pow_iff_right (by norm_num)).1 h)

theorem isMemPow2_double {a b : Nat} (ha : IsMemPow2 a) (hb : IsMemPow2 b) (h : a < b) :
    2 * a ≤ b := by
  obtain ⟨_, _, i, hi⟩ := isMemPow2_range ha
  obtain ⟨_, _, j, hj⟩ := isMemPow2_range hb
  subst hi
  subst hj
  have hij : i < j := (Nat.pow_lt_pow_iff_right (by norm_num)).1 h
  calc 2 * 2 ^ i = 2 ^ (i + 1) := by ring
    _ ≤ 2 ^ j := Nat.pow_le_pow_right (by norm_num) hij

theorem pages_cover {a b : Nat} (ha : IsMemPow2 a) (hb : IsMemPow2 b) :
    (b / a * a = b ↔ a ≤ b) := by
  constructor
  · intro h
    by_contra hn
    rw [Nat.div_eq_of_lt (not_le.1 hn), Nat.zero_mul] at h
    have := (isMemPow2_range hb).1
    omega
  · intro h
    exact Nat.div_mul_cancel (isMemPow2_dvd ha hb h)

theorem dataAddressBounds_eq (cfg : SystemConfig) (pr : Process) (h0 : 0 < pr.memorySize)
    (h1 : pr.memorySize < 2 ^ 64) :
    dataAddressBounds cfg pr = (cfg.memPerFrame, max cfg.memPerFrame (pr.memorySize - 1)) := by
  have hm : (pr.memorySize + 2 ^ 64 - 1) % 2 ^ 64 = pr.memorySize - 1 := by omega
  unfold dataAddressBounds
  dsimp only
  rw [hm]
  refine Prod.ext rfl ?_
  dsimp only
  split
  · rename_i h
    exact (max_eq_left (Nat.le_of_lt h)).symm
  · rename_i h
    exact (max_eq_right (not_lt.1 h)).symm

/-- C30 (amended).  For a process whose size and frame size are among the
eleven powers of two and whose page table has `memorySize / memPerFrame`
entries, every address a generated READ or WRITE can draw lies in
`[memPerFrame, max(memPerFrame, memorySize - 1)]`.  When a frame is smaller
than the process, the address is below `memorySize` and the page the executor
resolves is a valid page other than page 0.  When it is not, the guard
`if (maxAddr < minAddr) maxAddr = minAddr` makes the address `memPerFrame`
itself, which is not below `memorySize`. -/
theorem generated_address_range (cfg : SystemConfig) (pr : Process) (address : Nat)
    (hf : IsMemPow2 cfg.memPerFrame) (hs : IsMemPow2 pr.memorySize)
    (hp : pr.pageTable.length = pr.memorySize / cfg.memPerFrame)
    (ha : IsDataAddress cfg pr address) :
    (cfg.memPerFrame ≤ address ∧ address ≤ max cfg.memPerFrame (pr.memorySize - 1)) ∧
    (cfg.memPerFrame < pr.memorySize →
      address < pr.memorySize ∧
      ∃ pg, pageOfAddress cfg.memPerFrame address pr.pageTable.length = some pg ∧
        1 ≤ pg ∧ pg < pr.pageTable.length) ∧
    (pr.memorySize ≤ cfg.memPerFrame → address = cfg.memPerFrame ∧ ¬ address < pr.memorySize) := by
  obtain ⟨hs1, hs2, _⟩ := isMemPow2_range hs
  obtain ⟨hf1, hf2, _⟩ := isMemPow2_range hf
  unfold IsDataAddress at ha
  rw [dataAddressBounds_eq cfg pr (by omega) (by omega)] at ha
  obtain ⟨ha1, ha2⟩ := ha
  simp only at ha1 ha2
  refine ⟨⟨ha1, ha2⟩, ?_, ?_⟩
  · intro hlt
    have hd := isMemPow2_double hf hs hlt
    have hlen : 2 ≤ pr.pageTable.length := by
      rw [hp]
      exact (Nat.le_div_iff_mul_le (by omega)).2 (by omega)
    have hal : address < pr.memorySize := by
      rw [max_eq_right (by omega)] at ha2
      omega
    refine ⟨hal, ?_⟩
    unfold pageOfAddress
    rw [if_neg (by omega)]
    refine ⟨_, rfl, ?_, ?_⟩
    · have h1 : 1 ≤ address / cfg.memPerFrame :=
        (Nat.le_div_iff_mul_le (by omega)).2 (by omega)
      have h2 : (pr.pageTable.length + 2 ^ 64 - 1) % 2 ^ 64 = pr.pageTable.length - 1 := by
        have : pr.pageTable.length ≤ 65536 := by
          rw [hp]
          exact le_trans (Nat.div_le_self _ _) hs2
        omega
      rw [h2]
      exact le_min h1 (by omega)
    · have h2 : (pr.pageTable.length + 2 ^ 64 - 1) % 2 ^ 64 = pr.pageTable.length - 1 := by
        have : pr.pageTable.length ≤ 65536 := by
          rw [hp]
          exact le_trans (Nat.div_le_self _ _) hs2
        omega
      rw [h2]
      exact lt_of_le_of_lt (min_le_right _ _) (by omega)
  · intro hle
    rw [max_eq_left (by omega)] at ha2
    exact ⟨le_antisymm ha2 ha1, by omega⟩

theorem generated_address_range_witness :
    ((64 : Nat) ≤ 200 ∧ 200 ≤ max 64 (256 - 1)) ∧
    ((64 : Nat) < 256 →
      200 < 256 ∧ ∃ pg, pageOfAddress 64 200 4 = some pg ∧ 1 ≤ pg ∧ pg < 4) ∧
    ((256 : Nat) ≤ 64 → 200 = 64 ∧ ¬ 200 < 256) :=
  generated_address_range fcfsConfig faultProcess 200 (by unfold IsMemPow2; decide)
    (by unfold IsMemPow2; decide) (by decide)
    (by unfold IsDataAddress; exact ⟨by decide, by decide⟩)

/-- C30 as stated fails: `fcfsConfig` is what `loadSystemConfig` accepts from
`fcfsFile`; under it `screen -s p` creates a process of 64 bytes, the size of a
frame.  The only address a generated READ or WRITE can draw for it is 64, which
is not below its size, and the page resolved is page 0: the WRITE of line 1 is
logged with `Page 0`. -/
theorem generated_address_outside_one_page_process :
    loadSystemConfig {} fcfsFile = LoadResult.returned true fcfsConfig ∧
    generateRandomMemSize fcfsConfig 0 = some 64 ∧
    (screenS (boot fcfsConfig) "p" 0 1 64 "t0").st.heap[0]? = some tinyProcess ∧
    dataAddressBounds fcfsConfig tinyProcess = (64, 64) ∧
    ¬ (64 < tinyProcess.memorySize) ∧
    pageOfAddress fcfsConfig.memPerFrame 64 tinyProcess.pageTable.length = some 0 ∧
    (procAfter
      (instructions_manager
        (stateAfter (screenS (boot fcfsConfig) "p" 0 1 64 "t0").st
          (instructions_manager (screenS (boot fcfsConfig) "p" 0 1 64 "t0").st 0 1 0 "T" "T2"
            declareDraws))
        1 1 0 "T" "T2" writeDraws) 0).map (fun q => q.instructions[1]?) =
      some (some "(T) Core: 1 \"WRITE 0x40 7 (Page 0 loaded)\"") := by
  refine ⟨by decide, by decide, by decide, by decide, by decide, by decide, by decide⟩

/-! ## Memory layout of created processes -/

theorem createProcess_record {s : State} {name : String} (cpuBurst memSize : Nat) (ts : String)
    (h : retrieveProcess s name = none) :
    (createProcess s name cpuBurst memSize ts).heap[s.heap.length]? =
      some { id := s.nextProcessID, name := name, currentLine := 0, totalLine := cpuBurst,
             timestamp := ts, coreAssigned := -1, isFinished := false, finishedTime := "",
             instructions := [], memory := [], memorySize := memSize,
             pageTable := List.replicate (memSize / s.GLOBAL_CONFIG.memPerFrame) {} } ∧
    (createProcess s name cpuBurst memSize ts).GLOBAL_CONFIG = s.GLOBAL_CONFIG := by
  unfold retrieveProcess at h
  unfold createProcess
  rw [h]
  simp only [Option.isSome_none, Bool.false_eq_true, if_false]
  exact ⟨List.getElem?_concat_length _ _, trivial⟩

theorem memSize_draw {cfg : SystemConfig} {pick n : Nat}
    (h : generateRandomMemSize cfg pick = some n) :
    IsMemPow2 n ∧ cfg.minMemPerProc ≤ n ∧ n ≤ cfg.maxMemPerProc := by
  unfold generateRandomMemSize at h
  split at h
  · cases h
  · have hm : n ∈ memSizeChoices cfg := List.getElem?_mem h
    unfold memSizeChoices at hm
    rw [List.mem_filter] at hm
    obtain ⟨hl, hr⟩ := hm
    refine ⟨?_, (of_decide_eq_true hr).1, (of_decide_eq_true hr).2⟩
    unfold IsMemPow2 clampMemPow2
    rw [if_pos hl]

theorem memoryShape_intro {cfg : SystemConfig} {pr : Process} (hf : IsMemPow2 cfg.memPerFrame)
    (hs : IsMemPow2 pr.memorySize) (h1 : cfg.minMemPerProc ≤ pr.memorySize)
    (h2 : pr.memorySize ≤ cfg.maxMemPerProc)
    (hp : pr.pageTable = List.replicate (pr.memorySize / cfg.memPerFrame) {}) :
    MemoryShape cfg pr := by
  have hl : pr.pageTable.length = pr.memorySize / cfg.memPerFrame := by
    rw [hp, List.length_replicate]
  refine ⟨hs, h1, h2, hl, ?_⟩
  rw [hl]
  exact pages_cover hf hs

theorem screenS_random {m : Machine} {processName : String} (cpuBurst memSize : Nat)
    (ts : String) (hn : processName ≠ "") (hfresh : retrieveProcess m.st processName = none) :
    (screenS m processName 0 cpuBurst memSize ts).st =
      createProcess m.st processName cpuBurst memSize ts := by
  unfold screenS
  rw [if_neg hn]
  simp only [ne_eq, not_true_eq_false, if_false]
  rw [(createProcess_fresh cpuBurst memSize ts hfresh).1]
  simp only [enqueueScreen_st]

theorem screenS_sized {m : Machine} {processName : String} {requestedMem : Nat}
    (cpuBurst memSize : Nat) (ts : String) (hn : processName ≠ "")
    (hfresh : retrieveProcess m.st processName = none) (h0 : requestedMem ≠ 0)
    (hpow : IsMemPow2 requestedMem)
    (hr : ¬ (requestedMem < m.st.GLOBAL_CONFIG.minMemPerProc ∨
      requestedMem > m.st.GLOBAL_CONFIG.maxMemPerProc)) :
    (screenS m processName requestedMem cpuBurst memSize ts).st =
      modifyProc (createProcess m.st processName cpuBurst memSize ts) m.st.heap.length
        (fun q =>
          { q with
            memorySize := requestedMem
            pageTable := List.replicate (requestedMem /
              (createProcess m.st processName cpuBurst memSize ts).GLOBAL_CONFIG.memPerFrame)
                {} }) := by
  unfold IsMemPow2 at hpow
  unfold screenS
  rw [if_neg hn]
  simp only [ne_eq, h0, not_false_eq_true, if_true, hpow, hr, if_false]
  rw [(createProcess_fresh cpuBurst memSize ts hfresh).1]
  simp only [enqueueScreen_st]

theorem screenC_sized {m : Machine} {processName : String} {requestedMem : Nat} {raw : String}
    (cpuBurst memSize : Nat) (ts : String) (hn : processName ≠ "")
    (hfresh : retrieveProcess m.st processName = none)
    (hv : validateCustomInstructions raw = true) (hpow : IsMemPow2 requestedMem)
    (hr : ¬ (requestedMem < m.st.GLOBAL_CONFIG.minMemPerProc ∨
      requestedMem > m.st.GLOBAL_CONFIG.maxMemPerProc)) :
    (screenC m processName requestedMem raw cpuBurst memSize ts).st =
      modifyProc (createProcess m.st processName cpuBurst memSize ts) m.st.heap.length
        (fun q =>
          { q with
            memorySize := requestedMem
            pageTable := List.replicate (requestedMem /
              (createProcess m.st processName cpuBurst memSize ts).GLOBAL_CONFIG.memPerFrame)
                {}
            customInstrList := q.customInstrList ++ splitInstructions raw }) := by
  unfold IsMemPow2 at hpow
  unfold screenC
  rw [if_neg hn]
  simp only [hv, Bool.true_eq_false, if_false, hpow, hr]
  rw [(createProcess_fresh cpuBurst memSize ts hfresh).1]
  simp only [enqueueScreen_st]

theorem generator_creates {m : Machine} {n : Nat} (cpuBurst memSize : Nat) (ts : String)
    (hg : m.generator = some n) (hstop : ¬ (m.stopScheduler ∨ m.stopProcessCreation))
    (hfresh : retrieveProcess m.st (generatedName n) = none) :
    ∃ m1, generatorStep m cpuBurst memSize ts = some m1 ∧
      m1.st = createProcess m.st (generatedName n) cpuBurst memSize ts := by
  unfold generatorStep
  rw [hg]
  simp only [hstop, if_false, hfresh, Option.isNone_none, if_true]
  rw [(createProcess_fresh cpuBurst memSize ts hfresh).1]
  exact ⟨_, rfl, by simp only [enqueueGenerated_st]⟩

theorem createProcess_config (s : State) (name : String) (cpuBurst memSize : Nat) (ts : String) :
    (createProcess s name cpuBurst memSize ts).GLOBAL_CONFIG = s.GLOBAL_CONFIG := by
  unfold createProcess
  split
  · rfl
  · rfl

/-- C27 (amended).  Under a configuration whose frame size is one of the eleven
powers of two, every process newly created by the auto-generator, by
`screen -s NAME`, by `screen -s NAME MEM` or by `screen -c NAME MEM "..."` has a
size that is a power of two from 64 to 65536 within
`[minMemPerProc, maxMemPerProc]` (the draw of `generateRandomMemSize`, or `MEM`)
and a page table of `memorySize / memPerFrame` entries; the product
`pageTable.size() * memPerFrame` equals `memorySize` exactly when
`memPerFrame ≤ memorySize`. -/
theorem created_process_memory_shape (m : Machine)
    (hf : IsMemPow2 m.st.GLOBAL_CONFIG.memPerFrame) (cpuBurst pick memSize : Nat) (ts : String)
    (hdraw : generateRandomMemSize m.st.GLOBAL_CONFIG pick = some memSize) :
    (∀ n : Nat, m.generator = some n → ¬ (m.stopScheduler ∨ m.stopProcessCreation) →
      retrieveProcess m.st (generatedName n) = none →
      ∃ m1 pr, generatorStep m cpuBurst memSize ts = some m1 ∧
        m1.st.heap[m.st.heap.length]? = some pr ∧ pr.name = generatedName n ∧
        MemoryShape m.st.GLOBAL_CONFIG pr) ∧
    (∀ name : String, name ≠ "" → retrieveProcess m.st name = none →
      (∃ pr, (screenS m name 0 cpuBurst memSize ts).st.heap[m.st.heap.length]? = some pr ∧
        pr.name = name ∧ MemoryShape m.st.GLOBAL_CONFIG pr) ∧
      (∀ requestedMem : Nat, IsMemPow2 requestedMem →
        m.st.GLOBAL_CONFIG.minMemPerProc ≤ requestedMem →
        requestedMem ≤ m.st.GLOBAL_CONFIG.maxMemPerProc →
        (∃ pr, (screenS m name requestedMem cpuBurst memSize ts).st.heap[m.st.heap.length]? =
            some pr ∧
          pr.name = name ∧ pr.memorySize = requestedMem ∧ MemoryShape m.st.GLOBAL_CONFIG pr) ∧
        (∀ raw : String, validateCustomInstructions raw = true →
          ∃ pr, (screenC m name requestedMem raw cpuBurst memSize ts).st.heap[m.st.heap.length]? =
              some pr ∧
            pr.name = name ∧ pr.memorySize = requestedMem ∧
            MemoryShape m.st.GLOBAL_CONFIG pr))) := by
  obtain ⟨hd1, hd2, hd3⟩ := memSize_draw hdraw
  refine ⟨?_, ?_⟩
  · intro n hg hstop hfresh
    obtain ⟨m1, hm1, hst⟩ := generator_creates cpuBurst memSize ts hg hstop hfresh
    have hrec := (createProcess_record cpuBurst memSize ts hfresh).1
    rw [← hst] at hrec
    exact ⟨m1, _, hm1, hrec, rfl, memoryShape_intro hf hd1 hd2 hd3 rfl⟩
  · intro name hn hfresh
    have hrec := (createProcess_record cpuBurst memSize ts hfresh).1
    have hcfg := createProcess_config m.st name cpuBurst memSize ts
    constructor
    · have hrec1 := hrec
      rw [← screenS_random cpuBurst memSize ts hn hfresh] at hrec1
      exact ⟨_, hrec1, rfl, memoryShape_intro hf hd1 hd2 hd3 rfl⟩
    · intro requestedMem hpow hlo hhi
      have h0 : requestedMem ≠ 0 := by
        have := (isMemPow2_range hpow).1
        omega
      have hr : ¬ (requestedMem < m.st.GLOBAL_CONFIG.minMemPerProc ∨
          requestedMem > m.st.GLOBAL_CONFIG.maxMemPerProc) := by omega
      constructor
      · have h2 := modifyProc_at (fun q : Process =>
          { q with
            memorySize := requestedMem
            pageTable := List.replicate (requestedMem /
              (createProcess m.st name cpuBurst memSize ts).GLOBAL_CONFIG.memPerFrame)
                {} }) hrec
        rw [← screenS_sized cpuBurst memSize ts hn hfresh h0 hpow hr] at h2
        exact ⟨_, h2, rfl, rfl, memoryShape_intro hf hpow hlo hhi
          (congrArg (fun c : SystemConfig => List.replicate (requestedMem / c.memPerFrame)
            ({} : PageTableEntry)) hcfg)⟩
      · intro raw hv
        have h2 := modifyProc_at (fun q : Process =>
          { q with
            memorySize := requestedMem
            pageTable := List.replicate (requestedMem /
              (createProcess m.st name cpuBurst memSize ts).GLOBAL_CONFIG.memPerFrame)
                {}
            customInstrList := q.customInstrList ++ splitInstructions raw }) hrec
        rw [← screenC_sized cpuBurst memSize ts hn hfresh hv hpow hr] at h2
        exact ⟨_, h2, rfl, rfl, memoryShape_intro hf hpow hlo hhi
          (congrArg (fun c : SystemConfig => List.replicate (requestedMem / c.memPerFrame)
            ({} : PageTableEntry)) hcfg)⟩

theorem created_process_memory_shape_witness :
    ∃ pr, (screenC (boot fcfsConfig) "p" 256 "WRITE 0x100 5" 3 64 "t0").st.heap[
        (boot fcfsConfig).st.heap.length]? = some pr ∧
      pr.name = "p" ∧ pr.memorySize = 256 ∧ MemoryShape (boot fcfsConfig).st.GLOBAL_CONFIG pr :=
  ((((created_process_memory_shape (boot fcfsConfig) (by unfold IsMemPow2; decide) 3 0 64 "t0"
    (by decide)).2 "p" (by decide) (by decide)).2 256 (by unfold IsMemPow2; decide) (by decide)
    (by decide)).2 "WRITE 0x100 5" (by decide))

/-- C27 as stated fails: `loadSystemConfig` accepts `coarseFile`, whose frames
of 128 bytes are larger than its processes of 64 bytes; the process that
`screen -s p` creates under it has 64 bytes and a page table of 64 / 128 = 0
entries, so the product is 0. -/
theorem page_table_may_not_cover_memory :
    loadSystemConfig {} coarseFile = LoadResult.returned true coarseConfig ∧
    generateRandomMemSize coarseConfig 0 = some 64 ∧
    ((screenS (boot coarseConfig) "p" 0 1 64 "t0").st.heap[0]?).map
        (fun q => (q.memorySize, q.pageTable.length)) = some (64, 0) ∧
    0 * coarseConfig.memPerFrame ≠ 64 := by
  refine ⟨by decide, by decide, by decide, by decide⟩

/-! ## Intake of a custom program -/

theorem entryOf_modifyProc (s : State) (p : Nat) (f : Process → Process)
    (hf : ∀ q, (f q).pageTable = q.pageTable) (q qn : Nat) :
    entryOf (modifyProc s p f).heap q qn = entryOf s.heap q qn := by
  unfold entryOf
  rw [modifyProc_getElem?]
  cases s.heap[q]? with
  | none => rfl
  | some pr =>
    simp only [Option.map_some']
    split
    · rw [hf]
    · rfl

theorem wf_modifyProc {s : State} (hw : Wf s) (p : Nat) (f : Process → Process)
    (hid : ∀ q, (f q).id = q.id) (hf : ∀ q, (f q).pageTable = q.pageTable) :
    Wf (modifyProc s p f) := by
  have hE := entryOf_modifyProc s p f hf
  obtain ⟨-, hM, hB, -, hQ, hL, -, -, -, hN, -⟩ := modifyProc_rest s p f
  have hlen := modifyProc_heap_length s p f
  have hR : ∀ q qn, Resident (modifyProc s p f) q qn ↔ Resident s q qn := by
    intro q qn
    unfold Resident
    rw [hE]
  refine
    { ids := ?_, nextId := ?_, lookup := ?_, entFrame := ?_, entFree := ?_, frameEnt := ?_,
      qNodup := ?_, qRes := ?_, bsKeys := ?_, bsFree := ?_ }
  · intro q pr hq
    rw [modifyProc_getElem?] at hq
    cases hs : s.heap[q]? with
    | none => rw [hs] at hq; cases hq
    | some pr0 =>
      rw [hs] at hq
      simp only [Option.map_some', Option.some.injEq] at hq
      rw [← hq]
      split
      · rw [hid]
        exact hw.ids q pr0 hs
      · exact hw.ids q pr0 hs
  · rw [hN, hlen]
    exact hw.nextId
  · intro pid q
    rw [hL, hlen]
    exact hw.lookup pid q
  · intro q qn e he hm
    rw [hE] at he
    rw [hM]
    exact hw.entFrame q qn e he hm
  · intro q qn e he hm
    rw [hE] at he
    exact hw.entFree q qn e he hm
  · intro i fr hi hne
    rw [hM] at hi
    obtain ⟨q, qn, h1, h2, h3⟩ := hw.frameEnt i fr hi hne
    exact ⟨q, qn, h1, h2, by rw [hE]; exact h3⟩
  · rw [hQ]
    exact hw.qNodup
  · intro k
    rw [hQ, hw.qRes k]
    constructor
    · rintro ⟨q, qn, hr, hk⟩
      exact ⟨q, qn, (hR q qn).2 hr, hk⟩
    · rintro ⟨q, qn, hr, hk⟩
      exact ⟨q, qn, (hR q qn).1 hr, hk⟩
  · intro k d hk
    rw [hB] at hk
    obtain ⟨q, qn, e, h1, h2, h3⟩ := hw.bsKeys k d hk
    exact ⟨q, qn, e, h1, by rw [hE]; exact h2, h3⟩
  · rw [hM, hB]
    exact hw.bsFree

theorem wf_commitLog {s : State} (hw : Wf s) (p k : Nat) (line : String) :
    Wf (commitLog s p k line) :=
  wf_modifyProc hw p _ (fun _ => rfl) (fun _ => rfl)

theorem wf_nextLine {s : State} (hw : Wf s) (p : Nat) : Wf (nextLine s p) :=
  wf_modifyProc hw p _ (fun _ => rfl) (fun _ => rfl)

theorem withoutPages_setEntry (h : List Process) (p pn : Nat) (e : PageTableEntry) (q : Nat) :
    ((setEntry h p pn e)[q]?).map withoutPages = (h[q]?).map withoutPages := by
  rw [setEntry_getElem?]
  cases h[q]? with
  | none => rfl
  | some pr =>
    simp only [Option.map_some']
    split <;> rfl

/-- A call of `loadPageIfNotInMemory` writes no field of a Process object but
its page table. -/
theorem load_withoutPages {s t : State} {proc : Option Nat} {pg : Int} {b : Bool} (hw : Wf s)
    (hl : loadPageIfNotInMemory s proc pg = some (b, t)) (q : Nat) :
    (t.heap[q]?).map withoutPages = (s.heap[q]?).map withoutPages := by
  rcases load_cases hw hl with ⟨rfl, -, -⟩ | ⟨p, pn, i, pr, e0, -, -, hp, he0, hm, hi, -, rfl⟩ |
    ⟨p, pn, ep, vpn, vi, pr, e0, ev, vf, rest, -, -, hp, he0, hm, hi, hq, hev, hevm, hevi, hvf,
      hvf1, hvf2, -, rfl⟩
  · rfl
  · rw [claimFreeFrame_heap, withoutPages_setEntry]
  · rw [replaceVictim_heap, withoutPages_setEntry, withoutPages_setEntry]

theorem load_config {s t : State} {proc : Option Nat} {pg : Int} {b : Bool}
    (hl : loadPageIfNotInMemory s proc pg = some (b, t)) :
    t.GLOBAL_CONFIG = s.GLOBAL_CONFIG := by
  have h := schedView_load hl
  unfold schedView at h
  exact (Prod.mk.inj h).1

theorem load_proc {s t : State} {proc : Option Nat} {pg : Int} {b : Bool} (hw : Wf s)
    (hl : loadPageIfNotInMemory s proc pg = some (b, t)) {q : Nat} {pr : Process}
    (hq : s.heap[q]? = some pr) :
    ∃ pt, t.heap[q]? = some { pr with pageTable := pt } := by
  have h := load_withoutPages hw hl q
  rw [hq] at h
  cases ht : t.heap[q]? with
  | none => rw [ht] at h; cases h
  | some pr1 =>
    rw [ht] at h
    simp only [Option.map_some', Option.some.injEq] at h
    refine ⟨pr1.pageTable, ?_⟩
    have h2 : pr1 = { withoutPages pr1 with pageTable := pr1.pageTable } := rfl
    rw [h2, h]
    rfl

/-- After a successful load in a well-formed state the frame index of the
entry is a valid index of the frame table. -/
theorem append_after_load {s t : State} {p pn : Nat} (hw : Wf s)
    (hl : loadPageIfNotInMemory s (some p) (pn : Int) = some (true, t)) (str : String) :
    ∃ (e : PageTableEntry) (i : Nat), entryOf t.heap p pn = some e ∧ e.frameIndex = (i : Int) ∧
      i < t.physicalMemory.length ∧
      appendFrameAt t e.frameIndex str = some (appendFrameData t i str) := by
  have hwt := wf_load hw hl
  obtain ⟨pr1, e, hp1, -, he, hm⟩ := load_true_entry hl
  rw [Int.toNat_ofNat] at he
  have hent := entryOf_of t p pn pr1 e hp1 he
  obtain ⟨i, f, hi, hf, -, -⟩ := hwt.entFrame p pn e hent hm
  have hlt : i < t.physicalMemory.length := (List.getElem?_eq_some.mp hf).1
  refine ⟨e, i, hent, hi, hlt, ?_⟩
  unfold appendFrameAt
  rw [hi]
  rw [if_pos ⟨Int.ofNat_nonneg i, by rw [Int.toNat_ofNat]; exact hlt⟩, Int.toNat_ofNat]

theorem appendFrameData_heap (s : State) (f : Nat) (str : String) :
    (appendFrameData s f str).heap = s.heap ∧
    (appendFrameData s f str).GLOBAL_CONFIG = s.GLOBAL_CONFIG := by
  unfold appendFrameData
  split <;> exact ⟨rfl, rfl⟩

/-! ## Steps of a custom program on well-formed states -/

theorem commitLog_config (s : State) (p k : Nat) (line : String) :
    (commitLog s p k line).GLOBAL_CONFIG = s.GLOBAL_CONFIG :=
  (modifyProc_rest s p _).1

theorem commitLog_at {s : State} {p : Nat} {pr : Process} (k : Nat) (line : String)
    (hp : s.heap[p]? = some pr) :
    (commitLog s p k line).heap[p]? =
      some { pr with instructions := pr.instructions.set k line } :=
  modifyProc_at _ hp

/-- The DECLARE branch of the executor returns, with the variable assigned and
the line logged. -/
theorem runCustom_declare {s : State} (hw : Wf s) {p : Nat} {pr : Process}
    (hp : s.heap[p]? = some pr) {instr var val : String} (hd : IsUserDeclare instr var val)
    {v : Int} (hv : stoi val = some v) (k : Nat) (logStart ts2 : String) :
    ∃ (t : State) (pt : List PageTableEntry),
      runCustom s p k logStart ts2 instr = Outcome.ok t ∧ Wf t ∧
      t.GLOBAL_CONFIG = s.GLOBAL_CONFIG ∧
      t.heap[p]? = some
        { pr with
          memory := mapAssign var (toUint16 v) pr.memory
          instructions := pr.instructions.set k
            (logStart ++ "\"" ++ ("DECLARE " ++ var ++ " = " ++ val) ++ "\"")
          pageTable := pt } := by
  have hw1 : Wf (modifyProc s p (fun q =>
      { q with memory := mapAssign var (toUint16 v) q.memory })) :=
    wf_modifyProc hw p _ (fun _ => rfl) (fun _ => rfl)
  have hp1 : (modifyProc s p (fun q =>
      { q with memory := mapAssign var (toUint16 v) q.memory })).heap[p]? =
      some { pr with memory := mapAssign var (toUint16 v) pr.memory } := modifyProc_at _ hp
  have hc1 : (modifyProc s p (fun q =>
      { q with memory := mapAssign var (toUint16 v) q.memory })).GLOBAL_CONFIG = s.GLOBAL_CONFIG :=
    (modifyProc_rest s p _).1
  unfold IsUserDeclare at hd
  unfold runCustom
  simp only [hp, hd, hv]
  generalize modifyProc s p (fun q => { q with memory := mapAssign var (toUint16 v) q.memory }) =
    s1 at hw1 hp1 hc1 ⊢
  have hlt : p < s1.heap.length := (List.getElem?_eq_some.mp hp1).1
  obtain ⟨b, t2, hl, -⟩ := load_spec hw1 (some p) 0 (fun q hq => by cases hq; exact hlt)
  have hw2 := wf_load hw1 hl
  obtain ⟨pt, hp2⟩ := load_proc hw1 hl hp1
  have hc2 := load_config hl
  rw [hl]
  cases b with
  | false =>
    simp only [Bool.false_eq_true, if_false]
    exact ⟨_, pt, rfl, wf_commitLog hw2 p k _, by rw [commitLog_config, hc2, hc1],
      commitLog_at k _ hp2⟩
  | true =>
    simp only [if_true]
    have hl0 : loadPageIfNotInMemory s1 (some p) ((0 : Nat) : Int) = some (true, t2) := hl
    obtain ⟨e, i, he, hi, hilt, ha⟩ := append_after_load hw1 hl0
      ("(" ++ var ++ " " ++ val ++ ")")
    simp only [he, ha]
    have hp3 : (appendFrameData t2 i ("(" ++ var ++ " " ++ val ++ ")")).heap[p]? =
        some { pr with memory := mapAssign var (toUint16 v) pr.memory, pageTable := pt } := by
      rw [(appendFrameData_heap _ _ _).1]
      exact hp2
    exact ⟨_, pt, rfl, wf_commitLog (wf_write hw2 i _) p k _,
      by rw [commitLog_config, (appendFrameData_heap _ _ _).2, hc2, hc1], commitLog_at k _ hp3⟩

theorem log_at (l : List String) (k : Nat) (line : String) :
    ((resizeLog l k).set k line)[k]? = some line := by
  have h : k < (resizeLog l k).length := by
    rw [resizeLog_length]
    omega
  rw [List.getElem?_set_self h]

theorem log_keep (l : List String) {j k : Nat} (line x : String) (hjk : j ≠ k)
    (hx : l[j]? = some x) : ((resizeLog l k).set k line)[j]? = some x := by
  rw [List.getElem?_set_ne (Ne.symm hjk)]
  have hj : j < l.length := (List.getElem?_eq_some.mp hx).1
  unfold resizeLog
  split
  · rw [List.getElem?_append_left hj]
    exact hx
  · exact hx

/-- The ADD branch of the executor returns; it needs no page. -/
theorem runCustom_add_state {s : State} (hw : Wf s) {p : Nat} {pr : Process}
    (hp : s.heap[p]? = some pr) {instr dst a b : String} (h : IsUserAdd instr dst a b)
    (k : Nat) (logStart ts2 : String) :
    ∃ t : State, runCustom s p k logStart ts2 instr = Outcome.ok t ∧ Wf t ∧
      t.GLOBAL_CONFIG = s.GLOBAL_CONFIG ∧
      t.heap[p]? = some
        { pr with
          memory := (memIndex b (memIndex a (mapAssign dst
            (clampUint16 (((memIndex a pr.memory).1 : Int) +
              ((memIndex b (memIndex a pr.memory).2).1 : Int)))
            (memIndex b (memIndex a pr.memory).2).2)).2).2
          instructions := pr.instructions.set k
            (logStart ++ "\"" ++ ("ADD " ++ a ++ "(" ++
              toString (memIndex a (mapAssign dst
                (clampUint16 (((memIndex a pr.memory).1 : Int) +
                  ((memIndex b (memIndex a pr.memory).2).1 : Int)))
                (memIndex b (memIndex a pr.memory).2).2)).1 ++ ") + " ++
              b ++ "(" ++
              toString (memIndex b (memIndex a (mapAssign dst
                (clampUint16 (((memIndex a pr.memory).1 : Int) +
                  ((memIndex b (memIndex a pr.memory).2).1 : Int)))
                (memIndex b (memIndex a pr.memory).2).2)).2).1 ++ ") = " ++
              toString (clampUint16 (((memIndex a pr.memory).1 : Int) +
                ((memIndex b (memIndex a pr.memory).2).1 : Int)))) ++ "\"") } := by
  obtain ⟨h1, h2⟩ := h
  unfold runCustom
  simp only [hp, h1, h2]
  refine ⟨_, rfl, ?_, ?_, commitLog_memory k _ _ hp⟩
  · apply wf_commitLog
    apply wf_modifyProc hw
    · intro q
      rfl
    · intro q
      rfl
  · rw [commitLog_config, (modifyProc_rest s p _).1]

/-- The PRINT branch of the executor returns; it needs no page. -/
theorem runCustom_print_state {s : State} (hw : Wf s) {p : Nat} {pr : Process}
    (hp : s.heap[p]? = some pr) {instr var : String} (h : IsUserPrint instr var)
    (k : Nat) (logStart ts2 : String) :
    ∃ t : State, runCustom s p k logStart ts2 instr = Outcome.ok t ∧ Wf t ∧
      t.GLOBAL_CONFIG = s.GLOBAL_CONFIG ∧
      t.heap[p]? = some
        { pr with
          memory := (memIndex var pr.memory).2
          instructions := pr.instructions.set k
            (logStart ++ "\"" ++ ("PRINT(\"Result: \" + " ++ var ++ ") = " ++
              toString (memIndex var pr.memory).1) ++ "\"") } := by
  obtain ⟨h1, h2, h3, h4, h5, h6⟩ := h
  unfold runCustom
  simp only [hp, h1, h2, h3, h4, h5, h6]
  refine ⟨_, rfl, ?_, ?_, commitLog_memory k _ _ hp⟩
  · apply wf_commitLog
    apply wf_modifyProc hw
    · intro q
      rfl
    · intro q
      rfl
  · rw [commitLog_config, (modifyProc_rest s p _).1]

theorem wf_resize {s : State} (hw : Wf s) (p k : Nat) :
    Wf (modifyProc s p (fun q => { q with instructions := resizeLog q.instructions k })) :=
  wf_modifyProc hw p _ (fun _ => rfl) (fun _ => rfl)

theorem resize_at {s : State} {p : Nat} {pr : Process} (k : Nat) (hp : s.heap[p]? = some pr) :
    (modifyProc s p (fun q => { q with instructions := resizeLog q.instructions k })).heap[p]? =
      some { pr with instructions := resizeLog pr.instructions k } :=
  modifyProc_at _ hp

theorem nextLine_at {s : State} {p : Nat} {pr : Process} (hp : s.heap[p]? = some pr) :
    (nextLine s p).heap[p]? = some { pr with currentLine := pr.currentLine + 1 } :=
  modifyProc_at _ hp

/-- C22.  Scenario 5 on any well-formed state: for a process that is not shut
down and whose custom program is `DECLARE A 1`, `ADD B A A`,
`PRINT("Result: " + B)`, the executor calls for the lines 0, 1 and 2 (the worker
incrementing `currentLine` in between) all return; they leave the log lines
`(ts) Core: c "DECLARE A = 1"`, `(ts) Core: c "ADD A(1) + A(1) = 2"` and
`(ts) Core: c "PRINT("Result: " + B) = 2"` at the indices 0, 1 and 2, each with
the timestamp of its call, and the variables `A = 1` and `B = 2`; the process is
not shut down. -/
theorem scenario_program_runs (s : State) (hw : Wf s) (p : Nat) (pr : Process)
    (hp : s.heap[p]? = some pr) (hns : pr.isShutdown = false)
    (hprog : pr.customInstrList =
      ["DECLARE A 1", "ADD B A A", "PRINT(\"Result: \" + B)"])
    (coreId : Int) (ts0 ts1 ts2 u0 u1 u2 : String) (d0 d1 d2 : Draws) :
    ∃ (t1 t2 t3 : State) (pr3 : Process),
      instructions_manager s 0 coreId p ts0 u0 d0 = Outcome.ok t1 ∧
      instructions_manager (nextLine t1 p) 1 coreId p ts1 u1 d1 = Outcome.ok t2 ∧
      instructions_manager (nextLine t2 p) 2 coreId p ts2 u2 d2 = Outcome.ok t3 ∧
      t3.heap[p]? = some pr3 ∧
      pr3.instructions[0]? =
        some ("(" ++ ts0 ++ ") Core: " ++ toString coreId ++ " " ++ "\"" ++
          "DECLARE A = 1" ++ "\"") ∧
      pr3.instructions[1]? =
        some ("(" ++ ts1 ++ ") Core: " ++ toString coreId ++ " " ++ "\"" ++
          "ADD A(1) + A(1) = 2" ++ "\"") ∧
      pr3.instructions[2]? =
        some ("(" ++ ts2 ++ ") Core: " ++ toString coreId ++ " " ++ "\"" ++
          "PRINT(\"Result: \" + B) = 2" ++ "\"") ∧
      memGet "A" pr3.memory = 1 ∧ memGet "B" pr3.memory = 2 ∧ pr3.isShutdown = false := by
  -- line 0
  have hk0 : pr.customInstrList[0]? = some "DECLARE A 1" := by rw [hprog]; rfl
  obtain ⟨t1, pt1, h1, hw1, -, hp1⟩ :=
    runCustom_declare (wf_resize hw p 0) (resize_at 0 hp)
      (show IsUserDeclare "DECLARE A 1" "A" "1" by unfold IsUserDeclare; decide)
      (show stoi "1" = some 1 by decide) 0 ("(" ++ ts0 ++ ") Core: " ++ toString coreId ++ " ") u0
  rw [← manager_custom hp hns hk0] at h1
  have hw1n := wf_nextLine hw1 p
  have hp1n := nextLine_at hp1
  -- line 1
  have hk1 : pr.customInstrList[1]? = some "ADD B A A" := by rw [hprog]; rfl
  obtain ⟨t2, h2, hw2, -, hp2⟩ :=
    runCustom_add_state (wf_resize hw1n p 1) (resize_at 1 hp1n)
      (show IsUserAdd "ADD B A A" "B" "A" "A" by unfold IsUserAdd; exact ⟨by decide, by decide⟩)
      1 ("(" ++ ts1 ++ ") Core: " ++ toString coreId ++ " ") u1
  rw [← manager_custom (d := d1) hp1n hns hk1] at h2
  have hw2n := wf_nextLine hw2 p
  have hp2n := nextLine_at hp2
  -- line 2
  have hk2 : pr.customInstrList[2]? = some "PRINT(\"Result: \" + B)" := by rw [hprog]; rfl
  obtain ⟨t3, h3, hw3, -, hp3⟩ :=
    runCustom_print_state (wf_resize hw2n p 2) (resize_at 2 hp2n)
      (show IsUserPrint "PRINT(\"Result: \" + B)" "B" by
        unfold IsUserPrint
        exact ⟨by decide, by decide, by decide, by decide, by decide, by decide⟩)
      2 ("(" ++ ts2 ++ ") Core: " ++ toString coreId ++ " ") u2
  rw [← manager_custom (d := d2) hp2n hns hk2] at h3
  refine ⟨t1, t2, t3, _, h1, h2, h3, hp3, ?_, ?_, ?_, ?_, ?_, hns⟩
  · exact log_keep _ _ _ (by decide) (log_keep _ _ _ (by decide) (log_at _ _ _))
  · refine log_keep _ _ _ (by decide) ?_
    show ((resizeLog _ 1).set 1 _)[1]? = _
    rw [log_at]
    simp only [memIndex_fst, memGet_memIndex, memGet_assign, String.reduceEq, if_true, if_false]
    rfl
  · show ((resizeLog _ 2).set 2 _)[2]? = _
    rw [log_at]
    simp only [memIndex_fst, memGet_memIndex, memGet_assign, String.reduceEq, if_true, if_false]
    rfl
  · show memGet "A" (memIndex "B" _).2 = 1
    simp only [memIndex_fst, memGet_memIndex, memGet_assign, String.reduceEq, if_true, if_false]
    rfl
  · show memGet "B" (memIndex "B" _).2 = 2
    simp only [memIndex_fst, memGet_memIndex, memGet_assign, String.reduceEq, if_true, if_false]
    rfl

theorem scenario_program_runs_witness :
    ∃ (t1 t2 t3 : State) (pr3 : Process),
      instructions_manager scenarioState 0 1 0 "T0" "U0" noDraws = Outcome.ok t1 ∧
      instructions_manager (nextLine t1 0) 1 1 0 "T1" "U1" noDraws = Outcome.ok t2 ∧
      instructions_manager (nextLine t2 0) 2 1 0 "T2" "U2" noDraws = Outcome.ok t3 ∧
      t3.heap[0]? = some pr3 ∧
      pr3.instructions[0]? =
        some ("(" ++ "T0" ++ ") Core: " ++ toString (1 : Int) ++ " " ++ "\"" ++
          "DECLARE A = 1" ++ "\"") ∧
      pr3.instructions[1]? =
        some ("(" ++ "T1" ++ ") Core: " ++ toString (1 : Int) ++ " " ++ "\"" ++
          "ADD A(1) + A(1) = 2" ++ "\"") ∧
      pr3.instructions[2]? =
        some ("(" ++ "T2" ++ ") Core: " ++ toString (1 : Int) ++ " " ++ "\"" ++
          "PRINT(\"Result: \" + B) = 2" ++ "\"") ∧
      memGet "A" pr3.memory = 1 ∧ memGet "B" pr3.memory = 2 ∧ pr3.isShutdown = false :=
  scenario_program_runs scenarioState
    (wf_modifyProc (wf_create (wf_init fcfsConfig) "p" 3 256 "t0") 0 _ (fun _ => rfl)
      (fun _ => rfl))
    0 { id := 1, name := "p", currentLine := 0, totalLine := 3, timestamp := "t0",
        memorySize := 256, pageTable := [{}, {}, {}, {}],
        customInstrList := ["DECLARE A 1", "ADD B A A", "PRINT(\"Result: \" + B)"] }
    (by decide) (by decide) (by decide) 1 "T0" "T1" "T2" "U0" "U1" "U2" noDraws noDraws noDraws

/-! ## Write/read round trip -/

theorem sizeToInt_small {n : Nat} (h : n < 2 ^ 31) : sizeToInt n = (n : Int) := by
  unfold sizeToInt
  have h1 : n % 2 ^ 32 = n := Nat.mod_eq_of_lt (by omega)
  rw [h1, if_pos h]

theorem pageOfAddress_le {memPerFrame address pages pg : Nat}
    (h : pageOfAddress memPerFrame address pages = some pg) : pg ≤ address := by
  unfold pageOfAddress at h
  split at h
  · cases h
  · cases h
    exact le_trans (min_le_left _ _) (Nat.div_le_self _ _)

theorem pageOfAddress_some {memPerFrame : Nat} (h : memPerFrame ≠ 0) (address pages : Nat) :
    ∃ pg, pageOfAddress memPerFrame address pages = some pg := by
  unfold pageOfAddress
  rw [if_neg h]
  exact ⟨_, rfl⟩

/-- The WRITE branch of the executor returns on an in-bounds address, with the
value stored under the address literal. -/
theorem runCustom_write_state {s : State} (hw : Wf s) (hframe : s.GLOBAL_CONFIG.memPerFrame ≠ 0)
    {p : Nat} {pr : Process} (hp : s.heap[p]? = some pr) (hsize : pr.memorySize ≤ 65536)
    {instr addrHex tok : String} (h : IsUserWrite instr addrHex tok) {address : Nat}
    (ha : stoull16 addrHex = some address) (h64 : 64 ≤ address) (hlt : address < pr.memorySize)
    {val : Nat} {m1 : List (String × Nat)}
    (htok : (if isLiteralToken tok then (stoi tok).map (fun v => (toUint16 v, pr.memory))
      else some (memIndex tok pr.memory)) = some (val, m1))
    (k : Nat) (logStart ts2 : String) :
    ∃ (t : State) (pt : List PageTableEntry),
      runCustom s p k logStart ts2 instr = Outcome.ok t ∧ Wf t ∧
      t.GLOBAL_CONFIG = s.GLOBAL_CONFIG ∧
      t.heap[p]? = some
        { pr with
          memory := mapAssign addrHex val m1
          instructions := pr.instructions.set k
            (logStart ++ "\"" ++ ("WRITE " ++ addrHex ++ " " ++ toString val) ++ "\"")
          pageTable := pt } := by
  obtain ⟨h1, h2, h3, h4⟩ := h
  have hin : ¬ (address < 64 ∨ address ≥ pr.memorySize) := by omega
  unfold isLiteralToken at htok
  unfold runCustom
  simp only [hp, h1, h2, h3, h4, ha, if_neg hin, htok]
  obtain ⟨pg, hpg⟩ := pageOfAddress_some hframe address pr.pageTable.length
  rw [hpg]
  simp only
  have hpgs : sizeToInt pg = (pg : Int) := by
    have := pageOfAddress_le hpg
    exact sizeToInt_small (by omega)
  rw [hpgs]
  have hw1 : Wf (modifyProc s p (fun q => { q with memory := m1 })) := by
    apply wf_modifyProc hw
    · intro q
      rfl
    · intro q
      rfl
  have hp1 : (modifyProc s p (fun q => { q with memory := m1 })).heap[p]? =
      some { pr with memory := m1 } := modifyProc_at _ hp
  have hc1 : (modifyProc s p (fun q => { q with memory := m1 })).GLOBAL_CONFIG =
      s.GLOBAL_CONFIG := (modifyProc_rest s p _).1
  generalize modifyProc s p (fun q => { q with memory := m1 }) = s1 at hw1 hp1 hc1 ⊢
  have hplt : p < s1.heap.length := (List.getElem?_eq_some.mp hp1).1
  obtain ⟨b, t2, hl, -⟩ := load_spec hw1 (some p) (pg : Int) (fun q hq => by cases hq; exact hplt)
  have hw2 := wf_load hw1 hl
  obtain ⟨pt, hp2⟩ := load_proc hw1 hl hp1
  have hc2 := load_config hl
  rw [hl]
  cases b with
  | false =>
    simp only [Bool.false_eq_true, if_false]
    refine ⟨_, pt, rfl, ?_, ?_, ?_⟩
    · apply wf_commitLog
      apply wf_modifyProc hw2
      · intro q
        rfl
      · intro q
        rfl
    · rw [commitLog_config, (modifyProc_rest _ _ _).1, hc2, hc1]
    · exact commitLog_at k _ (modifyProc_at _ hp2)
  | true =>
    simp only [if_true]
    obtain ⟨e, i, he, hi, hilt, hap⟩ := append_after_load hw1 hl
      ("(" ++ addrHex ++ " " ++ toString val ++ ")")
    simp only [he, hap]
    have hp3 : (appendFrameData t2 i ("(" ++ addrHex ++ " " ++ toString val ++ ")")).heap[p]? =
        some { pr with memory := m1, pageTable := pt } := by
      rw [(appendFrameData_heap _ _ _).1]
      exact hp2
    refine ⟨_, pt, rfl, ?_, ?_, ?_⟩
    · apply wf_commitLog
      apply wf_modifyProc (wf_write hw2 i _)
      · intro q
        rfl
      · intro q
        rfl
    · rw [commitLog_config, (modifyProc_rest _ _ _).1, (appendFrameData_heap _ _ _).2, hc2, hc1]
    · exact commitLog_at k _ (modifyProc_at _ hp3)

/-- The READ branch of the executor returns on an in-bounds address, with the
value stored under the address literal assigned to the variable. -/
theorem runCustom_read_state {s : State} (hw : Wf s) (hframe : s.GLOBAL_CONFIG.memPerFrame ≠ 0)
    {p : Nat} {pr : Process} (hp : s.heap[p]? = some pr)
    {instr var addrHex : String} (h : IsUserRead instr var addrHex) {address : Nat}
    (ha : stoull16 addrHex = some address) (h64 : 64 ≤ address) (hlt : address < pr.memorySize)
    (k : Nat) (logStart ts2 : String) :
    ∃ (t : State) (pt : List PageTableEntry) (b : Bool),
      runCustom s p k logStart ts2 instr = Outcome.ok t ∧ Wf t ∧
      t.GLOBAL_CONFIG = s.GLOBAL_CONFIG ∧
      t.heap[p]? = some
        { pr with
          memory := mapAssign var (memGet addrHex pr.memory) pr.memory
          instructions := pr.instructions.set k
            (logStart ++ "\"" ++ ("READ " ++ var ++ " = " ++ toString (memGet addrHex pr.memory) ++
              " from " ++ addrHex ++ (if b then " (loaded)" else " (not loaded)")) ++ "\"")
          pageTable := pt } := by
  obtain ⟨h1, h2, h3, h4, h5⟩ := h
  have hin : ¬ (address < 64 ∨ address ≥ pr.memorySize) := by omega
  unfold runCustom
  simp only [hp, h1, h2, h3, h4, h5, ha, if_neg hin]
  obtain ⟨pg, hpg⟩ := pageOfAddress_some hframe address pr.pageTable.length
  rw [hpg]
  simp only
  have hplt : p < s.heap.length := (List.getElem?_eq_some.mp hp).1
  obtain ⟨b, t2, hl, -⟩ := load_spec hw (some p) (sizeToInt pg)
    (fun q hq => by cases hq; exact hplt)
  have hw2 := wf_load hw hl
  obtain ⟨pt, hp2⟩ := load_proc hw hl hp
  have hc2 := load_config hl
  rw [hl]
  refine ⟨_, pt, b, rfl, ?_, ?_, ?_⟩
  · apply wf_commitLog
    apply wf_modifyProc hw2
    · intro q
      rfl
    · intro q
      rfl
  · rw [commitLog_config, (modifyProc_rest _ _ _).1, hc2]
  · exact commitLog_at k _ (modifyProc_at _ hp2)

theorem loadPages_spec {s : State} (hw : Wf s) (seq : List (Option Nat × Int)) {t : State}
    (h : loadPages s seq = some t) :
    Wf t ∧ t.GLOBAL_CONFIG = s.GLOBAL_CONFIG ∧
    ∀ (q : Nat) (pr : Process), s.heap[q]? = some pr →
      ∃ pt, t.heap[q]? = some { pr with pageTable := pt } := by
  induction seq generalizing s with
  | nil =>
    unfold loadPages at h
    cases h
    exact ⟨hw, rfl, fun q pr hq => ⟨pr.pageTable, hq⟩⟩
  | cons e rest ih =>
    obtain ⟨proc, pg⟩ := e
    unfold loadPages at h
    cases hl : loadPageIfNotInMemory s proc pg with
    | none => rw [hl] at h; cases h
    | some r =>
      obtain ⟨b, s1⟩ := r
      rw [hl] at h
      obtain ⟨hwt, hct, hpt⟩ := ih (wf_load hw hl) h
      refine ⟨hwt, hct.trans (load_config hl), ?_⟩
      intro q pr hq
      obtain ⟨pt1, h1⟩ := load_proc hw hl hq
      obtain ⟨pt, h2⟩ := hpt q _ h1
      exact ⟨pt, h2⟩

theorem loadPages_total {s : State} (hw : Wf s) (seq : List (Option Nat × Int))
    (hv : ∀ e ∈ seq, ∀ q, e.1 = some q → q < s.heap.length) :
    ∃ t, loadPages s seq = some t := by
  induction seq generalizing s with
  | nil => exact ⟨s, rfl⟩
  | cons e rest ih =>
    obtain ⟨proc, pg⟩ := e
    obtain ⟨b, s1, hl, -⟩ := load_spec hw proc pg
      (fun q hq => hv (proc, pg) (List.mem_cons_self _ _) q hq)
    have hlen : ∀ q, q < s.heap.length → q < s1.heap.length := by
      intro q hq
      obtain ⟨pt, h1⟩ := load_proc hw hl (List.getElem?_eq_getElem hq)
      exact (List.getElem?_eq_some.mp h1).1
    obtain ⟨t, ht⟩ := ih (wf_load hw hl)
      (fun e he q hq => hlen q (hv e (List.mem_cons_of_mem _ he) q hq))
    refine ⟨t, ?_⟩
    unfold loadPages
    rw [hl]
    exact ht

theorem toUint16_small {v : Nat} (h : v ≤ 65535) : toUint16 (v : Int) = v := by
  unfold toUint16
  rw [Int.emod_eq_of_lt (Int.ofNat_nonneg v) (by omega), Int.toNat_ofNat]

/-- C21 (R1).  In a well-formed state with a non-zero frame size, for a process
that is not shut down (its size at most 65536, as every created process has),
an address literal `L` whose value passes the bounds check, and a value `v`
given as a literal token (at most 65535) or through a variable: the WRITE at
line `i` returns; after it every sequence of `loadPageIfNotInMemory` calls on
pages of existing processes returns; and after any such sequence the READ of `L`
into `x` at line `j` returns, leaves `x == v` and leaves the process not shut
down. -/
theorem write_read_round_trip (s : State) (hw : Wf s)
    (hframe : s.GLOBAL_CONFIG.memPerFrame ≠ 0) (p : Nat) (pr : Process)
    (hp : s.heap[p]? = some pr) (hns : pr.isShutdown = false) (hsize : pr.memorySize ≤ 65536)
    (i j : Nat) (wr rd L tok x : String) (hi : pr.customInstrList[i]? = some wr)
    (hj : pr.customInstrList[j]? = some rd) (hwr : IsUserWrite wr L tok)
    (hrd : IsUserRead rd x L) (address : Nat) (ha : stoull16 L = some address)
    (h64 : 64 ≤ address) (hlt : address < pr.memorySize) (v : Nat)
    (hval : (isLiteralToken tok = true ∧ stoi tok = some (v : Int) ∧ v ≤ 65535) ∨
      (isLiteralToken tok = false ∧ memGet tok pr.memory = v))
    (coreId : Int) (ts ts2 : String) (d : Draws) :
    ∃ t1, instructions_manager s i coreId p ts ts2 d = Outcome.ok t1 ∧
      (∀ seq : List (Option Nat × Int),
        (∀ e ∈ seq, ∀ q, e.1 = some q → q < t1.heap.length) →
        ∃ t2, loadPages t1 seq = some t2) ∧
      ∀ (seq : List (Option Nat × Int)) (t2 : State), loadPages t1 seq = some t2 →
        ∀ (coreId1 : Int) (ts1 ts3 : String) (d1 : Draws),
          ∃ t3, instructions_manager t2 j coreId1 p ts1 ts3 d1 = Outcome.ok t3 ∧
            varAfter (Outcome.ok t3) p x = some v ∧
            shutdownFlag (Outcome.ok t3) p = some false := by
  -- the value token
  obtain ⟨m1, htok⟩ : ∃ m1, (if isLiteralToken tok then
      (stoi tok).map (fun u => (toUint16 u, pr.memory))
      else some (memIndex tok pr.memory)) = some (v, m1) := by
    rcases hval with ⟨h1, h2, h3⟩ | ⟨h1, h2⟩
    · refine ⟨pr.memory, ?_⟩
      rw [if_pos h1, h2]
      simp only [Option.map_some', toUint16_small h3]
    · refine ⟨(memIndex tok pr.memory).2, ?_⟩
      rw [h1]
      simp only [Bool.false_eq_true, if_false, Option.some.injEq]
      exact Prod.ext ((memIndex_fst tok pr.memory).trans h2) rfl
  -- the WRITE
  obtain ⟨t1, pt1, h1, hw1, hc1, hp1⟩ :=
    runCustom_write_state (wf_resize hw p i)
      (by rw [(modifyProc_rest s p _).1]; exact hframe) (resize_at i hp) hsize hwr ha h64 hlt htok
      i ("(" ++ ts ++ ") Core: " ++ toString coreId ++ " ") ts2
  rw [← manager_custom (d := d) hp hns hi] at h1
  refine ⟨t1, h1, ?_, ?_⟩
  · intro seq hseq
    exact loadPages_total hw1 seq hseq
  · intro seq t2 hl coreId1 ts1 ts3 d1
    obtain ⟨hw2, hc2, hpt⟩ := loadPages_spec hw1 seq hl
    obtain ⟨pt2, hp2⟩ := hpt p _ hp1
    have hframe2 : (modifyProc t2 p (fun q =>
        { q with instructions := resizeLog q.instructions j })).GLOBAL_CONFIG.memPerFrame ≠ 0 := by
      rw [(modifyProc_rest t2 p _).1, hc2, hc1, (modifyProc_rest s p _).1]
      exact hframe
    obtain ⟨t3, pt3, b, h3, hw3, hc3, hp3⟩ :=
      runCustom_read_state (wf_resize hw2 p j) hframe2 (resize_at j hp2) hrd ha h64 hlt
        j ("(" ++ ts1 ++ ") Core: " ++ toString coreId1 ++ " ") ts3
    rw [← manager_custom (d := d1) hp2 hns hj] at h3
    refine ⟨t3, h3, ?_, ?_⟩
    · unfold varAfter procAfter
      simp only [hp3, Option.map_some', Option.some.injEq]
      rw [memGet_assign, if_pos rfl, memGet_assign, if_pos rfl]
    · unfold shutdownFlag flagAt
      simp only [hp3, Option.map_some', Option.some.injEq]
      exact hns

theorem write_read_round_trip_witness :
    ∃ t1, instructions_manager roundTripState 0 1 0 "T" "T2" noDraws = Outcome.ok t1 ∧
      (∀ seq : List (Option Nat × Int),
        (∀ e ∈ seq, ∀ q, e.1 = some q → q < t1.heap.length) →
        ∃ t2, loadPages t1 seq = some t2) ∧
      ∀ (seq : List (Option Nat × Int)) (t2 : State), loadPages t1 seq = some t2 →
        ∀ (coreId1 : Int) (ts1 ts3 : String) (d1 : Draws),
          ∃ t3, instructions_manager t2 1 coreId1 0 ts1 ts3 d1 = Outcome.ok t3 ∧
            varAfter (Outcome.ok t3) 0 "x" = some 7 ∧
            shutdownFlag (Outcome.ok t3) 0 = some false :=
  write_read_round_trip roundTripState
    (wf_modifyProc (wf_create (wf_init fcfsConfig) "p" 2 256 "t0") 0 _ (fun _ => rfl)
      (fun _ => rfl))
    (by decide) 0
    { id := 1, name := "p", currentLine := 0, totalLine := 2, timestamp := "t0",
      memorySize := 256, pageTable := [{}, {}, {}, {}],
      customInstrList := ["WRITE 0x80 7", "READ x 0x80"] }
    (by decide) (by decide) (by decide) 0 1 "WRITE 0x80 7" "READ x 0x80" "0x80" "7" "x"
    (by decide) (by decide)
    (by unfold IsUserWrite; exact ⟨by decide, by decide, by decide, by decide⟩)
    (by unfold IsUserRead; exact ⟨by decide, by decide, by decide, by decide, by decide⟩)
    128 (by decide) (by decide) (by decide) 7
    (Or.inl ⟨by decide, by decide, by decide⟩) 1 "T" "T2" noDraws

/-! ## Declared variables of the generator -/

theorem manager_generated {s : State} {k : Nat} {coreId : Int} {p : Nat} {pr : Process}
    {ts ts2 : String} {d : Draws} (hp : s.heap[p]? = some pr) (hns : pr.isShutdown = false)
    (hk : pr.customInstrList.length ≤ k) :
    instructions_manager s k coreId p ts ts2 d =
      runGenerated (modifyProc s p (fun q => { q with instructions := resizeLog q.instructions k }))
        p k coreId ("(" ++ ts ++ ") Core: " ++ toString coreId ++ " ") d := by
  unfold instructions_manager
  simp only [hp, hns, Bool.false_eq_true, if_false, if_neg (not_lt.2 hk)]

theorem threadVars_modifyProc (s : State) (p : Nat) (f : Process → Process) (coreId : Int) :
    threadVars (modifyProc s p f) coreId = threadVars s coreId := by
  unfold threadVars
  rw [(modifyProc_rest s p f).2.2.2.2.2.2.2.2.2.2]

theorem declare_finish {s3 : State} {p : Nat} {pr3 : Process} (hp3 : s3.heap[p]? = some pr3)
    (var : String) (val : Nat) (coreId : Int) (vars : List String) (k : Nat) (line : String) :
    (commitLog
      { modifyProc s3 p (fun q => { q with memory := mapAssign var val q.memory }) with
        varNames := mapAssign coreId (vars ++ [var])
          (modifyProc s3 p (fun q => { q with memory := mapAssign var val q.memory })).varNames }
      p k line).heap[p]? =
      some { pr3 with
        memory := mapAssign var val pr3.memory
        instructions := pr3.instructions.set k line } ∧
    threadVars (commitLog
      { modifyProc s3 p (fun q => { q with memory := mapAssign var val q.memory }) with
        varNames := mapAssign coreId (vars ++ [var])
          (modifyProc s3 p (fun q => { q with memory := mapAssign var val q.memory })).varNames }
      p k line) coreId = vars ++ [var] := by
  have h4 : (modifyProc s3 p (fun q => { q with memory := mapAssign var val q.memory })).heap[p]? =
      some { pr3 with memory := mapAssign var val pr3.memory } := modifyProc_at _ hp3
  generalize modifyProc s3 p (fun q => { q with memory := mapAssign var val q.memory }) = s4 at h4 ⊢
  constructor
  · have h5 : ({ s4 with varNames := mapAssign coreId (vars ++ [var]) s4.varNames } :
        State).heap[p]? = some { pr3 with memory := mapAssign var val pr3.memory } := h4
    exact commitLog_at k line h5
  · unfold commitLog
    rw [threadVars_modifyProc]
    unfold threadVars
    simp only [mapFind_assign_self, Option.getD_some]

/-- A generated DECLARE below the limit of 32 names returns and takes
effect. -/
theorem runGenerated_declare {s : State} (hw : Wf s) {p : Nat} {pr : Process}
    (hp : s.heap[p]? = some pr) {coreId : Int} {d : Draws}
    (hcond : d.cmd = 1 ∨ threadVars s coreId = []) (hlen : (threadVars s coreId).length < 32)
    (k : Nat) (logStart : String) :
    ∃ (t : State) (pt : List PageTableEntry) (warn : String),
      runGenerated s p k coreId logStart d = Outcome.ok t ∧
      (warn = "" ∨ warn = pageZeroWarning) ∧
      t.heap[p]? = some
        { pr with
          memory := mapAssign ("v" ++ toString (threadVars s coreId).length) d.val pr.memory
          instructions := pr.instructions.set k
            (logStart ++ "\"" ++ (warn ++ "DECLARE " ++
              ("v" ++ toString (threadVars s coreId).length) ++ " = " ++ toString d.val) ++ "\"")
          pageTable := pt } ∧
      threadVars t coreId =
        threadVars s coreId ++ ["v" ++ toString (threadVars s coreId).length] := by
  unfold runGenerated
  simp only [hp, if_pos hcond, if_pos hlen]
  have hplt : p < s.heap.length := (List.getElem?_eq_some.mp hp).1
  obtain ⟨b, t2, hl, -⟩ := load_spec hw (some p) 0 (fun q hq => by cases hq; exact hplt)
  obtain ⟨pt, hp2⟩ := load_proc hw hl hp
  rw [hl]
  cases b with
  | false =>
    simp only [Bool.false_eq_true, if_false]
    refine ⟨_, pt, pageZeroWarning, rfl, Or.inr rfl, ?_, ?_⟩
    · exact (declare_finish hp2 _ _ _ _ _ _).1
    · exact (declare_finish hp2 _ _ _ _ _ _).2
  | true =>
    simp only [if_true]
    obtain ⟨pr1, e, hp1, -, he, -⟩ := load_true_entry hl
    have hent : entryOf t2.heap p 0 = some e := entryOf_of t2 p 0 pr1 e hp1 he
    rw [hent]
    simp only
    by_cases hc : 0 ≤ e.frameIndex ∧ e.frameIndex < (t2.physicalMemory.length : Int)
    · rw [if_pos hc]
      have hp3 : (appendFrameData t2 e.frameIndex.toNat
          ("(" ++ ("v" ++ toString (threadVars s coreId).length) ++ " " ++ toString d.val ++
            ")")).heap[p]? = some { pr with pageTable := pt } := by
        rw [(appendFrameData_heap _ _ _).1]
        exact hp2
      refine ⟨_, pt, "", rfl, Or.inl rfl, ?_, ?_⟩
      · exact (declare_finish hp3 _ _ _ _ _ _).1
      · exact (declare_finish hp3 _ _ _ _ _ _).2
    · rw [if_neg hc]
      refine ⟨_, pt, "", rfl, Or.inl rfl, ?_, ?_⟩
      · exact (declare_finish hp2 _ _ _ _ _ _).1
      · exact (declare_finish hp2 _ _ _ _ _ _).2

/-- A generated DECLARE at the limit of 32 names only writes its log line. -/
theorem runGenerated_ignored {s : State} {p : Nat} {pr : Process}
    (hp : s.heap[p]? = some pr) {coreId : Int} {d : Draws}
    (hcond : d.cmd = 1 ∨ threadVars s coreId = []) (hlen : ¬ (threadVars s coreId).length < 32)
    (k : Nat) (logStart : String) :
    runGenerated s p k coreId logStart d =
      Outcome.ok (commitLog s p k (logStart ++ "\"" ++ "DECLARE ignored" ++ "\"")) := by
  unfold runGenerated
  simp only [hp, if_pos hcond, if_neg hlen]

theorem declare_body_ne (warn n val : String) (hwarn : warn = "" ∨ warn = pageZeroWarning) :
    warn ++ "DECLARE " ++ ("v" ++ n) ++ " = " ++ val ≠ "DECLARE ignored" := by
  intro h
  have hd := congrArg String.data h
  simp only [String.data_append] at hd
  rcases hwarn with hw | hw
  · subst hw
    have h8 := congrArg (fun l : List Char => l[8]?) hd
    simp at h8
  · subst hw
    have h0 := congrArg (fun l : List Char => l[0]?) hd
    simp [pageZeroWarning] at h0

theorem set_at (l : List String) {k : Nat} (line : String) (h : k < l.length) :
    (l.set k line)[k]? = some line := by
  rw [List.getElem?_set_self h]

/-- C29 (amended).  The list of declared names is the `thread_local` vector of
the worker thread, one per core.  In a well-formed state, a generated
instruction of a process on core `coreId` that is a DECLARE (the draw is command
1, or the list of the core is empty) returns, and its log body is
`DECLARE ignored` if and only if the list of the core holds 32 names or more,
whatever the process has declared itself.  Below 32 names the DECLARE takes
effect: it assigns the variable `v<n>`, `n` the length of the list of the core,
in the store of the process and appends the name to the list of the core.  At
32 names it changes neither. -/
theorem declare_limit_is_per_core (s : State) (hw : Wf s) (p : Nat) (pr : Process)
    (hp : s.heap[p]? = some pr) (hns : pr.isShutdown = false) (k : Nat)
    (hk : pr.customInstrList.length ≤ k) (coreId : Int) (ts ts2 : String) (d : Draws)
    (hcond : d.cmd = 1 ∨ threadVars s coreId = []) :
    ∃ (t : State) (pr1 : Process) (body : String),
      instructions_manager s k coreId p ts ts2 d = Outcome.ok t ∧ t.heap[p]? = some pr1 ∧
      pr1.instructions[k]? =
        some ("(" ++ ts ++ ") Core: " ++ toString coreId ++ " " ++ "\"" ++ body ++ "\"") ∧
      (body = "DECLARE ignored" ↔ 32 ≤ (threadVars s coreId).length) ∧
      ((threadVars s coreId).length < 32 →
        pr1.memory =
          mapAssign ("v" ++ toString (threadVars s coreId).length) d.val pr.memory ∧
        threadVars t coreId =
          threadVars s coreId ++ ["v" ++ toString (threadVars s coreId).length]) ∧
      (32 ≤ (threadVars s coreId).length →
        pr1.memory = pr.memory ∧ threadVars t coreId = threadVars s coreId) := by
  rw [manager_generated hp hns hk]
  have hw0 := wf_resize hw p k
  have hp0 := resize_at k hp
  have hv0 := threadVars_modifyProc s p
    (fun q => { q with instructions := resizeLog q.instructions k }) coreId
  generalize modifyProc s p (fun q => { q with instructions := resizeLog q.instructions k }) = s0
    at hw0 hp0 hv0 ⊢
  rw [← hv0] at hcond ⊢
  have hkl : k < (resizeLog pr.instructions k).length := by
    rw [resizeLog_length]
    omega
  by_cases hlen : (threadVars s0 coreId).length < 32
  · obtain ⟨t, pt, warn, h1, hwarn, hp1, hv1⟩ :=
      runGenerated_declare hw0 hp0 hcond hlen k ("(" ++ ts ++ ") Core: " ++ toString coreId ++ " ")
    refine ⟨t, _, _, h1, hp1, set_at _ _ hkl, ?_, fun _ => ⟨rfl, hv1⟩, fun h => ?_⟩
    · constructor
      · intro hb
        exact absurd hb (declare_body_ne warn _ _ hwarn)
      · intro h
        omega
    · omega
  · rw [runGenerated_ignored hp0 hcond hlen]
    refine ⟨_, _, "DECLARE ignored", rfl, commitLog_at k _ hp0, set_at _ _ hkl, ?_,
      fun h => absurd h hlen, fun _ => ⟨rfl, ?_⟩⟩
    · constructor
      · intro _
        omega
      · intro _
        rfl
    · unfold commitLog
      rw [threadVars_modifyProc]

theorem declare_limit_is_per_core_witness :
    ∃ (t : State) (pr1 : Process) (body : String),
      instructions_manager (createProcess (initState fcfsConfig) "p" 1 64 "t0") 0 1 0 "T" "T2"
        noDraws = Outcome.ok t ∧
      t.heap[0]? = some pr1 ∧
      pr1.instructions[0]? =
        some ("(" ++ "T" ++ ") Core: " ++ toString (1 : Int) ++ " " ++ "\"" ++ body ++ "\"") ∧
      (body = "DECLARE ignored" ↔
        32 ≤ (threadVars (createProcess (initState fcfsConfig) "p" 1 64 "t0") 1).length) ∧
      ((threadVars (createProcess (initState fcfsConfig) "p" 1 64 "t0") 1).length < 32 →
        pr1.memory =
          mapAssign
            ("v" ++ toString (threadVars (createProcess (initState fcfsConfig) "p" 1 64 "t0")
              1).length) noDraws.val tinyProcess.memory ∧
        threadVars t 1 =
          threadVars (createProcess (initState fcfsConfig) "p" 1 64 "t0") 1 ++
            ["v" ++ toString (threadVars (createProcess (initState fcfsConfig) "p" 1 64 "t0")
              1).length]) ∧
      (32 ≤ (threadVars (createProcess (initState fcfsConfig) "p" 1 64 "t0") 1).length →
        pr1.memory = tinyProcess.memory ∧
        threadVars t 1 = threadVars (createProcess (initState fcfsConfig) "p" 1 64 "t0") 1) :=
  declare_limit_is_per_core (createProcess (initState fcfsConfig) "p" 1 64 "t0")
    (wf_create (wf_init fcfsConfig) "p" 1 64 "t0") 0 tinyProcess (by decide) (by decide) 0
    (by decide) 1 "T" "T2" noDraws (Or.inr (by decide))

/-- C29 as stated fails: in `busyMachine` the process `p` has declared `v0` on
core 1 and finished; the process `q` has declared nothing.  When the worker of
core 1 then runs line 0 of `q` with the draw `cmd = 0`, the generated
instruction is not a DECLARE but `PRINT v0`, of a variable that `q` never
declared: the list of names of core 1 is not empty. -/
theorem fresh_process_inherits_names_of_core :
    (busyMachine.st.heap[1]?).map (fun q => (q.name, q.memory, q.instructions)) =
      some ("q", [], []) ∧
    threadVars busyMachine.st 1 = ["v0"] ∧
    run busyMachine [Action.dequeue 1, Action.exec 1 "T3" "T4" noDraws] = some busyNext ∧
    (busyNext.st.heap[1]?).map (fun q => (q.memory, q.instructions)) =
      some ([], ["(T3) Core: 1 \"PRINT v0 = 0\""]) := by
  refine ⟨by decide, by decide, by decide, by decide⟩

/-! ## Re-initialisation -/

theorem leavesAlone_refl (m : Machine) : LeavesAlone m m :=
  ⟨rfl, rfl, rfl, rfl, rfl, rfl, rfl, rfl, rfl, rfl, rfl, List.prefix_refl _⟩

theorem leavesAlone_trans {m m1 m2 : Machine} (h1 : LeavesAlone m m1) (h2 : LeavesAlone m1 m2) :
    LeavesAlone m m2 := by
  obtain ⟨a1, a2, a3, a4, a5, a6, a7, a8, a9, a10, a11, a12⟩ := h1
  obtain ⟨b1, b2, b3, b4, b5, b6, b7, b8, b9, b10, b11, b12⟩ := h2
  exact ⟨b1.trans a1, b2.trans a2, b3.trans a3, b4.trans a4, b5.trans a5, b6.trans a6,
    b7.trans a7, b8.trans a8, b9.trans a9, b10.trans a10, b11.trans a11, a12.trans b12⟩

theorem leave_leavesAlone {m m1 : Machine} {coreId : Int} {ts : String}
    (h : cpuWorkerLeave m coreId ts = some m1) : LeavesAlone m m1 := by
  unfold cpuWorkerLeave at h
  split at h
  · cases h
  · split at h
    · cases h
    · split at h
      · cases h
      · split at h
        · cases h
          exact ⟨rfl, rfl, rfl, rfl, rfl, rfl, rfl, rfl, rfl, rfl, rfl, List.prefix_append _ _⟩
        · cases h
          exact ⟨(modifyProc_rest _ _ _).1, (modifyProc_rest _ _ _).2.1,
            (modifyProc_rest _ _ _).2.2.2.2.1, (modifyProc_rest _ _ _).2.2.2.2.2.2.1,
            (modifyProc_rest _ _ _).2.2.2.2.2.2.2.1, rfl, rfl, rfl, rfl, rfl, rfl,
            List.prefix_refl _⟩

theorem run_leaves {m m1 : Machine} (leaves : List (Int × String))
    (h : run m (leaves.map (fun e => Action.leave e.1 e.2)) = some m1) : LeavesAlone m m1 := by
  induction leaves generalizing m with
  | nil =>
    simp only [List.map_nil, run, Option.some.injEq] at h
    rw [← h]
    exact leavesAlone_refl m
  | cons e rest ih =>
    simp only [List.map_cons, run, step] at h
    cases hl : cpuWorkerLeave m e.1 e.2 with
    | none => rw [hl] at h; cases h
    | some m0 =>
      rw [hl] at h
      exact leavesAlone_trans (leave_leavesAlone hl) (ih h)

/-! ## The validation patterns and the canonical forms -/

theorem stopsAt_nil (p : Char → Bool) : StopsAt p [] := by
  intro c hc
  cases hc

theorem stopsAt_cons {p : Char → Bool} {c : Char} (cs : List Char) (h : p c = false) :
    StopsAt p (c :: cs) := by
  intro x hx
  simp only [List.head?_cons, Option.mem_def, Option.some.injEq] at hx
  rw [← hx]
  exact h

theorem stopsAt_append {p : Char → Bool} {xs : List Char} (ys : List Char) (hne : xs ≠ [])
    (h : StopsAt p xs) : StopsAt p (xs ++ ys) := by
  cases xs with
  | nil => exact absurd rfl hne
  | cons x xs => exact stopsAt_cons _ (h x rfl)

theorem stopsAt_of_all {p q : Char → Bool} {xs : List Char} (hpq : ∀ c, q c = true → p c = false)
    (h : ∀ c ∈ xs, q c = true) : StopsAt p xs := by
  cases xs with
  | nil => exact stopsAt_nil p
  | cons x xs => exact stopsAt_cons _ (hpq x (h x (List.mem_cons_self _ _)))

/-- The greedy split of a text by a character class, characterised. -/
theorem span_iff (p : Char → Bool) (cs xs r : List Char) :
    (cs.takeWhile p = xs ∧ cs.dropWhile p = r) ↔
      ((∀ c ∈ xs, p c = true) ∧ cs = xs ++ r ∧ StopsAt p r) := by
  constructor
  · rintro ⟨h1, h2⟩
    subst h1
    subst h2
    refine ⟨fun c hc => (List.mem_takeWhile_imp hc), (List.takeWhile_append_dropWhile p cs).symm,
      ?_⟩
    intro c hc
    cases hd : cs.dropWhile p with
    | nil => rw [hd] at hc; cases hc
    | cons y ys =>
      rw [hd] at hc
      simp only [List.head?_cons, Option.mem_def, Option.some.injEq] at hc
      subst hc
      have := List.head_dropWhile_not p cs (by rw [hd]; exact List.cons_ne_nil _ _)
      simp only [hd, List.head_cons] at this
      simpa using this
  · rintro ⟨h1, h2, h3⟩
    subst h2
    cases r with
    | nil =>
      rw [List.append_nil]
      exact takeWhile_all xs h1
    | cons y ys => exact takeWhile_all_then xs y ys h1 (h3 y rfl)

theorem eatLit_iff (l cs r : List Char) : eatLit l cs = some r ↔ cs = l ++ r := by
  induction l generalizing cs with
  | nil =>
    cases cs <;> simp [eatLit, eq_comm]
  | cons x l ih =>
    cases cs with
    | nil => simp [eatLit]
    | cons c cs =>
      by_cases hx : x = c
      · subst hx
        simp [eatLit, ih]
      · simp [eatLit, hx]
        intro h
        exact absurd h.symm hx

theorem eatSpaces1_iff (cs r : List Char) :
    eatSpaces1 cs = some r ↔ ∃ ws, IsSpaces ws ∧ cs = ws ++ r ∧ StopsAt isSpaceChar r := by
  cases cs with
  | nil =>
    simp only [eatSpaces1]
    constructor
    · intro h
      cases h
    · rintro ⟨ws, ⟨hne, -⟩, h, -⟩
      cases ws with
      | nil => exact absurd rfl hne
      | cons w ws => cases h
  | cons c cs =>
    simp only [eatSpaces1]
    by_cases hc : isSpaceChar c = true
    · rw [if_pos hc]
      simp only [Option.some.injEq]
      constructor
      · intro h
        obtain ⟨h1, h2, h3⟩ := (span_iff isSpaceChar cs _ r).1 ⟨rfl, h⟩
        refine ⟨c :: cs.takeWhile isSpaceChar, ⟨List.cons_ne_nil _ _, ?_⟩, ?_, h3⟩
        · intro x hx
          rcases List.mem_cons.1 hx with hx | hx
          · rw [hx]; exact hc
          · exact h1 x hx
        · rw [List.cons_append, ← h2]
      · rintro ⟨ws, ⟨hne, hall⟩, h, h3⟩
        cases ws with
        | nil => exact absurd rfl hne
        | cons w ws =>
          simp only [List.cons_append, List.cons.injEq] at h
          exact ((span_iff isSpaceChar cs ws r).2
            ⟨fun x hx => hall x (List.mem_cons_of_mem _ hx), h.2, h3⟩).2
    · rw [if_neg hc]
      constructor
      · intro h
        cases h
      · rintro ⟨ws, ⟨hne, hall⟩, h, -⟩
        cases ws with
        | nil => exact absurd rfl hne
        | cons w ws =>
          simp only [List.cons_append, List.cons.injEq] at h
          exact absurd (h.1 ▸ hall w (List.mem_cons_self _ _)) hc

theorem eatSpaces0_iff (cs r : List Char) :
    eatSpaces0 cs = r ↔ ∃ ws, IsBlank ws ∧ cs = ws ++ r ∧ StopsAt isSpaceChar r := by
  unfold eatSpaces0
  constructor
  · intro h
    obtain ⟨h1, h2, h3⟩ := (span_iff isSpaceChar cs _ r).1 ⟨rfl, h⟩
    exact ⟨_, h1, h2, h3⟩
  · rintro ⟨ws, h1, h2, h3⟩
    exact ((span_iff isSpaceChar cs ws r).2 ⟨h1, h2, h3⟩).2

theorem eatIdent_iff (cs v r : List Char) :
    eatIdent cs = some (v, r) ↔ IsIdent v ∧ cs = v ++ r ∧ StopsAt isWordChar r := by
  cases cs with
  | nil =>
    simp only [eatIdent]
    constructor
    · intro h
      cases h
    · rintro ⟨⟨c, cs, hv, -, -⟩, h, -⟩
      subst hv
      cases h
  | cons c cs =>
    simp only [eatIdent]
    by_cases hc : isIdentStart c = true
    · rw [if_pos hc]
      simp only [Option.some.injEq, Prod.mk.injEq]
      constructor
      · rintro ⟨h1, h2⟩
        obtain ⟨g1, g2, g3⟩ := (span_iff isWordChar cs _ r).1 ⟨rfl, h2⟩
        subst h1
        exact ⟨⟨c, _, rfl, hc, g1⟩, by rw [List.cons_append, ← g2], g3⟩
      · rintro ⟨⟨x, xs, hv, hx, hall⟩, h, h3⟩
        subst hv
        simp only [List.cons_append, List.cons.injEq] at h
        obtain ⟨hcx, hcs⟩ := h
        subst hcx
        obtain ⟨g1, g2⟩ := (span_iff isWordChar cs xs r).2 ⟨hall, hcs, h3⟩
        exact ⟨by rw [g1], g2⟩
    · rw [if_neg hc]
      constructor
      · intro h
        cases h
      · rintro ⟨⟨x, xs, hv, hx, -⟩, h, -⟩
        subst hv
        simp only [List.cons_append, List.cons.injEq] at h
        exact absurd (h.1 ▸ hx) hc

theorem eatDigits1_iff (cs n r : List Char) :
    eatDigits1 cs = some (n, r) ↔ IsDecimal n ∧ cs = n ++ r ∧ StopsAt isDigitChar r := by
  cases cs with
  | nil =>
    simp only [eatDigits1]
    constructor
    · intro h
      cases h
    · rintro ⟨⟨hne, -⟩, h, -⟩
      cases n with
      | nil => exact absurd rfl hne
      | cons x xs => cases h
  | cons c cs =>
    simp only [eatDigits1]
    by_cases hc : isDigitChar c = true
    · rw [if_pos hc]
      simp only [Option.some.injEq, Prod.mk.injEq]
      constructor
      · rintro ⟨h1, h2⟩
        obtain ⟨g1, g2, g3⟩ := (span_iff isDigitChar cs _ r).1 ⟨rfl, h2⟩
        subst h1
        refine ⟨⟨List.cons_ne_nil _ _, ?_⟩, by rw [List.cons_append, ← g2], g3⟩
        intro x hx
        rcases List.mem_cons.1 hx with hx | hx
        · rw [hx]; exact hc
        · exact g1 x hx
      · rintro ⟨⟨hne, hall⟩, h, h3⟩
        cases n with
        | nil => exact absurd rfl hne
        | cons x xs =>
          simp only [List.cons_append, List.cons.injEq] at h
          obtain ⟨hcx, hcs⟩ := h
          subst hcx
          obtain ⟨g1, g2⟩ := (span_iff isDigitChar cs xs r).2
            ⟨fun y hy => hall y (List.mem_cons_of_mem _ hy), hcs, h3⟩
          exact ⟨by rw [g1], g2⟩
    · rw [if_neg hc]
      constructor
      · intro h
        cases h
      · rintro ⟨⟨hne, hall⟩, h, -⟩
        cases n with
        | nil => exact absurd rfl hne
        | cons x xs =>
          simp only [List.cons_append, List.cons.injEq] at h
          exact absurd (h.1 ▸ hall x (List.mem_cons_self _ _)) hc

theorem not_word_of_space {c : Char} (h : isSpaceChar c = true) : isWordChar c = false := by
  simp only [isWordChar, isIdentStart, isDigitChar, isSpaceChar, Bool.and_eq_true,
    Bool.or_eq_true, Bool.or_eq_false_iff, decide_eq_true_eq, decide_eq_false_iff_not,
    Bool.and_eq_false_iff] at h ⊢
  omega

theorem not_hex_of_space {c : Char} (h : isSpaceChar c = true) : isHexChar c = false := by
  simp only [isHexChar, isDigitChar, isSpaceChar, Bool.and_eq_true,
    Bool.or_eq_true, Bool.or_eq_false_iff, decide_eq_true_eq, decide_eq_false_iff_not,
    Bool.and_eq_false_iff] at h ⊢
  omega

theorem ident_stops_space {v : List Char} (hv : IsIdent v) (r : List Char) :
    StopsAt isSpaceChar (v ++ r) := by
  obtain ⟨c, cs, rfl, hc, -⟩ := hv
  exact stopsAt_cons _ (not_space_of_identStart hc)

theorem decimal_stops_space {n : List Char} (hn : IsDecimal n) (r : List Char) :
    StopsAt isSpaceChar (n ++ r) := by
  obtain ⟨hne, hall⟩ := hn
  cases n with
  | nil => exact absurd rfl hne
  | cons c cs => exact stopsAt_cons _ (not_space_of_digit (hall c (List.mem_cons_self _ _)))

theorem spaces_stops_word {w : List Char} (hw : IsSpaces w) (r : List Char) :
    StopsAt isWordChar (w ++ r) := by
  obtain ⟨hne, hall⟩ := hw
  cases w with
  | nil => exact absurd rfl hne
  | cons c cs => exact stopsAt_cons _ (not_word_of_space (hall c (List.mem_cons_self _ _)))

theorem spaces_stops_hex {w : List Char} (hw : IsSpaces w) (r : List Char) :
    StopsAt isHexChar (w ++ r) := by
  obtain ⟨hne, hall⟩ := hw
  cases w with
  | nil => exact absurd rfl hne
  | cons c cs => exact stopsAt_cons _ (not_hex_of_space (hall c (List.mem_cons_self _ _)))

theorem blank_stops {p : Char → Bool} {w : List Char} (hw : IsBlank w)
    (hp : ∀ c, isSpaceChar c = true → p c = false) {y : Char} (ys : List Char)
    (hy : p y = false) : StopsAt p (w ++ y :: ys) := by
  cases w with
  | nil => exact stopsAt_cons _ hy
  | cons c cs => exact stopsAt_cons _ (hp c (hw c (List.mem_cons_self _ _)))

theorem eatHexAddr_iff (cs a r : List Char) :
    eatHexAddr cs = some (a, r) ↔
      ∃ hs, IsHexDigits hs ∧ a = "0x".toList ++ hs ∧ cs = a ++ r ∧ StopsAt isHexChar r := by
  unfold eatHexAddr
  cases he : eatLit "0x".toList cs with
  | none =>
    simp only
    constructor
    · intro h
      cases h
    · rintro ⟨hs, -, ha, hcs, -⟩
      subst ha
      rw [hcs, List.append_assoc, eatLit_append] at he
      cases he
  | some r0 =>
    have hcs0 := (eatLit_iff _ _ _).1 he
    simp only
    cases r0 with
    | nil =>
      simp only
      constructor
      · intro h
        cases h
      · rintro ⟨hs, ⟨hne, -⟩, ha, hcs, -⟩
        subst ha
        rw [hcs, List.append_assoc] at hcs0
        have h2 := List.append_cancel_left hcs0
        cases hs with
        | nil => exact absurd rfl hne
        | cons x xs => cases h2
    | cons c r1 =>
      simp only
      by_cases hc : isHexChar c = true
      · rw [if_pos hc]
        simp only [Option.some.injEq, Prod.mk.injEq]
        constructor
        · rintro ⟨h1, h2⟩
          obtain ⟨g1, g2, g3⟩ := (span_iff isHexChar r1 _ r).1 ⟨rfl, h2⟩
          refine ⟨c :: r1.takeWhile isHexChar, ⟨List.cons_ne_nil _ _, ?_⟩, h1.symm, ?_, g3⟩
          · intro x hx
            rcases List.mem_cons.1 hx with hx | hx
            · rw [hx]; exact hc
            · exact g1 x hx
          · rw [hcs0, ← h1, List.append_assoc, List.cons_append, ← g2]
        · rintro ⟨hs, ⟨hne, hall⟩, ha, hcs, h3⟩
          subst ha
          rw [hcs, List.append_assoc] at hcs0
          have h2 := List.append_cancel_left hcs0
          cases hs with
          | nil => exact absurd rfl hne
          | cons x xs =>
            simp only [List.cons_append, List.cons.injEq] at h2
            obtain ⟨hx, hr1⟩ := h2
            subst hx
            obtain ⟨g1, g2⟩ := (span_iff isHexChar r1 xs r).2
              ⟨fun y hy => hall y (List.mem_cons_of_mem _ hy), hr1.symm, h3⟩
            exact ⟨by rw [g1], g2⟩
      · rw [if_neg hc]
        constructor
        · intro h
          cases h
        · rintro ⟨hs, ⟨hne, hall⟩, ha, hcs, -⟩
          subst ha
          rw [hcs, List.append_assoc] at hcs0
          have h2 := List.append_cancel_left hcs0
          cases hs with
          | nil => exact absurd rfl hne
          | cons x xs =>
            simp only [List.cons_append, List.cons.injEq] at h2
            exact absurd (h2.1 ▸ hall x (List.mem_cons_self _ _)) hc

theorem matchDeclare_iff (t : String) :
    (matchDeclare t).isSome = true ↔ DeclareForm t.toList := by
  rw [Option.isSome_iff_exists]
  unfold matchDeclare
  simp only [Option.bind_eq_bind, Option.bind_eq_some, eatLit_iff, eatSpaces1_iff, Prod.exists,
    eatIdent_iff, eatDigits1_iff]
  constructor
  · rintro ⟨g1, g2, cs1, h1, cs2, ⟨w1, hw1, rfl, -⟩, v, cs3, ⟨hv, rfl, -⟩, cs4,
      ⟨w2, hw2, rfl, -⟩, n, cs5, ⟨hn, rfl, -⟩, hg⟩
    split at hg
    · rename_i h5
      subst h5
      rw [List.append_nil] at h1
      exact ⟨w1, v, w2, n, hw1, hv, hw2, hn, h1⟩
    · cases hg
  · rintro ⟨w1, v, w2, n, hw1, hv, hw2, hn, ht⟩
    exact ⟨String.mk v, String.mk n, _, ht, _, ⟨w1, hw1, rfl, ident_stops_space hv _⟩, v, _,
      ⟨hv, rfl, spaces_stops_word hw2 _⟩, n, ⟨w2, hw2, rfl, by simpa using decimal_stops_space hn []⟩, n, [],
      ⟨hn, (List.append_nil n).symm, stopsAt_nil _⟩, if_pos rfl⟩

theorem matchThree_iff (op t : String) :
    (matchThree op t).isSome = true ↔ ThreeForm op t.toList := by
  rw [Option.isSome_iff_exists]
  unfold matchThree
  simp only [Option.bind_eq_bind, Option.bind_eq_some, eatLit_iff, eatSpaces1_iff, Prod.exists,
    eatIdent_iff]
  constructor
  · rintro ⟨g1, g2, g3, cs1, h1, cs2, ⟨w1, hw1, rfl, -⟩, a, cs3, ⟨ha, rfl, -⟩, cs4,
      ⟨w2, hw2, rfl, -⟩, b, cs5, ⟨hb, rfl, -⟩, cs6, ⟨w3, hw3, rfl, -⟩, c, cs7, ⟨hc, rfl, -⟩, hg⟩
    split at hg
    · rename_i h7
      subst h7
      rw [List.append_nil] at h1
      exact ⟨w1, a, w2, b, w3, c, hw1, ha, hw2, hb, hw3, hc, h1⟩
    · cases hg
  · rintro ⟨w1, a, w2, b, w3, c, hw1, ha, hw2, hb, hw3, hc, ht⟩
    exact ⟨String.mk a, String.mk b, String.mk c, _, ht, _,
      ⟨w1, hw1, rfl, ident_stops_space ha _⟩, a, _, ⟨ha, rfl, spaces_stops_word hw2 _⟩, _,
      ⟨w2, hw2, rfl, ident_stops_space hb _⟩, b, _, ⟨hb, rfl, spaces_stops_word hw3 _⟩, c,
      ⟨w3, hw3, rfl, by simpa using ident_stops_space hc []⟩, c, [],
      ⟨hc, (List.append_nil c).symm, stopsAt_nil _⟩, if_pos rfl⟩

theorem matchRead_iff (t : String) : (matchRead t).isSome = true ↔ ReadForm t.toList := by
  rw [Option.isSome_iff_exists]
  unfold matchRead
  simp only [Option.bind_eq_bind, Option.bind_eq_some, eatLit_iff, eatSpaces1_iff, Prod.exists,
    eatIdent_iff, eatHexAddr_iff]
  constructor
  · rintro ⟨g1, g2, cs1, h1, cs2, ⟨w1, hw1, rfl, -⟩, v, cs3, ⟨hv, rfl, -⟩, cs4,
      ⟨w2, hw2, rfl, -⟩, a, cs5, ⟨hs, hhs, rfl, rfl, -⟩, hg⟩
    split at hg
    · rename_i h5
      subst h5
      rw [List.append_nil] at h1
      exact ⟨w1, v, w2, hs, hw1, hv, hw2, hhs, h1⟩
    · cases hg
  · rintro ⟨w1, v, w2, hs, hw1, hv, hw2, hhs, ht⟩
    exact ⟨String.mk v, String.mk ("0x".toList ++ hs), _, ht, _,
      ⟨w1, hw1, rfl, ident_stops_space hv _⟩, v, _, ⟨hv, rfl, spaces_stops_word hw2 _⟩, _,
      ⟨w2, hw2, rfl, stopsAt_cons _ (by decide)⟩, _, [],
      ⟨hs, hhs, rfl, (List.append_nil _).symm, stopsAt_nil _⟩, if_pos rfl⟩

theorem write_tail_iff (a cs : List Char) :
    (∃ g, (match eatDigits1 cs with
        | some (tok, []) => some (String.mk a, String.mk tok)
        | _ =>
          match eatIdent cs with
          | some (tok, []) => some (String.mk a, String.mk tok)
          | _ => none) = some g) ↔ (IsDecimal cs ∨ IsIdent cs) := by
  constructor
  · rintro ⟨g, h⟩
    split at h
    · rename_i tok hd
      obtain ⟨h1, h2, -⟩ := (eatDigits1_iff cs tok []).1 hd
      rw [List.append_nil] at h2
      rw [h2]
      exact Or.inl h1
    · split at h
      · rename_i tok hi
        obtain ⟨h1, h2, -⟩ := (eatIdent_iff cs tok []).1 hi
        rw [List.append_nil] at h2
        rw [h2]
        exact Or.inr h1
      · cases h
  · rintro (h | h)
    · have hd : eatDigits1 cs = some (cs, []) :=
        (eatDigits1_iff cs cs []).2 ⟨h, (List.append_nil cs).symm, stopsAt_nil _⟩
      rw [hd]
      exact ⟨_, rfl⟩
    · have hi : eatIdent cs = some (cs, []) :=
        (eatIdent_iff cs cs []).2 ⟨h, (List.append_nil cs).symm, stopsAt_nil _⟩
      have hd : eatDigits1 cs = none := by
        obtain ⟨c, r, rfl, hc, -⟩ := h
        simp only [eatDigits1, not_digit_of_identStart hc, Bool.false_eq_true, if_false]
      rw [hd, hi]
      exact ⟨_, rfl⟩

theorem matchWrite_iff (t : String) : (matchWrite t).isSome = true ↔ WriteForm t.toList := by
  rw [Option.isSome_iff_exists]
  unfold matchWrite
  simp only [Option.bind_eq_bind, Option.bind_eq_some, eatLit_iff, eatSpaces1_iff, Prod.exists,
    eatHexAddr_iff]
  constructor
  · rintro ⟨g1, g2, cs1, h1, cs2, ⟨w1, hw1, rfl, -⟩, a, cs3, ⟨hs, hhs, rfl, rfl, -⟩, cs4,
      ⟨w2, hw2, rfl, -⟩, hg⟩
    exact ⟨w1, hs, w2, cs4, hw1, hhs, hw2, (write_tail_iff _ cs4).1 ⟨_, hg⟩, h1⟩
  · rintro ⟨w1, hs, w2, tok, hw1, hhs, hw2, htok, ht⟩
    obtain ⟨g, hg⟩ := (write_tail_iff ("0x".toList ++ hs) tok).2 htok
    have hstop : StopsAt isSpaceChar tok := by
      rcases htok with h | h
      · simpa using decimal_stops_space h []
      · simpa using ident_stops_space h []
    exact ⟨g.1, g.2, _, ht, _, ⟨w1, hw1, rfl, stopsAt_cons _ (by decide)⟩, _, _,
      ⟨hs, hhs, rfl, rfl, spaces_stops_hex hw2 _⟩, tok, ⟨w2, hw2, rfl, hstop⟩, hg⟩

theorem matchPrint_iff (t : String) :
    (matchPrint t).isSome = true ↔ PrintFormLoose t.toList := by
  rw [Option.isSome_iff_exists]
  unfold matchPrint
  simp only [Option.bind_eq_bind, Option.bind_eq_some, eatLit_iff, Prod.exists, eatIdent_iff]
  constructor
  · rintro ⟨g, cs1, h1, cs2, h2, cs3, h3, v, cs4, ⟨hv, h4, -⟩, cs5, h5, hg⟩
    obtain ⟨w0, hw0, e0, -⟩ := (eatSpaces0_iff _ _).1 h2
    obtain ⟨w1, hw1, e1, -⟩ := (eatSpaces0_iff _ _).1 h3
    obtain ⟨w2, hw2, e2, -⟩ := (eatSpaces0_iff _ _).1 h4
    obtain ⟨w3, hw3, e3, -⟩ := (eatSpaces0_iff _ _).1 h5
    split at hg
    · rename_i h6
      subst h6
      refine ⟨w0, w1, w2, v, w3, hw0, hw1, hw2, hv, hw3, ?_⟩
      rw [h1, e0, e1, e2, e3, List.append_nil]
    · cases hg
  · rintro ⟨w0, w1, w2, v, w3, hw0, hw1, hw2, hv, hw3, ht⟩
    refine ⟨String.mk v, _, ht, w1 ++ ("+".toList ++ (w2 ++ (v ++ (w3 ++ ")".toList)))), ?_,
      w2 ++ (v ++ (w3 ++ ")".toList)), ?_, v, w3 ++ ")".toList,
      ⟨hv, ?_, blank_stops hw3 (fun c hc => not_word_of_space hc) [] (by decide)⟩, [], ?_,
      if_pos rfl⟩
    · exact (eatSpaces0_iff _ _).2 ⟨w0, hw0, rfl, stopsAt_cons _ (by decide)⟩
    · exact (eatSpaces0_iff _ _).2 ⟨w1, hw1, rfl, stopsAt_cons _ (by decide)⟩
    · exact (eatSpaces0_iff _ _).2 ⟨w2, hw2, rfl, ident_stops_space hv _⟩
    · exact (eatSpaces0_iff _ _).2
        ⟨w3, hw3, by rw [List.append_nil], stopsAt_cons _ (by decide)⟩

theorem validate_iff (raw : String) :
    validateCustomInstructions raw = true ↔
      ∀ piece ∈ splitSemicolon raw.toList, ∀ t, trimPiece piece = some t →
        AcceptedForm t.toList := by
  unfold validateCustomInstructions splitInstructions AcceptedForm
  simp only [List.all_eq_true, List.mem_filterMap, Bool.or_eq_true, matchDeclare_iff,
    matchThree_iff, matchPrint_iff, matchWrite_iff, matchRead_iff]
  constructor
  · intro h piece hp t ht
    have := h t ⟨piece, hp, ht⟩
    tauto
  · rintro h t ⟨piece, hp, ht⟩
    have := h piece hp t ht
    tauto

theorem dropWhile_nil_iff (p : Char → Bool) (l : List Char) :
    l.dropWhile p = [] ↔ ∀ c ∈ l, p c = true := by
  constructor
  · intro h
    obtain ⟨h1, h2, -⟩ := (span_iff p l _ []).1 ⟨rfl, h⟩
    rw [List.append_nil] at h2
    rw [h2]
    exact h1
  · intro h
    exact (takeWhile_all l h).2

theorem trimPiece_none_iff (piece : List Char) :
    trimPiece piece = none ↔ ∀ c ∈ piece, isBlankChar c = true := by
  unfold trimPiece
  simp only
  constructor
  · intro h
    split at h
    · rename_i ht
      rw [List.reverse_eq_nil_iff, dropWhile_nil_iff] at ht
      have hd : piece.dropWhile isBlankChar = [] := by
        cases hdw : piece.dropWhile isBlankChar with
        | nil => rfl
        | cons y ys =>
          have hy : isBlankChar y = true := ht y (by rw [hdw]; simp)
          obtain ⟨-, -, h3⟩ := (span_iff isBlankChar piece _ _).1 ⟨rfl, hdw⟩
          rw [h3 y rfl] at hy
          cases hy
      exact (dropWhile_nil_iff _ _).1 hd
    · cases h
  · intro h
    have hd := (dropWhile_nil_iff _ _).2 h
    rw [hd]
    rfl

theorem trimPiece_some {piece : List Char} {t : String} (h : trimPiece piece = some t) :
    ∃ l r : List Char, (∀ c ∈ l, isBlankChar c = true) ∧ (∀ c ∈ r, isBlankChar c = true) ∧
      piece = l ++ (t.toList ++ r) ∧ t.toList ≠ [] ∧ StopsAt isBlankChar t.toList ∧
      StopsAt isBlankChar t.toList.reverse := by
  unfold trimPiece at h
  simp only at h
  split at h
  · cases h
  · rename_i hne
    cases h
    obtain ⟨a1, a2, a3⟩ := (span_iff isBlankChar piece _ _).1 ⟨rfl, rfl⟩
    obtain ⟨b1, b2, b3⟩ :=
      (span_iff isBlankChar (piece.dropWhile isBlankChar).reverse _ _).1 ⟨rfl, rfl⟩
    have hd : piece.dropWhile isBlankChar =
        ((piece.dropWhile isBlankChar).reverse.dropWhile isBlankChar).reverse ++
          ((piece.dropWhile isBlankChar).reverse.takeWhile isBlankChar).reverse := by
      rw [← List.reverse_append, ← b2, List.reverse_reverse]
    refine ⟨piece.takeWhile isBlankChar,
      ((piece.dropWhile isBlankChar).reverse.takeWhile isBlankChar).reverse, a1, ?_, ?_, hne,
      ?_, ?_⟩
    · intro c hc
      exact b1 c (List.mem_reverse.1 hc)
    · show piece = _ ++ (((piece.dropWhile isBlankChar).reverse.dropWhile isBlankChar).reverse ++ _)
      rw [← hd]
      exact a2
    · show StopsAt isBlankChar
        ((piece.dropWhile isBlankChar).reverse.dropWhile isBlankChar).reverse
      rw [hd] at a3
      cases ht : ((piece.dropWhile isBlankChar).reverse.dropWhile isBlankChar).reverse with
      | nil => exact stopsAt_nil _
      | cons y ys =>
        rw [ht] at a3
        exact stopsAt_cons _ (a3 y rfl)
    · show StopsAt isBlankChar
        ((piece.dropWhile isBlankChar).reverse.dropWhile isBlankChar).reverse.reverse
      rw [List.reverse_reverse]
      exact b3

/-- C24 (amended).  `validateCustomInstructions(raw)` returns `true` if and only
if every piece of `raw` between semicolons that is not entirely spaces and tabs
is, after trimming its leading and trailing spaces and tabs, one of the six
forms `DECLARE id dec`, `ADD id id id`, `SUBTRACT id id id`, `WRITE 0xhex
(dec|id)`, `READ id 0xhex` with the tokens separated by whitespace, or the
PRINT form `PRINT("Result: " + id)` in which the whitespace after the opening
parenthesis, around the plus sign and before the closing parenthesis is
optional.  The second and third parts say what the trimming does: a piece is
skipped exactly when it has only spaces and tabs, and otherwise the trimmed
text is the piece without a leading and a trailing run of spaces and tabs,
starting and ending with another character. -/
theorem validation_accepts_forms (raw : String) :
    (validateCustomInstructions raw = true ↔
      ∀ piece ∈ splitSemicolon raw.toList, ∀ t, trimPiece piece = some t →
        AcceptedForm t.toList) ∧
    (∀ piece : List Char, trimPiece piece = none ↔ ∀ c ∈ piece, isBlankChar c = true) ∧
    (∀ (piece : List Char) (t : String), trimPiece piece = some t →
      ∃ l r : List Char, (∀ c ∈ l, isBlankChar c = true) ∧ (∀ c ∈ r, isBlankChar c = true) ∧
        piece = l ++ (t.toList ++ r) ∧ t.toList ≠ [] ∧ StopsAt isBlankChar t.toList ∧
        StopsAt isBlankChar t.toList.reverse) :=
  ⟨validate_iff raw, trimPiece_none_iff, fun _ _ h => trimPiece_some h⟩

theorem validation_accepts_forms_witness :
    (∀ piece ∈ splitSemicolon scenarioProgram.toList, ∀ t, trimPiece piece = some t →
      AcceptedForm t.toList) ∧
    (∃ l r : List Char, (∀ c ∈ l, isBlankChar c = true) ∧ (∀ c ∈ r, isBlankChar c = true) ∧
      " ADD B A A ".toList = l ++ ("ADD B A A".toList ++ r) ∧ "ADD B A A".toList ≠ [] ∧
      StopsAt isBlankChar "ADD B A A".toList ∧ StopsAt isBlankChar "ADD B A A".toList.reverse) ∧
    validateCustomInstructions "declare A 1" = false ∧
    validateCustomInstructions "ADD B A" = false ∧
    validateCustomInstructions "SLEEP 100" = false ∧
    validateCustomInstructions "FOR 3" = false :=
  ⟨(validation_accepts_forms scenarioProgram).1.1 (by decide),
   (validation_accepts_forms scenarioProgram).2.2 " ADD B A A ".toList "ADD B A A" (by decide),
   by decide, by decide, by decide, by decide⟩

/-- C24 as stated fails: the single piece `PRINT("Result: "+B)` has no
whitespace around the plus sign, so it is none of the six canonical forms with
tokens separated by whitespace, and `validateCustomInstructions` accepts it. -/
theorem print_without_whitespace_is_accepted :
    validateCustomInstructions tightPrint = true ∧
    splitSemicolon tightPrint.toList = [tightPrint.toList] ∧
    trimPiece tightPrint.toList = some tightPrint ∧
    ¬ Canonical tightPrint.toList := by
  refine ⟨by decide, by decide, by decide, ?_⟩
  have hlist : tightPrint.toList = "PRINT(\"Result: \"".toList ++ "+B)".toList := by decide
  rintro (h | h | h | h | h | h)
  · obtain ⟨w1, v, w2, n, -, -, -, -, ht⟩ := h
    have h0 := congrArg List.head? ht
    rw [hlist] at h0
    simp at h0
  · obtain ⟨w1, a, w2, b, w3, c, -, -, -, -, -, -, ht⟩ := h
    have h0 := congrArg List.head? ht
    rw [hlist] at h0
    simp at h0
  · obtain ⟨w1, a, w2, b, w3, c, -, -, -, -, -, -, ht⟩ := h
    have h0 := congrArg List.head? ht
    rw [hlist] at h0
    simp at h0
  · obtain ⟨w1, w2, v, ⟨hne, hall⟩, -, -, ht⟩ := h
    rw [hlist] at ht
    have h1 := List.append_cancel_left ht
    cases w1 with
    | nil => exact hne rfl
    | cons c cs =>
      have hc := hall c (List.mem_cons_self _ _)
      have h0 := congrArg List.head? h1
      simp at h0
      rw [← h0] at hc
      exact absurd hc (by decide)
  · obtain ⟨w1, hs, w2, tok, -, -, -, -, ht⟩ := h
    have h0 := congrArg List.head? ht
    rw [hlist] at h0
    simp at h0
  · obtain ⟨w1, v, w2, hs, -, -, -, -, ht⟩ := h
    have h0 := congrArg List.head? ht
    rw [hlist] at h0
    simp at h0

/-! ## Literals the conversions reject -/

/-- C34 fails on the code: the four instructions of `longProgram` pass
`validateCustomInstructions`, whose patterns put no bound on the length of a
literal, and `screen -c big 256 "..."` creates the process with them, not shut
down.  At line 0 `stoi` throws on the DECLARE value 2147483648; at lines 1 and
2 `stoull` throws on the address `0x10000000000000000` of the WRITE and of the
READ; at line 3 the address `0x80` is in bounds and `stoi` throws on the WRITE
value 99999999999.  The worker that dequeues the process cannot complete its
first line. -/
theorem long_literal_throws :
    validateCustomInstructions longProgram = true ∧
    (longMachine.st.heap[0]?).map (fun q => (q.isShutdown, q.customInstrList)) =
      some (false, ["DECLARE x 2147483648", "WRITE 0x10000000000000000 1",
        "READ y 0x10000000000000000", "WRITE 0x80 99999999999"]) ∧
    instructions_manager longMachine.st 0 1 0 "T" "T2" noDraws = Outcome.throws "stoi" ∧
    instructions_manager longMachine.st 1 1 0 "T" "T2" noDraws = Outcome.throws "stoull" ∧
    instructions_manager longMachine.st 2 1 0 "T" "T2" noDraws = Outcome.throws "stoull" ∧
    instructions_manager longMachine.st 3 1 0 "T" "T2" noDraws = Outcome.throws "stoi" ∧
    run longMachine [Action.dequeue 1, Action.exec 1 "T" "T2" noDraws] = none := by
  refine ⟨by decide, by decide, by decide, by decide, by decide, by decide, by decide⟩

/-! ## A command for a name that is taken -/

/-- C36 fails on the code: in `heldMachine` the name `p` is registered, the
process has 256 bytes, page 0 in frame 0, no custom program, and is held by the
worker of core 1 with both ready queues empty.  A second `screen -s p` pushes
the process on the FCFS queue.  `screen -s p 64` sets its size to 64, replaces
its page table by one entry that is not in memory and pushes it; frame 0 and
the victim queue still name page 0, so P3 does not hold, and after the next
generated DECLARE frames 0 and 1 both hold page 0, so P1 does not hold.
`screen -c p 128 "DECLARE A 1"` sets the size to 128, replaces the page table,
appends to the custom program and pushes the process. -/
theorem screen_on_taken_name_changes_process :
    retrieveProcess heldMachine.st "p" = some 0 ∧
    procLayout heldMachine 0 =
      some (256, [{ inMemory := true, frameIndex := 0 }, {}, {}, {}], []) ∧
    heldMachine.fcfsQueue = [] ∧ heldMachine.rrQueue = [] ∧
    heldMachine.st.heap.length = 1 ∧
    heldPlain.fcfsQueue = [0] ∧ heldPlain.st.heap.length = 1 ∧
    procLayout heldSized 0 = some (64, [{}], []) ∧
    heldSized.fcfsQueue = [0] ∧ heldSized.st.heap.length = 1 ∧
    heldSized.st.pageLoadOrder = [(1, 0)] ∧
    ¬ QueueCoverage heldSized.st ∧
    cpuWorkerExec heldSized 1 "T3" "T4" declareDraws = some heldSizedNext ∧
    ¬ FrameConsistent heldSizedNext.st ∧
    procLayout heldCustom 0 = some (128, [{}, {}], ["DECLARE A 1"]) ∧
    heldCustom.fcfsQueue = [0] ∧ heldCustom.st.heap.length = 1 := by
  refine ⟨by decide, by decide, by decide, by decide, by decide, by decide, by decide,
    by decide, by decide, by decide, by decide, ?_, by decide, ?_, by decide, by decide,
    by decide⟩
  · intro hq
    obtain ⟨p, pn, pr, e, hp, he, hm, hk⟩ := (hq.2 (1, 0)).1 (by decide)
    have hheap : heldSized.st.heap =
        [{ id := 1, name := "p", currentLine := 1, totalLine := 3, timestamp := "t0",
           coreAssigned := 1, instructions := ["(T) Core: 1 \"DECLARE v0 = 7\""],
           memory := [("v0", 7)], memorySize := 64, pageTable := [{}] }] := by decide
    rw [hheap] at hp
    cases p with
    | zero =>
      simp only [List.getElem?_cons_zero, Option.some.injEq] at hp
      subst hp
      cases pn with
      | zero =>
        simp only [List.getElem?_cons_zero, Option.some.injEq] at he
        subst he
        cases hm
      | succ n => simp at he
    | succ n => simp at hp
  · intro hfc
    have hp : heldSizedNext.st.heap[0]? = some
        { id := 1, name := "p", currentLine := 2, totalLine := 3, timestamp := "t0",
          coreAssigned := 1,
          instructions := ["(T) Core: 1 \"DECLARE v0 = 7\"", "(T3) Core: 1 \"DECLARE v1 = 7\""],
          memory := [("v1", 7), ("v0", 7)], memorySize := 64,
          pageTable := [{ inMemory := true, frameIndex := 1 }] } := by decide
    obtain ⟨-, h2⟩ := hfc 0 0 _ { inMemory := true, frameIndex := 1 } hp rfl
    obtain ⟨i, -, hi, hall⟩ := h2 rfl
    have hi1 : i = 1 := by
      simp only at hi
      omega
    have hf : heldSizedNext.st.physicalMemory[0]? =
        some { processId := 1, pageNumber := 0, data := "(v0 7)" } := by decide
    have h3 := (hall 0 _ hf).1 ⟨rfl, rfl⟩
    omega

/-! ## The four results of a page load -/

/-- A call of `loadPageIfNotInMemory` that returns leaves the state as it was,
only pops the victim queue (the victim is not in `processLookup`), claims a free
frame, or replaces the victim. -/
theorem load_shape {s t : State} {proc : Option Nat} {pg : Int} {b : Bool}
    (hl : loadPageIfNotInMemory s proc pg = some (b, t)) :
    t = s ∨ (b = false ∧ ∃ rest, t = { s with pageLoadOrder := rest }) ∨
    (∃ (p : Nat) (pr : Process) (i : Nat), proc = some p ∧ s.heap[p]? = some pr ∧
      firstFreeFrame s.physicalMemory = some i ∧ b = true ∧ t = claimFreeFrame s p pr pg i) ∨
    (∃ (p : Nat) (pr : Process) (vpid vpg : Int) (rest : List (Int × Int)) (ep : Nat) (vi : Int)
      (vf : Frame), proc = some p ∧ s.heap[p]? = some pr ∧
      firstFreeFrame s.physicalMemory = none ∧ s.pageLoadOrder = (vpid, vpg) :: rest ∧
      b = true ∧
      t = replaceVictim { s with pageLoadOrder := rest } p pr pg vpid vpg ep vi vf) := by
  unfold loadPageIfNotInMemory at hl
  cases proc with
  | none =>
    simp only [Option.some.injEq, Prod.mk.injEq] at hl
    exact Or.inl hl.2.symm
  | some p =>
    simp only at hl
    cases hp : s.heap[p]? with
    | none => simp [hp] at hl
    | some pr =>
      simp only [hp] at hl
      by_cases hr : pg < 0 ∨ pg ≥ (pr.pageTable.length : Int)
      · simp only [if_pos hr, Option.some.injEq, Prod.mk.injEq] at hl
        exact Or.inl hl.2.symm
      · rw [if_neg hr] at hl
        cases he0 : pr.pageTable[pg.toNat]? with
        | none => simp [he0] at hl
        | some e0 =>
          simp only [he0] at hl
          cases hm : e0.inMemory with
          | true =>
            simp only [hm, if_true, Option.some.injEq, Prod.mk.injEq] at hl
            exact Or.inl hl.2.symm
          | false =>
            simp only [hm, Bool.false_eq_true, if_false] at hl
            cases hi : firstFreeFrame s.physicalMemory with
            | some i =>
              simp only [hi, Option.some.injEq, Prod.mk.injEq] at hl
              exact Or.inr (Or.inr (Or.inl ⟨p, pr, i, rfl, hp, rfl, hl.1.symm, hl.2.symm⟩))
            | none =>
              simp only [hi] at hl
              unfold evictAndLoad at hl
              cases hq : s.pageLoadOrder with
              | nil =>
                simp only [hq, Option.some.injEq, Prod.mk.injEq] at hl
                exact Or.inl hl.2.symm
              | cons v rest =>
                obtain ⟨evictedPID, evictedPageNum⟩ := v
                simp only [hq] at hl
                cases h3 : mapFind evictedPID s.processLookup with
                | none =>
                  simp only [h3, Option.some.injEq, Prod.mk.injEq] at hl
                  exact Or.inr (Or.inl ⟨hl.1.symm, rest, hl.2.symm⟩)
                | some ep =>
                  simp only [h3] at hl
                  cases h4 : s.heap[ep]? with
                  | none => simp [h4] at hl
                  | some evictedProc =>
                    simp only [h4] at hl
                    by_cases hneg : evictedPageNum < 0
                    · simp [hneg] at hl
                    · rw [if_neg hneg] at hl
                      cases h5 : evictedProc.pageTable[evictedPageNum.toNat]? with
                      | none => simp [h5] at hl
                      | some evictedEntry =>
                        simp only [h5] at hl
                        by_cases hneg2 : evictedEntry.frameIndex < 0
                        · simp [hneg2] at hl
                        · rw [if_neg hneg2] at hl
                          cases h8 : s.physicalMemory[evictedEntry.frameIndex.toNat]? with
                          | none => simp [h8] at hl
                          | some vf =>
                            simp only [h8, Option.some.injEq, Prod.mk.injEq] at hl
                            exact Or.inr (Or.inr (Or.inr ⟨p, pr, evictedPID, evictedPageNum,
                              rest, ep, evictedEntry.frameIndex, vf, rfl, hp, rfl, rfl,
                              hl.1.symm, hl.2.symm⟩))

/-- A call of `loadPageIfNotInMemory` writes no field of a Process object but
its page table. -/
theorem load_keeps_fields {s t : State} {proc : Option Nat} {pg : Int} {b : Bool}
    (hl : loadPageIfNotInMemory s proc pg = some (b, t)) (q : Nat) :
    (t.heap[q]?).map withoutPages = (s.heap[q]?).map withoutPages := by
  rcases load_shape hl with h | ⟨-, rest, h⟩ | ⟨p, pr, i, -, -, -, -, h⟩ |
    ⟨p, pr, vpid, vpg, rest, ep, vi, vf, -, -, -, -, -, h⟩
  · rw [h]
  · rw [h]
  · rw [h, claimFreeFrame_heap, withoutPages_setEntry]
  · rw [h, replaceVictim_heap, withoutPages_setEntry, withoutPages_setEntry]

/-- A call of `loadPageIfNotInMemory` leaves the paging counters as they were,
or counts one page-in, or counts one page-out and one page-in. -/
theorem load_counters {s t : State} {proc : Option Nat} {pg : Int} {b : Bool}
    (hl : loadPageIfNotInMemory s proc pg = some (b, t)) :
    PagingStep (pagingCounters s) (pagingCounters t) := by
  rcases load_shape hl with h | ⟨-, rest, h⟩ | ⟨p, pr, i, -, -, -, -, h⟩ |
    ⟨p, pr, vpid, vpg, rest, ep, vi, vf, -, -, -, -, -, h⟩
  · rw [h]
    exact Or.inl rfl
  · rw [h]
    exact Or.inl rfl
  · rw [h]
    refine Or.inr (Or.inl ?_)
    unfold pagingCounters
    rw [(claimFreeFrame_rest s p pr pg i).2.2.2.1, (claimFreeFrame_rest s p pr pg i).2.2.2.2.1]
  · rw [h]
    refine Or.inr (Or.inr ?_)
    unfold pagingCounters
    rw [(replaceVictim_rest _ p pr pg vpid vpg ep vi vf).2.2.1,
      (replaceVictim_rest _ p pr pg vpid vpg ep vi vf).2.2.2.1]

/-! ## The paging counters across the executor -/

theorem counters_modifyProc (s : State) (p : Nat) (f : Process → Process) :
    pagingCounters (modifyProc s p f) = pagingCounters s := by
  unfold pagingCounters
  rw [(modifyProc_rest s p f).2.2.2.2.2.2.1, (modifyProc_rest s p f).2.2.2.2.2.2.2.1]

theorem counters_commitLog (s : State) (p k : Nat) (line : String) :
    pagingCounters (commitLog s p k line) = pagingCounters s :=
  counters_modifyProc s p _

theorem counters_shutdownViolation (s : State) (p k : Nat) (logStart addrHex ts2 : String) :
    pagingCounters (shutdownViolation s p k logStart addrHex ts2) = pagingCounters s :=
  counters_modifyProc s p _

theorem counters_appendFrameData (s : State) (f : Nat) (str : String) :
    pagingCounters (appendFrameData s f str) = pagingCounters s := by
  unfold appendFrameData
  split <;> rfl

theorem counters_appendFrameAt {s t : State} {f : Int} {str : String}
    (h : appendFrameAt s f str = some t) : pagingCounters t = pagingCounters s := by
  unfold appendFrameAt at h
  split at h
  · cases h
    exact counters_appendFrameData s _ str
  · cases h

theorem counters_varNames (s : State) (v : List (Int × List String)) :
    pagingCounters { s with varNames := v } = pagingCounters s := rfl

/-- The custom-program part of the executor calls `loadPageIfNotInMemory` at
most once and does not write the paging counters itself. -/
theorem counters_runCustom {s t : State} {p k : Nat} {logStart ts2 instr : String}
    (h : runCustom s p k logStart ts2 instr = Outcome.ok t) :
    PagingStep (pagingCounters s) (pagingCounters t) := by
  unfold runCustom at h
  repeat' first
    | split at h
    | dsimp only at h
  all_goals cases h
  all_goals
    try (have hA := counters_appendFrameAt ‹appendFrameAt _ _ _ = some _›)
    try (have hL := load_counters ‹loadPageIfNotInMemory _ _ _ = some _›)
    try simp only [counters_modifyProc] at hL
    try simp only [counters_commitLog, counters_modifyProc, counters_shutdownViolation, *]
    try (first | exact hL | exact Or.inl rfl)

/-- The random-generation part of the executor calls `loadPageIfNotInMemory` at
most once and does not write the paging counters itself. -/
theorem counters_runGenerated {s t : State} {p k : Nat} {coreId : Int} {logStart : String}
    {d : Draws} (h : runGenerated s p k coreId logStart d = Outcome.ok t) :
    PagingStep (pagingCounters s) (pagingCounters t) := by
  unfold runGenerated at h
  cases hp : s.heap[p]? with
  | none => simp [hp] at h
  | some pr =>
    simp only [hp] at h
    by_cases h1 : d.cmd = 1 ∨ threadVars s coreId = []
    · rw [if_pos h1] at h
      by_cases h32 : (threadVars s coreId).length < 32
      · rw [if_pos h32] at h
        cases hl : loadPageIfNotInMemory s (some p) 0 with
        | none => simp [hl] at h
        | some r =>
          obtain ⟨loaded, s2⟩ := r
          have hL := load_counters hl
          simp only [hl] at h
          cases loaded with
          | false =>
            simp only [Bool.false_eq_true, if_false] at h
            cases h
            simp only [counters_commitLog, counters_modifyProc, counters_varNames,
              counters_appendFrameData]
            exact hL
          | true =>
            simp only [if_true] at h
            cases he : entryOf s2.heap p 0 with
            | none => simp [he] at h
            | some e =>
              simp only [he] at h
              by_cases hf : 0 ≤ e.frameIndex ∧ e.frameIndex < (s2.physicalMemory.length : Int)
              · rw [if_pos hf] at h
                cases h
                simp only [counters_commitLog, counters_modifyProc, counters_varNames,
                  counters_appendFrameData]
                exact hL
              · rw [if_neg hf] at h
                cases h
                simp only [counters_commitLog, counters_modifyProc, counters_varNames,
                  counters_appendFrameData]
                exact hL
      · rw [if_neg h32] at h
        cases h
        simp only [counters_commitLog, counters_modifyProc, counters_varNames,
          counters_appendFrameData]
        exact Or.inl rfl
    · rw [if_neg h1] at h
      by_cases h0 : d.cmd = 0 ∧ threadVars s coreId ≠ []
      · rw [if_pos h0] at h
        cases hl : loadPageIfNotInMemory s (some p) 0 with
        | none => simp [hl] at h
        | some r =>
          obtain ⟨loaded, s2⟩ := r
          have hL := load_counters hl
          simp only [hl] at h
          cases h
          simp only [counters_commitLog, counters_modifyProc, counters_varNames,
            counters_appendFrameData]
          exact hL
      · rw [if_neg h0] at h
        by_cases h2 : d.cmd = 2 ∧ (threadVars s coreId).length ≥ 2
        · rw [if_pos h2] at h
          cases hl : loadPageIfNotInMemory s (some p) 0 with
          | none => simp [hl] at h
          | some r =>
            obtain ⟨loaded, s2⟩ := r
            have hL := load_counters hl
            simp only [hl] at h
            cases h
            simp only [counters_commitLog, counters_modifyProc, counters_varNames,
              counters_appendFrameData]
            exact hL
        · rw [if_neg h2] at h
          by_cases h3 : d.cmd = 3 ∧ (threadVars s coreId).length ≥ 2
          · rw [if_pos h3] at h
            cases hl : loadPageIfNotInMemory s (some p) 0 with
            | none => simp [hl] at h
            | some r =>
              obtain ⟨loaded, s2⟩ := r
              have hL := load_counters hl
              simp only [hl] at h
              cases h
              simp only [counters_commitLog, counters_modifyProc, counters_varNames,
                counters_appendFrameData]
              exact hL
          · rw [if_neg h3] at h
            by_cases h4 : d.cmd = 4
            · rw [if_pos h4] at h
              cases h
              simp only [counters_commitLog, counters_modifyProc, counters_varNames,
                counters_appendFrameData]
              exact Or.inl rfl
            · rw [if_neg h4] at h
              by_cases h5 : d.cmd = 5
              · rw [if_pos h5] at h
                by_cases hv : threadVars s coreId ≠ []
                · rw [if_pos hv] at h
                  cases hpg : pageOfAddress s.GLOBAL_CONFIG.memPerFrame d.address pr.pageTable.length with
                  | none => simp [hpg] at h
                  | some pageNumber =>
                    simp only [hpg] at h
                    cases hl : loadPageIfNotInMemory s (some p) (sizeToInt pageNumber) with
                    | none => simp [hl] at h
                    | some r =>
                      obtain ⟨loaded, s2⟩ := r
                      have hL := load_counters hl
                      simp only [hl] at h
                      cases h
                      simp only [counters_commitLog, counters_modifyProc, counters_varNames,
                        counters_appendFrameData]
                      exact hL
                · rw [if_neg hv] at h
                  cases h
                  simp only [counters_commitLog, counters_modifyProc, counters_varNames,
                    counters_appendFrameData]
                  exact Or.inl rfl
              · rw [if_neg h5] at h
                by_cases h6 : d.cmd = 6
                · rw [if_pos h6] at h
                  cases hpg : pageOfAddress s.GLOBAL_CONFIG.memPerFrame d.address pr.pageTable.length with
                  | none => simp [hpg] at h
                  | some pageNumber =>
                    simp only [hpg] at h
                    cases hl : loadPageIfNotInMemory s (some p) (sizeToInt pageNumber) with
                    | none => simp [hl] at h
                    | some r =>
                      obtain ⟨loaded, s2⟩ := r
                      have hL := load_counters hl
                      simp only [hl] at h
                      cases loaded with
                      | false =>
                        simp only [Bool.false_eq_true, if_false] at h
                        cases h
                        simp only [counters_commitLog, counters_modifyProc, counters_varNames,
                          counters_appendFrameData]
                        exact hL
                      | true =>
                        simp only [if_true] at h
                        split at h
                        · cases h
                        · cases h
                          split
                          · simp only [counters_commitLog, counters_modifyProc, counters_varNames,
                              counters_appendFrameData]
                            exact hL
                          · simp only [counters_commitLog, counters_modifyProc, counters_varNames,
                              counters_appendFrameData]
                            exact hL
                · rw [if_neg h6] at h
                  cases h
                  rw [counters_commitLog, counters_modifyProc]
                  split
                  · exact Or.inl (counters_modifyProc s p _)
                  · exact Or.inl rfl

/-- A call of the executor that returns leaves the paging counters as they
were, or counts one page-in, or one page-out and one page-in. -/
theorem counters_manager {s t : State} {k : Nat} {coreId : Int} {p : Nat} {ts ts2 : String}
    {d : Draws} (h : instructions_manager s k coreId p ts ts2 d = Outcome.ok t) :
    PagingStep (pagingCounters s) (pagingCounters t) := by
  unfold instructions_manager at h
  cases hp : s.heap[p]? with
  | none => simp [hp] at h
  | some pr =>
    simp only [hp] at h
    split at h
    · cases h
      exact Or.inl rfl
    · split at h
      · have h1 := counters_runCustom h
        rw [counters_modifyProc] at h1
        exact h1
      · have h1 := counters_runGenerated h
        rw [counters_modifyProc] at h1
        exact h1

/-! ## The counters across the steps of the program -/

theorem counters_createProcess (s : State) (name : String) (cpuBurst memSize : Nat)
    (ts : String) : pagingCounters (createProcess s name cpuBurst memSize ts) = pagingCounters s := by
  unfold createProcess
  split <;> rfl

theorem ticks_enqueueScreen (m : Machine) (p : Nat) :
    tickCounters (enqueueScreen m p) = tickCounters m := by
  unfold enqueueScreen
  split <;> rfl

theorem ticks_enqueueGenerated (m : Machine) (p : Nat) :
    tickCounters (enqueueGenerated m p) = tickCounters m := by
  unfold enqueueGenerated
  split
  · rfl
  · split <;> rfl

theorem sameCounters_refl (m : Machine) : SameCounters m m := ⟨rfl, rfl⟩

theorem sameCounters_enqueueScreen (m : Machine) (s : State) (p : Nat)
    (h : pagingCounters s = pagingCounters m.st) :
    SameCounters m (enqueueScreen { m with st := s } p) := by
  refine ⟨?_, ?_⟩
  · rw [ticks_enqueueScreen]
    rfl
  · rw [enqueueScreen_st]
    exact h

theorem screenS_counters (m : Machine) (processName : String)
    (requestedMem cpuBurst memSize : Nat) (ts : String) :
    SameCounters m (screenS m processName requestedMem cpuBurst memSize ts) := by
  unfold screenS
  by_cases hn : processName = ""
  · rw [if_pos hn]
    exact sameCounters_refl m
  · rw [if_neg hn]
    have hcreate := counters_createProcess m.st processName cpuBurst memSize ts
    by_cases h0 : requestedMem = 0
    · simp only [h0, ne_eq, not_true_eq_false, if_false]
      cases hret : retrieveProcess (createProcess m.st processName cpuBurst memSize ts)
          processName with
      | none => exact ⟨rfl, hcreate⟩
      | some p => exact sameCounters_enqueueScreen m _ p hcreate
    · cases hc : clampMemPow2 requestedMem with
      | none =>
        simp only [ne_eq, h0, not_false_eq_true, if_true, hc]
        exact sameCounters_refl m
      | some r =>
        by_cases hr : r < m.st.GLOBAL_CONFIG.minMemPerProc ∨ r > m.st.GLOBAL_CONFIG.maxMemPerProc
        · simp only [ne_eq, h0, not_false_eq_true, if_true, hc, if_pos hr]
          exact sameCounters_refl m
        · simp only [ne_eq, h0, not_false_eq_true, if_true, hc, if_neg hr]
          cases hret : retrieveProcess (createProcess m.st processName cpuBurst memSize ts)
              processName with
          | none => exact ⟨rfl, hcreate⟩
          | some p =>
            refine sameCounters_enqueueScreen m _ p ?_
            split
            · rw [counters_modifyProc]
              exact hcreate
            · exact hcreate

theorem screenC_counters (m : Machine) (processName : String) (requestedMem : Nat)
    (raw : String) (cpuBurst memSize : Nat) (ts : String) :
    SameCounters m (screenC m processName requestedMem raw cpuBurst memSize ts) := by
  have hcreate := counters_createProcess m.st processName cpuBurst memSize ts
  unfold screenC
  split
  · exact sameCounters_refl m
  · split
    · exact sameCounters_refl m
    · split
      · exact sameCounters_refl m
      · split
        · exact sameCounters_refl m
        · dsimp only
          cases hret : retrieveProcess (createProcess m.st processName cpuBurst memSize ts)
              processName with
          | none => exact ⟨rfl, hcreate⟩
          | some p =>
            refine sameCounters_enqueueScreen m _ p ?_
            rw [counters_modifyProc]
            exact hcreate

theorem generator_counters {m m1 : Machine} {cpuBurst memSize : Nat} {ts : String}
    (h : generatorStep m cpuBurst memSize ts = some m1) : SameCounters m m1 := by
  have hcreate := fun name => counters_createProcess m.st name cpuBurst memSize ts
  unfold generatorStep at h
  cases hg : m.generator with
  | none => simp [hg] at h
  | some n =>
    simp only [hg] at h
    split at h
    · cases h
    · split at h
      · cases hret : retrieveProcess (createProcess m.st (generatedName n) cpuBurst memSize ts)
            (generatedName n) with
        | none =>
          simp only [hret, Option.some.injEq] at h
          subst h
          exact ⟨rfl, hcreate _⟩
        | some p =>
          simp only [hret, Option.some.injEq] at h
          subst h
          refine ⟨?_, ?_⟩
          · rw [ticks_enqueueGenerated]
            rfl
          · rw [enqueueGenerated_st]
            exact hcreate _
      · simp only [Option.some.injEq] at h
        subst h
        exact sameCounters_refl m

theorem leave_counters {m m1 : Machine} {coreId : Int} {ts : String}
    (h : cpuWorkerLeave m coreId ts = some m1) : SameCounters m m1 := by
  obtain ⟨-, -, -, a4, a5, a6, a7, a8, -⟩ := leave_leavesAlone h
  unfold SameCounters tickCounters pagingCounters
  rw [a4, a5, a6, a7, a8]
  exact ⟨rfl, rfl⟩

theorem initLoad_counters {m m1 : Machine} {file : List (String × ConfigValue)} {ok : Bool}
    (h : initLoad m file = some (ok, m1)) : SameCounters m m1 := by
  unfold initLoad at h
  split at h
  · cases h
  · cases h
    exact ⟨rfl, rfl⟩

theorem initAssign_counters {m m1 : Machine} (h : initAssign m = some m1) :
    SameCounters m m1 := by
  unfold initAssign at h
  split at h
  · cases h
  · cases h
    exact ⟨rfl, rfl⟩

theorem initRestart_counters {m m1 : Machine} (h : initRestart m = some m1) :
    SameCounters m m1 := by
  unfold initRestart at h
  split at h
  · cases h
    exact ⟨rfl, rfl⟩
  · cases h

/-- An iteration of the dispatch loop writes no tick counter; its executor call
leaves the paging counters as they were, or counts one page-in, or one page-out
and one page-in. -/
theorem exec_counters {m m1 : Machine} {coreId : Int} {ts ts2 : String} {d : Draws}
    (h : cpuWorkerExec m coreId ts ts2 d = some m1) :
    tickCounters m1 = tickCounters m ∧
    PagingStep (pagingCounters m.st) (pagingCounters m1.st) := by
  unfold cpuWorkerExec at h
  split at h
  · cases h
  · split at h
    · cases h
    · split at h
      · split at h
        · rename_i t hman
          cases h
          refine ⟨rfl, ?_⟩
          simp only
          rw [counters_modifyProc]
          exact counters_manager hman
        · cases h
      · cases h

/-- The dequeue of a worker counts one tick in `totalCpuTicks` and one in
exactly one of `activeCpuTicks` and `idleCpuTicks`, and writes no paging
counter. -/
theorem dequeue_counters {m m1 : Machine} {coreId : Int}
    (h : cpuWorkerDequeue m coreId = some m1) :
    m1.totalCpuTicks = tick m.totalCpuTicks ∧
    ((m1.activeCpuTicks = tick m.activeCpuTicks ∧ m1.idleCpuTicks = m.idleCpuTicks) ∨
      (m1.activeCpuTicks = m.activeCpuTicks ∧ m1.idleCpuTicks = tick m.idleCpuTicks)) ∧
    pagingCounters m1.st = pagingCounters m.st := by
  unfold cpuWorkerDequeue at h
  split at h
  · cases h
  · split at h
    · cases h
    · split at h
      · cases h
      · dsimp only at h
        split at h
        · cases h
          exact ⟨rfl, Or.inr ⟨rfl, rfl⟩, rfl⟩
        · rename_i p m2 hpop
          have hm2 : m2.totalCpuTicks = tick m.totalCpuTicks ∧
              m2.activeCpuTicks = m.activeCpuTicks ∧ m2.idleCpuTicks = m.idleCpuTicks ∧
              m2.st = m.st := by
            split at hpop
            · split at hpop
              · cases hpop
                exact ⟨rfl, rfl, rfl, rfl⟩
              · cases hpop
            · split at hpop
              · split at hpop
                · cases hpop
                  exact ⟨rfl, rfl, rfl, rfl⟩
                · cases hpop
              · cases hpop
          split at h
          · cases h
          · cases h
            refine ⟨hm2.1, Or.inl ⟨?_, hm2.2.2.1⟩, ?_⟩
            · simp only
              rw [hm2.2.1]
            · simp only
              rw [counters_modifyProc, hm2.2.2.2]

/-- An iteration of a worker from the wait on counts one tick in
`totalCpuTicks` and one in exactly one of `activeCpuTicks` and `idleCpuTicks`,
and writes no paging counter. -/
theorem wake_counters {m m1 : Machine} {threads coreId : Int}
    (h : cpuWorkerWake m threads coreId = some m1) :
    m1.totalCpuTicks = tick m.totalCpuTicks ∧
    ((m1.activeCpuTicks = tick m.activeCpuTicks ∧ m1.idleCpuTicks = m.idleCpuTicks) ∨
      (m1.activeCpuTicks = m.activeCpuTicks ∧ m1.idleCpuTicks = tick m.idleCpuTicks)) ∧
    pagingCounters m1.st = pagingCounters m.st := by
  unfold cpuWorkerWake at h
  split at h
  · cases h
  · split at h
    · cases h
    · dsimp only at h
      split at h
      · cases h
        exact ⟨rfl, Or.inr ⟨rfl, rfl⟩, rfl⟩
      · rename_i p m2 hpop
        have hm2 : m2.totalCpuTicks = tick m.totalCpuTicks ∧
            m2.activeCpuTicks = m.activeCpuTicks ∧ m2.idleCpuTicks = m.idleCpuTicks ∧
            m2.st = m.st := by
          split at hpop
          · split at hpop
            · cases hpop
              exact ⟨rfl, rfl, rfl, rfl⟩
            · cases hpop
          · split at hpop
            · split at hpop
              · cases hpop
                exact ⟨rfl, rfl, rfl, rfl⟩
              · cases hpop
            · cases hpop
        split at h
        · cases h
        · cases h
          refine ⟨hm2.1, Or.inl ⟨?_, hm2.2.2.1⟩, ?_⟩
          · simp only
            rw [hm2.2.1]
          · simp only
            rw [counters_modifyProc, hm2.2.2.2]

/-! ## Monotone counters -/

theorem tick_small {x : Nat} (h : x + 1 < 2 ^ 64) : tick x = x + 1 := by
  unfold tick
  exact Nat.mod_eq_of_lt h

/-- What a transition does to the counters: the paging counters take one
`PagingStep`; the tick counters stay, or `totalCpuTicks` and exactly one of
`activeCpuTicks` and `idleCpuTicks` count one tick. -/
theorem transition_counters {m m1 : Machine} (ht : Transition m m1) :
    PagingStep (pagingCounters m.st) (pagingCounters m1.st) ∧
    (tickCounters m1 = tickCounters m ∨
      (m1.totalCpuTicks = tick m.totalCpuTicks ∧
        ((m1.activeCpuTicks = tick m.activeCpuTicks ∧ m1.idleCpuTicks = m.idleCpuTicks) ∨
          (m1.activeCpuTicks = m.activeCpuTicks ∧ m1.idleCpuTicks = tick m.idleCpuTicks)))) := by
  have hsame : ∀ {m2 : Machine}, SameCounters m m2 →
      PagingStep (pagingCounters m.st) (pagingCounters m2.st) ∧
      (tickCounters m2 = tickCounters m ∨
        (m2.totalCpuTicks = tick m.totalCpuTicks ∧
          ((m2.activeCpuTicks = tick m.activeCpuTicks ∧ m2.idleCpuTicks = m.idleCpuTicks) ∨
            (m2.activeCpuTicks = m.activeCpuTicks ∧ m2.idleCpuTicks = tick m.idleCpuTicks)))) :=
    fun h => ⟨Or.inl h.2, Or.inl h.1⟩
  cases ht with
  | wake threads coreId m1 h =>
    obtain ⟨h1, h2, h3⟩ := wake_counters h
    exact ⟨Or.inl h3, Or.inr ⟨h1, h2⟩⟩
  | load file ok m1 h => exact hsame (initLoad_counters h)
  | assign m1 h => exact hsame (initAssign_counters h)
  | restart m1 h => exact hsame (initRestart_counters h)
  | act a m1 h =>
    cases a with
    | screenS processName requestedMem cpuBurst memSize ts =>
      simp only [step, Option.some.injEq] at h
      subst h
      exact hsame (screenS_counters m processName requestedMem cpuBurst memSize ts)
    | screenC processName requestedMem raw cpuBurst memSize ts =>
      simp only [step, Option.some.injEq] at h
      subst h
      exact hsame (screenC_counters m processName requestedMem raw cpuBurst memSize ts)
    | schedulerStart =>
      simp only [step] at h
      split at h
      · cases h
        exact hsame (sameCounters_refl m)
      · cases h
        exact hsame ⟨rfl, rfl⟩
    | schedulerStop =>
      simp only [step] at h
      split at h
      · cases h
        exact hsame ⟨rfl, rfl⟩
      · cases h
        exact hsame (sameCounters_refl m)
    | generate cpuBurst memSize ts =>
      simp only [step] at h
      exact hsame (generator_counters h)
    | dequeue coreId =>
      simp only [step] at h
      obtain ⟨h1, h2, h3⟩ := dequeue_counters h
      exact ⟨Or.inl h3, Or.inr ⟨h1, h2⟩⟩
    | exec coreId ts ts2 d =>
      simp only [step] at h
      obtain ⟨h1, h2⟩ := exec_counters h
      exact ⟨h2, Or.inl h1⟩
    | leave coreId ts =>
      simp only [step] at h
      exact hsame (leave_counters h)
    | stop =>
      simp only [step, Option.some.injEq] at h
      subst h
      exact hsame ⟨rfl, rfl⟩

theorem paging_arith {i o i1 o1 n : Nat} (hi : i ≤ n) (ho : o ≤ i) (hn : n + 1 < 2 ^ 64)
    (h : PagingStep (i, o) (i1, o1)) : i1 ≤ n + 1 ∧ o1 ≤ i1 ∧ i ≤ i1 ∧ o ≤ o1 := by
  have hi1 : (i + 1) % 2 ^ 64 = i + 1 := Nat.mod_eq_of_lt (by omega)
  have ho1 : (o + 1) % 2 ^ 64 = o + 1 := Nat.mod_eq_of_lt (by omega)
  rcases h with h | h | h
  · simp only [Prod.mk.injEq] at h
    omega
  · simp only [Prod.mk.injEq] at h
    omega
  · simp only [Prod.mk.injEq] at h
    omega

theorem tick_arith {t a i t1 a1 i1 n : Nat} (ht : t ≤ n) (hai : a + i = t) (hn : n + 1 < 2 ^ 64)
    (h : (t1, a1, i1) = (t, a, i) ∨
      (t1 = tick t ∧ ((a1 = tick a ∧ i1 = i) ∨ (a1 = a ∧ i1 = tick i)))) :
    t1 ≤ n + 1 ∧ a1 + i1 = t1 ∧ t ≤ t1 ∧ a ≤ a1 ∧ i ≤ i1 := by
  have h1 : tick t = t + 1 := tick_small (by omega)
  have h2 : tick a = a + 1 := tick_small (by omega)
  have h3 : tick i = i + 1 := tick_small (by omega)
  rw [h1, h2, h3] at h
  rcases h with h | ⟨h4, ⟨h5, h6⟩ | ⟨h5, h6⟩⟩
  · simp only [Prod.mk.injEq] at h
    omega
  · omega
  · omega

/-- Along an execution of fewer than `2 ^ 64` transitions no counter has
wrapped: the tick counters and `pageInCount` are at most the number of
transitions, `activeCpuTicks + idleCpuTicks` is `totalCpuTicks`, and
`pageOutCount` is at most `pageInCount`. -/
theorem execution_counters {m : Machine} {n : Nat} (h : Execution m n) (hn : n < 2 ^ 64) :
    m.totalCpuTicks ≤ n ∧ m.activeCpuTicks + m.idleCpuTicks = m.totalCpuTicks ∧
    m.st.pageInCount ≤ n ∧ m.st.pageOutCount ≤ m.st.pageInCount := by
  induction h with
  | boot cfg => exact ⟨Nat.le_refl _, rfl, Nat.le_refl _, Nat.le_refl _⟩
  | next hex ht ih =>
    rename_i m0 m2 k
    obtain ⟨i1, i2, i3, i4⟩ := ih (by omega)
    obtain ⟨hp, htk⟩ := transition_counters ht
    obtain ⟨p1, p2, -, -⟩ := paging_arith i3 i4 hn hp
    obtain ⟨t1, t2, -, -, -⟩ := tick_arith i1 i2 hn htk
    exact ⟨t1, t2, p1, p2⟩

/-- C31 (P4).  Along every execution of fewer than `2 ^ 64` transitions (so
that no 64-bit counter wraps), a transition decreases none of `pageInCount`,
`pageOutCount`, `totalCpuTicks`, `activeCpuTicks` and `idleCpuTicks`; an
iteration of a worker (its dequeue, or its iteration from the wait on when the
test of its loop came before a change of the stop flag) adds one to
`totalCpuTicks` and one to exactly one of `activeCpuTicks` and `idleCpuTicks`;
and
`activeCpuTicks + idleCpuTicks <= totalCpuTicks` holds before and after. -/
theorem counters_monotone (m m1 : Machine) (n : Nat) (hex : Execution m n)
    (hn : n + 1 < 2 ^ 64) (ht : Transition m m1) :
    (m.st.pageInCount ≤ m1.st.pageInCount ∧ m.st.pageOutCount ≤ m1.st.pageOutCount ∧
      m.totalCpuTicks ≤ m1.totalCpuTicks ∧ m.activeCpuTicks ≤ m1.activeCpuTicks ∧
      m.idleCpuTicks ≤ m1.idleCpuTicks) ∧
    (∀ coreId : Int,
      (cpuWorkerDequeue m coreId = some m1 ∨
        ∃ threads : Int, cpuWorkerWake m threads coreId = some m1) →
      m1.totalCpuTicks = m.totalCpuTicks + 1 ∧
      ((m1.activeCpuTicks = m.activeCpuTicks + 1 ∧ m1.idleCpuTicks = m.idleCpuTicks) ∨
        (m1.activeCpuTicks = m.activeCpuTicks ∧ m1.idleCpuTicks = m.idleCpuTicks + 1))) ∧
    m.activeCpuTicks + m.idleCpuTicks ≤ m.totalCpuTicks ∧
    m1.activeCpuTicks + m1.idleCpuTicks ≤ m1.totalCpuTicks := by
  obtain ⟨i1, i2, i3, i4⟩ := execution_counters hex (by omega)
  obtain ⟨hp, htk⟩ := transition_counters ht
  obtain ⟨-, -, p3, p4⟩ := paging_arith i3 i4 hn hp
  obtain ⟨-, t2, t3, t4, t5⟩ := tick_arith i1 i2 hn htk
  refine ⟨⟨p3, p4, t3, t4, t5⟩, ?_, Nat.le_of_eq i2, Nat.le_of_eq t2⟩
  intro coreId hd
  have hd1 : m1.totalCpuTicks = tick m.totalCpuTicks ∧
      ((m1.activeCpuTicks = tick m.activeCpuTicks ∧ m1.idleCpuTicks = m.idleCpuTicks) ∨
        (m1.activeCpuTicks = m.activeCpuTicks ∧ m1.idleCpuTicks = tick m.idleCpuTicks)) := by
    rcases hd with hd | ⟨threads, hd⟩
    · exact ⟨(dequeue_counters hd).1, (dequeue_counters hd).2.1⟩
    · exact ⟨(wake_counters hd).1, (wake_counters hd).2.1⟩
  obtain ⟨h1, h2⟩ := hd1
  have e1 : tick m.totalCpuTicks = m.totalCpuTicks + 1 := tick_small (by omega)
  have e2 : tick m.activeCpuTicks = m.activeCpuTicks + 1 := tick_small (by omega)
  have e3 : tick m.idleCpuTicks = m.idleCpuTicks + 1 := tick_small (by omega)
  rw [e1] at h1
  rw [e2, e3] at h2
  exact ⟨h1, h2⟩

theorem counters_monotone_witness :
    (tickedMachine.st.pageInCount ≤ tickedIdle.st.pageInCount ∧
      tickedMachine.st.pageOutCount ≤ tickedIdle.st.pageOutCount ∧
      tickedMachine.totalCpuTicks ≤ tickedIdle.totalCpuTicks ∧
      tickedMachine.activeCpuTicks ≤ tickedIdle.activeCpuTicks ∧
      tickedMachine.idleCpuTicks ≤ tickedIdle.idleCpuTicks) ∧
    (∀ coreId : Int,
      (cpuWorkerDequeue tickedMachine coreId = some tickedIdle ∨
        ∃ threads : Int, cpuWorkerWake tickedMachine threads coreId = some tickedIdle) →
      tickedIdle.totalCpuTicks = tickedMachine.totalCpuTicks + 1 ∧
      ((tickedIdle.activeCpuTicks = tickedMachine.activeCpuTicks + 1 ∧
          tickedIdle.idleCpuTicks = tickedMachine.idleCpuTicks) ∨
        (tickedIdle.activeCpuTicks = tickedMachine.activeCpuTicks ∧
          tickedIdle.idleCpuTicks = tickedMachine.idleCpuTicks + 1))) ∧
    tickedMachine.activeCpuTicks + tickedMachine.idleCpuTicks ≤ tickedMachine.totalCpuTicks ∧
    tickedIdle.activeCpuTicks + tickedIdle.idleCpuTicks ≤ tickedIdle.totalCpuTicks :=
  counters_monotone tickedMachine tickedIdle 2
    (Execution.next
      (Execution.next (Execution.boot fcfsConfig)
        (Transition.act (Action.screenS "p" 0 3 64 "t0") createdMachine (by decide)))
      (Transition.act (Action.dequeue 1) tickedMachine (by decide)))
    (by decide) (Transition.act (Action.dequeue 2) tickedIdle (by decide))

/-! ## Counting frames and resident pages -/

theorem countP_set_add {α : Type} (P : α → Bool) (l : List α) (n : Nat) (x y : α)
    (h : l[n]? = some y) :
    (l.set n x).countP P + (if P y = true then 1 else 0) =
      l.countP P + (if P x = true then 1 else 0) := by
  induction l generalizing n with
  | nil => simp at h
  | cons a l ih =>
    cases n with
    | zero =>
      simp only [List.getElem?_cons_zero, Option.some.injEq] at h
      subst h
      simp only [List.set_cons_zero, List.countP_cons]
      omega
    | succ n =>
      simp only [List.getElem?_cons_succ] at h
      have := ih n h
      simp only [List.set_cons_succ, List.countP_cons]
      omega

theorem sum_map_set {α : Type} (f : α → Nat) (l : List α) (n : Nat) (x y : α)
    (h : l[n]? = some y) : ((l.set n x).map f).sum + f y = (l.map f).sum + f x := by
  induction l generalizing n with
  | nil => simp at h
  | cons a l ih =>
    cases n with
    | zero =>
      simp only [List.getElem?_cons_zero, Option.some.injEq] at h
      subst h
      simp only [List.set_cons_zero, List.map_cons, List.sum_cons]
      omega
    | succ n =>
      simp only [List.getElem?_cons_succ] at h
      have := ih n h
      simp only [List.set_cons_succ, List.map_cons, List.sum_cons]
      omega

/-- Writing the entry `e` over the entry `e0` of a page table changes the number
of resident pages by the difference of their flags. -/
theorem resident_setEntry {s t : State} {p pn : Nat} {e e0 : PageTableEntry}
    (ht : t.heap = setEntry s.heap p pn e) (h0 : entryOf s.heap p pn = some e0) :
    residentPages t + (if e0.inMemory = true then 1 else 0) =
      residentPages s + (if e.inMemory = true then 1 else 0) := by
  unfold residentPages
  rw [ht]
  unfold entryOf at h0
  unfold setEntry
  cases hp : s.heap[p]? with
  | none => simp [hp] at h0
  | some pr =>
    simp only [hp] at h0
    simp only
    have h1 := sum_map_set (fun pr : Process => pr.pageTable.countP (fun e => e.inMemory))
      s.heap p { pr with pageTable := pr.pageTable.set pn e } pr hp
    have h2 := countP_set_add (fun e : PageTableEntry => e.inMemory) pr.pageTable pn e e0 h0
    dsimp only at h1 h2
    omega

/-- Writing a frame with owner `pid` over a frame with owner `pid0` changes the
number of occupied frames by the difference of their occupancy. -/
theorem occupied_set {s t : State} {i : Nat} {f f0 : Frame}
    (ht : t.physicalMemory = s.physicalMemory.set i f) (h0 : s.physicalMemory[i]? = some f0) :
    occupiedFrames t + (if f0.processId ≠ -1 then 1 else 0) =
      occupiedFrames s + (if f.processId ≠ -1 then 1 else 0) := by
  unfold occupiedFrames
  rw [ht]
  have h := countP_set_add (fun f : Frame => decide (f.processId ≠ -1)) s.physicalMemory i f f0 h0
  simp only [decide_eq_true_eq] at h
  exact h

theorem occupied_init (cfg : SystemConfig) : occupiedFrames (initState cfg) = 0 := by
  unfold occupiedFrames initState
  simp only [List.countP_replicate]
  rfl

theorem resident_create (s : State) (name : String) (cpuBurst memSize : Nat) (ts : String) :
    residentPages (createProcess s name cpuBurst memSize ts) = residentPages s := by
  unfold createProcess
  split
  · rfl
  · unfold residentPages
    simp only [List.map_append, List.sum_append, List.map_cons, List.map_nil, List.sum_cons,
      List.sum_nil, List.countP_replicate]
    rfl

theorem frames_create (s : State) (name : String) (cpuBurst memSize : Nat) (ts : String) :
    (createProcess s name cpuBurst memSize ts).physicalMemory = s.physicalMemory := by
  unfold createProcess
  split <;> rfl

theorem occupied_write (s : State) (f : Nat) (str : String) :
    occupiedFrames (appendFrameData s f str) = occupiedFrames s := by
  unfold appendFrameData
  cases hf : s.physicalMemory[f]? with
  | none => rfl
  | some fr =>
    simp only
    have h := occupied_set (s := s)
      (t := { s with physicalMemory := s.physicalMemory.set f { fr with data := fr.data ++ str } })
      rfl hf
    simp only at h
    omega

/-! ## Balance of the paging counters -/

theorem entryOf_of_get {h : List Process} {p pn : Nat} {pr : Process} {e : PageTableEntry}
    (hp : h[p]? = some pr) (he : pr.pageTable[pn]? = some e) : entryOf h p pn = some e := by
  unfold entryOf
  rw [hp]
  exact he

/-- What the claim of a free frame does to the counts: one more occupied frame,
one more resident page, one more page-in. -/
theorem claim_counts {s : State} (hw : Wf s) {p pn i : Nat} {pr : Process}
    {e0 : PageTableEntry} (hp : s.heap[p]? = some pr) (he0 : pr.pageTable[pn]? = some e0)
    (hnm : e0.inMemory = false) (hi : firstFreeFrame s.physicalMemory = some i) :
    occupiedFrames (claimFreeFrame s p pr (pn : Int) i) = occupiedFrames s + 1 ∧
    residentPages (claimFreeFrame s p pr (pn : Int) i) = residentPages s + 1 ∧
    (claimFreeFrame s p pr (pn : Int) i).pageInCount = (s.pageInCount + 1) % 2 ^ 64 ∧
    (claimFreeFrame s p pr (pn : Int) i).pageOutCount = s.pageOutCount := by
  obtain ⟨f0, hf0, hfree⟩ := firstFreeFrame_some hi
  have hid : pr.id = (p : Int) + 1 := hw.ids p pr hp
  have h1 := occupied_set (claimFreeFrame_frames s p pr (pn : Int) i) hf0
  have h2 := resident_setEntry (t := claimFreeFrame s p pr (pn : Int) i)
    (by rw [claimFreeFrame_heap, Int.toNat_ofNat]) (entryOf_of_get hp he0)
  have hne : pr.id ≠ -1 := by omega
  simp only [hfree, ne_eq, not_true_eq_false, if_false, hne, not_false_eq_true, if_true,
    Nat.add_zero] at h1
  simp only [hnm, Bool.false_eq_true, if_false, if_true, Nat.add_zero] at h2
  exact ⟨h1, h2, (claimFreeFrame_rest s p pr (pn : Int) i).2.2.2.1,
    (claimFreeFrame_rest s p pr (pn : Int) i).2.2.2.2.1⟩

/-- What the replacement of a victim does to the counts: the occupied frames
and the resident pages stay as many, one more page-out, one more page-in. -/
theorem replace_counts {s : State} (hw : Wf s) {p pn ep vpn vi : Nat} {pr : Process}
    {e0 ev : PageTableEntry} {vf : Frame} {rest : List (Int × Int)}
    (hp : s.heap[p]? = some pr) (he0 : pr.pageTable[pn]? = some e0) (hnm : e0.inMemory = false)
    (hev : entryOf s.heap ep vpn = some ev) (hevm : ev.inMemory = true)
    (hvf : s.physicalMemory[vi]? = some vf) (hvp : vf.processId = (ep : Int) + 1) (t : State)
    (ht : t = replaceVictim { s with pageLoadOrder := rest } p pr (pn : Int) ((ep : Int) + 1)
      (vpn : Int) ep (vi : Int) vf) :
    occupiedFrames t = occupiedFrames s ∧ residentPages t = residentPages s ∧
    t.pageInCount = (s.pageInCount + 1) % 2 ^ 64 ∧
    t.pageOutCount = (s.pageOutCount + 1) % 2 ^ 64 := by
  have hid : pr.id = (p : Int) + 1 := hw.ids p pr hp
  have hne : pr.id ≠ -1 := by omega
  have hne2 : vf.processId ≠ -1 := by omega
  have hfr : t.physicalMemory = s.physicalMemory.set vi
      { processId := pr.id
        pageNumber := (pn : Int)
        data := (mapFind (pr.id, (pn : Int))
          (mapAssign ((ep : Int) + 1, (vpn : Int)) vf.data s.backingStore)).getD "" } := by
    rw [ht, replaceVictim_frames, Int.toNat_ofNat]
  have h1 := occupied_set hfr hvf
  simp only [hne, hne2, ne_eq, not_false_eq_true, if_true] at h1
  have hmid := resident_setEntry (s := s)
    (t := { s with heap := setEntry s.heap ep vpn { inMemory := false, frameIndex := -1 } })
    (e := { inMemory := false, frameIndex := -1 }) rfl hev
  simp only [hevm, if_true, Bool.false_eq_true, if_false, Nat.add_zero] at hmid
  obtain ⟨e1, he1, hm1⟩ : ∃ e1, entryOf
      (setEntry s.heap ep vpn { inMemory := false, frameIndex := -1 }) p pn = some e1 ∧
      e1.inMemory = false := by
    rw [entryOf_setEntry]
    split
    · exact ⟨_, rfl, rfl⟩
    · exact ⟨e0, entryOf_of_get hp he0, hnm⟩
  have hheap : t.heap = setEntry
      (setEntry s.heap ep vpn { inMemory := false, frameIndex := -1 }) p pn
        { inMemory := true, frameIndex := (vi : Int) } := by
    rw [ht, replaceVictim_heap, Int.toNat_ofNat, Int.toNat_ofNat]
  have h2 := resident_setEntry
    (s := { s with heap := setEntry s.heap ep vpn { inMemory := false, frameIndex := -1 } })
    (t := t) (e := { inMemory := true, frameIndex := (vi : Int) }) hheap he1
  simp only [hm1, Bool.false_eq_true, if_false, if_true, Nat.add_zero] at h2
  refine ⟨by omega, by omega, ?_, ?_⟩
  · rw [ht]
    exact (replaceVictim_rest _ p pr (pn : Int) _ _ ep _ vf).2.2.1
  · rw [ht]
    exact (replaceVictim_rest _ p pr (pn : Int) _ _ ep _ vf).2.2.2.1

theorem mod_succ_small {x n : Nat} (hx : x ≤ n) (hn : n + 1 < 2 ^ 64) :
    (x + 1) % 2 ^ 64 = x + 1 := Nat.mod_eq_of_lt (by omega)

/-- Along the calls made from the freshly initialised state, fewer than
`2 ^ 64` of them, `pageInCount` is `pageOutCount` plus the number of occupied
frames, which is the number of resident pages, and is at most the number of
calls. -/
theorem balance_of_reach {s : State} {log : List (List Event)} (h : Reach s log)
    (hlen : log.length < 2 ^ 64) :
    s.pageInCount = s.pageOutCount + occupiedFrames s ∧ occupiedFrames s = residentPages s ∧
    s.pageInCount ≤ log.length := by
  induction h with
  | init cfg hpos =>
    refine ⟨?_, ?_, Nat.le_refl _⟩
    · rw [occupied_init]
      rfl
    · rw [occupied_init]
      rfl
  | create name cpuBurst memSize ts h ih =>
    rename_i s0 log0
    obtain ⟨i1, i2, i3⟩ := ih hlen
    have hc := counters_createProcess s0 name cpuBurst memSize ts
    unfold pagingCounters at hc
    simp only [Prod.mk.injEq] at hc
    have ho : occupiedFrames (createProcess s0 name cpuBurst memSize ts) = occupiedFrames s0 := by
      unfold occupiedFrames
      rw [frames_create]
    rw [hc.1, hc.2, ho, resident_create]
    exact ⟨i1, i2, i3⟩
  | load proc pageNumber b h hl ih =>
    rename_i s0 t0 log0
    simp only [List.length_cons] at hlen
    obtain ⟨i1, i2, i3⟩ := ih (by omega)
    have hw := wf_of_reach h
    simp only [List.length_cons]
    rcases load_cases hw hl with ⟨ht, -, -⟩ |
      ⟨p, pn, i, pr, e0, -, -, hp, he0, hnm, hi, -, ht⟩ |
      ⟨p, pn, ep, vpn, vi, pr, e0, ev, vf, rest, -, -, hp, he0, hnm, -, -, hev, hevm, -, hvf,
        hvp, -, -, ht⟩
    · rw [ht]
      exact ⟨i1, i2, by omega⟩
    · obtain ⟨c1, c2, c3, c4⟩ := claim_counts hw hp he0 hnm hi
      rw [ht, c1, c2, c3, c4, mod_succ_small i3 hlen]
      exact ⟨by omega, by omega, by omega⟩
    · obtain ⟨c1, c2, c3, c4⟩ := replace_counts hw hp he0 hnm hev hevm hvf hvp t0 ht
      have hout : s0.pageOutCount ≤ log0.length := by omega
      rw [c1, c2, c3, c4, mod_succ_small i3 hlen, mod_succ_small hout hlen]
      exact ⟨by omega, by omega, by omega⟩
  | write f str h ih =>
    rename_i s0 log0
    obtain ⟨i1, i2, i3⟩ := ih hlen
    have hc := counters_appendFrameData s0 f str
    unfold pagingCounters at hc
    simp only [Prod.mk.injEq] at hc
    have hr : residentPages (appendFrameData s0 f str) = residentPages s0 := by
      unfold residentPages
      rw [(appendFrameData_heap s0 f str).1]
    rw [hc.1, hc.2, occupied_write, hr]
    exact ⟨i1, i2, i3⟩

/-- C32.  In every state reached from the freshly initialised state by fewer
than `2 ^ 64 - 1` calls of `loadPageIfNotInMemory` (with process creations and
frame-data appends between them): `pageInCount - pageOutCount` is the number of
occupied frames, which is the number of resident pages and at most the number
of frames; and a further call that fails or hits leaves both counters as they
are, a miss served from a free frame adds 1 to `pageInCount` only, and a miss
served by eviction adds 1 to both. -/
theorem paging_counter_balance (s : State) (log : List (List Event)) (h : Reach s log)
    (hlen : log.length + 1 < 2 ^ 64) :
    (s.pageOutCount ≤ s.pageInCount ∧ s.pageInCount - s.pageOutCount = occupiedFrames s) ∧
    occupiedFrames s = residentPages s ∧ occupiedFrames s ≤ s.physicalMemory.length ∧
    ∀ (proc : Option Nat) (pg : Int) (b : Bool) (t : State),
      loadPageIfNotInMemory s proc pg = some (b, t) →
      ((b = false ∨ IsHit s proc pg) →
        t.pageInCount = s.pageInCount ∧ t.pageOutCount = s.pageOutCount) ∧
      (b = true → ¬ IsHit s proc pg → firstFreeFrame s.physicalMemory ≠ none →
        t.pageInCount = s.pageInCount + 1 ∧ t.pageOutCount = s.pageOutCount) ∧
      (b = true → ¬ IsHit s proc pg → firstFreeFrame s.physicalMemory = none →
        t.pageInCount = s.pageInCount + 1 ∧ t.pageOutCount = s.pageOutCount + 1) := by
  obtain ⟨i1, i2, i3⟩ := balance_of_reach h (by omega)
  have hw := wf_of_reach h
  refine ⟨⟨by omega, by omega⟩, i2, List.countP_le_length _, ?_⟩
  intro proc pg b t hl
  rcases load_cases hw hl with ⟨ht, hhit, -⟩ |
    ⟨p, pn, i, pr, e0, hproc, hpg, hp, he0, hnm, hi, hb, ht⟩ |
    ⟨p, pn, ep, vpn, vi, pr, e0, ev, vf, rest, hproc, hpg, hp, he0, hnm, hnone, -, hev, hevm, -,
      hvf, hvp, -, hb, ht⟩
  · rw [ht]
    refine ⟨fun _ => ⟨rfl, rfl⟩, ?_, ?_⟩
    · intro hb hn
      exact absurd (hhit hb) hn
    · intro hb hn
      exact absurd (hhit hb) hn
  · have hmiss : ¬ IsHit s proc pg := by
      rintro ⟨p1, pn1, h1, h2, e, he, hm⟩
      rw [hproc] at h1
      rw [hpg] at h2
      cases h1
      have h3 : pn = pn1 := by omega
      subst h3
      rw [entryOf_of_get hp he0] at he
      cases he
      rw [hnm] at hm
      cases hm
    obtain ⟨-, -, c3, c4⟩ := claim_counts hw hp he0 hnm hi
    rw [ht, c3, c4, mod_succ_small i3 (by omega)]
    refine ⟨?_, fun _ _ _ => ⟨rfl, rfl⟩, ?_⟩
    · rintro (hf | hh)
      · rw [hb] at hf
        cases hf
      · exact absurd hh hmiss
    · intro _ _ hfree
      rw [hi] at hfree
      cases hfree
  · have hmiss : ¬ IsHit s proc pg := by
      rintro ⟨p1, pn1, h1, h2, e, he, hm⟩
      rw [hproc] at h1
      rw [hpg] at h2
      cases h1
      have h3 : pn = pn1 := by omega
      subst h3
      rw [entryOf_of_get hp he0] at he
      cases he
      rw [hnm] at hm
      cases hm
    obtain ⟨-, -, c3, c4⟩ := replace_counts hw hp he0 hnm hev hevm hvf hvp t ht
    have hout : s.pageOutCount ≤ log.length := by omega
    rw [c3, c4, mod_succ_small i3 (by omega), mod_succ_small hout (by omega)]
    refine ⟨?_, ?_, fun _ _ _ => ⟨rfl, rfl⟩⟩
    · rintro (hf | hh)
      · rw [hb] at hf
        cases hf
      · exact absurd hh hmiss
    · intro _ _ hfree
      exact absurd hnone hfree

theorem paging_counter_balance_witness :
    (demo4.pageOutCount ≤ demo4.pageInCount ∧
      demo4.pageInCount - demo4.pageOutCount = occupiedFrames demo4) ∧
    occupiedFrames demo4 = residentPages demo4 ∧
    occupiedFrames demo4 ≤ demo4.physicalMemory.length ∧
    ∀ (proc : Option Nat) (pg : Int) (b : Bool) (t : State),
      loadPageIfNotInMemory demo4 proc pg = some (b, t) →
      ((b = false ∨ IsHit demo4 proc pg) →
        t.pageInCount = demo4.pageInCount ∧ t.pageOutCount = demo4.pageOutCount) ∧
      (b = true → ¬ IsHit demo4 proc pg → firstFreeFrame demo4.physicalMemory ≠ none →
        t.pageInCount = demo4.pageInCount + 1 ∧ t.pageOutCount = demo4.pageOutCount) ∧
      (b = true → ¬ IsHit demo4 proc pg → firstFreeFrame demo4.physicalMemory = none →
        t.pageInCount = demo4.pageInCount + 1 ∧ t.pageOutCount = demo4.pageOutCount + 1) :=
  paging_counter_balance demo4 [stepEvents demo3 demo4, stepEvents demo1 demo2] reach_demo4
    (by decide)

/-! ## Frames are never released -/

theorem claimed_create {s : State} {i : Nat} (name : String) (cpuBurst memSize : Nat)
    (ts : String) (h : Claimed s i) : Claimed (createProcess s name cpuBurst memSize ts) i := by
  unfold Claimed
  rw [frames_create]
  exact h

theorem claimed_write {s : State} {i : Nat} (f : Nat) (str : String) (h : Claimed s i) :
    Claimed (appendFrameData s f str) i := by
  obtain ⟨g, hg, hne⟩ := h
  unfold appendFrameData
  cases hf : s.physicalMemory[f]? with
  | none => exact ⟨g, hg, hne⟩
  | some fr =>
    simp only
    by_cases hif : i = f
    · subst hif
      rw [hg] at hf
      cases hf
      refine ⟨{ g with data := g.data ++ str }, ?_, hne⟩
      show (s.physicalMemory.set i { g with data := g.data ++ str })[i]? = _
      rw [List.getElem?_set_eq_of_lt]
      exact (List.getElem?_eq_some.mp hg).1
    · refine ⟨g, ?_, hne⟩
      show (s.physicalMemory.set f { fr with data := fr.data ++ str })[i]? = _
      rw [List.getElem?_set_ne (Ne.symm hif)]
      exact hg

/-- A call of `loadPageIfNotInMemory` in a well-formed state frees no frame. -/
theorem claimed_load {s t : State} {proc : Option Nat} {pg : Int} {b : Bool} (hw : Wf s)
    (hl : loadPageIfNotInMemory s proc pg = some (b, t)) {j : Nat} (h : Claimed s j) :
    Claimed t j := by
  rcases load_cases hw hl with ⟨ht, -, -⟩ |
    ⟨p, pn, i, pr, e0, -, -, hp, he0, hnm, hi, -, ht⟩ |
    ⟨p, pn, ep, vpn, vi, pr, e0, ev, vf, rest, -, -, hp, he0, hnm, -, hq, hev, hevm, -, hvf,
      -, -, -, ht⟩
  · rw [ht]
    exact h
  · obtain ⟨-, hfr, -⟩ := claim_spec hw hp he0 hnm hi
    unfold Claimed
    rw [ht, hfr j]
    split
    · exact ⟨_, rfl, by simp only [ne_eq]; omega⟩
    · exact h
  · obtain ⟨-, hfr, -⟩ := replace_spec hw hp he0 hnm hq hev hevm hvf t ht
    unfold Claimed
    rw [hfr j]
    split
    · exact ⟨_, rfl, by simp only [ne_eq]; omega⟩
    · exact h

theorem later_wf {s t : State} (hw : Wf s) (h : Later s t) : Wf t := by
  induction h with
  | refl => exact hw
  | create name cpuBurst memSize ts _ ih => exact wf_create ih name cpuBurst memSize ts
  | load proc pageNumber b _ hl ih => exact wf_load ih hl
  | write f str _ ih => exact wf_write ih f str

/-- A frame claimed in a well-formed state is claimed in every state that
follows. -/
theorem later_claimed {s t : State} (hw : Wf s) (h : Later s t) {i : Nat} (hc : Claimed s i) :
    Claimed t i := by
  induction h with
  | refl => exact hc
  | create name cpuBurst memSize ts _ ih => exact claimed_create name cpuBurst memSize ts ih
  | load proc pageNumber b hlater hl ih => exact claimed_load (later_wf hw hlater) hl ih
  | write f str _ ih => exact claimed_write f str ih

/-- While the freshly initialised system has a free frame no page-out has been
counted. -/
theorem free_no_pageOut {s : State} {log : List (List Event)} (h : Reach s log)
    (hfree : firstFreeFrame s.physicalMemory ≠ none) : s.pageOutCount = 0 := by
  induction h with
  | init cfg hpos => rfl
  | create name cpuBurst memSize ts h ih =>
    rename_i s0 log0
    rw [frames_create] at hfree
    have hc := counters_createProcess s0 name cpuBurst memSize ts
    unfold pagingCounters at hc
    simp only [Prod.mk.injEq] at hc
    rw [hc.2]
    exact ih hfree
  | load proc pageNumber b h hl ih =>
    rename_i s0 t0 log0
    have hw := wf_of_reach h
    rcases load_cases hw hl with ⟨ht, -, -⟩ |
      ⟨p, pn, i, pr, e0, -, -, hp, he0, hnm, hi, -, ht⟩ |
      ⟨p, pn, ep, vpn, vi, pr, e0, ev, vf, rest, -, -, hp, he0, hnm, hnone, hq, hev, hevm, -,
        hvf, -, -, -, ht⟩
    · rw [ht] at hfree ⊢
      exact ih hfree
    · rw [ht, (claimFreeFrame_rest s0 p pr (pn : Int) i).2.2.2.2.1]
      apply ih
      rw [hi]
      exact Option.some_ne_none i
    · exfalso
      apply hfree
      obtain ⟨-, hfr, -⟩ := replace_spec hw hp he0 hnm hq hev hevm hvf t0 ht
      rw [firstFreeFrame_none] at hnone ⊢
      intro j f hf
      rw [hfr j] at hf
      split at hf
      · cases hf
        simp only [ne_eq]
        omega
      · exact hnone j f hf
  | write f str h ih =>
    rename_i s0 log0
    have hc := counters_appendFrameData s0 f str
    unfold pagingCounters at hc
    simp only [Prod.mk.injEq] at hc
    rw [hc.2]
    apply ih
    unfold appendFrameData at hfree
    cases hf : s0.physicalMemory[f]? with
    | none =>
      rw [hf] at hfree
      exact hfree
    | some fr =>
      rw [hf] at hfree
      simp only at hfree
      rw [firstFreeFrame_set_data _ _ _ _ hf] at hfree
      exact hfree

/-- C33.  In every state `s` reached from the freshly initialised state by calls
of `loadPageIfNotInMemory` (with process creations and frame-data appends
between them): a frame that is claimed in `s` is claimed in every state that
follows `s`; while `s` has a free frame the backing store is empty, no page-out
has been counted and no call so far has paged a page out; and a miss that is
served from the free frame `i` leaves that frame with empty data and the
backing store empty: it restores nothing. -/
theorem frames_never_released (s : State) (log : List (List Event)) (h : Reach s log) :
    (∀ (t : State), Later s t → ∀ (i : Nat), Claimed s i → Claimed t i) ∧
    (firstFreeFrame s.physicalMemory ≠ none →
      s.backingStore = [] ∧ s.pageOutCount = 0 ∧
      ∀ (evs : List Event), evs ∈ log → ∀ (k : Int × Int), Event.pageOut k ∉ evs) ∧
    (∀ (proc : Option Nat) (pg : Int) (t : State) (i : Nat),
      firstFreeFrame s.physicalMemory = some i → ¬ IsHit s proc pg →
      loadPageIfNotInMemory s proc pg = some (true, t) →
      ∃ (p pn : Nat), proc = some p ∧ pg = (pn : Int) ∧
        t.physicalMemory[i]? =
          some { processId := (p : Int) + 1, pageNumber := (pn : Int), data := "" } ∧
        t.backingStore = []) := by
  have hw := wf_of_reach h
  have hh := hist_of_reach h
  refine ⟨fun t hl i hc => later_claimed hw hl hc, ?_, ?_⟩
  · intro hfree
    exact ⟨hw.bsFree (Or.inl hfree), free_no_pageOut h hfree, hh.noOut hfree⟩
  · intro proc pg t i hi hmiss hl
    rcases load_cases hw hl with ⟨ht, hhit, -⟩ |
      ⟨p, pn, i1, pr, e0, hproc, hpg, hp, he0, hnm, hi1, -, ht⟩ |
      ⟨p, pn, ep, vpn, vi, pr, e0, ev, vf, rest, -, -, -, -, -, hnone, -⟩
    · exact absurd (hhit rfl) hmiss
    · rw [hi] at hi1
      cases hi1
      obtain ⟨-, hfr, -, hbs, -⟩ := claim_spec hw hp he0 hnm hi
      refine ⟨p, pn, hproc, hpg, ?_, ?_⟩
      · rw [ht, hfr i, if_pos rfl]
      · rw [ht]
        exact hbs
    · rw [hi] at hnone
      cases hnone

theorem frames_never_released_witness :
    (∀ (t : State), Later duo1 t → ∀ (i : Nat), Claimed duo1 i → Claimed t i) ∧
    (firstFreeFrame duo1.physicalMemory ≠ none →
      duo1.backingStore = [] ∧ duo1.pageOutCount = 0 ∧
      ∀ (evs : List Event), evs ∈ [stepEvents duo0 duo1] →
        ∀ (k : Int × Int), Event.pageOut k ∉ evs) ∧
    (∀ (proc : Option Nat) (pg : Int) (t : State) (i : Nat),
      firstFreeFrame duo1.physicalMemory = some i → ¬ IsHit duo1 proc pg →
      loadPageIfNotInMemory duo1 proc pg = some (true, t) →
      ∃ (p pn : Nat), proc = some p ∧ pg = (pn : Int) ∧
        t.physicalMemory[i]? =
          some { processId := (p : Int) + 1, pageNumber := (pn : Int), data := "" } ∧
        t.backingStore = []) :=
  frames_never_released duo1 [stepEvents duo0 duo1]
    (Reach.load (some 0) 0 true reach_duo0 load_duo0)

/-! ## The groups captured by the patterns -/

theorem matchDeclare_groups {t var val : String} (h : matchDeclare t = some (var, val)) :
    ∃ v n rest : List Char, IsIdent v ∧ IsDecimal n ∧ var = String.mk v ∧ val = String.mk n ∧
      t.toList = "DECLARE".toList ++ rest := by
  unfold matchDeclare at h
  simp only [Option.bind_eq_bind, Option.bind_eq_some, eatLit_iff, eatSpaces1_iff, Prod.exists,
    eatIdent_iff, eatDigits1_iff] at h
  obtain ⟨cs1, h1, cs2, -, v, cs3, ⟨hv, -, -⟩, cs4, -, n, cs5, ⟨hn, -, -⟩, hg⟩ := h
  split at hg
  · simp only [Option.some.injEq, Prod.mk.injEq] at hg
    exact ⟨v, n, cs1, hv, hn, hg.1.symm, hg.2.symm, h1⟩
  · cases hg

theorem matchThree_groups {op t dst a b : String} (h : matchThree op t = some (dst, a, b)) :
    ∃ x y z rest : List Char, IsIdent x ∧ IsIdent y ∧ IsIdent z ∧ dst = String.mk x ∧
      a = String.mk y ∧ b = String.mk z ∧ t.toList = op.toList ++ rest := by
  unfold matchThree at h
  simp only [Option.bind_eq_bind, Option.bind_eq_some, eatLit_iff, eatSpaces1_iff, Prod.exists,
    eatIdent_iff] at h
  obtain ⟨cs1, h1, cs2, -, x, cs3, ⟨hx, -, -⟩, cs4, -, y, cs5, ⟨hy, -, -⟩, cs6, -, z, cs7,
    ⟨hz, -, -⟩, hg⟩ := h
  split at hg
  · simp only [Option.some.injEq, Prod.mk.injEq] at hg
    exact ⟨x, y, z, cs1, hx, hy, hz, hg.1.symm, hg.2.1.symm, hg.2.2.symm, h1⟩
  · cases hg

theorem matchRead_groups {t var addrHex : String} (h : matchRead t = some (var, addrHex)) :
    ∃ v hs rest : List Char, IsIdent v ∧ IsHexDigits hs ∧ var = String.mk v ∧
      addrHex = hexLit hs ∧ t.toList = "READ".toList ++ rest := by
  unfold matchRead at h
  simp only [Option.bind_eq_bind, Option.bind_eq_some, eatLit_iff, eatSpaces1_iff, Prod.exists,
    eatIdent_iff, eatHexAddr_iff] at h
  obtain ⟨cs1, h1, cs2, -, v, cs3, ⟨hv, -, -⟩, cs4, -, a, cs5, ⟨hs, hhs, ha, -, -⟩, hg⟩ := h
  split at hg
  · simp only [Option.some.injEq, Prod.mk.injEq] at hg
    refine ⟨v, hs, cs1, hv, hhs, hg.1.symm, ?_, h1⟩
    rw [← hg.2, ha]
    rfl
  · cases hg

theorem matchPrint_groups {t var : String} (h : matchPrint t = some var) :
    ∃ v rest : List Char, IsIdent v ∧ var = String.mk v ∧ t.toList = "PRINT(".toList ++ rest := by
  unfold matchPrint at h
  simp only [Option.bind_eq_bind, Option.bind_eq_some, eatLit_iff, Prod.exists,
    eatIdent_iff] at h
  obtain ⟨cs1, h1, cs2, -, cs3, -, v, cs4, ⟨hv, -, -⟩, cs5, -, hg⟩ := h
  split at hg
  · simp only [Option.some.injEq] at hg
    exact ⟨v, cs1, hv, hg.symm, h1⟩
  · cases hg

theorem matchWrite_groups {t addrHex tok : String} (h : matchWrite t = some (addrHex, tok)) :
    ∃ hs ts rest : List Char, IsHexDigits hs ∧ (IsDecimal ts ∨ IsIdent ts) ∧
      addrHex = hexLit hs ∧ tok = String.mk ts ∧ t.toList = "WRITE".toList ++ rest := by
  unfold matchWrite at h
  simp only [Option.bind_eq_bind, Option.bind_eq_some, eatLit_iff, eatSpaces1_iff, Prod.exists,
    eatHexAddr_iff] at h
  obtain ⟨cs1, h1, cs2, -, a, cs3, ⟨hs, hhs, ha, -, -⟩, cs4, -, hg⟩ := h
  have hlit : String.mk a = hexLit hs := by
    rw [ha]
    rfl
  split at hg
  · rename_i tk hd
    simp only [Option.some.injEq, Prod.mk.injEq] at hg
    have hdec := ((eatDigits1_iff _ _ _).1 hd).1
    exact ⟨hs, tk, cs1, hhs, Or.inl hdec, by rw [← hg.1, hlit], hg.2.symm, h1⟩
  · split at hg
    · rename_i tk hi
      simp only [Option.some.injEq, Prod.mk.injEq] at hg
      have hid := ((eatIdent_iff _ _ _).1 hi).1
      exact ⟨hs, tk, cs1, hhs, Or.inr hid, by rw [← hg.1, hlit], hg.2.symm, h1⟩
    · cases hg

/-! ## The patterns exclude one another -/

theorem headCode_of_start {t : String} {c : Char} {l rest : List Char}
    (h : t.toList = (c :: l) ++ rest) : headCode t = some c.toNat := by
  unfold headCode
  rw [h]
  rfl

theorem head_declare {t : String} (h : (matchDeclare t).isSome = true) :
    headCode t = some 68 := by
  obtain ⟨g, hg⟩ := Option.isSome_iff_exists.1 h
  obtain ⟨var, val⟩ := g
  obtain ⟨-, -, rest, -, -, -, -, ht⟩ := matchDeclare_groups hg
  exact headCode_of_start ht

theorem head_add {t : String} (h : (matchThree "ADD" t).isSome = true) :
    headCode t = some 65 := by
  obtain ⟨g, hg⟩ := Option.isSome_iff_exists.1 h
  obtain ⟨dst, a, b⟩ := g
  obtain ⟨-, -, -, rest, -, -, -, -, -, -, ht⟩ := matchThree_groups hg
  exact headCode_of_start ht

theorem head_subtract {t : String} (h : (matchThree "SUBTRACT" t).isSome = true) :
    headCode t = some 83 := by
  obtain ⟨g, hg⟩ := Option.isSome_iff_exists.1 h
  obtain ⟨dst, a, b⟩ := g
  obtain ⟨-, -, -, rest, -, -, -, -, -, -, ht⟩ := matchThree_groups hg
  exact headCode_of_start ht

theorem head_print {t : String} (h : (matchPrint t).isSome = true) : headCode t = some 80 := by
  obtain ⟨g, hg⟩ := Option.isSome_iff_exists.1 h
  obtain ⟨-, rest, -, -, ht⟩ := matchPrint_groups hg
  exact headCode_of_start ht

theorem head_write {t : String} (h : (matchWrite t).isSome = true) : headCode t = some 87 := by
  obtain ⟨g, hg⟩ := Option.isSome_iff_exists.1 h
  obtain ⟨addrHex, tok⟩ := g
  obtain ⟨-, -, rest, -, -, -, -, ht⟩ := matchWrite_groups hg
  exact headCode_of_start ht

theorem head_read {t : String} (h : (matchRead t).isSome = true) : headCode t = some 82 := by
  obtain ⟨g, hg⟩ := Option.isSome_iff_exists.1 h
  obtain ⟨var, addrHex⟩ := g
  obtain ⟨-, -, rest, -, -, -, -, ht⟩ := matchRead_groups hg
  exact headCode_of_start ht

theorem isSome_false_of_head {α : Type} {o : Option α} {t : String} {c d : Nat}
    (hd : o.isSome = true → headCode t = some d) (hc : headCode t = some c) (hne : c ≠ d) :
    o = none := by
  cases ho : o with
  | none => rfl
  | some x =>
    have h1 := hd (by rw [ho]; rfl)
    rw [hc] at h1
    exact absurd (Option.some.inj h1) hne

/-- A text whose first character has the code `c` matches no pattern whose
literal starts with another character. -/
theorem patterns_of_head {t : String} {c : Nat} (hc : headCode t = some c) :
    (c ≠ 68 → matchDeclare t = none) ∧ (c ≠ 65 → matchThree "ADD" t = none) ∧
    (c ≠ 83 → matchThree "SUBTRACT" t = none) ∧ (c ≠ 80 → matchPrint t = none) ∧
    (c ≠ 87 → matchWrite t = none) ∧ (c ≠ 82 → matchRead t = none) :=
  ⟨isSome_false_of_head head_declare hc, isSome_false_of_head head_add hc,
    isSome_false_of_head head_subtract hc, isSome_false_of_head head_print hc,
    isSome_false_of_head head_write hc, isSome_false_of_head head_read hc⟩

/-! ## The branches of the executor on any state -/

theorem load_proc_any {s t : State} {proc : Option Nat} {pg : Int} {b : Bool}
    (hl : loadPageIfNotInMemory s proc pg = some (b, t)) {q : Nat} {pr : Process}
    (hq : s.heap[q]? = some pr) :
    ∃ pt, t.heap[q]? = some { pr with pageTable := pt } := by
  have h := load_keeps_fields hl q
  rw [hq] at h
  cases ht : t.heap[q]? with
  | none => rw [ht] at h; cases h
  | some pr1 =>
    rw [ht] at h
    simp only [Option.map_some', Option.some.injEq] at h
    refine ⟨pr1.pageTable, ?_⟩
    have h2 : pr1 = { withoutPages pr1 with pageTable := pr1.pageTable } := rfl
    rw [h2, h]
    rfl

theorem appendFrameAt_heap {s t : State} {f : Int} {str : String}
    (h : appendFrameAt s f str = some t) : t.heap = s.heap := by
  unfold appendFrameAt at h
  split at h
  · cases h
    exact (appendFrameData_heap s _ str).1
  · cases h

theorem headCode_append {x : String} {c : Nat} (y : String) (h : headCode x = some c) :
    headCode (x ++ y) = some c := by
  unfold headCode at h ⊢
  rw [String.toList, String.data_append]
  cases hx : x.data with
  | nil =>
    rw [String.toList, hx] at h
    cases h
  | cons a l =>
    rw [String.toList, hx] at h
    exact h

/-- The DECLARE branch on any state. -/
theorem declare_effect {s t : State} {p k : Nat} {logStart ts2 instr : String} {pr : Process}
    {var val : String} (hp : s.heap[p]? = some pr) (hd : matchDeclare instr = some (var, val))
    (h : runCustom s p k logStart ts2 instr = Outcome.ok t) :
    ∃ (v : Int) (pt : List PageTableEntry), stoi val = some v ∧
      t.heap[p]? = some
        { pr with
          memory := mapAssign var (toUint16 v) pr.memory
          instructions := pr.instructions.set k
            (logStart ++ "\"" ++ ("DECLARE " ++ var ++ " = " ++ val) ++ "\"")
          pageTable := pt } := by
  unfold runCustom at h
  simp only [hp, hd] at h
  cases hv : stoi val with
  | none =>
    rw [hv] at h
    cases h
  | some v =>
    simp only [hv] at h
    have hp1 : (modifyProc s p (fun q =>
        { q with memory := mapAssign var (toUint16 v) q.memory })).heap[p]? =
        some { pr with memory := mapAssign var (toUint16 v) pr.memory } := modifyProc_at _ hp
    generalize modifyProc s p (fun q => { q with memory := mapAssign var (toUint16 v) q.memory }) =
      s1 at h hp1
    cases hl : loadPageIfNotInMemory s1 (some p) 0 with
    | none =>
      rw [hl] at h
      cases h
    | some r =>
      obtain ⟨loaded, s2⟩ := r
      obtain ⟨pt, hp2⟩ := load_proc_any hl hp1
      simp only [hl] at h
      cases loaded with
      | false =>
        simp only [Bool.false_eq_true, if_false, Outcome.ok.injEq] at h
        subst h
        exact ⟨v, pt, rfl, commitLog_at k _ hp2⟩
      | true =>
        simp only [if_true] at h
        cases he : entryOf s2.heap p 0 with
        | none =>
          rw [he] at h
          cases h
        | some e =>
          simp only [he] at h
          cases ha : appendFrameAt s2 e.frameIndex ("(" ++ var ++ " " ++ val ++ ")") with
          | none =>
            rw [ha] at h
            cases h
          | some s3 =>
            simp only [ha, Outcome.ok.injEq] at h
            subst h
            have hp3 : s3.heap[p]? = some
                { pr with memory := mapAssign var (toUint16 v) pr.memory, pageTable := pt } := by
              rw [appendFrameAt_heap ha]
              exact hp2
            exact ⟨v, pt, rfl, commitLog_at k _ hp3⟩

/-- The ADD branch on any state. -/
theorem add_effect {s t : State} {p k : Nat} {logStart ts2 instr : String} {pr : Process}
    {dst a b : String} (hp : s.heap[p]? = some pr) (h1 : matchDeclare instr = none)
    (h2 : matchThree "ADD" instr = some (dst, a, b))
    (h : runCustom s p k logStart ts2 instr = Outcome.ok t) :
    ∃ (res : Nat) (body : String), headCode body = some 65 ∧
      t.heap[p]? = some
        { pr with
          memory := storeAfterThree dst a b res pr.memory
          instructions := pr.instructions.set k (logStart ++ "\"" ++ body ++ "\"") } := by
  unfold runCustom at h
  simp only [hp, h1, h2, Outcome.ok.injEq] at h
  subst h
  refine ⟨clampUint16 (((memIndex a pr.memory).1 : Int) +
    ((memIndex b (memIndex a pr.memory).2).1 : Int)), _, ?_,
    commitLog_at k _ (modifyProc_at _ hp)⟩
  repeat' apply headCode_append
  rfl

/-- The SUBTRACT branch on any state. -/
theorem subtract_effect {s t : State} {p k : Nat} {logStart ts2 instr : String} {pr : Process}
    {dst a b : String} (hp : s.heap[p]? = some pr) (h1 : matchDeclare instr = none)
    (h2 : matchThree "ADD" instr = none) (h3 : matchThree "SUBTRACT" instr = some (dst, a, b))
    (h : runCustom s p k logStart ts2 instr = Outcome.ok t) :
    ∃ (res : Nat) (body : String), headCode body = some 83 ∧
      t.heap[p]? = some
        { pr with
          memory := storeAfterThree dst a b res pr.memory
          instructions := pr.instructions.set k (logStart ++ "\"" ++ body ++ "\"") } := by
  unfold runCustom at h
  simp only [hp, h1, h2, h3, Outcome.ok.injEq] at h
  subst h
  refine ⟨clampUint16 (((memIndex a pr.memory).1 : Int) -
    ((memIndex b (memIndex a pr.memory).2).1 : Int)), _, ?_,
    commitLog_at k _ (modifyProc_at _ hp)⟩
  repeat' apply headCode_append
  rfl

/-- The PRINT branch on any state. -/
theorem print_effect {s t : State} {p k : Nat} {logStart ts2 instr : String} {pr : Process}
    {var : String} (hp : s.heap[p]? = some pr) (hpr : IsUserPrint instr var)
    (h : runCustom s p k logStart ts2 instr = Outcome.ok t) :
    ∃ body : String, headCode body = some 80 ∧
      t.heap[p]? = some
        { pr with
          memory := (memIndex var pr.memory).2
          instructions := pr.instructions.set k (logStart ++ "\"" ++ body ++ "\"") } := by
  obtain ⟨h1, h2, h3, h4, h5, h6⟩ := hpr
  unfold runCustom at h
  simp only [hp, h1, h2, h3, h4, h5, h6, Outcome.ok.injEq] at h
  subst h
  refine ⟨_, ?_, commitLog_at k _ (modifyProc_at _ hp)⟩
  repeat' apply headCode_append
  rfl

/-- The fallback branch on any state. -/
theorem unknown_effect {s t : State} {p k : Nat} {logStart ts2 instr : String} {pr : Process}
    (hp : s.heap[p]? = some pr) (h1 : matchDeclare instr = none)
    (h2 : matchThree "ADD" instr = none) (h3 : matchThree "SUBTRACT" instr = none)
    (h4 : matchWrite instr = none) (h5 : matchRead instr = none) (h6 : matchPrint instr = none)
    (h : runCustom s p k logStart ts2 instr = Outcome.ok t) :
    t.heap[p]? = some
      { pr with
        instructions := pr.instructions.set k (logStart ++ "\"" ++ "UNKNOWN_INSTR" ++ "\"") } := by
  unfold runCustom at h
  simp only [hp, h1, h2, h3, h4, h5, h6, Outcome.ok.injEq] at h
  subst h
  exact commitLog_at k _ hp

/-- The bounds-check failure of a WRITE or READ leaves the variable store and
writes the violation message. -/
theorem violation_at {s : State} {p : Nat} {pr : Process} (k : Nat)
    (logStart addrHex ts2 : String) (hp : s.heap[p]? = some pr) :
    ∃ (pr1 : Process) (body : String), headCode body = some 77 ∧
      (shutdownViolation s p k logStart addrHex ts2).heap[p]? = some pr1 ∧
      pr1.memory = pr.memory ∧
      pr1.instructions = pr.instructions.set k (logStart ++ "\"" ++ body ++ "\"") := by
  refine ⟨_, "Memory access violation at " ++ addrHex, ?_, modifyProc_at _ hp, rfl, rfl⟩
  apply headCode_append
  rfl

/-- The WRITE branch on any state. -/
theorem write_effect {s t : State} {p k : Nat} {logStart ts2 instr : String} {pr : Process}
    {addrHex tok : String} (hp : s.heap[p]? = some pr) (hw : IsUserWrite instr addrHex tok)
    (h : runCustom s p k logStart ts2 instr = Outcome.ok t) :
    ∃ (pr1 : Process) (body : String), t.heap[p]? = some pr1 ∧
      pr1.instructions = pr.instructions.set k (logStart ++ "\"" ++ body ++ "\"") ∧
      ((headCode body = some 77 ∧ pr1.memory = pr.memory) ∨
        (headCode body = some 87 ∧
          ∃ val : Nat, pr1.memory = mapAssign addrHex val pr.memory ∨
            pr1.memory = mapAssign addrHex val (memIndex tok pr.memory).2)) := by
  obtain ⟨h1, h2, h3, h4⟩ := hw
  unfold runCustom at h
  simp only [hp, h1, h2, h3, h4] at h
  cases ha : stoull16 addrHex with
  | none =>
    rw [ha] at h
    cases h
  | some address =>
    simp only [ha] at h
    by_cases hv : address < 64 ∨ address ≥ pr.memorySize
    · simp only [if_pos hv, Outcome.ok.injEq] at h
      subst h
      obtain ⟨pr1, body, hb, hq, hm, hi⟩ := violation_at k logStart addrHex ts2 hp
      exact ⟨pr1, body, hq, hi, Or.inl ⟨hb, hm⟩⟩
    · simp only [if_neg hv] at h
      split at h
      · cases h
      · rename_i val m1 htok
        have hm1 : m1 = pr.memory ∨ m1 = (memIndex tok pr.memory).2 := by
          split at htok
          · cases hs : stoi tok with
            | none =>
              rw [hs] at htok
              cases htok
            | some v =>
              rw [hs] at htok
              simp only [Option.map_some', Option.some.injEq, Prod.mk.injEq] at htok
              exact Or.inl htok.2.symm
          · simp only [Option.some.injEq] at htok
            exact Or.inr (congrArg Prod.snd htok).symm
        split at h
        · cases h
        · rename_i pageNum hpg
          split at h
          · cases h
          · rename_i loaded s2 hl
            obtain ⟨pt, hp2⟩ := load_proc_any hl (modifyProc_at _ hp)
            have hfin : ∀ s3 : State, s3.heap = s2.heap →
                ∃ (pr1 : Process) (body : String),
                  (commitLog (modifyProc s3 p (fun q =>
                    { q with memory := mapAssign addrHex val q.memory })) p k
                    (logStart ++ "\"" ++ ("WRITE " ++ addrHex ++ " " ++ toString val) ++
                      "\"")).heap[p]? = some pr1 ∧
                  pr1.instructions = pr.instructions.set k (logStart ++ "\"" ++ body ++ "\"") ∧
                  headCode body = some 87 ∧ pr1.memory = mapAssign addrHex val m1 := by
              intro s3 hs3
              have hp3 : s3.heap[p]? = some { pr with memory := m1, pageTable := pt } := by
                rw [hs3]
                exact hp2
              refine ⟨_, _, commitLog_at k _ (modifyProc_at _ hp3), rfl, ?_, rfl⟩
              repeat' apply headCode_append
              rfl
            have hclose : ∀ (pr1 : Process) (body : String),
                pr1.instructions = pr.instructions.set k (logStart ++ "\"" ++ body ++ "\"") →
                headCode body = some 87 → pr1.memory = mapAssign addrHex val m1 →
                pr1.instructions = pr.instructions.set k (logStart ++ "\"" ++ body ++ "\"") ∧
                ((headCode body = some 77 ∧ pr1.memory = pr.memory) ∨
                  (headCode body = some 87 ∧
                    ∃ val : Nat, pr1.memory = mapAssign addrHex val pr.memory ∨
                      pr1.memory = mapAssign addrHex val (memIndex tok pr.memory).2)) := by
              intro pr1 body hi hb hm
              refine ⟨hi, Or.inr ⟨hb, val, ?_⟩⟩
              rcases hm1 with hm1 | hm1
              · exact Or.inl (by rw [hm, hm1])
              · exact Or.inr (by rw [hm, hm1])
            cases loaded with
            | false =>
              simp only [Bool.false_eq_true, if_false, Outcome.ok.injEq] at h
              subst h
              obtain ⟨pr1, body, hq, hi, hb, hm⟩ := hfin s2 rfl
              exact ⟨pr1, body, hq, hclose pr1 body hi hb hm⟩
            | true =>
              simp only [if_true] at h
              split at h
              · cases h
              · rename_i e he
                split at h
                · cases h
                · rename_i s3 hap
                  simp only [Outcome.ok.injEq] at h
                  subst h
                  obtain ⟨pr1, body, hq, hi, hb, hm⟩ := hfin s3 (appendFrameAt_heap hap)
                  exact ⟨pr1, body, hq, hclose pr1 body hi hb hm⟩

/-- The READ branch on any state. -/
theorem read_effect {s t : State} {p k : Nat} {logStart ts2 instr : String} {pr : Process}
    {var addrHex : String} (hp : s.heap[p]? = some pr) (hr : IsUserRead instr var addrHex)
    (h : runCustom s p k logStart ts2 instr = Outcome.ok t) :
    ∃ (pr1 : Process) (body : String), t.heap[p]? = some pr1 ∧
      pr1.instructions = pr.instructions.set k (logStart ++ "\"" ++ body ++ "\"") ∧
      ((headCode body = some 77 ∧ pr1.memory = pr.memory) ∨
        (headCode body = some 82 ∧
          pr1.memory = mapAssign var (memGet addrHex pr.memory) pr.memory)) := by
  obtain ⟨h1, h2, h3, h4, h5⟩ := hr
  unfold runCustom at h
  simp only [hp, h1, h2, h3, h4, h5] at h
  cases ha : stoull16 addrHex with
  | none =>
    rw [ha] at h
    cases h
  | some address =>
    simp only [ha] at h
    by_cases hv : address < 64 ∨ address ≥ pr.memorySize
    · simp only [if_pos hv, Outcome.ok.injEq] at h
      subst h
      obtain ⟨pr1, body, hb, hq, hm, hi⟩ := violation_at k logStart addrHex ts2 hp
      exact ⟨pr1, body, hq, hi, Or.inl ⟨hb, hm⟩⟩
    · simp only [if_neg hv] at h
      split at h
      · cases h
      · rename_i pageNum hpg
        split at h
        · cases h
        · rename_i loaded s2 hl
          obtain ⟨pt, hp2⟩ := load_proc_any hl hp
          simp only [Outcome.ok.injEq] at h
          subst h
          refine ⟨_, _, commitLog_at k _ (modifyProc_at _ hp2), rfl, Or.inr ⟨?_, rfl⟩⟩
          repeat' apply headCode_append
          rfl

/-! ## The effect of a line of a custom program -/

/-- What the custom-program part of the executor leaves of the process it runs:
the log line at index `k` and the variable store, according to the branch
taken. -/
theorem runCustom_effect {s t : State} {p k : Nat} {logStart ts2 instr : String} {pr : Process}
    (hp : s.heap[p]? = some pr) (h : runCustom s p k logStart ts2 instr = Outcome.ok t) :
    ∃ (pr1 : Process) (body : String), t.heap[p]? = some pr1 ∧
      pr1.instructions = pr.instructions.set k (logStart ++ "\"" ++ body ++ "\"") ∧
      CustomEffect instr pr.memory pr1.memory body := by
  cases h1 : matchDeclare instr with
  | some g =>
    obtain ⟨var, val⟩ := g
    obtain ⟨v, pt, -, hq⟩ := declare_effect hp h1 h
    refine ⟨_, "DECLARE " ++ var ++ " = " ++ val, hq, rfl, Or.inl ⟨var, val, v, h1, ?_, rfl⟩⟩
    repeat' apply headCode_append
    rfl
  | none =>
    cases h2 : matchThree "ADD" instr with
    | some g =>
      obtain ⟨dst, a, b⟩ := g
      obtain ⟨res, body, hb, hq⟩ := add_effect hp h1 h2 h
      exact ⟨_, body, hq, rfl, Or.inr (Or.inl ⟨dst, a, b, res, ⟨h1, h2⟩, hb, rfl⟩)⟩
    | none =>
      cases h3 : matchThree "SUBTRACT" instr with
      | some g =>
        obtain ⟨dst, a, b⟩ := g
        obtain ⟨res, body, hb, hq⟩ := subtract_effect hp h1 h2 h3 h
        exact ⟨_, body, hq, rfl, Or.inr (Or.inr (Or.inl ⟨dst, a, b, res, ⟨h1, h2, h3⟩, hb, rfl⟩))⟩
      | none =>
        cases h4 : matchWrite instr with
        | some g =>
          obtain ⟨addrHex, tok⟩ := g
          obtain ⟨pr1, body, hq, hi, hm⟩ := write_effect hp ⟨h1, h2, h3, h4⟩ h
          exact ⟨pr1, body, hq, hi,
            Or.inr (Or.inr (Or.inr (Or.inl ⟨addrHex, tok, ⟨h1, h2, h3, h4⟩, hm⟩)))⟩
        | none =>
          cases h5 : matchRead instr with
          | some g =>
            obtain ⟨var, addrHex⟩ := g
            obtain ⟨pr1, body, hq, hi, hm⟩ := read_effect hp ⟨h1, h2, h3, h4, h5⟩ h
            exact ⟨pr1, body, hq, hi,
              Or.inr (Or.inr (Or.inr (Or.inr (Or.inl ⟨var, addrHex, ⟨h1, h2, h3, h4, h5⟩, hm⟩))))⟩
          | none =>
            cases h6 : matchPrint instr with
            | some var =>
              obtain ⟨body, hb, hq⟩ := print_effect hp ⟨h1, h2, h3, h4, h5, h6⟩ h
              exact ⟨_, body, hq, rfl, Or.inr (Or.inr (Or.inr (Or.inr (Or.inr (Or.inl
                ⟨var, ⟨h1, h2, h3, h4, h5, h6⟩, hb, rfl⟩)))))⟩
            | none =>
              have hq := unknown_effect hp h1 h2 h3 h4 h5 h6 h
              exact ⟨_, "UNKNOWN_INSTR", hq, rfl, Or.inr (Or.inr (Or.inr (Or.inr (Or.inr
                (Or.inr ⟨h1, h2, h3, h4, h5, h6, rfl, rfl⟩)))))⟩

/-- What the executor leaves of a process that is not shut down after a line
of its custom program. -/
theorem manager_effect {s t : State} {k : Nat} {coreId : Int} {p : Nat} {pr : Process}
    {ts ts2 : String} {d : Draws} {instr : String} (hp : s.heap[p]? = some pr)
    (hns : pr.isShutdown = false) (hk : pr.customInstrList[k]? = some instr)
    (h : instructions_manager s k coreId p ts ts2 d = Outcome.ok t) :
    ∃ (pr1 : Process) (body : String), t.heap[p]? = some pr1 ∧
      pr1.instructions = (resizeLog pr.instructions k).set k
        ("(" ++ ts ++ ") Core: " ++ toString coreId ++ " " ++ "\"" ++ body ++ "\"") ∧
      CustomEffect instr pr.memory pr1.memory body := by
  rw [manager_custom hp hns hk] at h
  exact runCustom_effect (resize_at k hp) h

/-! ## Validator and executor -/

theorem accepted_of_validate {raw t : String} (hv : validateCustomInstructions raw = true)
    (ht : t ∈ splitInstructions raw) :
    (matchDeclare t).isSome = true ∨ (matchThree "ADD" t).isSome = true ∨
    (matchThree "SUBTRACT" t).isSome = true ∨ (matchPrint t).isSome = true ∨
    (matchWrite t).isSome = true ∨ (matchRead t).isSome = true := by
  unfold validateCustomInstructions at hv
  have h := List.all_eq_true.1 hv t ht
  simp only [Bool.or_eq_true, or_assoc] at h
  exact h

theorem body_ne_unknown {logStart body : String} {c : Nat} (hb : headCode body = some c)
    (hc : c ≠ 85) : logStart ++ "\"" ++ body ++ "\"" ≠ unknownLine logStart := by
  intro heq
  unfold unknownLine at heq
  have h1 := congrArg String.data heq
  simp only [String.data_append, List.append_assoc] at h1
  have h2 := List.append_cancel_left (List.append_cancel_left h1)
  have h3 := List.append_cancel_right h2
  have h4 : headCode body = some 85 := by
    unfold headCode
    rw [String.toList, h3]
    rfl
  rw [hb] at h4
  exact hc (Option.some.inj h4)

/-- A text that matches one of the six patterns matches no other, and the
executor, which tries DECLARE, ADD, SUBTRACT, WRITE, READ, PRINT in this order,
takes the branch of that pattern. -/
theorem dispatch_of_accepted {t : String}
    (h : (matchDeclare t).isSome = true ∨ (matchThree "ADD" t).isSome = true ∨
      (matchThree "SUBTRACT" t).isSome = true ∨ (matchPrint t).isSome = true ∨
      (matchWrite t).isSome = true ∨ (matchRead t).isSome = true) :
    (patternMatches t).count true = 1 ∧
    ((matchDeclare t).isSome = true → ∃ var val, IsUserDeclare t var val) ∧
    ((matchThree "ADD" t).isSome = true → ∃ dst a b, IsUserAdd t dst a b) ∧
    ((matchThree "SUBTRACT" t).isSome = true → ∃ dst a b, IsUserSubtract t dst a b) ∧
    ((matchPrint t).isSome = true → ∃ var, IsUserPrint t var) ∧
    ((matchWrite t).isSome = true → ∃ addrHex tok, IsUserWrite t addrHex tok) ∧
    ((matchRead t).isSome = true → ∃ var addrHex, IsUserRead t var addrHex) := by
  have hcount : ∀ c : Nat, headCode t = some c →
      (c = 68 ∨ c = 65 ∨ c = 83 ∨ c = 80 ∨ c = 87 ∨ c = 82) →
      ((matchDeclare t).isSome = true ∨ (matchThree "ADD" t).isSome = true ∨
        (matchThree "SUBTRACT" t).isSome = true ∨ (matchPrint t).isSome = true ∨
        (matchWrite t).isSome = true ∨ (matchRead t).isSome = true) →
      (patternMatches t).count true = 1 := by
    intro c hc hcases hacc
    obtain ⟨n1, n2, n3, n4, n5, n6⟩ := patterns_of_head hc
    have e1 := head_declare (t := t)
    have e2 := head_add (t := t)
    have e3 := head_subtract (t := t)
    have e4 := head_print (t := t)
    have e5 := head_write (t := t)
    have e6 := head_read (t := t)
    rw [hc] at e1 e2 e3 e4 e5 e6
    unfold patternMatches
    rcases hcases with rfl | rfl | rfl | rfl | rfl | rfl
    · have a1 : (matchDeclare t).isSome = true := by
        rcases hacc with h | h | h | h | h | h
        · exact h
        · exact absurd (Option.some.inj (e2 h)) (by decide)
        · exact absurd (Option.some.inj (e3 h)) (by decide)
        · exact absurd (Option.some.inj (e4 h)) (by decide)
        · exact absurd (Option.some.inj (e5 h)) (by decide)
        · exact absurd (Option.some.inj (e6 h)) (by decide)
      rw [a1, n2 (by decide), n3 (by decide), n4 (by decide), n5 (by decide), n6 (by decide)]
      rfl
    · have a1 : (matchThree "ADD" t).isSome = true := by
        rcases hacc with h | h | h | h | h | h
        · exact absurd (Option.some.inj (e1 h)) (by decide)
        · exact h
        · exact absurd (Option.some.inj (e3 h)) (by decide)
        · exact absurd (Option.some.inj (e4 h)) (by decide)
        · exact absurd (Option.some.inj (e5 h)) (by decide)
        · exact absurd (Option.some.inj (e6 h)) (by decide)
      rw [a1, n1 (by decide), n3 (by decide), n4 (by decide), n5 (by decide), n6 (by decide)]
      rfl
    · have a1 : (matchThree "SUBTRACT" t).isSome = true := by
        rcases hacc with h | h | h | h | h | h
        · exact absurd (Option.some.inj (e1 h)) (by decide)
        · exact absurd (Option.some.inj (e2 h)) (by decide)
        · exact h
        · exact absurd (Option.some.inj (e4 h)) (by decide)
        · exact absurd (Option.some.inj (e5 h)) (by decide)
        · exact absurd (Option.some.inj (e6 h)) (by decide)
      rw [a1, n1 (by decide), n2 (by decide), n4 (by decide), n5 (by decide), n6 (by decide)]
      rfl
    · have a1 : (matchPrint t).isSome = true := by
        rcases hacc with h | h | h | h | h | h
        · exact absurd (Option.some.inj (e1 h)) (by decide)
        · exact absurd (Option.some.inj (e2 h)) (by decide)
        · exact absurd (Option.some.inj (e3 h)) (by decide)
        · exact h
        · exact absurd (Option.some.inj (e5 h)) (by decide)
        · exact absurd (Option.some.inj (e6 h)) (by decide)
      rw [a1, n1 (by decide), n2 (by decide), n3 (by decide), n5 (by decide), n6 (by decide)]
      rfl
    · have a1 : (matchWrite t).isSome = true := by
        rcases hacc with h | h | h | h | h | h
        · exact absurd (Option.some.inj (e1 h)) (by decide)
        · exact absurd (Option.some.inj (e2 h)) (by decide)
        · exact absurd (Option.some.inj (e3 h)) (by decide)
        · exact absurd (Option.some.inj (e4 h)) (by decide)
        · exact h
        · exact absurd (Option.some.inj (e6 h)) (by decide)
      rw [a1, n1 (by decide), n2 (by decide), n3 (by decide), n4 (by decide), n6 (by decide)]
      rfl
    · have a1 : (matchRead t).isSome = true := by
        rcases hacc with h | h | h | h | h | h
        · exact absurd (Option.some.inj (e1 h)) (by decide)
        · exact absurd (Option.some.inj (e2 h)) (by decide)
        · exact absurd (Option.some.inj (e3 h)) (by decide)
        · exact absurd (Option.some.inj (e4 h)) (by decide)
        · exact absurd (Option.some.inj (e5 h)) (by decide)
        · exact h
      rw [a1, n1 (by decide), n2 (by decide), n3 (by decide), n4 (by decide), n5 (by decide)]
      rfl
  refine ⟨?_, ?_, ?_, ?_, ?_, ?_, ?_⟩
  · have hall := h
    rcases h with h1 | h1 | h1 | h1 | h1 | h1
    · exact hcount 68 (head_declare h1) (Or.inl rfl) hall
    · exact hcount 65 (head_add h1) (Or.inr (Or.inl rfl)) hall
    · exact hcount 83 (head_subtract h1) (Or.inr (Or.inr (Or.inl rfl))) hall
    · exact hcount 80 (head_print h1) (Or.inr (Or.inr (Or.inr (Or.inl rfl)))) hall
    · exact hcount 87 (head_write h1) (Or.inr (Or.inr (Or.inr (Or.inr (Or.inl rfl))))) hall
    · exact hcount 82 (head_read h1) (Or.inr (Or.inr (Or.inr (Or.inr (Or.inr rfl))))) hall
  · intro h1
    obtain ⟨g, hg⟩ := Option.isSome_iff_exists.1 h1
    exact ⟨g.1, g.2, hg⟩
  · intro h1
    obtain ⟨g, hg⟩ := Option.isSome_iff_exists.1 h1
    obtain ⟨n1, -⟩ := patterns_of_head (head_add h1)
    exact ⟨g.1, g.2.1, g.2.2, n1 (by decide), hg⟩
  · intro h1
    obtain ⟨g, hg⟩ := Option.isSome_iff_exists.1 h1
    obtain ⟨n1, n2, -⟩ := patterns_of_head (head_subtract h1)
    exact ⟨g.1, g.2.1, g.2.2, n1 (by decide), n2 (by decide), hg⟩
  · intro h1
    obtain ⟨g, hg⟩ := Option.isSome_iff_exists.1 h1
    obtain ⟨n1, n2, n3, -, n5, n6⟩ := patterns_of_head (head_print h1)
    exact ⟨g, n1 (by decide), n2 (by decide), n3 (by decide), n5 (by decide), n6 (by decide),
      hg⟩
  · intro h1
    obtain ⟨g, hg⟩ := Option.isSome_iff_exists.1 h1
    obtain ⟨n1, n2, n3, -⟩ := patterns_of_head (head_write h1)
    exact ⟨g.1, g.2, n1 (by decide), n2 (by decide), n3 (by decide), hg⟩
  · intro h1
    obtain ⟨g, hg⟩ := Option.isSome_iff_exists.1 h1
    obtain ⟨n1, n2, n3, -, n5, -⟩ := patterns_of_head (head_read h1)
    exact ⟨g.1, g.2, n1 (by decide), n2 (by decide), n3 (by decide), n5 (by decide), hg⟩

/-- The log body of every branch but the fallback starts with a character other
than `U`. -/
theorem effect_head {instr body : String} {m m1 : List (String × Nat)}
    (h : CustomEffect instr m m1 body)
    (hacc : (matchDeclare instr).isSome = true ∨ (matchThree "ADD" instr).isSome = true ∨
      (matchThree "SUBTRACT" instr).isSome = true ∨ (matchPrint instr).isSome = true ∨
      (matchWrite instr).isSome = true ∨ (matchRead instr).isSome = true) :
    ∃ c : Nat, headCode body = some c ∧ c ≠ 85 := by
  rcases h with ⟨_, _, _, -, hb, -⟩ | ⟨_, _, _, _, -, hb, -⟩ | ⟨_, _, _, _, -, hb, -⟩ |
    ⟨_, _, -, ⟨hb, -⟩ | ⟨hb, -⟩⟩ | ⟨_, _, -, ⟨hb, -⟩ | ⟨hb, -⟩⟩ | ⟨_, -, hb, -⟩ |
    ⟨n1, n2, n3, n4, n5, n6, -, -⟩
  · exact ⟨_, hb, by decide⟩
  · exact ⟨_, hb, by decide⟩
  · exact ⟨_, hb, by decide⟩
  · exact ⟨_, hb, by decide⟩
  · exact ⟨_, hb, by decide⟩
  · exact ⟨_, hb, by decide⟩
  · exact ⟨_, hb, by decide⟩
  · exact ⟨_, hb, by decide⟩
  · rw [n1, n2, n3, n4, n5, n6] at hacc
    simp at hacc

/-- C35.  Every trimmed instruction `t` of a text that
`validateCustomInstructions` accepts matches exactly one of the six patterns,
and the executor takes the branch of that pattern: the patterns it tries before
do not match.  When the executor runs `t` as line `k` of the custom program of a
process that is not shut down and returns, the log line `k` it leaves is not the
line `UNKNOWN_INSTR` of the fallback branch. -/
theorem validator_and_executor_agree (raw t : String)
    (hv : validateCustomInstructions raw = true) (ht : t ∈ splitInstructions raw) :
    (patternMatches t).count true = 1 ∧
    ((matchDeclare t).isSome = true → ∃ var val, IsUserDeclare t var val) ∧
    ((matchThree "ADD" t).isSome = true → ∃ dst a b, IsUserAdd t dst a b) ∧
    ((matchThree "SUBTRACT" t).isSome = true → ∃ dst a b, IsUserSubtract t dst a b) ∧
    ((matchPrint t).isSome = true → ∃ var, IsUserPrint t var) ∧
    ((matchWrite t).isSome = true → ∃ addrHex tok, IsUserWrite t addrHex tok) ∧
    ((matchRead t).isSome = true → ∃ var addrHex, IsUserRead t var addrHex) ∧
    ∀ (s : State) (p k : Nat) (pr : Process) (coreId : Int) (ts ts2 : String) (d : Draws)
      (s1 : State), s.heap[p]? = some pr → pr.isShutdown = false →
      pr.customInstrList[k]? = some t →
      instructions_manager s k coreId p ts ts2 d = Outcome.ok s1 →
      ∃ line, lineAfter (Outcome.ok s1) p k = some line ∧
        line ≠ unknownLine ("(" ++ ts ++ ") Core: " ++ toString coreId ++ " ") := by
  have hacc := accepted_of_validate hv ht
  obtain ⟨d1, d2, d3, d4, d5, d6, d7⟩ := dispatch_of_accepted hacc
  refine ⟨d1, d2, d3, d4, d5, d6, d7, ?_⟩
  intro s p k pr coreId ts ts2 d s1 hp hns hk h
  obtain ⟨pr1, body, hq, hi, heff⟩ := manager_effect hp hns hk h
  obtain ⟨c, hb, hc⟩ := effect_head heff hacc
  refine ⟨_, ?_, body_ne_unknown hb hc⟩
  unfold lineAfter procAfter
  simp only [hq, Option.some_bind, hi]
  exact log_at _ _ _

theorem validator_and_executor_agree_witness :
    (patternMatches "ADD B A A").count true = 1 ∧
    ((matchDeclare "ADD B A A").isSome = true → ∃ var val, IsUserDeclare "ADD B A A" var val) ∧
    ((matchThree "ADD" "ADD B A A").isSome = true →
      ∃ dst a b, IsUserAdd "ADD B A A" dst a b) ∧
    ((matchThree "SUBTRACT" "ADD B A A").isSome = true →
      ∃ dst a b, IsUserSubtract "ADD B A A" dst a b) ∧
    ((matchPrint "ADD B A A").isSome = true → ∃ var, IsUserPrint "ADD B A A" var) ∧
    ((matchWrite "ADD B A A").isSome = true →
      ∃ addrHex tok, IsUserWrite "ADD B A A" addrHex tok) ∧
    ((matchRead "ADD B A A").isSome = true →
      ∃ var addrHex, IsUserRead "ADD B A A" var addrHex) ∧
    ∀ (s : State) (p k : Nat) (pr : Process) (coreId : Int) (ts ts2 : String) (d : Draws)
      (s1 : State), s.heap[p]? = some pr → pr.isShutdown = false →
      pr.customInstrList[k]? = some "ADD B A A" →
      instructions_manager s k coreId p ts ts2 d = Outcome.ok s1 →
      ∃ line, lineAfter (Outcome.ok s1) p k = some line ∧
        line ≠ unknownLine ("(" ++ ts ++ ") Core: " ++ toString coreId ++ " ") :=
  validator_and_executor_agree scenarioProgram "ADD B A A" (by decide) (by decide)

/-! ## Variables and memory cells -/

theorem ident_ne_hexLit {x : String} (hx : IsIdent x.toList) (hs : List Char) :
    x ≠ hexLit hs := by
  intro h
  obtain ⟨c, cs, hc, hstart, -⟩ := hx
  rw [h] at hc
  have h0 : (hexLit hs).toList = Char.ofNat 48 :: (Char.ofNat 120 :: hs) := rfl
  rw [h0] at hc
  simp only [List.cons.injEq] at hc
  rw [← hc.1] at hstart
  exact absurd hstart (by decide)

theorem mk_ne_hexLit {v : List Char} (hv : IsIdent v) (hs : List Char) :
    String.mk v ≠ hexLit hs :=
  ident_ne_hexLit (x := String.mk v) hv hs

theorem mapFind_memIndex_ne {k a : String} (m : List (String × Nat)) (h : k ≠ a) :
    mapFind k (memIndex a m).2 = mapFind k m := by
  unfold memIndex
  cases mapFind a m with
  | some v => rfl
  | none =>
    show mapFind k (mapAssign a 0 m) = mapFind k m
    rw [mapFind_assign, if_neg h]

theorem cell_after_three {dst a b : String} (res : Nat) (m : List (String × Nat))
    {x y z : List Char} (hx : IsIdent x) (hy : IsIdent y) (hz : IsIdent z)
    (hdst : dst = String.mk x) (ha : a = String.mk y) (hb : b = String.mk z) (hs : List Char) :
    mapFind (hexLit hs) (storeAfterThree dst a b res m) = mapFind (hexLit hs) m := by
  have n1 : hexLit hs ≠ dst := by
    rw [hdst]
    exact (mk_ne_hexLit hx hs).symm
  have n2 : hexLit hs ≠ a := by
    rw [ha]
    exact (mk_ne_hexLit hy hs).symm
  have n3 : hexLit hs ≠ b := by
    rw [hb]
    exact (mk_ne_hexLit hz hs).symm
  unfold storeAfterThree
  rw [mapFind_memIndex_ne _ n3, mapFind_memIndex_ne _ n2, mapFind_assign, if_neg n1,
    mapFind_memIndex_ne _ n3, mapFind_memIndex_ne _ n2]

/-- A branch other than WRITE leaves every entry of the variable store whose
key starts with `0x`. -/
theorem effect_keeps_cells {instr body : String} {m m1 : List (String × Nat)}
    (h : CustomEffect instr m m1 body) (hw : matchWrite instr = none) (hs : List Char) :
    mapFind (hexLit hs) m1 = mapFind (hexLit hs) m := by
  rcases h with ⟨var, val, v, hd, -, hm⟩ | ⟨dst, a, b, res, ⟨-, h2⟩, -, hm⟩ |
    ⟨dst, a, b, res, ⟨-, -, h3⟩, -, hm⟩ | ⟨addrHex, tok, ⟨-, -, -, h4⟩, -⟩ |
    ⟨var, addrHex, ⟨-, -, -, -, h5⟩, ⟨-, hm⟩ | ⟨-, hm⟩⟩ | ⟨var, ⟨-, -, -, -, -, h6⟩, -, hm⟩ |
    ⟨-, -, -, -, -, -, -, hm⟩
  · obtain ⟨x, n, rest, hx, -, hvar, -, -⟩ := matchDeclare_groups hd
    rw [hm, mapFind_assign, if_neg]
    rw [hvar]
    exact (mk_ne_hexLit hx hs).symm
  · obtain ⟨x, y, z, rest, hx, hy, hz, e1, e2, e3, -⟩ := matchThree_groups h2
    rw [hm]
    exact cell_after_three res m hx hy hz e1 e2 e3 hs
  · obtain ⟨x, y, z, rest, hx, hy, hz, e1, e2, e3, -⟩ := matchThree_groups h3
    rw [hm]
    exact cell_after_three res m hx hy hz e1 e2 e3 hs
  · rw [hw] at h4
    cases h4
  · rw [hm]
  · obtain ⟨x, hs1, rest, hx, -, hvar, -, -⟩ := matchRead_groups h5
    rw [hm, mapFind_assign, if_neg]
    rw [hvar]
    exact (mk_ne_hexLit hx hs).symm
  · obtain ⟨x, rest, hx, hvar, -⟩ := matchPrint_groups h6
    rw [hm]
    apply mapFind_memIndex_ne
    rw [hvar]
    exact (mk_ne_hexLit hx hs).symm
  · rw [hm]

/-- The WRITE branch leaves the value of every identifier. -/
theorem effect_keeps_variables {instr body addrHex tok : String} {m m1 : List (String × Nat)}
    (h : CustomEffect instr m m1 body) (hw : matchWrite instr = some (addrHex, tok))
    {x : String} (hx : IsIdent x.toList) : memGet x m1 = memGet x m := by
  have hsome : (matchWrite instr).isSome = true := by
    rw [hw]
    rfl
  obtain ⟨n1, n2, n3, n4, -, n6⟩ := patterns_of_head (head_write hsome)
  rcases h with ⟨var, val, v, hd, -, -⟩ | ⟨dst, a, b, res, ⟨-, h2⟩, -, -⟩ |
    ⟨dst, a, b, res, ⟨-, -, h3⟩, -, -⟩ | ⟨addrHex1, tok1, ⟨-, -, -, h4⟩, hm⟩ |
    ⟨var, addrHex1, ⟨-, -, -, -, h5⟩, -⟩ | ⟨var, ⟨-, -, -, -, -, h6⟩, -, -⟩ |
    ⟨-, -, -, h4, -⟩
  · have h0 : matchDeclare instr = some (var, val) := hd
    rw [n1 (by decide)] at h0
    cases h0
  · rw [n2 (by decide)] at h2
    cases h2
  · rw [n3 (by decide)] at h3
    cases h3
  · rw [hw] at h4
    simp only [Option.some.injEq, Prod.mk.injEq] at h4
    obtain ⟨e1, e2⟩ := h4
    subst e1
    subst e2
    obtain ⟨hs, -, -, -, -, hlit, -, -⟩ := matchWrite_groups hw
    have hne : x ≠ addrHex := by
      rw [hlit]
      exact ident_ne_hexLit hx hs
    rcases hm with ⟨-, hm⟩ | ⟨-, val, hm | hm⟩
    · rw [hm]
    · rw [hm, memGet_assign, if_neg hne]
    · rw [hm, memGet_assign, if_neg hne, memGet_memIndex]
  · rw [n6 (by decide)] at h5
    cases h5
  · rw [n4 (by decide)] at h6
    cases h6
  · rw [hw] at h4
    cases h4

/-- C37.  When the executor runs a line `instr` of the custom program of a
process and returns: for an instruction other than a WRITE (a DECLARE, ADD,
SUBTRACT, PRINT or READ in particular) every entry of the variable store whose
key starts with `0x` is as before, present or absent; for a WRITE the value of
every identifier, an absent one reading as 0, is as before. -/
theorem variables_and_cells_apart (s : State) (p k : Nat) (pr : Process) (instr : String)
    (coreId : Int) (ts ts2 : String) (d : Draws) (t : State)
    (hp : s.heap[p]? = some pr) (hk : pr.customInstrList[k]? = some instr)
    (h : instructions_manager s k coreId p ts ts2 d = Outcome.ok t) :
    ∃ pr1, t.heap[p]? = some pr1 ∧
      (matchWrite instr = none →
        ∀ hs : List Char, mapFind (hexLit hs) pr1.memory = mapFind (hexLit hs) pr.memory) ∧
      (∀ addrHex tok : String, matchWrite instr = some (addrHex, tok) →
        ∀ x : String, IsIdent x.toList → memGet x pr1.memory = memGet x pr.memory) := by
  cases hns : pr.isShutdown with
  | true =>
    unfold instructions_manager at h
    simp only [hp, hns, if_true, Outcome.ok.injEq] at h
    subst h
    exact ⟨pr, hp, fun _ _ => rfl, fun _ _ _ _ _ => rfl⟩
  | false =>
    obtain ⟨pr1, body, hq, -, heff⟩ := manager_effect hp hns hk h
    exact ⟨pr1, hq, fun hw hs => effect_keeps_cells heff hw hs,
      fun addrHex tok hw x hx => effect_keeps_variables heff hw hx⟩

theorem variables_and_cells_apart_witness :
    ∃ pr1, (ranLines 2 spellingState).heap[0]? = some pr1 ∧
      (matchWrite "READ x 0x4a" = none →
        ∀ hs : List Char, mapFind (hexLit hs) pr1.memory =
          mapFind (hexLit hs) [("0x4A", 7)]) ∧
      (∀ addrHex tok : String, matchWrite "READ x 0x4a" = some (addrHex, tok) →
        ∀ x : String, IsIdent x.toList → memGet x pr1.memory = memGet x [("0x4A", 7)]) :=
  variables_and_cells_apart (ranLines 1 spellingState) 0 1
    { id := 1, name := "p", currentLine := 0, totalLine := 4, timestamp := "t0",
      instructions := ["(T) Core: 1 \"WRITE 0x4A 7\""], memory := [("0x4A", 7)],
      memorySize := 256, pageTable := [{}, { inMemory := true, frameIndex := 0 }, {}, {}],
      customInstrList := ["WRITE 0x4A 7", "READ x 0x4a", "WRITE 0x80 9", "READ y 0x080"] }
    "READ x 0x4a" 1 "T" "T2" noDraws (ranLines 2 spellingState) (by decide) (by decide)
    (by decide)

/-! ## Spellings of an address -/

/-- C38 (amended).  In a well-formed state with a non-zero frame size, for a
process that is not shut down, two address literals `L1` and `L2` that denote
the same in-bounds address, and a value `v` given as a literal token (at most
65535) or through a variable: the WRITE of `v` at `L1` returns, the READ of `L2`
into `x` after it returns, and it leaves `x == v` when `L1` and `L2` are the
same text; when they differ, `x` is the value the variable store held under the
text `L2` before the WRITE, 0 when it held none. -/
theorem write_read_same_text (s : State) (hw : Wf s)
    (hframe : s.GLOBAL_CONFIG.memPerFrame ≠ 0) (p : Nat) (pr : Process)
    (hp : s.heap[p]? = some pr) (hns : pr.isShutdown = false) (hsize : pr.memorySize ≤ 65536)
    (i j : Nat) (wr rd L1 L2 tok x : String) (hi : pr.customInstrList[i]? = some wr)
    (hj : pr.customInstrList[j]? = some rd) (hwr : IsUserWrite wr L1 tok)
    (hrd : IsUserRead rd x L2) (address : Nat) (ha1 : stoull16 L1 = some address)
    (ha2 : stoull16 L2 = some address) (h64 : 64 ≤ address) (hlt : address < pr.memorySize)
    (v : Nat)
    (hval : (isLiteralToken tok = true ∧ stoi tok = some (v : Int) ∧ v ≤ 65535) ∨
      (isLiteralToken tok = false ∧ memGet tok pr.memory = v))
    (coreId : Int) (ts ts2 : String) (d : Draws) :
    ∃ t1, instructions_manager s i coreId p ts ts2 d = Outcome.ok t1 ∧
      ∀ (coreId1 : Int) (ts1 ts3 : String) (d1 : Draws),
        ∃ t3, instructions_manager t1 j coreId1 p ts1 ts3 d1 = Outcome.ok t3 ∧
          varAfter (Outcome.ok t3) p x = some (if L2 = L1 then v else memGet L2 pr.memory) := by
  -- the value token
  obtain ⟨m1, htok, hm1⟩ : ∃ m1, (if isLiteralToken tok then
      (stoi tok).map (fun u => (toUint16 u, pr.memory))
      else some (memIndex tok pr.memory)) = some (v, m1) ∧
      ∀ y, memGet y m1 = memGet y pr.memory := by
    rcases hval with ⟨h1, h2, h3⟩ | ⟨h1, h2⟩
    · refine ⟨pr.memory, ?_, fun _ => rfl⟩
      rw [if_pos h1, h2]
      simp only [Option.map_some', toUint16_small h3]
    · refine ⟨(memIndex tok pr.memory).2, ?_, fun y => memGet_memIndex y tok pr.memory⟩
      rw [h1]
      simp only [Bool.false_eq_true, if_false, Option.some.injEq]
      exact Prod.ext ((memIndex_fst tok pr.memory).trans h2) rfl
  -- the WRITE
  obtain ⟨t1, pt1, h1, hw1, hc1, hp1⟩ :=
    runCustom_write_state (wf_resize hw p i)
      (by rw [(modifyProc_rest s p _).1]; exact hframe) (resize_at i hp) hsize hwr ha1 h64 hlt
      htok i ("(" ++ ts ++ ") Core: " ++ toString coreId ++ " ") ts2
  rw [← manager_custom (d := d) hp hns hi] at h1
  refine ⟨t1, h1, ?_⟩
  intro coreId1 ts1 ts3 d1
  have hframe1 : (modifyProc t1 p (fun q =>
      { q with instructions := resizeLog q.instructions j })).GLOBAL_CONFIG.memPerFrame ≠ 0 := by
    rw [(modifyProc_rest t1 p _).1, hc1, (modifyProc_rest s p _).1]
    exact hframe
  obtain ⟨t3, pt3, b, h3, hw3, hc3, hp3⟩ :=
    runCustom_read_state (wf_resize hw1 p j) hframe1 (resize_at j hp1) hrd ha2 h64 hlt
      j ("(" ++ ts1 ++ ") Core: " ++ toString coreId1 ++ " ") ts3
  rw [← manager_custom (d := d1) hp1 hns hj] at h3
  refine ⟨t3, h3, ?_⟩
  unfold varAfter procAfter
  simp only [hp3, Option.map_some', Option.some.injEq]
  rw [memGet_assign, if_pos rfl, memGet_assign]
  split
  · rfl
  · exact hm1 L2

theorem write_read_same_text_witness :
    ∃ t1, instructions_manager spellingState 0 1 0 "T" "T2" noDraws = Outcome.ok t1 ∧
      ∀ (coreId1 : Int) (ts1 ts3 : String) (d1 : Draws),
        ∃ t3, instructions_manager t1 1 coreId1 0 ts1 ts3 d1 = Outcome.ok t3 ∧
          varAfter (Outcome.ok t3) 0 "x" =
            some (if "0x4a" = "0x4A" then 7 else memGet "0x4a" ([] : List (String × Nat))) :=
  write_read_same_text spellingState
    (wf_modifyProc (wf_create (wf_init fcfsConfig) "p" 4 256 "t0") 0 _ (fun _ => rfl)
      (fun _ => rfl))
    (by decide) 0
    { id := 1, name := "p", currentLine := 0, totalLine := 4, timestamp := "t0",
      memorySize := 256, pageTable := [{}, {}, {}, {}],
      customInstrList := ["WRITE 0x4A 7", "READ x 0x4a", "WRITE 0x80 9", "READ y 0x080"] }
    (by decide) (by decide) (by decide) 0 1 "WRITE 0x4A 7" "READ x 0x4a" "0x4A" "0x4a" "7" "x"
    (by decide) (by decide)
    (by unfold IsUserWrite; exact ⟨by decide, by decide, by decide, by decide⟩)
    (by unfold IsUserRead; exact ⟨by decide, by decide, by decide, by decide, by decide⟩)
    74 (by decide) (by decide) (by decide) (by decide) 7
    (Or.inl ⟨by decide, by decide, by decide⟩) 1 "T" "T2" noDraws

/-- C38 as stated fails: in `spellingState` the literals `0x4A` and `0x4a` both
denote address 74, and `0x80` and `0x080` both denote address 128, in bounds of
the 256 bytes.  `WRITE 0x4A 7` stores 7 under the key `0x4A`; `READ x 0x4a` looks
the key `0x4a` up, finds none and leaves `x == 0`.  `WRITE 0x80 9` then
`READ y 0x080` leaves `y == 0`.  All four calls return. -/
theorem read_of_other_spelling_misses :
    stoull16 "0x4A" = some 74 ∧ stoull16 "0x4a" = some 74 ∧
    stoull16 "0x80" = some 128 ∧ stoull16 "0x080" = some 128 ∧
    (spellingState.heap[0]?).map (fun q => (q.memorySize, q.customInstrList)) =
      some (256, ["WRITE 0x4A 7", "READ x 0x4a", "WRITE 0x80 9", "READ y 0x080"]) ∧
    instructions_manager spellingState 0 1 0 "T" "T2" noDraws =
      Outcome.ok (ranLines 1 spellingState) ∧
    instructions_manager (ranLines 1 spellingState) 1 1 0 "T" "T2" noDraws =
      Outcome.ok (ranLines 2 spellingState) ∧
    instructions_manager (ranLines 2 spellingState) 2 1 0 "T" "T2" noDraws =
      Outcome.ok (ranLines 3 spellingState) ∧
    instructions_manager (ranLines 3 spellingState) 3 1 0 "T" "T2" noDraws =
      Outcome.ok (ranLines 4 spellingState) ∧
    ((ranLines 4 spellingState).heap[0]?).map (fun q => (q.memory, q.isShutdown)) =
      some ([("y", 0), ("0x80", 9), ("x", 0), ("0x4A", 7)], false) ∧
    varAfter (Outcome.ok (ranLines 2 spellingState)) 0 "x" = some 0 ∧
    varAfter (Outcome.ok (ranLines 4 spellingState)) 0 "y" = some 0 := by
  refine ⟨by decide, by decide, by decide, by decide, by decide, by decide, by decide,
    by decide, by decide, by decide, by decide, by decide⟩

/-! ## Shapes of the steps -/

theorem counted_zero {m m1 : Machine} (h : CountedFrom 0 m m1) :
    m1.totalCpuTicks = m.totalCpuTicks ∧ m1.activeCpuTicks = m.activeCpuTicks ∧
    m1.idleCpuTicks = m.idleCpuTicks ∧ m1.st.pageInCount = m.st.pageInCount ∧
    m1.st.pageOutCount = m.st.pageOutCount := by
  obtain ⟨a, i, pin, pout, b1, b2, e1, e2, e3, e4, e5⟩ := h
  have ha : a = 0 := by omega
  have hi : i = 0 := by omega
  have hpi : pin = 0 := by omega
  have hpo : pout = 0 := by omega
  subst ha
  subst hi
  subst hpi
  subst hpo
  exact ⟨e1, e2, e3, e4, e5⟩

/-! ## What the steps of the threads leave -/

theorem threadStep_transition {threads : Int} {m m1 : Machine} {a : Action}
    (h : threadStep threads m a = some m1) : Transition m m1 := by
  cases a with
  | dequeue coreId =>
    simp only [threadStep] at h
    split at h
    · cases h
    · exact Transition.wake threads coreId m1 h
  | exec coreId ts ts2 d => exact Transition.act (Action.exec coreId ts ts2 d) m1 h
  | leave coreId ts => exact Transition.act (Action.leave coreId ts) m1 h
  | generate cpuBurst memSize ts => exact Transition.act (Action.generate cpuBurst memSize ts) m1 h
  | screenS processName requestedMem cpuBurst memSize ts => simp [threadStep] at h
  | screenC processName requestedMem raw cpuBurst memSize ts => simp [threadStep] at h
  | schedulerStart => simp [threadStep] at h
  | schedulerStop => simp [threadStep] at h
  | stop => simp [threadStep] at h

theorem runThreads_execution {threads : Int} :
    ∀ (acts : List Action) (m m1 : Machine) (n : Nat), Execution m n →
      runThreads threads m acts = some m1 → Execution m1 (n + acts.length) := by
  intro acts
  induction acts with
  | nil =>
    intro m m1 n hex h
    simp only [runThreads, Option.some.injEq] at h
    subst h
    exact hex
  | cons a rest ih =>
    intro m m1 n hex h
    unfold runThreads at h
    cases hs : threadStep threads m a with
    | none =>
      rw [hs] at h
      cases h
    | some m2 =>
      rw [hs] at h
      have h2 := ih m2 m1 (n + 1) (Execution.next hex (threadStep_transition hs)) h
      rw [List.length_cons, Nat.add_comm rest.length 1, ← Nat.add_assoc]
      exact h2

theorem joinThreads_execution {threads : Int} :
    ∀ (acts : List JoinAction) (gone : List Int) (m m1 : Machine) (n : Nat), Execution m n →
      joinThreads threads gone m acts = some m1 → Execution m1 (n + acts.length) := by
  intro acts
  induction acts with
  | nil =>
    intro gone m m1 n hex h
    simp only [joinThreads, Option.some.injEq] at h
    subst h
    exact hex
  | cons a rest ih =>
    intro gone m m1 n hex h
    rw [List.length_cons, Nat.add_comm rest.length 1, ← Nat.add_assoc]
    cases a with
    | wake c =>
      simp only [joinThreads] at h
      split at h
      · cases h
      · cases hs : cpuWorkerWake m threads c with
        | none =>
          rw [hs] at h
          cases h
        | some m2 =>
          rw [hs] at h
          exact ih _ m2 m1 (n + 1) (Execution.next hex (Transition.wake threads c m2 hs)) h
    | leave c ts =>
      simp only [joinThreads] at h
      cases hs : cpuWorkerLeave m c ts with
      | none =>
        rw [hs] at h
        cases h
      | some m2 =>
        rw [hs] at h
        exact ih _ m2 m1 (n + 1)
          (Execution.next hex (Transition.act (Action.leave c ts) m2 hs)) h

/-- A second `initialize` given in an execution of the program is a sequence
of transitions: its result is reached by an execution. -/
theorem init_execution {m m5 : Machine} {n : Nat} {file : List (String × ConfigValue)}
    {threads : Int} {loaded assigned : List Action} {joined : List JoinAction}
    (hex : Execution m n) (h : initCommand m file threads loaded assigned joined = some m5) :
    ∃ k, Execution m5 (n + k) := by
  unfold initCommand at h
  cases hl : initLoad m file with
  | none => simp [hl] at h
  | some r =>
    obtain ⟨ok, m0⟩ := r
    have hex0 : Execution m0 (n + 1) := Execution.next hex (Transition.load file ok m0 hl)
    cases ok with
    | false =>
      simp only [hl, Option.some.injEq] at h
      subst h
      exact ⟨1, hex0⟩
    | true =>
      simp only [hl] at h
      cases h1 : runThreads threads m0 loaded with
      | none => simp [h1] at h
      | some m1 =>
        simp only [h1] at h
        cases h2 : initAssign m1 with
        | none => simp [h2] at h
        | some m2 =>
          simp only [h2] at h
          cases h3 : runThreads threads m2 assigned with
          | none => simp [h3] at h
          | some m3 =>
            simp only [h3] at h
            cases h4 : joinThreads threads []
                { m3 with stopScheduler := true, stopProcessCreation := true } joined with
            | none => simp [h4] at h
            | some m4 =>
              simp only [h4] at h
              have e1 := runThreads_execution loaded m0 m1 _ hex0 h1
              have e2 := Execution.next e1 (Transition.assign m2 h2)
              have e3 := runThreads_execution assigned m2 m3 _ e2 h3
              have e4 := Execution.next e3
                (Transition.act Action.stop
                  { m3 with stopScheduler := true, stopProcessCreation := true } rfl)
              have e5 := joinThreads_execution joined [] _ m4 _ e4 h4
              have e6 := Execution.next e5 (Transition.restart m5 h)
              exact ⟨_, (by
                rw [Nat.add_assoc, Nat.add_assoc, Nat.add_assoc, Nat.add_assoc,
                  Nat.add_assoc, Nat.add_assoc] at e6
                exact e6)⟩

end Csopesy
